import Mathlib

/-!
Outlier detection load-balancing policy.

A shallow embedding of
`src/core/ext/filters/client_channel/lb_policy/outlier_detection/outlier_detection.cc`
and theorems about it.

Conventions of the embedding.

* `uint64_t` and `uint32_t` values are natural numbers; every operation that can
  wrap is written with an explicit `% 2 ^ 64` or `% 2 ^ 32`.
* `Timestamp` and `Duration` are integers counting milliseconds; the current
  time is a parameter `now` of the functions that read it.
* `double` values are rationals.  The evaluator is embedded twice.  In the first
  embedding its arithmetic is carried out exactly; the one irrational operation,
  `std::sqrt`, only occurs inside the comparison
  `candidate < mean - stdev * factor`, which is decided exactly (see
  `belowThreshold`).  In the second embedding, `Rounded`, every operation on a
  `double` is rounded to the nearest double as the machine rounds it (see
  `Binary64`).  The properties of the threshold decision of the success rate
  algorithm depend on the rounding and are proved of the second embedding.
* An object that the C++ code reaches through a pointer and mutates in place
  (a bucket, a wrapper, a subchannel state) is stored by value together with the
  address that identifies it.
* A call on the user-supplied watcher is recorded by appending the delivered
  notification to the log `watcher_`.
* The child policy is a log of the calls made on it.  Code that is not among the
  sources and that the policy calls (`ServerAddress::ToString`, the allocator of
  new states) is a parameter of the function that calls it.
-/

namespace OutlierDetection

/-! ## Connectivity states and statuses -/

/-- The enumeration `grpc_connectivity_state`. -/
inductive ConnectivityState where
  | GRPC_CHANNEL_IDLE
  | GRPC_CHANNEL_CONNECTING
  | GRPC_CHANNEL_READY
  | GRPC_CHANNEL_TRANSIENT_FAILURE
  | GRPC_CHANNEL_SHUTDOWN
  deriving DecidableEq, Repr

/-- The status codes of `absl::Status` that the policy produces or tests, and a
catch-all for the others. -/
inductive StatusCode where
  | kOk
  | kUnavailable
  | kInternal
  | kOther (code : Nat)
  deriving DecidableEq, Repr

/-- An `absl::Status`: a code and a message. -/
structure Status where
  code : StatusCode
  message : String
  deriving DecidableEq, Repr

/-- The default-constructed `absl::Status`. -/
def Status.Ok : Status := ⟨StatusCode.kOk, ""⟩

/-- The function `absl::UnavailableError`. -/
def UnavailableError (message : String) : Status := ⟨StatusCode.kUnavailable, message⟩

/-- A call `watcher->OnConnectivityStateChange(state, status)`. -/
abbrev Notification := ConnectivityState × Status

/-- The notification that `WatcherWrapper` substitutes while ejected. -/
def ejectedNotification : Notification :=
  (ConnectivityState.GRPC_CHANNEL_TRANSIENT_FAILURE,
    UnavailableError "subchannel ejected by outlier detection")

/-! ## `SubchannelWrapper::WatcherWrapper` -/

/-- The class `WatcherWrapper`.  The field `watcher_` is the log of the calls made
on the wrapped user watcher, oldest first. -/
structure WatcherWrapper where
  watcher_ : List Notification
  last_seen_state_ : Option ConnectivityState
  last_seen_status_ : Status
  ejected_ : Bool
  deriving DecidableEq, Repr

namespace WatcherWrapper

/-- The constructor `WatcherWrapper(watcher, ejected)`. -/
def create (ejected : Bool) : WatcherWrapper :=
  { watcher_ := [], last_seen_state_ := none, last_seen_status_ := Status.Ok,
    ejected_ := ejected }

/-- The method `WatcherWrapper::Eject`. -/
def Eject (w : WatcherWrapper) : WatcherWrapper :=
  let w1 := { w with ejected_ := true }
  if w1.last_seen_state_.isSome then
    { w1 with watcher_ := w1.watcher_ ++ [ejectedNotification] }
  else w1

/-- The method `WatcherWrapper::Uneject`. -/
def Uneject (w : WatcherWrapper) : WatcherWrapper :=
  let w1 := { w with ejected_ := false }
  match w1.last_seen_state_ with
  | some last => { w1 with watcher_ := w1.watcher_ ++ [(last, w1.last_seen_status_)] }
  | none => w1

/-- The method `WatcherWrapper::OnConnectivityStateChange`. -/
def OnConnectivityStateChange (w : WatcherWrapper) (new_state : ConnectivityState)
    (status : Status) : WatcherWrapper :=
  let send_update : Bool := !w.last_seen_state_.isSome || !w.ejected_
  let w1 := { w with last_seen_state_ := some new_state, last_seen_status_ := status }
  if send_update then
    if w1.ejected_ then
      { w1 with watcher_ := w1.watcher_ ++ [ejectedNotification] }
    else
      { w1 with watcher_ := w1.watcher_ ++ [(new_state, status)] }
  else w1

end WatcherWrapper

/-- What can happen to a `WatcherWrapper`: a state change reported by the
underlying subchannel, or `Eject` / `Uneject` called by the owning wrapper. -/
inductive WatcherEvent where
  | stateChange (new_state : ConnectivityState) (status : Status)
  | eject
  | uneject
  deriving DecidableEq, Repr

/-- One event applied to a watcher wrapper. -/
def WatcherWrapper.step (w : WatcherWrapper) : WatcherEvent → WatcherWrapper
  | WatcherEvent.stateChange s st => w.OnConnectivityStateChange s st
  | WatcherEvent.eject => w.Eject
  | WatcherEvent.uneject => w.Uneject

/-- A sequence of events applied in order. -/
def WatcherWrapper.run (w : WatcherWrapper) (events : List WatcherEvent) : WatcherWrapper :=
  events.foldl WatcherWrapper.step w

/-- The notifications one event makes the wrapper deliver: what `step` appends to
the log. -/
def WatcherWrapper.delivered (w : WatcherWrapper) (ev : WatcherEvent) : List Notification :=
  (w.step ev).watcher_.drop w.watcher_.length

/-- The last real `(state, status)` seen so far, after one more event. -/
def lastRealStep (seen : Option Notification) : WatcherEvent → Option Notification
  | WatcherEvent.stateChange s st => some (s, st)
  | WatcherEvent.eject => seen
  | WatcherEvent.uneject => seen

/-- The last real `(state, status)` reported by the underlying subchannel in a
sequence of events, if any. -/
def lastReal (events : List WatcherEvent) : Option Notification :=
  events.foldl lastRealStep none

/-! ## `SubchannelWrapper` -/

/-- The class `SubchannelWrapper`, without the wrapped subchannel and the
back-pointer to its `SubchannelState` (the wrapper is stored inside the state it
is bound to).  `watchers_` maps the address of a user watcher to its wrapper. -/
structure SubchannelWrapper where
  ejected_ : Bool
  watchers_ : List (Nat × WatcherWrapper)
  deriving DecidableEq, Repr

namespace SubchannelWrapper

/-- The method `SubchannelWrapper::Eject`. -/
def Eject (w : SubchannelWrapper) : SubchannelWrapper :=
  { ejected_ := true, watchers_ := w.watchers_.map (fun p => (p.1, p.2.Eject)) }

/-- The method `SubchannelWrapper::Uneject`. -/
def Uneject (w : SubchannelWrapper) : SubchannelWrapper :=
  { ejected_ := false, watchers_ := w.watchers_.map (fun p => (p.1, p.2.Uneject)) }

end SubchannelWrapper

/-! ## `SubchannelState` -/

/-- The struct `SubchannelState::Bucket`; both counters are `uint64_t`. -/
structure Bucket where
  successes : Nat
  failures : Nat
  deriving DecidableEq, Repr

/-- The two `Bucket` objects that the member initialisers of `SubchannelState`
allocate.  No other bucket is ever allocated for a state, so a bucket pointer of
a state is one of these two addresses. -/
inductive BucketPtr where
  | first
  | second
  deriving DecidableEq, Repr

/-- The class `SubchannelState`.  `bucket_first` and `bucket_second` are the
contents of the two allocated buckets; `current_bucket_`, `backup_bucket_` and
`active_bucket_` are pointers to them.  `multiplier_` is a `uint32_t`,
`ejection_time_` a timestamp in milliseconds, and `subchannels_` holds the
wrappers bound to the state, each with its address. -/
structure SubchannelState where
  bucket_first : Bucket
  bucket_second : Bucket
  current_bucket_ : BucketPtr
  backup_bucket_ : BucketPtr
  active_bucket_ : BucketPtr
  multiplier_ : Nat
  ejection_time_ : Option Int
  subchannels_ : List (Nat × SubchannelWrapper)
  deriving DecidableEq, Repr

namespace SubchannelState

/-- A freshly constructed `SubchannelState` (the default member initialisers). -/
def create : SubchannelState :=
  { bucket_first := ⟨0, 0⟩, bucket_second := ⟨0, 0⟩,
    current_bucket_ := BucketPtr.first, backup_bucket_ := BucketPtr.second,
    active_bucket_ := BucketPtr.first,
    multiplier_ := 0, ejection_time_ := none, subchannels_ := [] }

/-- Dereference of a bucket pointer. -/
def load (s : SubchannelState) : BucketPtr → Bucket
  | BucketPtr.first => s.bucket_first
  | BucketPtr.second => s.bucket_second

/-- Assignment through a bucket pointer. -/
def store (s : SubchannelState) (p : BucketPtr) (b : Bucket) : SubchannelState :=
  match p with
  | BucketPtr.first => { s with bucket_first := b }
  | BucketPtr.second => { s with bucket_second := b }

/-- The method `RotateBucket`. -/
def RotateBucket (s : SubchannelState) : SubchannelState :=
  let s1 := s.store s.backup_bucket_ { (s.load s.backup_bucket_) with successes := 0 }
  let s2 := s1.store s1.backup_bucket_ { (s1.load s1.backup_bucket_) with failures := 0 }
  let s3 := { s2 with current_bucket_ := s2.backup_bucket_, backup_bucket_ := s2.current_bucket_ }
  { s3 with active_bucket_ := s3.current_bucket_ }

/-- The method `GetSuccessRateAndVolume`. -/
def GetSuccessRateAndVolume (s : SubchannelState) : Option (ℚ × Nat) :=
  let backup := s.load s.backup_bucket_
  let total_request : Nat := (backup.successes + backup.failures) % 2 ^ 64
  if total_request = 0 then none
  else
    let success_rate : ℚ :=
      (backup.successes : ℚ) * 100 / (((backup.successes + backup.failures) % 2 ^ 64 : Nat) : ℚ)
    some (success_rate, (backup.successes + backup.failures) % 2 ^ 64)

/-- The method `AddSubchannel`; `subchannels_` is a `std::set` ordered by address. -/
def AddSubchannel (s : SubchannelState) (addr : Nat) (wrapper : SubchannelWrapper) :
    SubchannelState :=
  if s.subchannels_.any (fun p => p.1 == addr) then s
  else { s with subchannels_ :=
          (s.subchannels_.filter (fun p => p.1 < addr)) ++ (addr, wrapper) ::
            (s.subchannels_.filter (fun p => addr < p.1)) }

/-- The method `RemoveSubchannel`. -/
def RemoveSubchannel (s : SubchannelState) (addr : Nat) : SubchannelState :=
  { s with subchannels_ := s.subchannels_.filter (fun p => p.1 != addr) }

/-- The method `AddSuccessCount`. -/
def AddSuccessCount (s : SubchannelState) : SubchannelState :=
  let b := s.load s.active_bucket_
  s.store s.active_bucket_ { b with successes := (b.successes + 1) % 2 ^ 64 }

/-- The method `AddFailureCount`. -/
def AddFailureCount (s : SubchannelState) : SubchannelState :=
  let b := s.load s.active_bucket_
  s.store s.active_bucket_ { b with failures := (b.failures + 1) % 2 ^ 64 }

/-- The method `Eject`. -/
def Eject (s : SubchannelState) (time : Int) : SubchannelState :=
  { s with
    ejection_time_ := some time
    multiplier_ := (s.multiplier_ + 1) % 2 ^ 32
    subchannels_ := s.subchannels_.map (fun p => (p.1, p.2.Eject)) }

/-- The method `Uneject`. -/
def Uneject (s : SubchannelState) : SubchannelState :=
  { s with
    ejection_time_ := none
    subchannels_ := s.subchannels_.map (fun p => (p.1, p.2.Uneject)) }

/-- The conversion of the `uint64_t` argument of `Duration::Milliseconds` to its
`int64_t` parameter. -/
def toInt64 (x : Nat) : Int :=
  if x % 2 ^ 64 < 2 ^ 63 then ((x % 2 ^ 64 : Nat) : Int) else ((x % 2 ^ 64 : Nat) : Int) - 2 ^ 64

/-- Modelled from the spec: `Timestamp + Duration` (the time library is not among
the sources).  The spec writes the deadline as `ejection_time + min(...)`, an
addition of milliseconds. -/
def timestampAdd (t : Int) (d : Int) : Int := t + d

/-- The method `MaybeUneject`; `now` stands for the value of
`ExecCtx::Get()->Now()`. -/
def MaybeUneject (s : SubchannelState) (base_ejection_time_in_millis : Nat)
    (max_ejection_time_in_millis : Nat) (now : Int) : SubchannelState :=
  match s.ejection_time_ with
  | none =>
    if s.multiplier_ > 0 then { s with multiplier_ := s.multiplier_ - 1 } else s
  | some ejection_time =>
    let change_time := timestampAdd ejection_time
      (toInt64 (min (base_ejection_time_in_millis * s.multiplier_ % 2 ^ 64)
        (max base_ejection_time_in_millis max_ejection_time_in_millis)))
    if change_time < now then s.Uneject else s

/-- The two bucket pointers of a state own different buckets (they are distinct
`std::unique_ptr`s). -/
def WellFormed (s : SubchannelState) : Prop := s.current_bucket_ ≠ s.backup_bucket_

instance (s : SubchannelState) : Decidable s.WellFormed := by
  unfold WellFormed; infer_instance

/-- A recorded call outcome. -/
inductive Outcome where
  | success
  | failure
  deriving DecidableEq, Repr

/-- One recorded outcome: `AddSuccessCount` or `AddFailureCount`. -/
def record (s : SubchannelState) : Outcome → SubchannelState
  | Outcome.success => s.AddSuccessCount
  | Outcome.failure => s.AddFailureCount

/-- A sequence of recorded outcomes, in order. -/
def recordAll (s : SubchannelState) (outcomes : List Outcome) : SubchannelState :=
  outcomes.foldl record s

end SubchannelState

/-! ## Configuration -/

/-- The struct `OutlierDetectionConfig::SuccessRateEjection`; all fields are
`uint32_t`. -/
structure SuccessRateEjection where
  stdev_factor : Nat
  enforcement_percentage : Nat
  minimum_hosts : Nat
  request_volume : Nat
  deriving DecidableEq, Repr

/-- The struct `OutlierDetectionConfig::FailurePercentageEjection`; all fields are
`uint32_t`. -/
structure FailurePercentageEjection where
  threshold : Nat
  enforcement_percentage : Nat
  minimum_hosts : Nat
  request_volume : Nat
  deriving DecidableEq, Repr

/-- Modelled from the spec: the struct `OutlierDetectionConfig`, whose declaration
is not among the sources.  The fields are the ones the policy reads; durations are
in milliseconds and `max_ejection_percent` is a `uint32_t`. -/
structure OutlierDetectionConfig where
  interval : Int
  base_ejection_time : Int
  max_ejection_time : Int
  max_ejection_percent : Nat
  success_rate_ejection : Option SuccessRateEjection
  failure_percentage_ejection : Option FailurePercentageEjection
  deriving DecidableEq, Repr

/-! ## The evaluator: `EjectionTimer::OnTimerLocked` -/

/-- An entry of `subchannel_state_map_`: the address key, the address of the
`SubchannelState` object the entry points to, and the contents of that object. -/
structure MapEntry where
  key : String
  addr : Nat
  state : SubchannelState
  deriving DecidableEq, Repr

/-- The member `subchannel_state_map_`, in iteration (key) order. -/
abbrev StateMap := List MapEntry

/-- The addresses of the states of a map, in iteration order. -/
def addrs (m : StateMap) : List Nat := m.map (fun e => e.addr)

/-- The number of entries of a map whose state is ejected. -/
def numEjected (m : StateMap) : Nat :=
  m.countP (fun e => e.state.ejection_time_.isSome)

/-- The call `p->Eject(time)` on the state object at address `p`. -/
def ejectAt (m : StateMap) (p : Nat) (time : Int) : StateMap :=
  m.map (fun e => if e.addr = p then { e with state := e.state.Eject time } else e)

/-- The test `p->ejection_time().has_value()` on the state object at address `p`. -/
def isEjectedAt (m : StateMap) (p : Nat) : Bool :=
  m.any (fun e => decide (e.addr = p) && e.state.ejection_time_.isSome)

/-- The assignment `candidates[p] = v` on a `std::map<SubchannelState*, double>`,
kept in increasing order of address. -/
def candInsert (p : Nat) (v : ℚ) : List (Nat × ℚ) → List (Nat × ℚ)
  | [] => [(p, v)]
  | c :: rest =>
    if p < c.1 then (p, v) :: c :: rest
    else if p = c.1 then (p, v) :: rest
    else c :: candInsert p v rest

/-- The local variables that the first loop of `OnTimerLocked` fills in. -/
structure Gather where
  success_rate_ejection_candidates : List (Nat × ℚ)
  failure_percentage_ejection_candidates : List (Nat × ℚ)
  ejected_host_count : Nat
  success_rate_sum : ℚ
  deriving DecidableEq, Repr

/-- The initial values of the local variables. -/
def Gather.init : Gather :=
  { success_rate_ejection_candidates := [], failure_percentage_ejection_candidates := [],
    ejected_host_count := 0, success_rate_sum := 0 }

/-- One iteration of the first loop of `OnTimerLocked`: the bucket rotation of
one entry and the gathering of its data. -/
def gatherStep (config : OutlierDetectionConfig) (g : Gather) (e : MapEntry) :
    Gather × MapEntry :=
  let subchannel_state := e.state.RotateBucket
  let g1 :=
    if subchannel_state.ejection_time_.isSome then
      { g with ejected_host_count := g.ejected_host_count + 1 }
    else g
  match subchannel_state.GetSuccessRateAndVolume with
  | none => (g1, { e with state := subchannel_state })
  | some (success_rate, request_volume) =>
    let g2 :=
      match config.success_rate_ejection with
      | some sr =>
        if request_volume ≥ sr.request_volume then
          { g1 with
            success_rate_ejection_candidates :=
              candInsert e.addr success_rate g1.success_rate_ejection_candidates
            success_rate_sum := g1.success_rate_sum + success_rate }
        else g1
      | none => g1
    let g3 :=
      match config.failure_percentage_ejection with
      | some fp =>
        if request_volume ≥ fp.request_volume then
          { g2 with
            failure_percentage_ejection_candidates :=
              candInsert e.addr success_rate g2.failure_percentage_ejection_candidates }
        else g2
      | none => g2
    (g3, { e with state := subchannel_state })

/-- The first loop of `OnTimerLocked`, over the entries of the map in order. -/
def gatherLoop (config : OutlierDetectionConfig) : StateMap → Gather → Gather × StateMap
  | [], g => (g, [])
  | e :: rest, g =>
    let r := gatherStep config g e
    let r2 := gatherLoop config rest r.1
    (r2.1, r.2 :: r2.2)

/-- The test `candidate.second < ejection_threshold` of the success rate
algorithm in exact arithmetic, where
`ejection_threshold = mean - std::sqrt(variance) * factor`.  For a factor that is
not negative the test is the same as `0 < mean - candidate` and
`variance * factor ^ 2 < (mean - candidate) ^ 2`, which is how it is decided
(`belowThreshold_iff_sqrt` proves the two forms equal over the reals).  The test on
the doubles that the machine computes is in `Rounded.successRateStep`. -/
def belowThreshold (success_rate mean variance factor : ℚ) : Bool :=
  decide (0 < mean - success_rate ∧ variance * factor ^ 2 < (mean - success_rate) ^ 2)

/-- What the two ejection loops of `OnTimerLocked` change: the map, the local
`ejected_host_count`, and the number of values drawn from `bit_gen_`. -/
structure EjectLoop where
  map : StateMap
  ejected_host_count : Nat
  draws : Nat
  deriving DecidableEq, Repr

/-- The enforcement check shared by both algorithms: the dice roll against the
enforcement percentage and the cap on the ejected percentage. -/
def enforce (max_ejection_percent enforcement_percentage random_key : Nat)
    (ejected_host_count size : Nat) : Bool :=
  let current_percent : ℚ := 100 * (ejected_host_count : ℚ) / (size : ℚ)
  decide (random_key < enforcement_percentage ∧
    (ejected_host_count = 0 ∨ current_percent < (max_ejection_percent : ℚ)))

/-- One iteration of the ejection loop of the success rate algorithm.  `dice i`
is the `i`-th value returned by `absl::Uniform(bit_gen_, 1, 100)`. -/
def successRateStep (config : OutlierDetectionConfig) (sr : SuccessRateEjection)
    (mean variance : ℚ) (dice : Nat → Nat) (time_now : Int)
    (L : EjectLoop) (candidate : Nat × ℚ) : EjectLoop :=
  let success_rate_stdev_factor : ℚ := (sr.stdev_factor : ℚ) / 1000
  if belowThreshold candidate.2 mean variance success_rate_stdev_factor then
    let random_key := dice L.draws
    if enforce config.max_ejection_percent sr.enforcement_percentage random_key
        L.ejected_host_count L.map.length then
      { map := ejectAt L.map candidate.1 time_now
        ejected_host_count := L.ejected_host_count + 1
        draws := L.draws + 1 }
    else { L with draws := L.draws + 1 }
  else L

/-- The success rate algorithm of `OnTimerLocked`, in exact arithmetic.  The
candidate map is empty when `success_rate_ejection` is absent, so the guard fails
in that case without reading the configuration.  The algorithm with the mean, the
variance and the threshold rounded as the machine rounds them is
`Rounded.successRateAlgorithm`. -/
def successRateAlgorithm (config : OutlierDetectionConfig) (dice : Nat → Nat)
    (time_now : Int) (g : Gather) (L : EjectLoop) : EjectLoop :=
  match config.success_rate_ejection with
  | none => L
  | some sr =>
    let candidates := g.success_rate_ejection_candidates
    if candidates ≠ [] ∧ candidates.length ≥ sr.minimum_hosts then
      let mean : ℚ := g.success_rate_sum / (candidates.length : ℚ)
      let variance : ℚ :=
        candidates.foldl (fun acc v => acc + (v.2 - mean) ^ 2) 0 / (candidates.length : ℚ)
      candidates.foldl (successRateStep config sr mean variance dice time_now) L
    else L

/-- One iteration of the ejection loop of the failure percentage algorithm. -/
def failurePercentageStep (config : OutlierDetectionConfig) (fp : FailurePercentageEjection)
    (dice : Nat → Nat) (time_now : Int) (L : EjectLoop) (candidate : Nat × ℚ) : EjectLoop :=
  if isEjectedAt L.map candidate.1 then L
  else if (100 - candidate.2) > (fp.threshold : ℚ) then
    let random_key := dice L.draws
    if enforce config.max_ejection_percent fp.enforcement_percentage random_key
        L.ejected_host_count L.map.length then
      { map := ejectAt L.map candidate.1 time_now
        ejected_host_count := L.ejected_host_count + 1
        draws := L.draws + 1 }
    else { L with draws := L.draws + 1 }
  else L

/-- The failure percentage algorithm of `OnTimerLocked`. -/
def failurePercentageAlgorithm (config : OutlierDetectionConfig) (dice : Nat → Nat)
    (time_now : Int) (g : Gather) (L : EjectLoop) : EjectLoop :=
  match config.failure_percentage_ejection with
  | none => L
  | some fp =>
    let candidates := g.failure_percentage_ejection_candidates
    if candidates ≠ [] ∧ candidates.length ≥ fp.minimum_hosts then
      candidates.foldl (failurePercentageStep config fp dice time_now) L
    else L

/-- The conversion of the `int64_t` returned by `Duration::millis()` to the
`uint64_t` parameter of `MaybeUneject`. -/
def toUInt64 (x : Int) : Nat := (x % 2 ^ 64).toNat

/-- One iteration of the last loop of `OnTimerLocked`: `MaybeUneject` on an entry. -/
def unejectEntry (config : OutlierDetectionConfig) (now : Int) (e : MapEntry) : MapEntry :=
  { e with
    state := SubchannelState.MaybeUneject e.state (toUInt64 config.base_ejection_time)
      (toUInt64 config.max_ejection_time) now }

/-- The last loop of `OnTimerLocked`: `MaybeUneject` on every entry. -/
def unejectLoop (config : OutlierDetectionConfig) (now : Int) (m : StateMap) : StateMap :=
  m.map (unejectEntry config now)

/-- The effect of a live firing of `OnTimerLocked` on `subchannel_state_map_`:
the body of the `if`, up to the re-arming of the timer.  `now` stands for the
value of `ExecCtx::Get()->Now()`, one time for the whole firing (it is both
`time_now` and the time that `MaybeUneject` compares with), and `dice` for the
values of the timer's random generator. -/
def OnTimerLockedMap (config : OutlierDetectionConfig) (dice : Nat → Nat) (now : Int)
    (m : StateMap) : StateMap :=
  let r := gatherLoop config m Gather.init
  let L0 : EjectLoop := { map := r.2, ejected_host_count := r.1.ejected_host_count, draws := 0 }
  let L1 := successRateAlgorithm config dice now r.1 L0
  let L2 := failurePercentageAlgorithm config dice now r.1 L1
  unejectLoop config now L2.map

/-- The bound of the cap on ejections: `max(1, ceil(max_ejection_percent * N / 100))`. -/
def capBound (max_ejection_percent size : Nat) : Nat :=
  max 1 ((max_ejection_percent * size + 99) / 100)

/-! ## Scenario data -/

/-- The endpoint of scenario S5: ejected at `t = 0` with multiplier 1. -/
def s5State : SubchannelState :=
  { SubchannelState.create with ejection_time_ := some 0, multiplier_ := 1 }

/-- A state with 7 successes and 3 failures in its current bucket, stale counts in
its backup bucket, and an ejection in progress. -/
def rotateExample : SubchannelState :=
  { SubchannelState.create with
    bucket_first := ⟨7, 3⟩, bucket_second := ⟨5, 5⟩, multiplier_ := 2, ejection_time_ := some 40 }

/-- A state with 3 successes and 1 failure in its backup bucket. -/
def volumeExample : SubchannelState :=
  { SubchannelState.create with bucket_first := ⟨9, 9⟩, bucket_second := ⟨3, 1⟩ }

/-- A state whose buckets hold counts recorded before the window under study. -/
def isolationExample : SubchannelState :=
  { SubchannelState.create with bucket_first := ⟨4, 6⟩, bucket_second := ⟨8, 1⟩ }

/-! ## Auxiliary notions of the proofs -/

/-- The invariant of the two ejection loops: the states of the map are distinct
objects, the map has `size` entries, the local count is at least the number of
ejected entries, and the local count is at most `bound`. -/
def CapInv (size bound : Nat) (L : EjectLoop) : Prop :=
  (addrs L.map).Nodup ∧ L.map.length = size ∧
    numEjected L.map ≤ L.ejected_host_count ∧ L.ejected_host_count ≤ bound

/-- The entry after the bucket rotation of the first loop. -/
def rotateEntry (e : MapEntry) : MapEntry := { e with state := e.state.RotateBucket }

/-- The success rate candidate that the first loop records for an entry of the
map, if any: the address of its state and the success rate of its completed
window. -/
def srCandidate (config : OutlierDetectionConfig) (e : MapEntry) : Option (Nat × ℚ) :=
  match config.success_rate_ejection, e.state.RotateBucket.GetSuccessRateAndVolume with
  | some sr, some (success_rate, request_volume) =>
    if request_volume ≥ sr.request_volume then some (e.addr, success_rate) else none
  | _, _ => none

/-- The failure percentage candidate that the first loop records for an entry of
the map, if any. -/
def fpCandidate (config : OutlierDetectionConfig) (e : MapEntry) : Option (Nat × ℚ) :=
  match config.failure_percentage_ejection, e.state.RotateBucket.GetSuccessRateAndVolume with
  | some fp, some (success_rate, request_volume) =>
    if request_volume ≥ fp.request_volume then some (e.addr, success_rate) else none
  | _, _ => none

/-- The candidate map after the optional insertion of a candidate. -/
def insertCandidate (c : Option (Nat × ℚ)) (l : List (Nat × ℚ)) : List (Nat × ℚ) :=
  match c with
  | some x => candInsert x.1 x.2 l
  | none => l

/-- The success rate of an optional candidate, zero when there is none. -/
def candidateRate (c : Option (Nat × ℚ)) : ℚ :=
  match c with
  | some x => x.2
  | none => 0

/-! ## Scenario data of the evaluator -/

/-- A state whose completed window holds the given counts and which is not
ejected. -/
def windowState (successes failures : Nat) : SubchannelState :=
  { SubchannelState.create with bucket_first := ⟨successes, failures⟩ }

/-- A configuration with only the failure percentage algorithm (threshold 85,
enforcement 100, 3 hosts, 5 requests) and `max_ejection_percent = 50`. -/
def halfCapConfig : OutlierDetectionConfig :=
  { interval := 1000, base_ejection_time := 30000, max_ejection_time := 300000,
    max_ejection_percent := 50, success_rate_ejection := none,
    failure_percentage_ejection := some ⟨85, 100, 3, 5⟩ }

/-- Three endpoints, none ejected, each with 5 failures and no success in the
completed window. -/
def threeFailing : StateMap :=
  [⟨"10.0.0.1:80", 1, windowState 0 5⟩, ⟨"10.0.0.2:80", 2, windowState 0 5⟩,
    ⟨"10.0.0.3:80", 3, windowState 0 5⟩]

/-- A configuration like `halfCapConfig` with `max_ejection_percent = 10`. -/
def tenPercentConfig : OutlierDetectionConfig :=
  { halfCapConfig with max_ejection_percent := 10 }

/-- Two endpoints that were both ejected at time 0 (under an earlier
configuration that allowed it) and received no call since. -/
def twoEjected : StateMap :=
  [⟨"10.0.0.1:80", 1, { SubchannelState.create with ejection_time_ := some 0, multiplier_ := 1 }⟩,
    ⟨"10.0.0.2:80", 2, { SubchannelState.create with ejection_time_ := some 0, multiplier_ := 1 }⟩]

/-- The configuration of scenario S4: `max_ejection_percent = 20` and the failure
percentage algorithm with threshold 85 and enforcement 100. -/
def s4Config : OutlierDetectionConfig :=
  { interval := 1000, base_ejection_time := 30000, max_ejection_time := 300000,
    max_ejection_percent := 20, success_rate_ejection := none,
    failure_percentage_ejection := some ⟨85, 100, 5, 50⟩ }

/-- The map of scenario S4: ten endpoints, none ejected, each with 100 failures and
no success in the completed window. -/
def s4Map : StateMap :=
  [⟨"10.0.0.0:80", 19, windowState 0 100⟩, ⟨"10.0.0.1:80", 18, windowState 0 100⟩,
    ⟨"10.0.0.2:80", 17, windowState 0 100⟩, ⟨"10.0.0.3:80", 16, windowState 0 100⟩,
    ⟨"10.0.0.4:80", 15, windowState 0 100⟩, ⟨"10.0.0.5:80", 14, windowState 0 100⟩,
    ⟨"10.0.0.6:80", 13, windowState 0 100⟩, ⟨"10.0.0.7:80", 12, windowState 0 100⟩,
    ⟨"10.0.0.8:80", 11, windowState 0 100⟩, ⟨"10.0.0.9:80", 10, windowState 0 100⟩]

/-- The configuration of scenario S1. -/
def s1Config : OutlierDetectionConfig :=
  { interval := 1000, base_ejection_time := 30000, max_ejection_time := 300000,
    max_ejection_percent := 100, success_rate_ejection := some ⟨1900, 100, 3, 5⟩,
    failure_percentage_ejection := none }

/-- The endpoints A, B, C and D of scenario S1: 100 successes, no failure. -/
def s1Healthy (key : String) (addr : Nat) : MapEntry := ⟨key, addr, windowState 100 0⟩

/-- The endpoint E of scenario S1: no success, 100 failures. -/
def s1Failing : MapEntry := ⟨"E", 30, windowState 0 100⟩

/-- The map of scenario S1.  The state of E has the lowest address, so E comes last
in the map and first among the candidates. -/
def s1Map : StateMap :=
  [s1Healthy "A" 50, s1Healthy "B" 60, s1Healthy "C" 40, s1Healthy "D" 70, s1Failing]

/-! ## Wrapper construction and the operations on one endpoint -/

/-- The constructor `SubchannelWrapper(subchannel_state, subchannel)`, as far as
the new wrapper is concerned: `ejected_` starts true exactly when a state is given
and that state is ejected; there is no watcher yet. -/
def SubchannelWrapper.create (subchannel_state : Option SubchannelState) : SubchannelWrapper :=
  { ejected_ :=
      match subchannel_state with
      | some s => s.ejection_time_.isSome
      | none => false
    watchers_ := [] }

/-- The constructor `SubchannelWrapper(subchannel_state, subchannel)` with a state,
as far as the state is concerned: the new wrapper, allocated at `addr`, is added to
`subchannels_`. -/
def SubchannelState.bindWrapper (s : SubchannelState) (addr : Nat) : SubchannelState :=
  s.AddSubchannel addr (SubchannelWrapper.create (some s))

/-- The operations that reach one `SubchannelState`: the construction and the
destruction of a wrapper bound to it, a recorded call outcome, and the calls made
by the evaluator. -/
inductive StateOp where
  | createWrapper (addr : Nat)
  | destroyWrapper (addr : Nat)
  | record (outcome : SubchannelState.Outcome)
  | rotate
  | eject (time : Int)
  | uneject
  | maybeUneject (base_ejection_time_in_millis max_ejection_time_in_millis : Nat) (now : Int)
  deriving DecidableEq, Repr

/-- One operation applied to a state. -/
def SubchannelState.applyOp (s : SubchannelState) : StateOp → SubchannelState
  | StateOp.createWrapper addr => s.bindWrapper addr
  | StateOp.destroyWrapper addr => s.RemoveSubchannel addr
  | StateOp.record outcome => s.record outcome
  | StateOp.rotate => s.RotateBucket
  | StateOp.eject time => s.Eject time
  | StateOp.uneject => s.Uneject
  | StateOp.maybeUneject base mx now => s.MaybeUneject base mx now

/-- A sequence of operations applied in order. -/
def SubchannelState.runOps (s : SubchannelState) (ops : List StateOp) : SubchannelState :=
  ops.foldl SubchannelState.applyOp s

/-- The operation is not a call of `Eject`. -/
def StateOp.isEject : StateOp → Bool
  | StateOp.eject _ => true
  | _ => false

/-- What the evaluator does to one endpoint in consecutive firings in which the
endpoint is not ejected: each firing rotates its buckets and calls `MaybeUneject`.
A firing is given by the base ejection time, the maximum ejection time and the time
`now` that it uses. -/
def tickOps (firings : List (Nat × Nat × Int)) : List StateOp :=
  firings.flatMap (fun f => [StateOp.rotate, StateOp.maybeUneject f.1 f.2.1 f.2.2])

/-- Scenario S6, firing at 0 s (base 10 s, maximum 30 s): the endpoint is ejected. -/
def s6Firing0 : List StateOp :=
  [StateOp.rotate, StateOp.eject 0, StateOp.maybeUneject 10000 30000 0]

/-- Scenario S6, firing at 30 s: the endpoint is not ejected by the algorithms. -/
def s6Firing30 : List StateOp :=
  [StateOp.rotate, StateOp.maybeUneject 10000 30000 30000]

/-- Scenario S6, firing at 60 s: the endpoint is ejected again. -/
def s6Firing60 : List StateOp :=
  [StateOp.rotate, StateOp.eject 60000, StateOp.maybeUneject 10000 30000 60000]

/-- The three firings of scenario S6 in sequence. -/
def s6Ops : List StateOp := s6Firing0 ++ s6Firing30 ++ s6Firing60

/-- A state with two bound wrappers, one of them with a watcher that has seen
`READY`, and multiplier 3. -/
def boundExample : SubchannelState :=
  { SubchannelState.create with
    multiplier_ := 3
    bucket_first := ⟨2, 1⟩
    subchannels_ :=
      [(100, { ejected_ := false,
               watchers_ := [(7, { watcher_ := [(ConnectivityState.GRPC_CHANNEL_READY, Status.Ok)],
                                   last_seen_state_ := some ConnectivityState.GRPC_CHANNEL_READY,
                                   last_seen_status_ := Status.Ok, ejected_ := false })] }),
        (200, { ejected_ := false, watchers_ := [] })] }

/-- The state `boundExample` after an ejection at time 500: multiplier 4. -/
def ejectedExample : SubchannelState := boundExample.Eject 500

/-- Call outcomes recorded, through the call trackers, on the state at address `p`. -/
def recordAt (m : StateMap) (p : Nat) (outcomes : List SubchannelState.Outcome) : StateMap :=
  m.map (fun e => if e.addr = p then { e with state := e.state.recordAll outcomes } else e)

/-- The configuration of scenario S6: the success rate algorithm of scenario S1
with a base ejection time of 10 s, a maximum of 30 s and an interval of 30 s. -/
def s6Config : OutlierDetectionConfig :=
  { s1Config with interval := 30000, base_ejection_time := 10000, max_ejection_time := 30000 }

/-- The traffic of one interval of scenario S6: 100 successes on each of A, B, C
and D and 100 failures on E. -/
def s6Traffic (m : StateMap) : StateMap :=
  recordAt (recordAt (recordAt (recordAt (recordAt m
    50 (List.replicate 100 SubchannelState.Outcome.success))
    60 (List.replicate 100 SubchannelState.Outcome.success))
    40 (List.replicate 100 SubchannelState.Outcome.success))
    70 (List.replicate 100 SubchannelState.Outcome.success))
    30 (List.replicate 100 SubchannelState.Outcome.failure)

/-- Scenario S6 on the map of scenario S1, after the firing at 0 s. -/
def s6After0 : StateMap := OnTimerLockedMap s6Config (fun _ => 7) 0 s1Map

/-- Scenario S6 after the firing at 30 s; E received no call while ejected. -/
def s6After30 : StateMap := OnTimerLockedMap s6Config (fun _ => 7) 30000 s6After0

/-- Scenario S6 after the firing at 60 s, which follows an interval of traffic. -/
def s6After60 : StateMap := OnTimerLockedMap s6Config (fun _ => 7) 60000 (s6Traffic s6After30)

/-- The ejection time and the multiplier of every entry of a map, by key. -/
def ejectionSummary (m : StateMap) : List (String × Option Int × Nat) :=
  m.map (fun e => (e.key, e.state.ejection_time_, e.state.multiplier_))

/-- The map of scenario S2: only A (100 successes) and E (100 failures). -/
def s2Map : StateMap := [s1Healthy "A" 50, s1Failing]

/-! ## The enforcement dice -/

/-- The values that `absl::Uniform(bit_gen_, 1, 100)` can return: the integers of
the half-open range from 1 to 100. -/
def diceValues : Finset Nat := Finset.Ico 1 100

/-- The probability that the enforcement check of `enforce` passes when the dice
value is uniformly distributed over `diceValues`: the fraction of the dice values
that pass. -/
def enforcementProbability (max_ejection_percent enforcement_percentage
    ejected_host_count size : Nat) : ℚ :=
  ((diceValues.filter (fun r =>
      enforce max_ejection_percent enforcement_percentage r ejected_host_count size = true)).card
    : ℚ) / (diceValues.card : ℚ)

/-! ## `OutlierDetectionLbConfig` -/

/-- Modelled from the spec: `Duration::Infinity()`, the sentinel that disables the
evaluator.  The time library is not among the sources; the sentinel is taken to be
the largest `int64_t` number of milliseconds. -/
def Duration.Infinity : Int := 2 ^ 63 - 1

/-- The configuration of the child policy, which this policy only passes on. -/
abbrev ChildPolicyConfig := String

/-- The class `OutlierDetectionLbConfig`. -/
structure OutlierDetectionLbConfig where
  outlier_detection_config_ : OutlierDetectionConfig
  child_policy_ : ChildPolicyConfig
  deriving DecidableEq, Repr

/-- The method `OutlierDetectionLbConfig::CountingEnabled`. -/
def OutlierDetectionLbConfig.CountingEnabled (c : OutlierDetectionLbConfig) : Bool :=
  decide (c.outlier_detection_config_.interval ≠ Duration.Infinity) &&
    (c.outlier_detection_config_.success_rate_ejection.isSome ||
      c.outlier_detection_config_.failure_percentage_ejection.isSome)

/-! ## The policy: `OutlierDetectionLb` -/

/-- The channel arguments, which this policy only copies and passes on. -/
abbrev ChannelArgs := List (String × String)

/-- Modelled from the spec: the class `ServerAddress`, whose declaration is not
among the sources: the resolved address, the channel arguments of the address, and
the routing attributes. -/
structure ServerAddress where
  address_ : String
  args_ : ChannelArgs
  attributes_ : List (String × String)
  deriving DecidableEq, Repr

/-- The function `MakeKeyForAddress`: the text form of the address without its
attributes.  `ToString` stands for `ServerAddress::ToString`, which is not among
the sources. -/
def MakeKeyForAddress (ToString : ServerAddress → String) (address : ServerAddress) : String :=
  ToString { address_ := address.address_, args_ := address.args_, attributes_ := [] }

/-- A value of `absl::StatusOr`. -/
inductive StatusOr (α : Type) where
  | ok (value : α)
  | error (status : Status)
  deriving DecidableEq, Repr

/-- The struct `LoadBalancingPolicy::UpdateArgs`, with the configuration already
cast to `OutlierDetectionLbConfig`. -/
structure UpdateArgs where
  addresses : StatusOr (List ServerAddress)
  config : OutlierDetectionLbConfig
  args : ChannelArgs
  deriving DecidableEq, Repr

/-- A call that the policy makes on its child policy. -/
inductive ChildCall where
  | UpdateLocked (addresses : StatusOr (List ServerAddress)) (config : ChildPolicyConfig)
      (args : ChannelArgs)
  | ExitIdleLocked
  | ResetBackoffLocked
  deriving DecidableEq, Repr

/-- The child policy, an opaque collaborator: the log of the calls made on it,
oldest first.  What the child does in response, through the helper, are separate
operations of the policy. -/
abbrev ChildPolicy := List ChildCall

/-- The class `EjectionTimer`: `timer_` is the deadline given to `grpc_timer_init`.
The random generator `bit_gen_` is represented by the dice values passed to the
firing. -/
structure EjectionTimer where
  timer_ : Int
  timer_pending_ : Bool
  start_time_ : Int
  deriving DecidableEq, Repr

/-- The constructor `EjectionTimer(parent, start_time)`: the timer is armed at
`start_time_ + interval`, where `interval` is the interval of the current
configuration of the parent. -/
def EjectionTimer.create (interval : Int) (start_time : Int) : EjectionTimer :=
  { timer_ := SubchannelState.timestampAdd start_time interval, timer_pending_ := true,
    start_time_ := start_time }

/-- The class `OutlierDetectionLb`.  `picker_` holds the address of the picker
that the child reported last. -/
structure OutlierDetectionLb where
  config_ : Option OutlierDetectionLbConfig
  shutting_down_ : Bool
  child_policy_ : Option ChildPolicy
  state_ : ConnectivityState
  status_ : Status
  picker_ : Option Nat
  subchannel_state_map_ : StateMap
  ejection_timer_ : Option EjectionTimer
  deriving DecidableEq, Repr

/-- A freshly constructed policy (the default member initialisers). -/
def OutlierDetectionLb.create : OutlierDetectionLb :=
  { config_ := none, shutting_down_ := false, child_policy_ := none,
    state_ := ConnectivityState.GRPC_CHANNEL_IDLE, status_ := Status.Ok, picker_ := none,
    subchannel_state_map_ := [], ejection_timer_ := none }

/-- The keys of a map, in iteration order. -/
def keys (m : StateMap) : List String := m.map (fun e => e.key)

/-- The insertion of a new entry into `subchannel_state_map_`, which is ordered by
key. -/
def insertByKey (e : MapEntry) : StateMap → StateMap
  | [] => [e]
  | h :: rest => if e.key < h.key then e :: h :: rest else h :: insertByKey e rest

/-- The entry made for a key that is not yet in the map: a state newly made by
`MakeRefCounted<SubchannelState>()`.  `alloc` gives the address of a newly
allocated state from the addresses of the states of the map. -/
def newEntry (alloc : List Nat → Nat) (m : StateMap) (address_key : String) : MapEntry :=
  { key := address_key, addr := alloc (addrs m), state := SubchannelState.create }

/-- The statements `auto& subchannel_state = subchannel_state_map_[address_key];
if (subchannel_state == nullptr) subchannel_state = MakeRefCounted<SubchannelState>();`. -/
def ensureState (alloc : List Nat → Nat) (m : StateMap) (address_key : String) : StateMap :=
  if m.any (fun e => e.key == address_key) then m
  else insertByKey (newEntry alloc m address_key) m

/-- One iteration of the loop over the addresses of an update: the map and the set
`current_addresses`. -/
def addressStep (ToString : ServerAddress → String) (alloc : List Nat → Nat)
    (acc : StateMap × List String) (address : ServerAddress) : StateMap × List String :=
  let address_key := MakeKeyForAddress ToString address
  (ensureState alloc acc.1 address_key, address_key :: acc.2)

/-- The address handling of `UpdateLocked` for an address list that is ok: a state
is ensured for the key of every address, then every entry whose key is not among
the keys of the update is erased. -/
def syncAddresses (ToString : ServerAddress → String) (alloc : List Nat → Nat)
    (m : StateMap) (addresses : List ServerAddress) : StateMap :=
  let r := addresses.foldl (addressStep ToString alloc) (m, [])
  r.1.filter (fun e => decide (e.key ∈ r.2))

/-- The timer management of `UpdateLocked`, after the new configuration has been
stored in `config_`; `old_config` is the configuration it replaced. -/
def updateTimer (now : Int) (old_config : Option OutlierDetectionLbConfig)
    (config : OutlierDetectionLbConfig) (p : OutlierDetectionLb) : OutlierDetectionLb :=
  if !config.CountingEnabled then
    { p with ejection_timer_ := none }
  else
    match p.ejection_timer_ with
    | none =>
      { p with
        ejection_timer_ := some (EjectionTimer.create config.outlier_detection_config_.interval now)
        subchannel_state_map_ := p.subchannel_state_map_.map rotateEntry }
    | some timer =>
      match old_config with
      | some old =>
        if old.outlier_detection_config_.interval ≠ config.outlier_detection_config_.interval then
          { p with
            ejection_timer_ :=
              some (EjectionTimer.create config.outlier_detection_config_.interval
                timer.start_time_) }
        else p
      | none => p

/-- The method `UpdateLocked`.  `now` stands for `ExecCtx::Get()->Now()`.  A timer
exists only after an update has stored a configuration, so the case of a timer
without an old configuration does not arise. -/
def UpdateLocked (ToString : ServerAddress → String) (alloc : List Nat → Nat) (now : Int)
    (p : OutlierDetectionLb) (args : UpdateArgs) : OutlierDetectionLb :=
  let old_config := p.config_
  let p1 := { p with config_ := some args.config }
  let p2 := updateTimer now old_config args.config p1
  let p3 := if p2.child_policy_.isNone then { p2 with child_policy_ := some [] } else p2
  let p4 :=
    match args.addresses with
    | StatusOr.ok addresses =>
      { p3 with
        subchannel_state_map_ := syncAddresses ToString alloc p3.subchannel_state_map_ addresses }
    | StatusOr.error _ => p3
  { p4 with
    child_policy_ := p4.child_policy_.map (fun child =>
      child ++ [ChildCall.UpdateLocked args.addresses args.config.child_policy_ args.args]) }

/-! ## Scenario data of the policy -/

/-- A text form of an address that, like the key derivation requires, shows the
address and its channel arguments. -/
def exampleToString (a : ServerAddress) : String :=
  a.address_ ++ " " ++ toString a.args_ ++ " " ++ toString a.attributes_

/-- An allocator that returns an address above every address in use. -/
def exampleAlloc (used : List Nat) : Nat := used.foldr max 0 + 1

/-- An update with the configuration of scenario S1 and two addresses, one of them
listed twice with different attributes. -/
def exampleUpdate : UpdateArgs :=
  { addresses := StatusOr.ok
      [⟨"10.0.0.2:80", [], []⟩, ⟨"10.0.0.1:80", [], [("weight", "3")]⟩,
        ⟨"10.0.0.2:80", [], [("weight", "5")]⟩]
    config := { outlier_detection_config_ := s1Config, child_policy_ := "round_robin" }
    args := [] }

/-- The same update with the addresses in another order and other attributes. -/
def exampleUpdateAgain : UpdateArgs :=
  { exampleUpdate with
    addresses := StatusOr.ok [⟨"10.0.0.1:80", [], []⟩, ⟨"10.0.0.2:80", [], [("weight", "1")]⟩] }

/-- A policy whose map holds one endpoint that the update does not list. -/
def examplePolicy : OutlierDetectionLb :=
  { OutlierDetectionLb.create with
    subchannel_state_map_ := [⟨exampleToString ⟨"10.0.0.9:80", [], []⟩, 1, windowState 3 4⟩] }

/-- A policy with a running timer, the configuration of scenario S1 in force, a
child policy, and one endpoint that recorded 3 successes and 4 failures. -/
def runningPolicy : OutlierDetectionLb :=
  { examplePolicy with
    config_ := some { outlier_detection_config_ := s1Config, child_policy_ := "round_robin" }
    child_policy_ := some []
    ejection_timer_ := some (EjectionTimer.create 1000 50) }

/-- An update whose address list carries an error. -/
def errorUpdate : UpdateArgs :=
  { exampleUpdate with addresses := StatusOr.error (UnavailableError "resolver failure") }

/-- An update like `exampleUpdate` with an interval of 5 s. -/
def slowerUpdate : UpdateArgs :=
  { exampleUpdate with
    config := { outlier_detection_config_ := { s1Config with interval := 5000 },
                child_policy_ := "round_robin" } }

/-- An update like `exampleUpdate` whose configuration has no ejection algorithm. -/
def disabledUpdate : UpdateArgs :=
  { exampleUpdate with
    config := { outlier_detection_config_ := { s1Config with success_rate_ejection := none },
                child_policy_ := "round_robin" } }

/-- The address handling of `UpdateLocked`: the block guarded by
`args.addresses.ok()`. -/
def addressHandling (ToString : ServerAddress → String) (alloc : List Nat → Nat)
    (addresses : StatusOr (List ServerAddress)) (m : StateMap) : StateMap :=
  match addresses with
  | StatusOr.ok value => syncAddresses ToString alloc m value
  | StatusOr.error _ => m

/-- The statement `current_bucket_.swap(backup_bucket_)` of `RotateBucket`: the
state between the swap and the store to `active_bucket_`. -/
def SubchannelState.swapBuckets (s : SubchannelState) : SubchannelState :=
  { s with current_bucket_ := s.backup_bucket_, backup_bucket_ := s.current_bucket_ }

/-! ## The call tracker and the picker -/

/-- The function `absl::InternalError`. -/
def InternalError (message : String) : Status := ⟨StatusCode.kInternal, message⟩

/-- The method `absl::Status::ok`. -/
def Status.ok (s : Status) : Bool := s.code == StatusCode.kOk

/-- A call made through a pointer to the state at address `p`: the state at that
address becomes `f` of what it was. -/
def callAt (m : StateMap) (p : Nat) (f : SubchannelState → SubchannelState) : StateMap :=
  m.map (fun e => if e.addr = p then { e with state := f e.state } else e)

/-- A call made on a call tracker of the child policy. -/
inductive TrackerCall where
  | Start
  | Finish (status : Status)
  deriving DecidableEq, Repr

/-- A call tracker of the child policy, an opaque collaborator: the log of the
calls made on it, oldest first. -/
abbrev ChildTracker := List TrackerCall

/-- The class `Picker::SubchannelCallTracker`.  `original_subchannel_call_tracker_`
is none when the child gave no tracker; `subchannel_state_` is the address of the
state, none for a null pointer. -/
structure SubchannelCallTracker where
  original_subchannel_call_tracker_ : Option ChildTracker
  subchannel_state_ : Option Nat
  deriving DecidableEq, Repr

namespace SubchannelCallTracker

/-- The method `SubchannelCallTracker::Start`. -/
def Start (t : SubchannelCallTracker) : SubchannelCallTracker :=
  { t with
    original_subchannel_call_tracker_ :=
      t.original_subchannel_call_tracker_.map (fun log => log ++ [TrackerCall.Start]) }

/-- The method `SubchannelCallTracker::Finish`; `status` is `args.status`, and `m`
holds the states by address. -/
def Finish (t : SubchannelCallTracker) (status : Status) (m : StateMap) :
    SubchannelCallTracker × StateMap :=
  let t1 := { t with
    original_subchannel_call_tracker_ :=
      t.original_subchannel_call_tracker_.map (fun log => log ++ [TrackerCall.Finish status]) }
  match t.subchannel_state_ with
  | some p =>
    if status.ok then (t1, callAt m p SubchannelState.AddSuccessCount)
    else (t1, callAt m p SubchannelState.AddFailureCount)
  | none => (t1, m)

end SubchannelCallTracker

/-- What the call that was picked reports to its tracker. -/
inductive TrackerEvent where
  | start
  | finish (status : Status)
  deriving DecidableEq, Repr

/-- One event applied to a tracker and the states. -/
def SubchannelCallTracker.handle (acc : SubchannelCallTracker × StateMap) :
    TrackerEvent → SubchannelCallTracker × StateMap
  | TrackerEvent.start => (acc.1.Start, acc.2)
  | TrackerEvent.finish status => acc.1.Finish status acc.2

/-- The struct `LoadBalancingPolicy::PickArgs`, which this policy only passes on. -/
abbrev PickArgs := String

/-- Modelled from the spec: the result of a pick, `LoadBalancingPolicy::PickResult`,
whose declaration is not among the sources: one of `Complete(subchannel, tracker)`,
`Queue`, `Fail(status)` and `Drop(status)`.  `σ` is what the subchannel pointer of
a complete pick points to and `τ` what its tracker pointer holds. -/
inductive PickResult (σ τ : Type) where
  | Complete (subchannel : σ) (subchannel_call_tracker : τ)
  | Queue
  | Fail (status : Status)
  | Drop (status : Status)
  deriving DecidableEq, Repr

/-- A `SubchannelWrapper` as it is reached through a subchannel pointer: its own
address, the address of the subchannel it wraps (`wrapped_subchannel()`), and the
address of its state (`subchannel_state()`), none for a null pointer. -/
structure WrapperRef where
  addr : Nat
  wrapped_subchannel_ : Nat
  subchannel_state_ : Option Nat
  deriving DecidableEq, Repr

/-- The tracker pointer of a complete pick that `Picker::Pick` returns: the pointer
that the child put there, possibly null, or a new `SubchannelCallTracker`. -/
inductive CallTracker where
  | child (tracker : Option ChildTracker)
  | outlier (tracker : SubchannelCallTracker)
  deriving DecidableEq, Repr

/-- The class `Picker`: `picker_` is the address of the picker of the child, none
for a null pointer. -/
structure Picker where
  picker_ : Option Nat
  counting_enabled_ : Bool
  deriving DecidableEq, Repr

/-- The method `Picker::Pick`.  `child picker args` is what the pick of the child
picker at address `picker` returns for this call; every subchannel that the child
holds was made by `Helper::CreateSubchannel`, so the subchannel of a complete pick
of the child is a wrapper. -/
def Picker.Pick (child : Nat → PickArgs → PickResult WrapperRef (Option ChildTracker))
    (p : Picker) (args : PickArgs) : PickResult Nat CallTracker :=
  match p.picker_ with
  | none =>
    PickResult.Fail (InternalError "outlier_detection picker not given any child picker")
  | some picker =>
    match child picker args with
    | PickResult.Complete subchannel_wrapper subchannel_call_tracker =>
      if p.counting_enabled_ then
        PickResult.Complete subchannel_wrapper.wrapped_subchannel_
          (CallTracker.outlier
            { original_subchannel_call_tracker_ := subchannel_call_tracker,
              subchannel_state_ := subchannel_wrapper.subchannel_state_ })
      else
        PickResult.Complete subchannel_wrapper.wrapped_subchannel_
          (CallTracker.child subchannel_call_tracker)
    | PickResult.Queue => PickResult.Queue
    | PickResult.Fail status => PickResult.Fail status
    | PickResult.Drop status => PickResult.Drop status

/-! ## Shutdown and the helper given to the child -/

/-- The method `ShutdownLocked`. -/
def ShutdownLocked (p : OutlierDetectionLb) : OutlierDetectionLb :=
  { p with ejection_timer_ := none, shutting_down_ := true, child_policy_ := none,
           picker_ := none }

/-- The enumeration `TraceSeverity`, which this policy only passes on. -/
abbrev TraceSeverity := Nat

/-- A call that the policy makes on the helper of its parent,
`channel_control_helper()`. -/
inductive ParentCall where
  | CreateSubchannel (address : ServerAddress) (args : ChannelArgs)
  | UpdateState (state : ConnectivityState) (status : Status) (picker : Picker)
  | RequestReresolution
  | GetAuthority
  | AddTraceEvent (severity : TraceSeverity) (message : String)
  deriving DecidableEq, Repr

/-- What a call of the child on the helper does: the policy afterwards, the calls
made on the helper of the parent, and the value returned to the child. -/
structure HelperResult (α : Type) where
  policy : OutlierDetectionLb
  parent : List ParentCall
  result : α

/-- The method `MaybeUpdatePickerLocked`.  The helper is made by
`CreateChildPolicyLocked`, which `UpdateLocked` calls after it has stored a
configuration, so `config_` is set whenever the child reports a picker. -/
def MaybeUpdatePickerLocked (p : OutlierDetectionLb) : List ParentCall :=
  match p.picker_, p.config_ with
  | some picker, some config =>
    [ParentCall.UpdateState p.state_ p.status_
      { picker_ := some picker, counting_enabled_ := config.CountingEnabled }]
  | _, _ => []

namespace Helper

/-- The method `Helper::CreateSubchannel`.  `subchannel` is the address of the
subchannel that the helper of the parent returns and `wrapper` the address of the
new `SubchannelWrapper`; the value returned is none for a null pointer. -/
def CreateSubchannel (ToString : ServerAddress → String) (subchannel wrapper : Nat)
    (p : OutlierDetectionLb) (address : ServerAddress) (args : ChannelArgs) :
    HelperResult (Option WrapperRef) :=
  if p.shutting_down_ then { policy := p, parent := [], result := none }
  else
    let key := MakeKeyForAddress ToString address
    match p.subchannel_state_map_.find? (fun e => e.key == key) with
    | some it =>
      { policy :=
          { p with
            subchannel_state_map_ :=
              callAt p.subchannel_state_map_ it.addr (fun s =>
                (s.bindWrapper wrapper).AddSubchannel wrapper (SubchannelWrapper.create (some s))) }
        parent := [ParentCall.CreateSubchannel address args]
        result := some { addr := wrapper, wrapped_subchannel_ := subchannel,
                         subchannel_state_ := some it.addr } }
    | none =>
      { policy := p
        parent := [ParentCall.CreateSubchannel address args]
        result := some { addr := wrapper, wrapped_subchannel_ := subchannel,
                         subchannel_state_ := none } }

/-- The method `Helper::UpdateState`; `picker` is the address of the picker that
the child reports. -/
def UpdateState (p : OutlierDetectionLb) (state : ConnectivityState) (status : Status)
    (picker : Nat) : HelperResult Unit :=
  if p.shutting_down_ then { policy := p, parent := [], result := () }
  else
    let p1 := { p with state_ := state, status_ := status, picker_ := some picker }
    { policy := p1, parent := MaybeUpdatePickerLocked p1, result := () }

/-- The method `Helper::RequestReresolution`. -/
def RequestReresolution (p : OutlierDetectionLb) : HelperResult Unit :=
  if p.shutting_down_ then { policy := p, parent := [], result := () }
  else { policy := p, parent := [ParentCall.RequestReresolution], result := () }

/-- The method `Helper::GetAuthority`; `authority` is what the helper of the parent
returns. -/
def GetAuthority (authority : String) (p : OutlierDetectionLb) : HelperResult String :=
  { policy := p, parent := [ParentCall.GetAuthority], result := authority }

/-- The method `Helper::AddTraceEvent`. -/
def AddTraceEvent (p : OutlierDetectionLb) (severity : TraceSeverity) (message : String) :
    HelperResult Unit :=
  if p.shutting_down_ then { policy := p, parent := [], result := () }
  else { policy := p, parent := [ParentCall.AddTraceEvent severity message], result := () }

end Helper

/-- A tracker bound to the state of the endpoint E of scenario S1, around a tracker
of the child on which `Start` was called. -/
def exampleTracker : SubchannelCallTracker :=
  { original_subchannel_call_tracker_ := some [TrackerCall.Start], subchannel_state_ := some 30 }

/-- A child picker that completes the call "a" on a wrapper bound to the state at
address 30, queues the call "b", fails the call "c" and drops every other call. -/
def examplePick (_picker : Nat) (args : PickArgs) :
    PickResult WrapperRef (Option ChildTracker) :=
  if args = "a" then
    PickResult.Complete { addr := 700, wrapped_subchannel_ := 900, subchannel_state_ := some 30 }
      (some [])
  else if args = "b" then PickResult.Queue
  else if args = "c" then PickResult.Fail (UnavailableError "no ready subchannel")
  else PickResult.Drop (UnavailableError "dropped by policy")

/-- A policy that was running and has been shut down. -/
def shutDownPolicy : OutlierDetectionLb := ShutdownLocked runningPolicy

/-! ## The candidate sets and the decision rules, as the specification words them -/

/-- Spec side: the volume of the window that a firing completes for an endpoint,
that is the number of calls counted in its current bucket when the firing starts. -/
def windowVolume (e : MapEntry) : Nat :=
  (e.state.load e.state.current_bucket_).successes +
    (e.state.load e.state.current_bucket_).failures

/-- Spec side: the success rate of that window, `successes * 100 / (successes +
failures)`. -/
def windowRate (e : MapEntry) : ℚ :=
  (100 * (e.state.load e.state.current_bucket_).successes : ℚ) / ((windowVolume e : Nat) : ℚ)

/-- Spec side: the candidate set of a firing for the request volume
`request_volume`, read literally: every endpoint whose window volume is at least
`request_volume`, with its success rate. -/
def candidatesByVolume (request_volume : Nat) (m : StateMap) : List (Nat × ℚ) :=
  (m.filter (fun e => decide (windowVolume e ≥ request_volume))).map
    (fun e => (e.addr, windowRate e))

/-- Spec side: the candidate set of a firing, amended: every endpoint that
received calls in the window and whose window volume is at least `request_volume`,
with its success rate. -/
def candidatesWithCalls (request_volume : Nat) (m : StateMap) : List (Nat × ℚ) :=
  (m.filter (fun e => decide (windowVolume e ≠ 0 ∧ windowVolume e ≥ request_volume))).map
    (fun e => (e.addr, windowRate e))

/-- The map of scenario S3: the map of scenario S1 with only 4 calls on E. -/
def s3Map : StateMap :=
  [s1Healthy "A" 50, s1Healthy "B" 60, s1Healthy "C" 40, s1Healthy "D" 70,
    ⟨"E", 30, windowState 0 4⟩]

/-- A configuration like that of scenario S1 with a request volume of 0. -/
def zeroVolumeConfig : OutlierDetectionConfig :=
  { s1Config with success_rate_ejection := some ⟨1900, 100, 3, 0⟩ }

/-- A map with one endpoint that received calls and one that received none. -/
def idleMap : StateMap := [s1Healthy "A" 50, ⟨"B", 60, windowState 0 0⟩]

/-- Spec side: the mean of the success rates of a candidate set, `sr_sum / |SR|`. -/
def rateMean (candidates : List (Nat × ℚ)) : ℚ :=
  (candidates.map Prod.snd).sum / (candidates.length : ℚ)

/-- Spec side: the variance of the success rates of a candidate set, the mean of
`(sr - mean) ^ 2` over the set. -/
def rateVariance (candidates : List (Nat × ℚ)) : ℚ :=
  (candidates.map (fun c => (c.2 - rateMean candidates) ^ 2)).sum / (candidates.length : ℚ)

/-- The state of the ejection loops of a firing over the map of scenario S1 in
which E was ejected at time 1000. -/
def afterSuccessRate : EjectLoop :=
  { map := ejectAt (s1Map.map rotateEntry) 30 1000, ejected_host_count := 1, draws := 1 }

/-- A failure percentage configuration with threshold 50, full enforcement and no
minimum. -/
def fpHalf : FailurePercentageEjection := ⟨50, 100, 1, 1⟩

/-! ## The firing of the timer on the policy -/

/-- The type `grpc_error_handle`, as far as `OnTimerLocked` reads it: none stands
for `GRPC_ERROR_NONE`, and any other value carries a description. -/
abbrev ErrorHandle := Option String

/-- The method `EjectionTimer::Orphan`: a pending timer is marked as not pending
and cancelled, after which its callback is delivered with an error. -/
def EjectionTimer.Orphan (self : EjectionTimer) : EjectionTimer :=
  if self.timer_pending_ then { self with timer_pending_ := false } else self

/-- The method `EjectionTimer::OnTimerLocked` on the timer `self` and its parent
policy.  `now` stands for the value of `ExecCtx::Get()->Now()`, which is one time
for the whole firing, and `dice` for the values of the random generator of the
timer.  A timer is only made after an update has stored a configuration, so
`config_` is set whenever a timer fires. -/
def EjectionTimer.OnTimerLocked (dice : Nat → Nat) (now : Int) (self : EjectionTimer)
    (error : ErrorHandle) (p : OutlierDetectionLb) : EjectionTimer × OutlierDetectionLb :=
  if error.isNone && self.timer_pending_ then
    match p.config_ with
    | some config =>
      ({ self with timer_pending_ := false },
        { p with
          subchannel_state_map_ :=
            OnTimerLockedMap config.outlier_detection_config_ dice now p.subchannel_state_map_
          ejection_timer_ :=
            some (EjectionTimer.create config.outlier_detection_config_.interval now) })
    | none => (self, p)
  else (self, p)

/-! ## The stages of a firing -/

/-- The entry after `Eject(time)` on its state. -/
def ejectEntry (time : Int) (e : MapEntry) : MapEntry := { e with state := e.state.Eject time }

/-- The state of the ejection loops of a firing when the success rate algorithm
starts: the map and the ejected count that the first loop leaves. -/
def loopStart (config : OutlierDetectionConfig) (m : StateMap) : EjectLoop :=
  { map := (gatherLoop config m Gather.init).2
    ejected_host_count := (gatherLoop config m Gather.init).1.ejected_host_count
    draws := 0 }

/-- The state of the ejection loops of a firing after the success rate algorithm. -/
def loopAfterSuccessRate (config : OutlierDetectionConfig) (dice : Nat → Nat) (now : Int)
    (m : StateMap) : EjectLoop :=
  successRateAlgorithm config dice now (gatherLoop config m Gather.init).1 (loopStart config m)

/-- The state of the ejection loops of a firing after the failure percentage
algorithm, that is before the last loop. -/
def loopAfterFailurePercentage (config : OutlierDetectionConfig) (dice : Nat → Nat) (now : Int)
    (m : StateMap) : EjectLoop :=
  failurePercentageAlgorithm config dice now (gatherLoop config m Gather.init).1
    (loopAfterSuccessRate config dice now m)

/-- A configuration like that of scenario S1 with a base and a maximum ejection
time of 0. -/
def zeroTimeConfig : OutlierDetectionConfig :=
  { s1Config with base_ejection_time := 0, max_ejection_time := 0 }

/-- The map of scenario S1 in which E was ejected at time 0, with multiplier 1, and
still received 100 calls that failed. -/
def reEjectMap : StateMap :=
  [s1Healthy "A" 50, s1Healthy "B" 60, s1Healthy "C" 40, s1Healthy "D" 70,
    ⟨"E", 30, { windowState 0 100 with ejection_time_ := some 0, multiplier_ := 1 }⟩]

/-! ## The evaluator with checked divisions

The functions of this section are the functions of the evaluator again, with every
division by a value that is not a literal made through `checkedDiv`, so that a
division by zero shows as the result none. -/

/-- A division of doubles that reports a zero divisor: none stands for a division
by zero. -/
def checkedDiv (a b : ℚ) : Option ℚ := if b = 0 then none else some (a / b)

namespace Checked

/-- The method `GetSuccessRateAndVolume` with its division checked. -/
def GetSuccessRateAndVolume (s : SubchannelState) : Option (Option (ℚ × Nat)) :=
  let backup := s.load s.backup_bucket_
  let total_request : Nat := (backup.successes + backup.failures) % 2 ^ 64
  if total_request = 0 then some none
  else
    match checkedDiv ((backup.successes : ℚ) * 100)
        (((backup.successes + backup.failures) % 2 ^ 64 : Nat) : ℚ) with
    | none => none
    | some success_rate =>
      some (some (success_rate, (backup.successes + backup.failures) % 2 ^ 64))

/-- One iteration of the first loop of `OnTimerLocked`, with the division of
`GetSuccessRateAndVolume` checked. -/
def gatherStep (config : OutlierDetectionConfig) (g : Gather) (e : MapEntry) :
    Option (Gather × MapEntry) :=
  let subchannel_state := e.state.RotateBucket
  let g1 :=
    if subchannel_state.ejection_time_.isSome then
      { g with ejected_host_count := g.ejected_host_count + 1 }
    else g
  match Checked.GetSuccessRateAndVolume subchannel_state with
  | none => none
  | some none => some (g1, { e with state := subchannel_state })
  | some (some (success_rate, request_volume)) =>
    let g2 :=
      match config.success_rate_ejection with
      | some sr =>
        if request_volume ≥ sr.request_volume then
          { g1 with
            success_rate_ejection_candidates :=
              candInsert e.addr success_rate g1.success_rate_ejection_candidates
            success_rate_sum := g1.success_rate_sum + success_rate }
        else g1
      | none => g1
    let g3 :=
      match config.failure_percentage_ejection with
      | some fp =>
        if request_volume ≥ fp.request_volume then
          { g2 with
            failure_percentage_ejection_candidates :=
              candInsert e.addr success_rate g2.failure_percentage_ejection_candidates }
        else g2
      | none => g2
    some (g3, { e with state := subchannel_state })

/-- The first loop of `OnTimerLocked`, with checked divisions. -/
def gatherLoop (config : OutlierDetectionConfig) : StateMap → Gather → Option (Gather × StateMap)
  | [], g => some (g, [])
  | e :: rest, g =>
    match Checked.gatherStep config g e with
    | none => none
    | some r =>
      match gatherLoop config rest r.1 with
      | none => none
      | some r2 => some (r2.1, r.2 :: r2.2)

/-- One iteration of the ejection loop of the success rate algorithm, with the
division of `current_percent` checked. -/
def successRateStep (config : OutlierDetectionConfig) (sr : SuccessRateEjection)
    (mean variance : ℚ) (dice : Nat → Nat) (time_now : Int)
    (L : EjectLoop) (candidate : Nat × ℚ) : Option EjectLoop :=
  let success_rate_stdev_factor : ℚ := (sr.stdev_factor : ℚ) / 1000
  if belowThreshold candidate.2 mean variance success_rate_stdev_factor then
    let random_key := dice L.draws
    match checkedDiv (100 * (L.ejected_host_count : ℚ)) (L.map.length : ℚ) with
    | none => none
    | some current_percent =>
      if decide (random_key < sr.enforcement_percentage ∧
          (L.ejected_host_count = 0 ∨ current_percent < (config.max_ejection_percent : ℚ))) then
        some { map := ejectAt L.map candidate.1 time_now
               ejected_host_count := L.ejected_host_count + 1
               draws := L.draws + 1 }
      else some { L with draws := L.draws + 1 }
  else some L

/-- The success rate algorithm of `OnTimerLocked`, with the divisions of the mean,
of the variance and of `current_percent` checked. -/
def successRateAlgorithm (config : OutlierDetectionConfig) (dice : Nat → Nat)
    (time_now : Int) (g : Gather) (L : EjectLoop) : Option EjectLoop :=
  match config.success_rate_ejection with
  | none => some L
  | some sr =>
    let candidates := g.success_rate_ejection_candidates
    if candidates ≠ [] ∧ candidates.length ≥ sr.minimum_hosts then
      match checkedDiv g.success_rate_sum (candidates.length : ℚ) with
      | none => none
      | some mean =>
        match checkedDiv (candidates.foldl (fun acc v => acc + (v.2 - mean) ^ 2) 0)
            (candidates.length : ℚ) with
        | none => none
        | some variance =>
          candidates.foldlM (Checked.successRateStep config sr mean variance dice time_now) L
    else some L

/-- One iteration of the ejection loop of the failure percentage algorithm, with
the division of `current_percent` checked. -/
def failurePercentageStep (config : OutlierDetectionConfig) (fp : FailurePercentageEjection)
    (dice : Nat → Nat) (time_now : Int) (L : EjectLoop) (candidate : Nat × ℚ) :
    Option EjectLoop :=
  if isEjectedAt L.map candidate.1 then some L
  else if (100 - candidate.2) > (fp.threshold : ℚ) then
    let random_key := dice L.draws
    match checkedDiv (100 * (L.ejected_host_count : ℚ)) (L.map.length : ℚ) with
    | none => none
    | some current_percent =>
      if decide (random_key < fp.enforcement_percentage ∧
          (L.ejected_host_count = 0 ∨ current_percent < (config.max_ejection_percent : ℚ))) then
        some { map := ejectAt L.map candidate.1 time_now
               ejected_host_count := L.ejected_host_count + 1
               draws := L.draws + 1 }
      else some { L with draws := L.draws + 1 }
  else some L

/-- The failure percentage algorithm of `OnTimerLocked`, with checked divisions. -/
def failurePercentageAlgorithm (config : OutlierDetectionConfig) (dice : Nat → Nat)
    (time_now : Int) (g : Gather) (L : EjectLoop) : Option EjectLoop :=
  match config.failure_percentage_ejection with
  | none => some L
  | some fp =>
    let candidates := g.failure_percentage_ejection_candidates
    if candidates ≠ [] ∧ candidates.length ≥ fp.minimum_hosts then
      candidates.foldlM (Checked.failurePercentageStep config fp dice time_now) L
    else some L

/-- The effect of a live firing of `OnTimerLocked` on the map, with checked
divisions: none when a division by zero is reached. -/
def OnTimerLockedMap (config : OutlierDetectionConfig) (dice : Nat → Nat) (now : Int)
    (m : StateMap) : Option StateMap :=
  match Checked.gatherLoop config m Gather.init with
  | none => none
  | some r =>
    match Checked.successRateAlgorithm config dice now r.1
        { map := r.2, ejected_host_count := r.1.ejected_host_count, draws := 0 } with
    | none => none
    | some L1 =>
      match Checked.failurePercentageAlgorithm config dice now r.1 L1 with
      | none => none
      | some L2 => some (unejectLoop config now L2.map)

end Checked

/-! ## Arithmetic of doubles

The functions of this section give the result of the operations of IEEE 754
binary64 in the default rounding mode (to nearest, ties to even) on values that are
rationals.  Every operation is rounded on its own: a product and the difference
that uses it are two operations, not one fused multiply-add; `std::sqrt` and
`std::pow(x, 2)` are taken to be correctly rounded.  The exponent range is not
bounded and there is no infinity, NaN or negative zero: the evaluator divides only
by counts that are not zero (see `Checked`), takes the square root only of a sum of
squares, and all its values that are not zero lie between `2 ^ (-400)` and
`2 ^ 100`, far inside the range of normal doubles, which spans from `2 ^ (-1022)`
to `2 ^ 1024`.  The theorems `binary64_significand`,
`binary64_nearest_optimal`, `binary64_roundHalfEven_tie` and `binary64_sqrt_spec`
state that the functions round as described. -/

namespace Binary64

/-- The binary logarithm of a natural number, rounded down, by repeated halving
(`fuel` bounds the number of halvings). -/
def log2Aux : Nat → Nat → Nat
  | 0, _ => 0
  | fuel + 1, n => if n < 2 then 0 else log2Aux fuel (n / 2) + 1

/-- The binary logarithm of a natural number, rounded down; 0 for 0. -/
def log2 (n : Nat) : Nat := log2Aux n n

/-- The integer nearest to a rational, the even one in case of a tie. -/
def roundHalfEven (x : ℚ) : ℤ :=
  if x - ⌊x⌋ < 1 / 2 then ⌊x⌋
  else if 1 / 2 < x - ⌊x⌋ then ⌊x⌋ + 1
  else if ⌊x⌋ % 2 = 0 then ⌊x⌋ else ⌊x⌋ + 1

/-- The binary exponent of a rational `q` that is not zero: the integer `e` with
`2 ^ e ≤ |q| < 2 ^ (e + 1)`. -/
def exponent (q : ℚ) : ℤ :=
  if |q| < (2 : ℚ) ^ ((log2 q.num.natAbs : ℤ) - (log2 q.den : ℤ)) then
    (log2 q.num.natAbs : ℤ) - (log2 q.den : ℤ) - 1
  else (log2 q.num.natAbs : ℤ) - (log2 q.den : ℤ)

/-- The double nearest to a rational, the one with even significand in case of a
tie: the rational is rounded to 53 significant bits. -/
def nearest (q : ℚ) : ℚ :=
  if q = 0 then 0
  else (roundHalfEven (q / (2 : ℚ) ^ (exponent q - 52)) : ℚ) * (2 : ℚ) ^ (exponent q - 52)

/-- The conversion of an unsigned integer to `double`. -/
def ofNat (n : Nat) : ℚ := nearest (n : ℚ)

/-- The operator `+` of `double`. -/
def add (a b : ℚ) : ℚ := nearest (a + b)

/-- The operator `-` of `double`. -/
def sub (a b : ℚ) : ℚ := nearest (a - b)

/-- The operator `*` of `double`. -/
def mul (a b : ℚ) : ℚ := nearest (a * b)

/-- The operator `/` of `double`, for a divisor that is not zero. -/
def div (a b : ℚ) : ℚ := nearest (a / b)

/-- The call `std::pow(x, 2)`: the square, correctly rounded. -/
def square (x : ℚ) : ℚ := nearest (x * x)

/-- The square root of a natural number, rounded down, bit by bit from bit
`bits - 1` downwards; `r` is the root found so far. -/
def isqrtAux : Nat → Nat → Nat → Nat
  | 0, r, _ => r
  | bits + 1, r, n =>
    if (r + 2 ^ bits) * (r + 2 ^ bits) ≤ n then isqrtAux bits (r + 2 ^ bits) n
    else isqrtAux bits r n

/-- The square root of a natural number, rounded down. -/
def isqrt (n : Nat) : Nat := isqrtAux (log2 n / 2 + 1) 0 n

/-- The call `std::sqrt(x)` for `x` that is not negative: the double nearest to the
square root.  The root is scaled to an integer significand of 53 bits, whose
integer part comes from `isqrt`, and rounded by comparing with the midpoint. -/
def sqrt (x : ℚ) : ℚ :=
  if x ≤ 0 then 0
  else
    let e : ℤ := exponent x / 2
    let y : ℚ := x / (2 : ℚ) ^ (2 * (e - 52))
    let m0 : ℤ := (isqrt ⌊y⌋.toNat : ℤ)
    let mid : ℚ := ((m0 : ℚ) + 1 / 2) ^ 2
    let m : ℤ :=
      if y < mid then m0 else if mid < y then m0 + 1 else if m0 % 2 = 0 then m0 else m0 + 1
    (m : ℚ) * (2 : ℚ) ^ (e - 52)

end Binary64

/-! ## The evaluator in double arithmetic

The functions of this section are the functions of the evaluator again, with every
operation on a `double` rounded as the machine rounds it.  They are used for the
properties of the threshold decision of the success rate algorithm, which depend on
the rounding; the functions with exact arithmetic above are used for the
properties that do not. -/

namespace Rounded

/-- The method `GetSuccessRateAndVolume` in double arithmetic: the counters are
converted to `double`, and the product and the quotient are rounded. -/
def GetSuccessRateAndVolume (s : SubchannelState) : Option (ℚ × Nat) :=
  let backup := s.load s.backup_bucket_
  let total_request : Nat := (backup.successes + backup.failures) % 2 ^ 64
  if total_request = 0 then none
  else
    let success_rate : ℚ :=
      Binary64.div (Binary64.mul (Binary64.ofNat backup.successes) 100)
        (Binary64.ofNat ((backup.successes + backup.failures) % 2 ^ 64))
    some (success_rate, (backup.successes + backup.failures) % 2 ^ 64)

/-- One iteration of the first loop of `OnTimerLocked` in double arithmetic. -/
def gatherStep (config : OutlierDetectionConfig) (g : Gather) (e : MapEntry) :
    Gather × MapEntry :=
  let subchannel_state := e.state.RotateBucket
  let g1 :=
    if subchannel_state.ejection_time_.isSome then
      { g with ejected_host_count := g.ejected_host_count + 1 }
    else g
  match Rounded.GetSuccessRateAndVolume subchannel_state with
  | none => (g1, { e with state := subchannel_state })
  | some (success_rate, request_volume) =>
    let g2 :=
      match config.success_rate_ejection with
      | some sr =>
        if request_volume ≥ sr.request_volume then
          { g1 with
            success_rate_ejection_candidates :=
              candInsert e.addr success_rate g1.success_rate_ejection_candidates
            success_rate_sum := Binary64.add g1.success_rate_sum success_rate }
        else g1
      | none => g1
    let g3 :=
      match config.failure_percentage_ejection with
      | some fp =>
        if request_volume ≥ fp.request_volume then
          { g2 with
            failure_percentage_ejection_candidates :=
              candInsert e.addr success_rate g2.failure_percentage_ejection_candidates }
        else g2
      | none => g2
    (g3, { e with state := subchannel_state })

/-- The first loop of `OnTimerLocked` in double arithmetic. -/
def gatherLoop (config : OutlierDetectionConfig) : StateMap → Gather → Gather × StateMap
  | [], g => (g, [])
  | e :: rest, g =>
    let r := Rounded.gatherStep config g e
    let r2 := gatherLoop config rest r.1
    (r2.1, r.2 :: r2.2)

/-- The local `current_percent` of the two ejection loops:
`100.0 * ejected_host_count / size`. -/
def currentPercent (ejected_host_count size : Nat) : ℚ :=
  Binary64.div (Binary64.mul 100 (Binary64.ofNat ejected_host_count)) (Binary64.ofNat size)

/-- The enforcement check shared by both algorithms, in double arithmetic. -/
def enforce (max_ejection_percent enforcement_percentage random_key : Nat)
    (ejected_host_count size : Nat) : Bool :=
  decide (random_key < enforcement_percentage ∧
    (ejected_host_count = 0 ∨
      currentPercent ejected_host_count size < (max_ejection_percent : ℚ)))

/-- One iteration of the ejection loop of the success rate algorithm, in double
arithmetic; `ejection_threshold` is computed once, before the loop. -/
def successRateStep (config : OutlierDetectionConfig) (sr : SuccessRateEjection)
    (ejection_threshold : ℚ) (dice : Nat → Nat) (time_now : Int)
    (L : EjectLoop) (candidate : Nat × ℚ) : EjectLoop :=
  if candidate.2 < ejection_threshold then
    let random_key := dice L.draws
    if Rounded.enforce config.max_ejection_percent sr.enforcement_percentage random_key
        L.ejected_host_count L.map.length then
      { map := ejectAt L.map candidate.1 time_now
        ejected_host_count := L.ejected_host_count + 1
        draws := L.draws + 1 }
    else { L with draws := L.draws + 1 }
  else L

/-- The success rate algorithm of `OnTimerLocked`, in double arithmetic. -/
def successRateAlgorithm (config : OutlierDetectionConfig) (dice : Nat → Nat)
    (time_now : Int) (g : Gather) (L : EjectLoop) : EjectLoop :=
  match config.success_rate_ejection with
  | none => L
  | some sr =>
    let candidates := g.success_rate_ejection_candidates
    if candidates ≠ [] ∧ candidates.length ≥ sr.minimum_hosts then
      let mean : ℚ := Binary64.div g.success_rate_sum (Binary64.ofNat candidates.length)
      let variance : ℚ :=
        Binary64.div
          (candidates.foldl
            (fun acc v => Binary64.add acc (Binary64.square (Binary64.sub v.2 mean))) 0)
          (Binary64.ofNat candidates.length)
      let stdev : ℚ := Binary64.sqrt variance
      let success_rate_stdev_factor : ℚ := Binary64.div (Binary64.ofNat sr.stdev_factor) 1000
      let ejection_threshold : ℚ :=
        Binary64.sub mean (Binary64.mul stdev success_rate_stdev_factor)
      candidates.foldl (Rounded.successRateStep config sr ejection_threshold dice time_now) L
    else L

/-- One iteration of the ejection loop of the failure percentage algorithm, in
double arithmetic. -/
def failurePercentageStep (config : OutlierDetectionConfig) (fp : FailurePercentageEjection)
    (dice : Nat → Nat) (time_now : Int) (L : EjectLoop) (candidate : Nat × ℚ) : EjectLoop :=
  if isEjectedAt L.map candidate.1 then L
  else if Binary64.sub 100 candidate.2 > (fp.threshold : ℚ) then
    let random_key := dice L.draws
    if Rounded.enforce config.max_ejection_percent fp.enforcement_percentage random_key
        L.ejected_host_count L.map.length then
      { map := ejectAt L.map candidate.1 time_now
        ejected_host_count := L.ejected_host_count + 1
        draws := L.draws + 1 }
    else { L with draws := L.draws + 1 }
  else L

/-- The failure percentage algorithm of `OnTimerLocked`, in double arithmetic. -/
def failurePercentageAlgorithm (config : OutlierDetectionConfig) (dice : Nat → Nat)
    (time_now : Int) (g : Gather) (L : EjectLoop) : EjectLoop :=
  match config.failure_percentage_ejection with
  | none => L
  | some fp =>
    let candidates := g.failure_percentage_ejection_candidates
    if candidates ≠ [] ∧ candidates.length ≥ fp.minimum_hosts then
      candidates.foldl (Rounded.failurePercentageStep config fp dice time_now) L
    else L

/-- The effect of a live firing of `OnTimerLocked` on the map, in double
arithmetic. -/
def OnTimerLockedMap (config : OutlierDetectionConfig) (dice : Nat → Nat) (now : Int)
    (m : StateMap) : StateMap :=
  let r := Rounded.gatherLoop config m Gather.init
  let L0 : EjectLoop := { map := r.2, ejected_host_count := r.1.ejected_host_count, draws := 0 }
  let L1 := Rounded.successRateAlgorithm config dice now r.1 L0
  let L2 := Rounded.failurePercentageAlgorithm config dice now r.1 L1
  unejectLoop config now L2.map

end Rounded

/-- The success rate candidate that the first loop records for an entry of the
map in double arithmetic, if any: the address of its state and the success rate of
its completed window. -/
def Rounded.srCandidate (config : OutlierDetectionConfig) (e : MapEntry) : Option (Nat × ℚ) :=
  match config.success_rate_ejection, Rounded.GetSuccessRateAndVolume e.state.RotateBucket with
  | some sr, some (success_rate, request_volume) =>
    if request_volume ≥ sr.request_volume then some (e.addr, success_rate) else none
  | _, _ => none

/-- The sum of a list of doubles as the first loop accumulates it: from 0, one
rounded addition for each member, in the order of the list. -/
def Rounded.sum (l : List ℚ) : ℚ := l.foldl Binary64.add 0

/-- Spec side: `mean = sr_sum / |SR|`, in double arithmetic. -/
def Rounded.mean (g : Gather) : ℚ :=
  Binary64.div g.success_rate_sum (Binary64.ofNat g.success_rate_ejection_candidates.length)

/-- Spec side: `variance`, the mean of `(sr - mean) ^ 2` over the candidates, in
double arithmetic: the squares are added up in the order of the candidates and the
sum is divided by their number. -/
def Rounded.variance (g : Gather) : ℚ :=
  Binary64.div
    (Rounded.sum (g.success_rate_ejection_candidates.map
      (fun v => Binary64.square (Binary64.sub v.2 (Rounded.mean g)))))
    (Binary64.ofNat g.success_rate_ejection_candidates.length)

/-- Spec side: `threshold = mean - sqrt(variance) * (stdev_factor / 1000)`, in
double arithmetic. -/
def Rounded.ejectionThreshold (sr : SuccessRateEjection) (g : Gather) : ℚ :=
  Binary64.sub (Rounded.mean g)
    (Binary64.mul (Binary64.sqrt (Rounded.variance g))
      (Binary64.div (Binary64.ofNat sr.stdev_factor) 1000))

/-- Five endpoints, none ejected, each with 7 successes and 4 failures in the
completed window. -/
def fiveAlike : StateMap :=
  [⟨"10.0.0.1:80", 1, windowState 7 4⟩, ⟨"10.0.0.2:80", 2, windowState 7 4⟩,
    ⟨"10.0.0.3:80", 3, windowState 7 4⟩, ⟨"10.0.0.4:80", 4, windowState 7 4⟩,
    ⟨"10.0.0.5:80", 5, windowState 7 4⟩]

/-- The configuration of scenario S1 with a `stdev_factor` of 500. -/
def halfFactorConfig : OutlierDetectionConfig :=
  { s1Config with success_rate_ejection := some ⟨500, 100, 3, 5⟩ }

namespace SubchannelState

theorem toInt64_of_lt (x : Nat) (h : x < 2 ^ 63) : toInt64 x = (x : Int) := by
  have h2 : x % 2 ^ 64 = x := Nat.mod_eq_of_lt (by omega)
  unfold toInt64
  rw [h2, if_pos h]

theorem load_store_same (s : SubchannelState) (p : BucketPtr) (b : Bucket) :
    (s.store p b).load p = b := by
  cases p <;> rfl

theorem load_store_other (s : SubchannelState) (p q : BucketPtr) (b : Bucket) (h : p ≠ q) :
    (s.store p b).load q = s.load q := by
  cases p <;> cases q <;> first | rfl | exact absurd rfl h

theorem MaybeUneject_of_ejected (s : SubchannelState) (t : Int) (base mx : Nat) (now : Int)
    (hej : s.ejection_time_ = some t) (hrange : base * s.multiplier_ < 2 ^ 63) :
    s.MaybeUneject base mx now =
      if t + ((min (base * s.multiplier_) (max base mx) : Nat) : Int) < now then s.Uneject
      else s := by
  have h1 : base * s.multiplier_ % 2 ^ 64 = base * s.multiplier_ :=
    Nat.mod_eq_of_lt (by omega)
  have h2 : min (base * s.multiplier_) (max base mx) < 2 ^ 63 :=
    lt_of_le_of_lt (Nat.min_le_left _ _) hrange
  unfold MaybeUneject
  simp only [hej, h1, toInt64_of_lt _ h2, timestampAdd]

/-- Claim C1, amended: `MaybeUneject` un-ejects an ejected endpoint exactly when
`now` is strictly after `ejection_time + min(base * multiplier, max(base, max))`
(for a product `base * multiplier` that fits the signed 64-bit range).  In scenario
S5 (base 10 s, max 30 s, ejected at 0 with multiplier 1) the endpoint is still
ejected by the firings at 9 s and at 10 s, and is un-ejected by a firing at 10.001 s. -/
theorem MaybeUneject_unejects_iff_after (s : SubchannelState) (t : Int) (base mx : Nat)
    (now : Int) (hej : s.ejection_time_ = some t) (hrange : base * s.multiplier_ < 2 ^ 63) :
    ((s.MaybeUneject base mx now).ejection_time_ = none ↔
        t + ((min (base * s.multiplier_) (max base mx) : Nat) : Int) < now) ∧
      (s5State.MaybeUneject 10000 30000 9000).ejection_time_ = some 0 ∧
      (s5State.MaybeUneject 10000 30000 10000).ejection_time_ = some 0 ∧
      (s5State.MaybeUneject 10000 30000 10001).ejection_time_ = none := by
  refine ⟨?_, by decide, by decide, by decide⟩
  rw [MaybeUneject_of_ejected s t base mx now hej hrange]
  by_cases h : t + ((min (base * s.multiplier_) (max base mx) : Nat) : Int) < now
  · rw [if_pos h]
    exact ⟨fun _ => h, fun _ => rfl⟩
  · rw [if_neg h, hej]
    exact ⟨fun hc => (by cases hc), fun hc => absurd hc h⟩

/-- Witness of `MaybeUneject_unejects_iff_after`: scenario S5 evaluated one
millisecond after the deadline. -/
theorem MaybeUneject_unejects_iff_after_witness :
    ((s5State.MaybeUneject 10000 30000 10001).ejection_time_ = none ↔
        (0 : Int) + ((min (10000 * s5State.multiplier_) (max 10000 30000) : Nat) : Int) < 10001) ∧
      (s5State.MaybeUneject 10000 30000 9000).ejection_time_ = some 0 ∧
      (s5State.MaybeUneject 10000 30000 10000).ejection_time_ = some 0 ∧
      (s5State.MaybeUneject 10000 30000 10001).ejection_time_ = none :=
  MaybeUneject_unejects_iff_after s5State 0 10000 30000 10001 rfl (by decide)

/-- Claim C1, counterexample: in scenario S5 the firing at `now = 10 s` satisfies
`now ≥ ejection_time + min(base * multiplier, max(base, max))`, and `MaybeUneject`
leaves the endpoint ejected. -/
theorem MaybeUneject_at_deadline_still_ejected :
    s5State.ejection_time_ = some 0 ∧
      (10000 : Int) ≥ 0 + ((min (10000 * s5State.multiplier_) (max 10000 30000) : Nat) : Int) ∧
      (s5State.MaybeUneject 10000 30000 10000).ejection_time_ ≠ none := by
  decide

end SubchannelState

namespace SubchannelState

theorem RotateBucket_fields (s : SubchannelState) :
    s.RotateBucket.current_bucket_ = s.backup_bucket_ ∧
      s.RotateBucket.backup_bucket_ = s.current_bucket_ ∧
      s.RotateBucket.active_bucket_ = s.backup_bucket_ ∧
      s.RotateBucket.multiplier_ = s.multiplier_ ∧
      s.RotateBucket.ejection_time_ = s.ejection_time_ ∧
      s.RotateBucket.subchannels_ = s.subchannels_ := by
  cases hb : s.backup_bucket_ <;> simp [RotateBucket, store, load, hb]

theorem RotateBucket_load_current (s : SubchannelState) :
    s.RotateBucket.load s.backup_bucket_ = ⟨0, 0⟩ := by
  cases hb : s.backup_bucket_ <;> simp [RotateBucket, store, load, hb]

theorem RotateBucket_load_backup (s : SubchannelState) (h : s.WellFormed) :
    s.RotateBucket.load s.current_bucket_ = s.load s.current_bucket_ := by
  unfold WellFormed at h
  cases hb : s.backup_bucket_ <;> cases hc : s.current_bucket_ <;>
    simp [RotateBucket, store, load, hb, hc] <;> simp [hb, hc] at h

theorem RotateBucket_wellFormed (s : SubchannelState) (h : s.WellFormed) :
    s.RotateBucket.WellFormed := by
  unfold WellFormed at *
  rw [(RotateBucket_fields s).1, (RotateBucket_fields s).2.1]
  exact fun e => h e.symm

/-- Claim C9: for a state whose current bucket holds `(s, f)`, after `RotateBucket`
the backup bucket holds exactly `(s, f)`, the current bucket holds `(0, 0)`,
`active_bucket_` points to the new current bucket (the former backup), and the
multiplier, the ejection time and the wrapper set are unchanged. -/
theorem RotateBucket_postcondition (st : SubchannelState) (h : st.WellFormed) (s f : Nat)
    (hcur : st.load st.current_bucket_ = ⟨s, f⟩) :
    st.RotateBucket.load st.RotateBucket.backup_bucket_ = ⟨s, f⟩ ∧
      st.RotateBucket.load st.RotateBucket.current_bucket_ = ⟨0, 0⟩ ∧
      st.RotateBucket.active_bucket_ = st.RotateBucket.current_bucket_ ∧
      st.RotateBucket.current_bucket_ = st.backup_bucket_ ∧
      st.RotateBucket.backup_bucket_ = st.current_bucket_ ∧
      st.RotateBucket.multiplier_ = st.multiplier_ ∧
      st.RotateBucket.ejection_time_ = st.ejection_time_ ∧
      st.RotateBucket.subchannels_ = st.subchannels_ := by
  obtain ⟨h1, h2, h3, h4, h5, h6⟩ := RotateBucket_fields st
  refine ⟨?_, ?_, ?_, h1, h2, h4, h5, h6⟩
  · rw [h2, RotateBucket_load_backup st h, hcur]
  · rw [h1, RotateBucket_load_current]
  · rw [h3, h1]

/-- Witness of `RotateBucket_postcondition`: a state with 7 successes and 3
failures in its current bucket and stale counts in its backup bucket. -/
theorem RotateBucket_postcondition_witness :
    (rotateExample.RotateBucket).load (rotateExample.RotateBucket).backup_bucket_ = ⟨7, 3⟩ ∧
      (rotateExample.RotateBucket).load (rotateExample.RotateBucket).current_bucket_ = ⟨0, 0⟩ ∧
      (rotateExample.RotateBucket).active_bucket_ = (rotateExample.RotateBucket).current_bucket_ ∧
      (rotateExample.RotateBucket).current_bucket_ = rotateExample.backup_bucket_ ∧
      (rotateExample.RotateBucket).backup_bucket_ = rotateExample.current_bucket_ ∧
      (rotateExample.RotateBucket).multiplier_ = rotateExample.multiplier_ ∧
      (rotateExample.RotateBucket).ejection_time_ = rotateExample.ejection_time_ ∧
      (rotateExample.RotateBucket).subchannels_ = rotateExample.subchannels_ :=
  RotateBucket_postcondition rotateExample (by decide) 7 3 rfl

theorem GetSuccessRateAndVolume_eq (st : SubchannelState) (s f : Nat)
    (hb : st.load st.backup_bucket_ = ⟨s, f⟩) (hr : s + f < 2 ^ 64) :
    st.GetSuccessRateAndVolume =
      if s + f = 0 then none else some ((100 * s : ℚ) / ((s + f : Nat) : ℚ), s + f) := by
  have hm : (s + f) % 2 ^ 64 = s + f := Nat.mod_eq_of_lt hr
  unfold GetSuccessRateAndVolume
  simp only [hb, hm]
  by_cases h0 : s + f = 0
  · simp [h0]
  · simp only [h0, if_false]
    congr 2
    ring

/-- Claim C10: `GetSuccessRateAndVolume` reads only the backup bucket.  With backup
counts `(s, f)` (whose sum fits 64 bits) it returns none when `s + f = 0` and
otherwise the pair `(100 * s / (s + f), s + f)`; overwriting the current bucket
with any counts leaves the result unchanged. -/
theorem GetSuccessRateAndVolume_reads_backup (st : SubchannelState) (h : st.WellFormed)
    (s f : Nat) (hb : st.load st.backup_bucket_ = ⟨s, f⟩) (hr : s + f < 2 ^ 64) :
    (st.GetSuccessRateAndVolume =
        if s + f = 0 then none else some ((100 * s : ℚ) / ((s + f : Nat) : ℚ), s + f)) ∧
      ∀ c : Bucket,
        (st.store st.current_bucket_ c).GetSuccessRateAndVolume = st.GetSuccessRateAndVolume := by
  refine ⟨GetSuccessRateAndVolume_eq st s f hb hr, fun c => ?_⟩
  have hp : (st.store st.current_bucket_ c).backup_bucket_ = st.backup_bucket_ := by
    cases st.current_bucket_ <;> rfl
  have hl : (st.store st.current_bucket_ c).load st.backup_bucket_ = st.load st.backup_bucket_ :=
    load_store_other st _ _ c h
  unfold GetSuccessRateAndVolume
  rw [hp, hl]

/-- Witness of `GetSuccessRateAndVolume_reads_backup`: 3 successes and 1 failure in
the backup bucket give the rate 75 and the volume 4. -/
theorem GetSuccessRateAndVolume_reads_backup_witness :
    (volumeExample.GetSuccessRateAndVolume =
        if 3 + 1 = 0 then none else some ((100 * (3 : Nat) : ℚ) / ((3 + 1 : Nat) : ℚ), 3 + 1)) ∧
      ∀ c : Bucket,
        (volumeExample.store volumeExample.current_bucket_ c).GetSuccessRateAndVolume =
          volumeExample.GetSuccessRateAndVolume :=
  GetSuccessRateAndVolume_reads_backup volumeExample (by decide) 3 1 rfl (by decide)

end SubchannelState

namespace SubchannelState

theorem record_fields (s : SubchannelState) (o : Outcome) :
    (s.record o).current_bucket_ = s.current_bucket_ ∧
      (s.record o).backup_bucket_ = s.backup_bucket_ ∧
      (s.record o).active_bucket_ = s.active_bucket_ ∧
      (s.record o).multiplier_ = s.multiplier_ ∧
      (s.record o).ejection_time_ = s.ejection_time_ ∧
      (s.record o).subchannels_ = s.subchannels_ := by
  cases o <;> cases ha : s.active_bucket_ <;>
    simp [record, AddSuccessCount, AddFailureCount, store, ha]

theorem record_load_active (s : SubchannelState) (o : Outcome) :
    (s.record o).load s.active_bucket_ =
      match o with
      | Outcome.success =>
        { (s.load s.active_bucket_) with
          successes := ((s.load s.active_bucket_).successes + 1) % 2 ^ 64 }
      | Outcome.failure =>
        { (s.load s.active_bucket_) with
          failures := ((s.load s.active_bucket_).failures + 1) % 2 ^ 64 } := by
  cases o <;> simp [record, AddSuccessCount, AddFailureCount, load_store_same]

theorem record_load_other (s : SubchannelState) (o : Outcome) (q : BucketPtr)
    (h : s.active_bucket_ ≠ q) : (s.record o).load q = s.load q := by
  cases o <;> simp [record, AddSuccessCount, AddFailureCount, load_store_other _ _ _ _ h]

/-- What a sequence of recorded outcomes does to a state: the pointers stay, the
bucket that `active_bucket_` points to gains the counts, the other bucket stays. -/
theorem recordAll_effect (outcomes : List Outcome) :
    ∀ s : SubchannelState,
      (s.load s.active_bucket_).successes < 2 ^ 64 →
      (s.load s.active_bucket_).failures < 2 ^ 64 →
      (s.recordAll outcomes).current_bucket_ = s.current_bucket_ ∧
      (s.recordAll outcomes).backup_bucket_ = s.backup_bucket_ ∧
      (s.recordAll outcomes).active_bucket_ = s.active_bucket_ ∧
      (s.recordAll outcomes).load s.active_bucket_ =
        ⟨((s.load s.active_bucket_).successes + outcomes.count Outcome.success) % 2 ^ 64,
          ((s.load s.active_bucket_).failures + outcomes.count Outcome.failure) % 2 ^ 64⟩ ∧
      ∀ q, s.active_bucket_ ≠ q → (s.recordAll outcomes).load q = s.load q := by
  induction outcomes with
  | nil =>
    intro s hs hf
    refine ⟨rfl, rfl, rfl, ?_, fun q _ => rfl⟩
    show s.load s.active_bucket_ = _
    simp only [List.count_nil, Nat.add_zero, Nat.mod_eq_of_lt hs, Nat.mod_eq_of_lt hf]
  | cons o rest ih =>
    intro s hs hf
    obtain ⟨f1, f2, f3, -, -, -⟩ := record_fields s o
    have hl := record_load_active s o
    have hs1 : ((s.record o).load (s.record o).active_bucket_).successes < 2 ^ 64 := by
      rw [f3, hl]; cases o
      · exact Nat.mod_lt _ (by norm_num)
      · exact hs
    have hf1 : ((s.record o).load (s.record o).active_bucket_).failures < 2 ^ 64 := by
      rw [f3, hl]; cases o
      · exact hf
      · exact Nat.mod_lt _ (by norm_num)
    obtain ⟨g1, g2, g3, g4, g5⟩ := ih (s.record o) hs1 hf1
    have hrec : s.recordAll (o :: rest) = (s.record o).recordAll rest := rfl
    rw [hrec]
    refine ⟨g1.trans f1, g2.trans f2, g3.trans f3, ?_, ?_⟩
    · rw [f3] at g4
      rw [g4, hl]
      cases o
      · rw [List.count_cons_self,
          List.count_cons_of_ne (by decide : Outcome.failure ≠ Outcome.success)]
        simp only [Bucket.mk.injEq, Nat.mod_add_mod, and_true]
        congr 1; omega
      · rw [List.count_cons_self,
          List.count_cons_of_ne (by decide : Outcome.success ≠ Outcome.failure)]
        simp only [Bucket.mk.injEq, Nat.mod_add_mod, true_and]
        congr 1; omega
    · intro q hq
      rw [g5 q (by rw [f3]; exact hq), record_load_other s o q hq]

theorem count_success_add_failure (outcomes : List Outcome) :
    outcomes.count Outcome.success + outcomes.count Outcome.failure = outcomes.length := by
  induction outcomes with
  | nil => rfl
  | cons o rest ih =>
    cases o
    · rw [List.count_cons_self, List.count_cons_of_ne (by decide), List.length_cons]; omega
    · rw [List.count_cons_self, List.count_cons_of_ne (by decide), List.length_cons]; omega

/-- The state at the end of a window: after a rotation, the recorded outcomes of
the window and a second rotation, the backup bucket holds the counts of the
window, and `active_bucket_` points to the zeroed current bucket. -/
theorem window_backup (s0 : SubchannelState) (hwf : s0.WellFormed) (window : List Outcome)
    (hlen : window.length < 2 ^ 64) :
    let s2 := (s0.RotateBucket.recordAll window).RotateBucket
    s2.WellFormed ∧ s2.active_bucket_ = s2.current_bucket_ ∧
      s2.load s2.current_bucket_ = ⟨0, 0⟩ ∧
      s2.load s2.backup_bucket_ =
        ⟨window.count Outcome.success, window.count Outcome.failure⟩ := by
  intro s2
  have hlen2 := count_success_add_failure window
  obtain ⟨r1, r2, r3, -, -, -⟩ := RotateBucket_fields s0
  have hz := RotateBucket_load_current s0
  have hwf1 := RotateBucket_wellFormed s0 hwf
  have hact : s0.RotateBucket.active_bucket_ = s0.RotateBucket.current_bucket_ := by rw [r3, r1]
  have hz' : s0.RotateBucket.load s0.RotateBucket.active_bucket_ = ⟨0, 0⟩ := by rw [r3]; exact hz
  obtain ⟨g1, g2, g3, g4, -⟩ := recordAll_effect window s0.RotateBucket
    (by rw [hz']; norm_num) (by rw [hz']; norm_num)
  have hwf2 : (s0.RotateBucket.recordAll window).WellFormed := by
    unfold WellFormed; rw [g1, g2]; exact hwf1
  obtain ⟨q1, q2, q3, -, -, -⟩ := RotateBucket_fields (s0.RotateBucket.recordAll window)
  refine ⟨RotateBucket_wellFormed _ hwf2, ?_, ?_, ?_⟩
  · show s2.active_bucket_ = s2.current_bucket_
    rw [q3, q1]
  · show s2.load s2.current_bucket_ = _
    rw [q1]; exact RotateBucket_load_current _
  · show s2.load s2.backup_bucket_ = _
    rw [q2, RotateBucket_load_backup _ hwf2, g1, ← hact, g4, hz']
    simp only [Nat.zero_add]
    rw [Nat.mod_eq_of_lt (by omega), Nat.mod_eq_of_lt (by omega)]

/-- Claim C6: counter isolation across rotations.  Whatever the buckets held before
the first rotation and whatever is recorded after the second one, after
`RotateBucket`, `s` successes and `f` failures recorded in any order, and
`RotateBucket` again, `GetSuccessRateAndVolume` reports exactly the volume `s + f`
and the rate `100 * s / (s + f)` (none when `s + f = 0`); after one further
rotation with no new record it reports none. -/
theorem counter_isolation (s0 : SubchannelState) (hwf : s0.WellFormed)
    (window later : List Outcome) (hlen : window.length < 2 ^ 64) :
    (((s0.RotateBucket.recordAll window).RotateBucket.recordAll later).GetSuccessRateAndVolume =
        if window.count Outcome.success + window.count Outcome.failure = 0 then none
        else some ((100 * (window.count Outcome.success : Nat) : ℚ) /
              ((window.count Outcome.success + window.count Outcome.failure : Nat) : ℚ),
            window.count Outcome.success + window.count Outcome.failure)) ∧
      ((s0.RotateBucket.recordAll window).RotateBucket.RotateBucket).GetSuccessRateAndVolume =
        none := by
  obtain ⟨w1, w2, w3, w4⟩ := window_backup s0 hwf window hlen
  have hlen2 := count_success_add_failure window
  constructor
  · obtain ⟨g1, g2, g3, g4, g5⟩ := recordAll_effect later
      (s0.RotateBucket.recordAll window).RotateBucket
      (by rw [w2, w3]; norm_num) (by rw [w2, w3]; norm_num)
    apply GetSuccessRateAndVolume_eq
    · rw [g2, g5 _ (by rw [w2]; exact w1), w4]
    · omega
  · have hb := RotateBucket_fields (s0.RotateBucket.recordAll window).RotateBucket
    have := GetSuccessRateAndVolume_eq
      ((s0.RotateBucket.recordAll window).RotateBucket.RotateBucket) 0 0
      (by rw [hb.2.1, RotateBucket_load_backup _ w1, w3]) (by norm_num)
    simpa using this

/-- Witness of `counter_isolation`: a window of two successes and one failure,
followed by a success recorded after the second rotation. -/
theorem counter_isolation_witness :
    (((isolationExample.RotateBucket.recordAll
          [Outcome.success, Outcome.failure, Outcome.success]).RotateBucket.recordAll
          [Outcome.success]).GetSuccessRateAndVolume =
        if [Outcome.success, Outcome.failure, Outcome.success].count Outcome.success +
            [Outcome.success, Outcome.failure, Outcome.success].count Outcome.failure = 0 then none
        else some ((100 * ([Outcome.success, Outcome.failure, Outcome.success].count
                Outcome.success : Nat) : ℚ) /
              (([Outcome.success, Outcome.failure, Outcome.success].count Outcome.success +
                [Outcome.success, Outcome.failure, Outcome.success].count Outcome.failure : Nat) : ℚ),
            [Outcome.success, Outcome.failure, Outcome.success].count Outcome.success +
              [Outcome.success, Outcome.failure, Outcome.success].count Outcome.failure)) ∧
      ((isolationExample.RotateBucket.recordAll
          [Outcome.success, Outcome.failure, Outcome.success]).RotateBucket.RotateBucket).GetSuccessRateAndVolume =
        none :=
  counter_isolation isolationExample (by decide)
    [Outcome.success, Outcome.failure, Outcome.success] [Outcome.success] (by decide)

end SubchannelState

/-! ## `WatcherWrapper` -/

namespace WatcherWrapper

theorem run_append_singleton (w : WatcherWrapper) (events : List WatcherEvent) (ev : WatcherEvent) :
    w.run (events ++ [ev]) = (w.run events).step ev := by
  simp [run, List.foldl_append]

theorem run_append (w : WatcherWrapper) (l1 l2 : List WatcherEvent) :
    w.run (l1 ++ l2) = (w.run l1).run l2 := by
  simp [run, List.foldl_append]

/-- What one event does to the log and to the ejected flag: the log grows by the
delivered notifications (at most one), and a notification delivered while the
flag is set is the ejection notification. -/
theorem step_log (w : WatcherWrapper) (ev : WatcherEvent) :
    (w.step ev).watcher_ = w.watcher_ ++ w.delivered ev ∧
      ((w.step ev).ejected_ = true → ∀ n ∈ w.delivered ev, n = ejectedNotification) ∧
      (ev ≠ WatcherEvent.uneject → w.ejected_ = true → (w.step ev).ejected_ = true) := by
  cases ev with
  | stateChange s st =>
    cases hls : w.last_seen_state_ <;> cases hej : w.ejected_ <;>
      simp [delivered, step, OnConnectivityStateChange, hls, hej]
  | eject =>
    cases hls : w.last_seen_state_ <;>
      simp [delivered, step, Eject, hls]
  | uneject =>
    cases hls : w.last_seen_state_ <;>
      simp [delivered, step, Uneject, hls]

theorem delivered_uneject (w : WatcherWrapper) :
    w.delivered WatcherEvent.uneject =
      match w.last_seen_state_ with
      | some s => [(s, w.last_seen_status_)]
      | none => [] := by
  cases hls : w.last_seen_state_ <;> simp [delivered, step, Uneject, hls]

end WatcherWrapper

theorem lastReal_append_singleton (events : List WatcherEvent) (ev : WatcherEvent) :
    lastReal (events ++ [ev]) = lastRealStep (lastReal events) ev := by
  simp [lastReal, List.foldl_append]

theorem lastReal_append_eject (events : List WatcherEvent) (rest : List WatcherEvent) :
    lastReal (events ++ WatcherEvent.eject :: rest) = lastReal (events ++ rest) := by
  simp [lastReal, List.foldl_append, lastRealStep]

namespace WatcherWrapper

/-- The last-seen fields of a wrapper are the last real state of its history. -/
theorem last_seen_eq_lastReal (ejected : Bool) (events : List WatcherEvent) :
    (match ((create ejected).run events).last_seen_state_ with
      | some s => some (s, ((create ejected).run events).last_seen_status_)
      | none => none) = lastReal events := by
  induction events using List.reverseRecOn with
  | nil => rfl
  | append_singleton l ev ih =>
    rw [run_append_singleton, lastReal_append_singleton, ← ih]
    cases ev with
    | stateChange s st =>
      cases hls : ((create ejected).run l).last_seen_state_ <;>
        cases hej : ((create ejected).run l).ejected_ <;>
        simp [step, OnConnectivityStateChange, hls, hej, lastRealStep]
    | eject =>
      cases hls : ((create ejected).run l).last_seen_state_ <;>
        simp [step, Eject, hls, lastRealStep]
    | uneject =>
      cases hls : ((create ejected).run l).last_seen_state_ <;>
        simp [step, Uneject, hls, lastRealStep]

/-- After `Eject`, as long as no `Uneject` arrives, the wrapper stays ejected and
everything it delivers is the ejection notification. -/
theorem run_while_ejected (during : List WatcherEvent) :
    ∀ w : WatcherWrapper, w.ejected_ = true →
      (∀ e ∈ during, e ≠ WatcherEvent.uneject) →
      (w.run during).ejected_ = true ∧
        ∃ l, (w.run during).watcher_ = w.watcher_ ++ l ∧ ∀ n ∈ l, n = ejectedNotification := by
  induction during with
  | nil => intro w hw _; exact ⟨hw, [], by simp [run], by simp⟩
  | cons ev rest ih =>
    intro w hw hne
    obtain ⟨h1, h2, h3⟩ := step_log w ev
    have hev : ev ≠ WatcherEvent.uneject := hne ev (List.mem_cons_self _ _)
    have hw1 : (w.step ev).ejected_ = true := h3 hev hw
    obtain ⟨i1, l, i2, i3⟩ := ih (w.step ev) hw1
      (fun e he => hne e (List.mem_cons_of_mem _ he))
    refine ⟨i1, w.delivered ev ++ l, ?_, ?_⟩
    · show ((w.step ev).run rest).watcher_ = _
      rw [i2, h1, List.append_assoc]
    · intro n hn
      rcases List.mem_append.mp hn with hn | hn
      · exact h2 hw1 n hn
      · exact i3 n hn

/-- Claim C7: upstream masking while ejected.  For every watcher wrapper and every
sequence of events, a notification delivered at a moment when the ejected flag is
set is `TRANSIENT_FAILURE` with the status message "subchannel ejected by outlier
detection"; and from an `Eject` until the next `Uneject` every delivered
notification is that one, so no real state is delivered in between. -/
theorem ejected_masks_notifications (w0 : WatcherWrapper) (pre : List WatcherEvent)
    (ev : WatcherEvent) (during : List WatcherEvent)
    (hflag : ((w0.run pre).step ev).ejected_ = true)
    (hduring : ∀ e ∈ during, e ≠ WatcherEvent.uneject) :
    (∀ n ∈ (w0.run pre).delivered ev,
        n.1 = ConnectivityState.GRPC_CHANNEL_TRANSIENT_FAILURE ∧
          n.2 = UnavailableError "subchannel ejected by outlier detection" ∧
          n.2.message = "subchannel ejected by outlier detection") ∧
      ∀ n ∈ (((w0.run pre).step WatcherEvent.eject).run during).watcher_.drop
          (w0.run pre).watcher_.length,
        n = (ConnectivityState.GRPC_CHANNEL_TRANSIENT_FAILURE,
          UnavailableError "subchannel ejected by outlier detection") := by
  constructor
  · intro n hn
    have := (step_log (w0.run pre) ev).2.1 hflag n hn
    subst this
    exact ⟨rfl, rfl, rfl⟩
  · intro n hn
    obtain ⟨h1, h2, -⟩ := step_log (w0.run pre) WatcherEvent.eject
    have hej : ((w0.run pre).step WatcherEvent.eject).ejected_ = true := by
      cases hls : (w0.run pre).last_seen_state_ <;> simp [step, Eject, hls]
    obtain ⟨-, l, i2, i3⟩ := run_while_ejected during _ hej hduring
    rw [i2, h1, List.append_assoc, List.drop_left] at hn
    rcases List.mem_append.mp hn with hn | hn
    · exact h2 hej n hn
    · exact i3 n hn

/-- Witness of `ejected_masks_notifications`: a wrapper that saw `READY`, is
ejected, and then sees `IDLE` and `CONNECTING` while ejected. -/
theorem ejected_masks_notifications_witness :
    (∀ n ∈ ((create false).run
          [WatcherEvent.stateChange ConnectivityState.GRPC_CHANNEL_READY Status.Ok]).delivered
          WatcherEvent.eject,
        n.1 = ConnectivityState.GRPC_CHANNEL_TRANSIENT_FAILURE ∧
          n.2 = UnavailableError "subchannel ejected by outlier detection" ∧
          n.2.message = "subchannel ejected by outlier detection") ∧
      ∀ n ∈ ((((create false).run
            [WatcherEvent.stateChange ConnectivityState.GRPC_CHANNEL_READY Status.Ok]).step
            WatcherEvent.eject).run
            [WatcherEvent.stateChange ConnectivityState.GRPC_CHANNEL_IDLE Status.Ok,
              WatcherEvent.stateChange ConnectivityState.GRPC_CHANNEL_CONNECTING
                Status.Ok]).watcher_.drop
          ((create false).run
            [WatcherEvent.stateChange ConnectivityState.GRPC_CHANNEL_READY
              Status.Ok]).watcher_.length,
        n = (ConnectivityState.GRPC_CHANNEL_TRANSIENT_FAILURE,
          UnavailableError "subchannel ejected by outlier detection") :=
  ejected_masks_notifications (create false)
    [WatcherEvent.stateChange ConnectivityState.GRPC_CHANNEL_READY Status.Ok]
    WatcherEvent.eject
    [WatcherEvent.stateChange ConnectivityState.GRPC_CHANNEL_IDLE Status.Ok,
      WatcherEvent.stateChange ConnectivityState.GRPC_CHANNEL_CONNECTING Status.Ok]
    (by decide) (by decide)

/-- Claim C8: un-eject restores the real state.  For a wrapper with any history
`pre`, after `Eject`, any number of real state changes and then `Uneject`, the
call of `Uneject` delivers exactly the last real `(state, status)` received from
the underlying subchannel, before or during the ejection, and delivers nothing
when no real state was ever received. -/
theorem uneject_restores_last_real (ejected : Bool) (pre : List WatcherEvent)
    (changes : List Notification) :
    ((((create ejected).run pre).step WatcherEvent.eject).run
        (changes.map (fun c => WatcherEvent.stateChange c.1 c.2))).delivered
        WatcherEvent.uneject =
      (lastReal (pre ++ changes.map (fun c => WatcherEvent.stateChange c.1 c.2))).toList := by
  have hrun : (((create ejected).run pre).step WatcherEvent.eject).run
        (changes.map (fun c => WatcherEvent.stateChange c.1 c.2)) =
      (create ejected).run (pre ++ WatcherEvent.eject ::
        changes.map (fun c => WatcherEvent.stateChange c.1 c.2)) := by
    simp [run, List.foldl_append]
  rw [hrun, delivered_uneject, ← lastReal_append_eject, ← last_seen_eq_lastReal ejected]
  cases ((create ejected).run (pre ++ WatcherEvent.eject ::
      changes.map (fun c => WatcherEvent.stateChange c.1 c.2))).last_seen_state_ <;> rfl

end WatcherWrapper

/-! ## The evaluator -/

theorem addrs_ejectAt (m : StateMap) (p : Nat) (t : Int) : addrs (ejectAt m p t) = addrs m := by
  induction m with
  | nil => rfl
  | cons e rest ih =>
    simp only [addrs, ejectAt, List.map_cons] at ih ⊢
    rw [ih]
    by_cases h : e.addr = p <;> simp [h]

theorem length_ejectAt (m : StateMap) (p : Nat) (t : Int) : (ejectAt m p t).length = m.length := by
  simp [ejectAt]

theorem numEjected_cons (e : MapEntry) (m : StateMap) :
    numEjected (e :: m) = numEjected m + if e.state.ejection_time_.isSome then 1 else 0 := by
  simp [numEjected, List.countP_cons]

theorem numEjected_le_length (m : StateMap) : numEjected m ≤ m.length :=
  List.countP_le_length _

theorem ejectAt_of_not_mem (m : StateMap) (p : Nat) (t : Int) (h : p ∉ addrs m) :
    ejectAt m p t = m := by
  induction m with
  | nil => rfl
  | cons e rest ih =>
    simp only [addrs, List.map_cons, List.mem_cons, not_or] at h
    have h1 : ¬ e.addr = p := fun hc => h.1 hc.symm
    simp only [ejectAt, List.map_cons, h1, if_false]
    congr 1
    exact ih h.2

/-- Ejecting the state at one address ejects at most one more entry of a map whose
states are distinct objects. -/
theorem numEjected_ejectAt_le (m : StateMap) (p : Nat) (t : Int) (hnd : (addrs m).Nodup) :
    numEjected (ejectAt m p t) ≤ numEjected m + 1 := by
  induction m with
  | nil => simp [ejectAt, numEjected]
  | cons e rest ih =>
    simp only [addrs, List.map_cons, List.nodup_cons] at hnd
    by_cases h : e.addr = p
    · have hrest : ejectAt rest p t = rest := ejectAt_of_not_mem rest p t (h ▸ hnd.1)
      have : ejectAt (e :: rest) p t = { e with state := e.state.Eject t } :: rest := by
        simp only [ejectAt, List.map_cons, h, if_true]
        congr 1
      rw [this, numEjected_cons, numEjected_cons]
      simp only [SubchannelState.Eject, Option.isSome_some, if_true]
      split <;> omega
    · have : ejectAt (e :: rest) p t = e :: ejectAt rest p t := by
        simp only [ejectAt, List.map_cons, h, if_false]
      rw [this, numEjected_cons, numEjected_cons]
      have := ih hnd.2
      omega

/-- Ejecting a state of the map that is not yet ejected ejects exactly one more
entry. -/
theorem numEjected_ejectAt_eq (m : StateMap) (p : Nat) (t : Int) (hnd : (addrs m).Nodup)
    (hp : p ∈ addrs m) (hne : isEjectedAt m p = false) :
    numEjected (ejectAt m p t) = numEjected m + 1 := by
  induction m with
  | nil => simp [addrs] at hp
  | cons e rest ih =>
    simp only [addrs, List.map_cons, List.nodup_cons] at hnd
    by_cases h : e.addr = p
    · have hrest : ejectAt rest p t = rest := ejectAt_of_not_mem rest p t (h ▸ hnd.1)
      have : ejectAt (e :: rest) p t = { e with state := e.state.Eject t } :: rest := by
        simp only [ejectAt, List.map_cons, h, if_true]
        congr 1
      rw [this, numEjected_cons, numEjected_cons]
      have he : e.state.ejection_time_.isSome = false := by
        simp only [isEjectedAt, List.any_cons, h, decide_True, Bool.true_and,
          Bool.or_eq_false_iff] at hne
        exact hne.1
      simp [SubchannelState.Eject, he]
    · have : ejectAt (e :: rest) p t = e :: ejectAt rest p t := by
        simp only [ejectAt, List.map_cons, h, if_false]
      rw [this, numEjected_cons, numEjected_cons]
      have hp' : p ∈ addrs rest := by
        simp only [addrs, List.map_cons, List.mem_cons] at hp
        rcases hp with hp | hp
        · exact absurd hp.symm h
        · exact hp
      have hne' : isEjectedAt rest p = false := by
        simp only [isEjectedAt, List.any_cons, Bool.or_eq_false_iff] at hne
        exact hne.2
      rw [ih hnd.2 hp' hne']
      omega

theorem isEjectedAt_ejectAt_of_ne (m : StateMap) (p q : Nat) (t : Int) (h : q ≠ p) :
    isEjectedAt (ejectAt m p t) q = isEjectedAt m q := by
  induction m with
  | nil => rfl
  | cons e rest ih =>
    simp only [isEjectedAt, ejectAt, List.map_cons, List.any_cons] at ih ⊢
    rw [ih]
    by_cases he : e.addr = p
    · have : ¬ e.addr = q := fun hc => h (hc.symm.trans he)
      simp [he, this, h.symm]
    · simp [he]

/-- The cap check of `enforce` bounds the count that follows an ejection. -/
theorem enforce_le_capBound (pct e r c n : Nat) (hn : 1 ≤ n) (h : enforce pct e r c n = true) :
    c + 1 ≤ capBound pct n := by
  simp only [enforce, decide_eq_true_eq] at h
  unfold capBound
  rcases h.2 with h0 | hlt
  · subst h0; exact le_max_left _ _
  · have hnq : (0 : ℚ) < (n : ℚ) := by exact_mod_cast hn
    rw [div_lt_iff₀ hnq] at hlt
    have hlt' : 100 * c < pct * n := by exact_mod_cast hlt
    apply le_trans _ (le_max_right _ _)
    rw [Nat.le_div_iff_mul_le (by norm_num)]
    omega

/-! ### The ejection loops never exceed the cap -/

theorem CapInv_eject (pct e r size bound : Nat) (L : EjectLoop) (p : Nat) (t : Int)
    (hsize : 1 ≤ size) (hbound : capBound pct size ≤ bound) (hL : CapInv size bound L)
    (henf : enforce pct e r L.ejected_host_count L.map.length = true) :
    CapInv size bound
      { map := ejectAt L.map p t, ejected_host_count := L.ejected_host_count + 1,
        draws := L.draws + 1 } := by
  obtain ⟨h1, h2, h3, h4⟩ := hL
  refine ⟨?_, ?_, ?_, ?_⟩
  · simpa only [addrs_ejectAt] using h1
  · simpa only [length_ejectAt] using h2
  · have := numEjected_ejectAt_le L.map p t h1
    show numEjected (ejectAt L.map p t) ≤ L.ejected_host_count + 1
    omega
  · rw [h2] at henf
    exact le_trans (enforce_le_capBound pct e r _ size hsize henf) hbound

theorem successRateStep_CapInv (config : OutlierDetectionConfig) (sr : SuccessRateEjection)
    (mean variance : ℚ) (dice : Nat → Nat) (t : Int) (size bound : Nat) (hsize : 1 ≤ size)
    (hbound : capBound config.max_ejection_percent size ≤ bound)
    (L : EjectLoop) (c : Nat × ℚ) (hL : CapInv size bound L) :
    CapInv size bound (successRateStep config sr mean variance dice t L c) := by
  unfold successRateStep
  simp only
  split
  · split
    · next henf => exact CapInv_eject _ _ _ _ _ L c.1 t hsize hbound hL henf
    · exact hL
  · exact hL

theorem failurePercentageStep_CapInv (config : OutlierDetectionConfig)
    (fp : FailurePercentageEjection) (dice : Nat → Nat) (t : Int) (size bound : Nat)
    (hsize : 1 ≤ size) (hbound : capBound config.max_ejection_percent size ≤ bound)
    (L : EjectLoop) (c : Nat × ℚ) (hL : CapInv size bound L) :
    CapInv size bound (failurePercentageStep config fp dice t L c) := by
  unfold failurePercentageStep
  simp only
  split
  · exact hL
  · split
    · split
      · next henf => exact CapInv_eject _ _ _ _ _ L c.1 t hsize hbound hL henf
      · exact hL
    · exact hL

theorem foldl_invariant {α β : Type} (P : β → Prop) (f : β → α → β)
    (hf : ∀ b a, P b → P (f b a)) (l : List α) : ∀ b, P b → P (l.foldl f b) := by
  induction l with
  | nil => intro b hb; exact hb
  | cons a rest ih => intro b hb; exact ih (f b a) (hf b a hb)

theorem successRateAlgorithm_CapInv (config : OutlierDetectionConfig) (dice : Nat → Nat)
    (t : Int) (g : Gather) (size bound : Nat) (hsize : 1 ≤ size)
    (hbound : capBound config.max_ejection_percent size ≤ bound)
    (L : EjectLoop) (hL : CapInv size bound L) :
    CapInv size bound (successRateAlgorithm config dice t g L) := by
  unfold successRateAlgorithm
  split
  · exact hL
  · simp only
    split
    · exact foldl_invariant (CapInv size bound) _
        (fun b a hb => successRateStep_CapInv config _ _ _ dice t size bound hsize hbound b a hb)
        _ L hL
    · exact hL

theorem failurePercentageAlgorithm_CapInv (config : OutlierDetectionConfig) (dice : Nat → Nat)
    (t : Int) (g : Gather) (size bound : Nat) (hsize : 1 ≤ size)
    (hbound : capBound config.max_ejection_percent size ≤ bound)
    (L : EjectLoop) (hL : CapInv size bound L) :
    CapInv size bound (failurePercentageAlgorithm config dice t g L) := by
  unfold failurePercentageAlgorithm
  split
  · exact hL
  · simp only
    split
    · exact foldl_invariant (CapInv size bound) _
        (fun b a hb => failurePercentageStep_CapInv config _ dice t size bound hsize hbound b a hb)
        _ L hL
    · exact hL

/-! ### The first and the last loop -/

theorem gatherStep_snd (config : OutlierDetectionConfig) (g : Gather) (e : MapEntry) :
    (gatherStep config g e).2 = rotateEntry e := by
  unfold gatherStep
  simp only
  split <;> rfl

theorem gatherStep_count (config : OutlierDetectionConfig) (g : Gather) (e : MapEntry) :
    (gatherStep config g e).1.ejected_host_count =
      g.ejected_host_count + if e.state.ejection_time_.isSome then 1 else 0 := by
  have hr : e.state.RotateBucket.ejection_time_ = e.state.ejection_time_ :=
    (SubchannelState.RotateBucket_fields e.state).2.2.2.2.1
  unfold gatherStep
  simp only [hr]
  split
  · split <;> rfl
  · split <;> split <;> split <;> (try split) <;> (try split) <;> rfl

theorem gatherLoop_snd (config : OutlierDetectionConfig) (m : StateMap) :
    ∀ g, (gatherLoop config m g).2 = m.map rotateEntry := by
  induction m with
  | nil => intro g; rfl
  | cons e rest ih =>
    intro g
    simp only [gatherLoop, List.map_cons, gatherStep_snd, ih]

theorem gatherLoop_count (config : OutlierDetectionConfig) (m : StateMap) :
    ∀ g, (gatherLoop config m g).1.ejected_host_count = g.ejected_host_count + numEjected m := by
  induction m with
  | nil => intro g; simp [gatherLoop, numEjected]
  | cons e rest ih =>
    intro g
    simp only [gatherLoop, ih, gatherStep_count, numEjected_cons]
    omega

theorem addrs_map_rotateEntry (m : StateMap) : addrs (m.map rotateEntry) = addrs m := by
  simp [addrs, rotateEntry, List.map_map, Function.comp_def]

theorem numEjected_map_rotateEntry (m : StateMap) : numEjected (m.map rotateEntry) = numEjected m := by
  induction m with
  | nil => rfl
  | cons e rest ih =>
    rw [List.map_cons, numEjected_cons, numEjected_cons, ih]
    have hr : e.state.RotateBucket.ejection_time_ = e.state.ejection_time_ :=
      (SubchannelState.RotateBucket_fields e.state).2.2.2.2.1
    simp only [rotateEntry, hr]

theorem MaybeUneject_isSome_imp (s : SubchannelState) (base mx : Nat) (now : Int)
    (h : (s.MaybeUneject base mx now).ejection_time_.isSome = true) :
    s.ejection_time_.isSome = true := by
  unfold SubchannelState.MaybeUneject at h
  cases hej : s.ejection_time_ with
  | some t => rfl
  | none =>
    simp only [hej] at h
    split at h <;> simp [hej] at h

theorem numEjected_unejectLoop_le (config : OutlierDetectionConfig) (now : Int) (m : StateMap) :
    numEjected (unejectLoop config now m) ≤ numEjected m := by
  induction m with
  | nil => simp [unejectLoop, numEjected]
  | cons e rest ih =>
    have hc : unejectLoop config now (e :: rest) =
        unejectEntry config now e :: unejectLoop config now rest := rfl
    rw [hc, numEjected_cons, numEjected_cons]
    have := MaybeUneject_isSome_imp e.state (toUInt64 config.base_ejection_time)
      (toUInt64 config.max_ejection_time) now
    simp only [unejectEntry]
    split
    · next h => rw [if_pos (this h)]; omega
    · split <;> omega

theorem successRateAlgorithm_of_nil (config : OutlierDetectionConfig) (dice : Nat → Nat)
    (t : Int) (g : Gather) (L : EjectLoop) (h : g.success_rate_ejection_candidates = []) :
    successRateAlgorithm config dice t g L = L := by
  unfold successRateAlgorithm
  split
  · rfl
  · simp [h]

theorem failurePercentageAlgorithm_of_nil (config : OutlierDetectionConfig) (dice : Nat → Nat)
    (t : Int) (g : Gather) (L : EjectLoop) (h : g.failure_percentage_ejection_candidates = []) :
    failurePercentageAlgorithm config dice t g L = L := by
  unfold failurePercentageAlgorithm
  split
  · rfl
  · simp [h]

theorem OnTimerLockedMap_nil (config : OutlierDetectionConfig) (dice : Nat → Nat) (now : Int) :
    OnTimerLockedMap config dice now [] = [] := by
  unfold OnTimerLockedMap
  simp only [gatherLoop]
  rw [successRateAlgorithm_of_nil _ _ _ _ _ rfl, failurePercentageAlgorithm_of_nil _ _ _ _ _ rfl]
  rfl

/-- The cap on ejections: a firing leaves at most
`max(c0, 1, ceil(max_ejection_percent * N / 100))` entries ejected, where `c0` is
the number of entries ejected when it starts and `N` the size of the map. -/
theorem numEjected_OnTimerLockedMap_le (config : OutlierDetectionConfig) (dice : Nat → Nat)
    (now : Int) (m : StateMap) (hnd : (addrs m).Nodup) :
    numEjected (OnTimerLockedMap config dice now m) ≤
      max (numEjected m) (capBound config.max_ejection_percent m.length) := by
  cases m with
  | nil => rw [OnTimerLockedMap_nil]; exact Nat.zero_le _
  | cons e rest =>
    unfold OnTimerLockedMap
    simp only
    refine le_trans (numEjected_unejectLoop_le config now _) ?_
    set m := e :: rest with hm
    have hL0 : CapInv m.length (max (numEjected m) (capBound config.max_ejection_percent m.length))
        { map := (gatherLoop config m Gather.init).2,
          ejected_host_count := (gatherLoop config m Gather.init).1.ejected_host_count,
          draws := 0 } := by
      refine ⟨?_, ?_, ?_, ?_⟩
      · simpa only [gatherLoop_snd, addrs_map_rotateEntry] using hnd
      · simp only [gatherLoop_snd, List.length_map]
      · simp only [gatherLoop_snd, gatherLoop_count, numEjected_map_rotateEntry, Gather.init]
        omega
      · simp only [gatherLoop_count, Gather.init]
        rw [Nat.zero_add]
        exact le_max_left _ _
    have hsize : 1 ≤ m.length := by simp [hm]
    have h1 := successRateAlgorithm_CapInv config dice now (gatherLoop config m Gather.init).1
      m.length _ hsize (le_max_right _ _) _ hL0
    have h2 := failurePercentageAlgorithm_CapInv config dice now
      (gatherLoop config m Gather.init).1 m.length _ hsize (le_max_right _ _) _ h1
    exact le_trans h2.2.2.1 h2.2.2.2

/-! ### The candidates gathered by the first loop -/

theorem gatherStep_candidates (config : OutlierDetectionConfig) (g : Gather) (e : MapEntry) :
    (gatherStep config g e).1.success_rate_ejection_candidates =
        insertCandidate (srCandidate config e) g.success_rate_ejection_candidates ∧
      (gatherStep config g e).1.success_rate_sum =
        g.success_rate_sum + candidateRate (srCandidate config e) ∧
      (gatherStep config g e).1.failure_percentage_ejection_candidates =
        insertCandidate (fpCandidate config e) g.failure_percentage_ejection_candidates := by
  unfold gatherStep srCandidate fpCandidate
  by_cases hej : e.state.RotateBucket.ejection_time_.isSome = true <;>
    cases hv : e.state.RotateBucket.GetSuccessRateAndVolume <;>
    cases hsr : config.success_rate_ejection <;>
    cases hfp : config.failure_percentage_ejection <;>
    simp only [insertCandidate, candidateRate, add_zero, hej, hv, hsr, hfp, if_true, if_false,
      Bool.false_eq_true] <;>
    (try split_ifs) <;> (try simp only [and_self, add_zero, insertCandidate, candidateRate])

theorem srCandidate_addr (config : OutlierDetectionConfig) (e : MapEntry) (x : Nat × ℚ)
    (h : srCandidate config e = some x) : x.1 = e.addr := by
  unfold srCandidate at h
  split at h
  · split at h
    · cases h; rfl
    · cases h
  · cases h

theorem fpCandidate_addr (config : OutlierDetectionConfig) (e : MapEntry) (x : Nat × ℚ)
    (h : fpCandidate config e = some x) : x.1 = e.addr := by
  unfold fpCandidate at h
  split at h
  · split at h
    · cases h; rfl
    · cases h
  · cases h

theorem candInsert_perm (p : Nat) (v : ℚ) (l : List (Nat × ℚ)) (h : p ∉ l.map Prod.fst) :
    (candInsert p v l).Perm ((p, v) :: l) := by
  induction l with
  | nil => exact List.Perm.refl _
  | cons c rest ih =>
    simp only [List.map_cons, List.mem_cons, not_or] at h
    unfold candInsert
    by_cases h1 : p < c.1
    · rw [if_pos h1]
    · rw [if_neg h1, if_neg h.1]
      exact ((ih h.2).cons c).trans (List.Perm.swap _ _ _)

theorem insertCandidate_perm (c : Option (Nat × ℚ)) (l : List (Nat × ℚ))
    (h : ∀ x, c = some x → x.1 ∉ l.map Prod.fst) :
    (insertCandidate c l).Perm (c.toList ++ l) := by
  cases c with
  | none => exact List.Perm.refl _
  | some x => exact candInsert_perm x.1 x.2 l (h x rfl)

/-- The candidates recorded by the first loop through one of its two candidate
maps are, up to order, the candidates of the entries of the map. -/
theorem gatherLoop_perm (config : OutlierDetectionConfig) (cand : MapEntry → Option (Nat × ℚ))
    (proj : Gather → List (Nat × ℚ))
    (hstep : ∀ g e, proj (gatherStep config g e).1 = insertCandidate (cand e) (proj g))
    (hcand : ∀ e x, cand e = some x → x.1 = e.addr) (m : StateMap) :
    ∀ g, (addrs m).Nodup → (∀ c ∈ proj g, c.1 ∉ addrs m) →
      (proj (gatherLoop config m g).1).Perm (proj g ++ m.filterMap cand) := by
  induction m with
  | nil => intro g _ _; simp [gatherLoop]
  | cons e rest ih =>
    intro g hnd hg
    simp only [addrs, List.map_cons, List.nodup_cons] at hnd
    have hins : (proj (gatherStep config g e).1).Perm ((cand e).toList ++ proj g) := by
      rw [hstep]
      apply insertCandidate_perm
      intro x hx hmem
      obtain ⟨c, hc, hc1⟩ := List.mem_map.mp hmem
      apply hg c hc
      rw [hc1, hcand e x hx]
      simp [addrs]
    have hg1 : ∀ c ∈ proj (gatherStep config g e).1, c.1 ∉ addrs rest := by
      intro c hc
      rcases List.mem_append.mp (hins.mem_iff.mp hc) with h1 | h1
      · have hx : cand e = some c := by
          cases hce : cand e with
          | none => simp [hce] at h1
          | some x => simp only [hce, Option.toList, List.mem_singleton] at h1; rw [h1]
        rw [hcand e c hx]
        exact hnd.1
      · intro hmem
        exact hg c h1 (by simp only [addrs, List.map_cons]; exact List.mem_cons_of_mem _ hmem)
    have := ih (gatherStep config g e).1 hnd.2 hg1
    show (proj (gatherLoop config rest (gatherStep config g e).1).1).Perm _
    refine this.trans ?_
    refine (List.Perm.append_right _ hins).trans ?_
    cases hce : cand e with
    | none => simp [List.filterMap_cons, hce]
    | some x =>
      simp only [List.filterMap_cons, hce, Option.toList, List.singleton_append, List.cons_append]
      exact List.perm_middle.symm

theorem gatherLoop_sum (config : OutlierDetectionConfig) (m : StateMap) :
    ∀ g, (gatherLoop config m g).1.success_rate_sum =
      g.success_rate_sum + ((m.filterMap (srCandidate config)).map Prod.snd).sum := by
  induction m with
  | nil => intro g; simp [gatherLoop]
  | cons e rest ih =>
    intro g
    show (gatherLoop config rest (gatherStep config g e).1).1.success_rate_sum = _
    rw [ih, (gatherStep_candidates config g e).2.1]
    cases hce : srCandidate config e with
    | none => simp [List.filterMap_cons, hce, candidateRate]
    | some x => simp [List.filterMap_cons, hce, candidateRate, add_assoc]

/-- The success rate candidates of a firing: up to order, the candidates of the
entries of the map; their sum is `success_rate_sum`. -/
theorem gather_success_rate (config : OutlierDetectionConfig) (m : StateMap)
    (hnd : (addrs m).Nodup) :
    ((gatherLoop config m Gather.init).1.success_rate_ejection_candidates).Perm
        (m.filterMap (srCandidate config)) ∧
      (gatherLoop config m Gather.init).1.success_rate_sum =
        ((m.filterMap (srCandidate config)).map Prod.snd).sum := by
  constructor
  · have := gatherLoop_perm config (srCandidate config)
      (fun g => g.success_rate_ejection_candidates)
      (fun g e => (gatherStep_candidates config g e).1) (srCandidate_addr config) m
      Gather.init hnd (by simp [Gather.init])
    simpa [Gather.init] using this
  · rw [gatherLoop_sum]; simp [Gather.init]

/-- The failure percentage candidates of a firing: up to order, the candidates of
the entries of the map. -/
theorem gather_failure_percentage (config : OutlierDetectionConfig) (m : StateMap)
    (hnd : (addrs m).Nodup) :
    ((gatherLoop config m Gather.init).1.failure_percentage_ejection_candidates).Perm
      (m.filterMap (fpCandidate config)) := by
  have := gatherLoop_perm config (fpCandidate config)
    (fun g => g.failure_percentage_ejection_candidates)
    (fun g e => (gatherStep_candidates config g e).2.2) (fpCandidate_addr config) m
    Gather.init hnd (by simp [Gather.init])
  simpa [Gather.init] using this

/-! ### Steps of the ejection loops -/

theorem enforce_iff (pct e r c n : Nat) (hn : 1 ≤ n) :
    enforce pct e r c n = true ↔ r < e ∧ (c = 0 ∨ 100 * c < pct * n) := by
  have hnq : (0 : ℚ) < (n : ℚ) := by exact_mod_cast hn
  simp only [enforce, decide_eq_true_eq, div_lt_iff₀ hnq]
  constructor
  · rintro ⟨h1, h2⟩
    refine ⟨h1, h2.imp id fun h => ?_⟩
    exact_mod_cast h
  · rintro ⟨h1, h2⟩
    refine ⟨h1, h2.imp id fun h => ?_⟩
    exact_mod_cast h

theorem successRateStep_skip (config : OutlierDetectionConfig) (sr : SuccessRateEjection)
    (mean variance : ℚ) (dice : Nat → Nat) (t : Int) (L : EjectLoop) (c : Nat × ℚ)
    (h : belowThreshold c.2 mean variance ((sr.stdev_factor : ℚ) / 1000) = false) :
    successRateStep config sr mean variance dice t L c = L := by
  unfold successRateStep
  simp only [h, Bool.false_eq_true, if_false]

theorem successRateStep_eject (config : OutlierDetectionConfig) (sr : SuccessRateEjection)
    (mean variance : ℚ) (dice : Nat → Nat) (t : Int) (L : EjectLoop) (c : Nat × ℚ)
    (h : belowThreshold c.2 mean variance ((sr.stdev_factor : ℚ) / 1000) = true)
    (henf : enforce config.max_ejection_percent sr.enforcement_percentage (dice L.draws)
      L.ejected_host_count L.map.length = true) :
    successRateStep config sr mean variance dice t L c =
      { map := ejectAt L.map c.1 t, ejected_host_count := L.ejected_host_count + 1,
        draws := L.draws + 1 } := by
  unfold successRateStep
  simp only [h, henf, if_true]

theorem successRateLoop_skip (config : OutlierDetectionConfig) (sr : SuccessRateEjection)
    (mean variance : ℚ) (dice : Nat → Nat) (t : Int) (l : List (Nat × ℚ)) :
    ∀ L : EjectLoop,
      (∀ c ∈ l, belowThreshold c.2 mean variance ((sr.stdev_factor : ℚ) / 1000) = false) →
      l.foldl (successRateStep config sr mean variance dice t) L = L := by
  induction l with
  | nil => intro L _; rfl
  | cons c rest ih =>
    intro L h
    rw [List.foldl_cons, successRateStep_skip _ _ _ _ _ _ _ _ (h c (List.mem_cons_self _ _))]
    exact ih L (fun c hc => h c (List.mem_cons_of_mem _ hc))

theorem failurePercentageStep_eject (config : OutlierDetectionConfig)
    (fp : FailurePercentageEjection) (dice : Nat → Nat) (t : Int) (L : EjectLoop) (c : Nat × ℚ)
    (hne : isEjectedAt L.map c.1 = false) (hthr : (100 - c.2) > (fp.threshold : ℚ))
    (henf : enforce config.max_ejection_percent fp.enforcement_percentage (dice L.draws)
      L.ejected_host_count L.map.length = true) :
    failurePercentageStep config fp dice t L c =
      { map := ejectAt L.map c.1 t, ejected_host_count := L.ejected_host_count + 1,
        draws := L.draws + 1 } := by
  unfold failurePercentageStep
  simp only [hne, hthr, henf, if_true, Bool.false_eq_true, if_false]

/-- Once the cap is reached the failure percentage loop ejects nobody. -/
theorem failurePercentageLoop_blocked (config : OutlierDetectionConfig)
    (fp : FailurePercentageEjection) (dice : Nat → Nat) (t : Int) (l : List (Nat × ℚ)) :
    ∀ L : EjectLoop, 1 ≤ L.map.length → L.ejected_host_count ≠ 0 →
      ¬ 100 * L.ejected_host_count < config.max_ejection_percent * L.map.length →
      (l.foldl (failurePercentageStep config fp dice t) L).map = L.map ∧
        (l.foldl (failurePercentageStep config fp dice t) L).ejected_host_count =
          L.ejected_host_count := by
  induction l with
  | nil => intro L _ _ _; exact ⟨rfl, rfl⟩
  | cons c rest ih =>
    intro L hn h0 hcap
    have hstep : (failurePercentageStep config fp dice t L c).map = L.map ∧
        (failurePercentageStep config fp dice t L c).ejected_host_count =
          L.ejected_host_count := by
      have henf : ∀ r, enforce config.max_ejection_percent fp.enforcement_percentage r
          L.ejected_host_count L.map.length = false := by
        intro r
        rw [Bool.eq_false_iff]
        intro hc
        rcases ((enforce_iff _ _ _ _ _ hn).mp hc).2 with h | h
        · exact h0 h
        · exact hcap h
      unfold failurePercentageStep
      simp only [henf, Bool.false_eq_true, if_false]
      split
      · exact ⟨rfl, rfl⟩
      · split <;> exact ⟨rfl, rfl⟩
    rw [List.foldl_cons]
    obtain ⟨i1, i2⟩ := ih (failurePercentageStep config fp dice t L c)
      (by rw [hstep.1]; exact hn) (by rw [hstep.2]; exact h0)
      (by rw [hstep.1, hstep.2]; exact hcap)
    exact ⟨i1.trans hstep.1, i2.trans hstep.2⟩

/-! ### The last loop on freshly ejected endpoints -/

theorem toUInt64_lt (x : Int) (h0 : 0 ≤ x) (h1 : x < 2 ^ 63) : toUInt64 x < 2 ^ 63 := by
  unfold toUInt64
  have : x % 2 ^ 64 = x := Int.emod_eq_of_lt h0 (by omega)
  rw [this]
  omega

theorem toUInt64_of_nonneg (x : Int) (h0 : 0 ≤ x) (h1 : x < 2 ^ 63) :
    toUInt64 x = x.toNat := by
  unfold toUInt64
  have : x % 2 ^ 64 = x := Int.emod_eq_of_lt h0 (by omega)
  rw [this]

/-- An endpoint ejected at `now` is not un-ejected by `MaybeUneject` at the same
`now`, for base and maximum ejection times that are not negative. -/
theorem MaybeUneject_fresh (s : SubchannelState) (base mx : Nat) (now : Int)
    (h : s.ejection_time_ = some now) (hb : base < 2 ^ 63) (hm : mx < 2 ^ 63) :
    s.MaybeUneject base mx now = s := by
  have h2 : min (base * s.multiplier_ % 2 ^ 64) (max base mx) < 2 ^ 63 :=
    lt_of_le_of_lt (Nat.min_le_right _ _) (max_lt hb hm)
  unfold SubchannelState.MaybeUneject
  simp only [h, SubchannelState.toInt64_of_lt _ h2, SubchannelState.timestampAdd]
  rw [if_neg]
  omega

theorem MaybeUneject_of_not_ejected (s : SubchannelState) (base mx : Nat) (now : Int)
    (h : s.ejection_time_ = none) :
    (s.MaybeUneject base mx now).ejection_time_ = none ∧
      (s.MaybeUneject base mx now).multiplier_ = s.multiplier_ - 1 := by
  unfold SubchannelState.MaybeUneject
  simp only [h]
  split
  · exact ⟨rfl, rfl⟩
  · exact ⟨h, by omega⟩

theorem numEjected_unejectLoop_eq (config : OutlierDetectionConfig) (now : Int) (m : StateMap)
    (hb : toUInt64 config.base_ejection_time < 2 ^ 63)
    (hm : toUInt64 config.max_ejection_time < 2 ^ 63)
    (h : ∀ e ∈ m, e.state.ejection_time_ = none ∨ e.state.ejection_time_ = some now) :
    numEjected (unejectLoop config now m) = numEjected m := by
  induction m with
  | nil => rfl
  | cons e rest ih =>
    have hc : unejectLoop config now (e :: rest) =
        unejectEntry config now e :: unejectLoop config now rest := rfl
    rw [hc, numEjected_cons, numEjected_cons, ih (fun e he => h e (List.mem_cons_of_mem _ he))]
    congr 1
    rcases h e (List.mem_cons_self _ _) with h1 | h1
    · simp only [unejectEntry, (MaybeUneject_of_not_ejected e.state _ _ now h1).1, h1]
    · simp only [unejectEntry, MaybeUneject_fresh e.state _ _ now h1 hb hm]

theorem mem_ejectAt (m : StateMap) (p : Nat) (t : Int) (e' : MapEntry) (h : e' ∈ ejectAt m p t) :
    ∃ e ∈ m, e' = if e.addr = p then { e with state := e.state.Eject t } else e := by
  simpa [ejectAt, eq_comm] using h

theorem isEjectedAt_eq_false (m : StateMap) (p : Nat)
    (h : ∀ e ∈ m, e.state.ejection_time_ = none) : isEjectedAt m p = false := by
  unfold isEjectedAt
  rw [List.any_eq_false]
  intro e he
  simp [h e he]

theorem numEjected_eq_zero (m : StateMap) (h : ∀ e ∈ m, e.state.ejection_time_ = none) :
    numEjected m = 0 := by
  unfold numEjected
  rw [List.countP_eq_zero]
  intro e he
  simp [h e he]

/-- The success rate and the volume that the first loop reads for an entry, in
terms of the counts of its current bucket before the rotation. -/
theorem rotate_rate (st : SubchannelState) (hwf : st.WellFormed) (s f : Nat)
    (hcur : st.load st.current_bucket_ = ⟨s, f⟩) (hr : s + f < 2 ^ 64) :
    st.RotateBucket.GetSuccessRateAndVolume =
      if s + f = 0 then none else some ((100 * s : ℚ) / ((s + f : Nat) : ℚ), s + f) :=
  SubchannelState.GetSuccessRateAndVolume_eq _ s f
    (by rw [(SubchannelState.RotateBucket_fields st).2.1,
      SubchannelState.RotateBucket_load_backup st hwf, hcur]) hr

/-! ### The cap on ejections -/

theorem ceil_div_hundred (a : Nat) : ⌈((a : ℚ) / 100)⌉₊ = (a + 99) / 100 := by
  apply le_antisymm
  · rw [Nat.ceil_le, div_le_iff₀ (by norm_num : (0 : ℚ) < 100)]
    have : a ≤ (a + 99) / 100 * 100 := by omega
    exact_mod_cast this
  · have h := Nat.le_ceil ((a : ℚ) / 100)
    rw [div_le_iff₀ (by norm_num : (0 : ℚ) < 100)] at h
    have h' : a ≤ ⌈((a : ℚ) / 100)⌉₊ * 100 := by exact_mod_cast h
    omega

theorem capBound_eq_ceil (pct n : Nat) :
    capBound pct n = max 1 ⌈((pct * n : Nat) : ℚ) / 100⌉₊ := by
  rw [ceil_div_hundred]; rfl

/-- Claim C2, amended: the cap in ceiling form.  For every endpoint map (of
distinct states), every configuration and every sequence of dice values, if at
most `max(1, ceil(max_ejection_percent * N / 100))` endpoints are ejected when a
firing starts, at most that many are ejected when it ends. -/
theorem cap_enforcement_ceiling (config : OutlierDetectionConfig) (dice : Nat → Nat) (now : Int)
    (m : StateMap) (hnd : (addrs m).Nodup)
    (hstart : numEjected m ≤
      max 1 ⌈((config.max_ejection_percent * m.length : Nat) : ℚ) / 100⌉₊) :
    numEjected (OnTimerLockedMap config dice now m) ≤
      max 1 ⌈((config.max_ejection_percent * m.length : Nat) : ℚ) / 100⌉₊ := by
  rw [← capBound_eq_ceil] at hstart ⊢
  exact le_trans (numEjected_OnTimerLockedMap_le config dice now m hnd) (max_le hstart le_rfl)

/-- Witness of `cap_enforcement_ceiling`: three failing endpoints under a cap of
50 percent. -/
theorem cap_enforcement_ceiling_witness :
    numEjected (OnTimerLockedMap halfCapConfig (fun _ => 1) 1000 threeFailing) ≤
      max 1 ⌈((halfCapConfig.max_ejection_percent * threeFailing.length : Nat) : ℚ) / 100⌉₊ :=
  cap_enforcement_ceiling halfCapConfig (fun _ => 1) 1000 threeFailing (by decide)
    (by rw [show numEjected threeFailing = 0 by decide]; exact Nat.zero_le _)

/-- Claim C2, counterexample: with three endpoints that all fail, none ejected
beforehand, and `max_ejection_percent = 50`, a firing ejects two endpoints, more
than `max(1, floor(50 * 3 / 100)) = 1`. -/
theorem cap_floor_exceeded :
    threeFailing.length = 3 ∧ numEjected threeFailing = 0 ∧
      numEjected (OnTimerLockedMap halfCapConfig (fun _ => 1) 1000 threeFailing) = 2 ∧
      ¬ numEjected (OnTimerLockedMap halfCapConfig (fun _ => 1) 1000 threeFailing) ≤
        max 1 (halfCapConfig.max_ejection_percent * threeFailing.length / 100) := by
  decide!

/-- Claim C3, amended: after any evaluator pass over a map (of distinct states) of
size `N`, either no more endpoints are ejected than before the pass, or at most
`max(1, ceil(max_ejection_percent * N / 100))` endpoints are ejected. -/
theorem cap_invariant_ceiling (config : OutlierDetectionConfig) (dice : Nat → Nat) (now : Int)
    (m : StateMap) (hnd : (addrs m).Nodup) :
    numEjected (OnTimerLockedMap config dice now m) ≤ numEjected m ∨
      numEjected (OnTimerLockedMap config dice now m) ≤
        max 1 ⌈((config.max_ejection_percent * m.length : Nat) : ℚ) / 100⌉₊ := by
  rw [← capBound_eq_ceil]
  exact le_max_iff.mp (numEjected_OnTimerLockedMap_le config dice now m hnd)

/-- Witness of `cap_invariant_ceiling`: two endpoints ejected earlier, under a cap
of 10 percent. -/
theorem cap_invariant_ceiling_witness :
    numEjected (OnTimerLockedMap tenPercentConfig (fun _ => 1) 1000 twoEjected) ≤
        numEjected twoEjected ∨
      numEjected (OnTimerLockedMap tenPercentConfig (fun _ => 1) 1000 twoEjected) ≤
        max 1 ⌈((tenPercentConfig.max_ejection_percent * twoEjected.length : Nat) : ℚ) / 100⌉₊ :=
  cap_invariant_ceiling tenPercentConfig (fun _ => 1) 1000 twoEjected (by decide)

/-- Claim C3, counterexample: two endpoints were ejected at time 0 and the
configuration now has `max_ejection_percent = 10`.  After the pass at time 1000
both are still ejected, more than `max(1, ceil(10 * 2 / 100)) = 1`. -/
theorem cap_ceiling_exceeded :
    twoEjected.length = 2 ∧
      numEjected (OnTimerLockedMap tenPercentConfig (fun _ => 1) 1000 twoEjected) = 2 ∧
      ⌈((tenPercentConfig.max_ejection_percent * twoEjected.length : Nat) : ℚ) / 100⌉₊ = 1 ∧
      ¬ numEjected (OnTimerLockedMap tenPercentConfig (fun _ => 1) 1000 twoEjected) ≤
        max 1 ⌈((tenPercentConfig.max_ejection_percent * twoEjected.length : Nat) : ℚ) / 100⌉₊ := by
  have h2 : numEjected (OnTimerLockedMap tenPercentConfig (fun _ => 1) 1000 twoEjected) = 2 := by
    decide!
  have hc : ⌈((tenPercentConfig.max_ejection_percent * twoEjected.length : Nat) : ℚ) / 100⌉₊ = 1 := by
    rw [ceil_div_hundred]; decide
  refine ⟨by decide, h2, hc, ?_⟩
  rw [h2, hc]
  decide

/-! ### Scenario S4 -/

theorem filterMap_eq_map_of_forall {α β : Type} (f : α → Option β) (g : α → β) (l : List α)
    (h : ∀ a ∈ l, f a = some (g a)) : l.filterMap f = l.map g := by
  induction l with
  | nil => rfl
  | cons a rest ih =>
    rw [List.filterMap_cons, h a (List.mem_cons_self _ _), List.map_cons,
      ih (fun b hb => h b (List.mem_cons_of_mem _ hb))]

/-- When every success rate candidate has the rate zero, the success rate
algorithm ejects nobody. -/
theorem successRateAlgorithm_all_zero (config : OutlierDetectionConfig) (dice : Nat → Nat)
    (t : Int) (g : Gather) (L : EjectLoop)
    (hc : ∀ c ∈ g.success_rate_ejection_candidates, c.2 = 0) (hs : g.success_rate_sum = 0) :
    successRateAlgorithm config dice t g L = L := by
  unfold successRateAlgorithm
  split
  · rfl
  · simp only
    split
    · apply successRateLoop_skip
      intro c hcm
      simp [belowThreshold, hc c hcm, hs]
    · rfl

theorem ejection_time_ejectAt (m : StateMap) (p : Nat) (t : Int)
    (h : ∀ e ∈ m, e.state.ejection_time_ = none ∨ e.state.ejection_time_ = some t) :
    ∀ e ∈ ejectAt m p t, e.state.ejection_time_ = none ∨ e.state.ejection_time_ = some t := by
  intro e' he'
  obtain ⟨e, he, rfl⟩ := mem_ejectAt m p t e' he'
  by_cases hp : e.addr = p
  · rw [if_pos hp]; exact Or.inr rfl
  · rw [if_neg hp]; exact h e he

/-- Claim C4: scenario S4.  In a firing over 10 endpoints, none ejected
beforehand, each of which recorded only failures in the completed window with
enough volume to be a candidate, with `max_ejection_percent = 20` and the failure
percentage algorithm configured with enforcement 100, a threshold below 100 and at
most 10 minimum hosts, exactly 2 endpoints are ejected after the firing: the
enforcement check passes with 0 and with 1 ejected endpoints and fails with 2
(`100 * 2 / 10 = 20` is not below 20). -/
theorem scenario_S4 (config : OutlierDetectionConfig) (fp : FailurePercentageEjection)
    (dice : Nat → Nat) (now : Int) (m : StateMap)
    (hlen : m.length = 10) (hnd : (addrs m).Nodup)
    (hwf : ∀ e ∈ m, e.state.WellFormed)
    (hne : ∀ e ∈ m, e.state.ejection_time_ = none)
    (hwin : ∀ e ∈ m, ∃ f, e.state.load e.state.current_bucket_ = ⟨0, f⟩ ∧ 0 < f ∧
      f < 2 ^ 64 ∧ fp.request_volume ≤ f)
    (hpct : config.max_ejection_percent = 20)
    (hfp : config.failure_percentage_ejection = some fp)
    (henf : fp.enforcement_percentage = 100) (hthr : fp.threshold < 100)
    (hmin : fp.minimum_hosts ≤ 10)
    (hdice : ∀ i, 1 ≤ dice i ∧ dice i < 100)
    (hbase : 0 ≤ config.base_ejection_time ∧ config.base_ejection_time < 2 ^ 63)
    (hmax : 0 ≤ config.max_ejection_time ∧ config.max_ejection_time < 2 ^ 63) :
    numEjected (OnTimerLockedMap config dice now m) = 2 ∧
      ∀ i, enforce 20 100 (dice i) 0 10 = true ∧ enforce 20 100 (dice i) 1 10 = true ∧
        enforce 20 100 (dice i) 2 10 = false := by
  have henforce : ∀ i, enforce 20 100 (dice i) 0 10 = true ∧
      enforce 20 100 (dice i) 1 10 = true ∧ enforce 20 100 (dice i) 2 10 = false := by
    intro i
    refine ⟨?_, ?_, ?_⟩
    · rw [enforce_iff _ _ _ _ _ (by norm_num)]; exact ⟨(hdice i).2, Or.inl rfl⟩
    · rw [enforce_iff _ _ _ _ _ (by norm_num)]; exact ⟨(hdice i).2, Or.inr (by norm_num)⟩
    · rw [Bool.eq_false_iff, Ne, enforce_iff _ _ _ _ _ (by norm_num)]
      rintro ⟨-, h | h⟩ <;> omega
  refine ⟨?_, henforce⟩
  -- the candidates of the entries
  have hrate : ∀ e ∈ m, ∃ f, e.state.RotateBucket.GetSuccessRateAndVolume = some (0, f) ∧
      fp.request_volume ≤ f := by
    intro e he
    obtain ⟨f, hcur, hf0, hf64, hvol⟩ := hwin e he
    refine ⟨f, ?_, hvol⟩
    rw [rotate_rate e.state (hwf e he) 0 f hcur (by omega)]
    have hf : f ≠ 0 := by omega
    simp [hf]
  have hfpc : ∀ e ∈ m, fpCandidate config e = some (e.addr, 0) := by
    intro e he
    obtain ⟨f, hv, hvol⟩ := hrate e he
    simp [fpCandidate, hfp, hv, hvol]
  have hsrc : ∀ e ∈ m, ∀ x, srCandidate config e = some x → x.2 = 0 := by
    intro e he x hx
    obtain ⟨f, hv, -⟩ := hrate e he
    unfold srCandidate at hx
    rw [hv] at hx
    cases hsr : config.success_rate_ejection with
    | none => simp [hsr] at hx
    | some sr =>
      simp only [hsr] at hx
      split at hx
      · cases hx; rfl
      · cases hx
  -- the gathered data
  obtain ⟨hsrperm, hsum⟩ := gather_success_rate config m hnd
  have hfpperm := gather_failure_percentage config m hnd
  rw [filterMap_eq_map_of_forall _ (fun e => (e.addr, (0 : ℚ))) m hfpc] at hfpperm
  set G := (gatherLoop config m Gather.init).1 with hG
  have hsr0 : ∀ c ∈ G.success_rate_ejection_candidates, c.2 = 0 := by
    intro c hc
    obtain ⟨e, he, hx⟩ := List.mem_filterMap.mp (hsrperm.mem_iff.mp hc)
    exact hsrc e he c hx
  have hsum0 : G.success_rate_sum = 0 := by
    rw [hsum]
    apply List.sum_eq_zero
    intro x hx
    obtain ⟨c, hc, rfl⟩ := List.mem_map.mp hx
    obtain ⟨e, he, hx⟩ := List.mem_filterMap.mp hc
    exact hsrc e he c hx
  have hfplen : G.failure_percentage_ejection_candidates.length = 10 := by
    rw [hfpperm.length_eq, List.length_map, hlen]
  have hfpmem : ∀ c ∈ G.failure_percentage_ejection_candidates, c.2 = 0 ∧ c.1 ∈ addrs m := by
    intro c hc
    obtain ⟨e, he, rfl⟩ := List.mem_map.mp (hfpperm.mem_iff.mp hc)
    exact ⟨rfl, List.mem_map.mpr ⟨e, he, rfl⟩⟩
  have hfpnd : (G.failure_percentage_ejection_candidates.map Prod.fst).Nodup := by
    have := hfpperm.map Prod.fst
    rw [List.map_map] at this
    exact this.nodup_iff.mpr hnd
  -- the firing
  have hm1 : (gatherLoop config m Gather.init).2 = m.map rotateEntry := gatherLoop_snd config m _
  have hcount : G.ejected_host_count = 0 := by
    rw [hG, gatherLoop_count, numEjected_eq_zero m hne]; rfl
  have hne1 : ∀ e ∈ m.map rotateEntry, e.state.ejection_time_ = none := by
    intro e' he'
    obtain ⟨e, he, rfl⟩ := List.mem_map.mp he'
    rw [rotateEntry, (SubchannelState.RotateBucket_fields e.state).2.2.2.2.1]
    exact hne e he
  unfold OnTimerLockedMap
  simp only
  rw [← hG, hm1, successRateAlgorithm_all_zero config dice now G _ hsr0 hsum0, hcount]
  unfold failurePercentageAlgorithm
  simp only [hfp]
  obtain ⟨c1, c2, rest, hl⟩ : ∃ c1 c2 rest,
      G.failure_percentage_ejection_candidates = c1 :: c2 :: rest := by
    match hcs : G.failure_percentage_ejection_candidates, hfplen with
    | c1 :: c2 :: rest, _ => exact ⟨c1, c2, rest, rfl⟩
    | [_], h => simp at h
    | [], h => simp at h
  have hguard : G.failure_percentage_ejection_candidates ≠ [] ∧
      G.failure_percentage_ejection_candidates.length ≥ fp.minimum_hosts := by
    constructor
    · rw [hl]; exact List.cons_ne_nil _ _
    · rw [hfplen]; exact hmin
  rw [if_pos hguard, hl]
  rw [hl] at hfpmem hfpnd
  have hc1 := hfpmem c1 (List.mem_cons_self _ _)
  have hc2 := hfpmem c2 (List.mem_cons_of_mem _ (List.mem_cons_self _ _))
  have hne12 : c2.1 ≠ c1.1 := by
    simp only [List.map_cons, List.nodup_cons, List.mem_cons, not_or] at hfpnd
    exact fun h => hfpnd.1.1 h.symm
  have hthr' : ∀ c : Nat × ℚ, c.2 = 0 → (100 - c.2) > (fp.threshold : ℚ) := by
    intro c hc
    rw [hc, sub_zero]
    have : (fp.threshold : ℚ) < ((100 : Nat) : ℚ) := by exact_mod_cast hthr
    simpa using this
  have hlen1 : (m.map rotateEntry).length = 10 := by rw [List.length_map, hlen]
  -- first ejection
  rw [List.foldl_cons, failurePercentageStep_eject config fp dice now _ c1
    (isEjectedAt_eq_false _ _ hne1) (hthr' c1 hc1.1)
    (by simp only [hpct, henf, hlen1]; exact (henforce 0).1)]
  -- second ejection
  rw [List.foldl_cons, failurePercentageStep_eject config fp dice now _ c2
    (by simp only [isEjectedAt_ejectAt_of_ne _ _ _ _ hne12]; exact isEjectedAt_eq_false _ _ hne1)
    (hthr' c2 hc2.1)
    (by simp only [hpct, henf, length_ejectAt, hlen1]; exact (henforce 1).2.1)]
  -- the cap is reached
  have hblocked := failurePercentageLoop_blocked config fp dice now rest
    { map := ejectAt (ejectAt (m.map rotateEntry) c1.1 now) c2.1 now,
      ejected_host_count := 0 + 1 + 1, draws := 0 + 1 + 1 }
    (by simp only [length_ejectAt, hlen1]; norm_num) (by norm_num)
    (by simp only [length_ejectAt, hlen1, hpct]; norm_num)
  rw [hblocked.1]
  -- the last loop keeps the fresh ejections
  have haddr1 : addrs (m.map rotateEntry) = addrs m := addrs_map_rotateEntry m
  have hnd1 : (addrs (m.map rotateEntry)).Nodup := by rw [haddr1]; exact hnd
  have htimes : ∀ e ∈ ejectAt (ejectAt (m.map rotateEntry) c1.1 now) c2.1 now,
      e.state.ejection_time_ = none ∨ e.state.ejection_time_ = some now :=
    ejection_time_ejectAt _ _ _ (ejection_time_ejectAt _ _ _ (fun e he => Or.inl (hne1 e he)))
  rw [numEjected_unejectLoop_eq config now _ (toUInt64_lt _ hbase.1 hbase.2)
    (toUInt64_lt _ hmax.1 hmax.2) htimes]
  rw [numEjected_ejectAt_eq _ _ _ (by rw [addrs_ejectAt]; exact hnd1)
    (by rw [addrs_ejectAt, haddr1]; exact hc2.2)
    (by rw [isEjectedAt_ejectAt_of_ne _ _ _ _ hne12]; exact isEjectedAt_eq_false _ _ hne1)]
  rw [numEjected_ejectAt_eq _ _ _ hnd1 (by rw [haddr1]; exact hc1.2)
    (isEjectedAt_eq_false _ _ hne1)]
  rw [numEjected_eq_zero _ hne1]

/-- Witness of `scenario_S4`: ten endpoints with 100 failures each. -/
theorem scenario_S4_witness :
    numEjected (OnTimerLockedMap s4Config (fun _ => 42) 5000 s4Map) = 2 ∧
      ∀ i : Nat, enforce 20 100 ((fun _ => 42) i) 0 10 = true ∧
        enforce 20 100 ((fun _ => 42) i) 1 10 = true ∧
        enforce 20 100 ((fun _ => 42) i) 2 10 = false :=
  scenario_S4 s4Config ⟨85, 100, 5, 50⟩ (fun _ => 42) 5000 s4Map (by decide) (by decide)
    (by decide) (by decide)
    (by
      intro e he
      refine ⟨100, ?_, by norm_num, by norm_num, by norm_num⟩
      simp only [s4Map, List.mem_cons, List.mem_singleton, List.not_mem_nil, or_false] at he
      rcases he with h | h | h | h | h | h | h | h | h | h <;> subst h <;> rfl)
    rfl rfl rfl (by norm_num) (by norm_num) (fun _ => by norm_num) (by decide) (by decide)

/-! ### Scenario S1 -/

theorem foldl_add_eq_sum {α : Type} (f : α → ℚ) (l : List α) :
    ∀ a : ℚ, l.foldl (fun acc v => acc + f v) a = a + (l.map f).sum := by
  induction l with
  | nil => intro a; simp
  | cons x rest ih => intro a; rw [List.foldl_cons, ih, List.map_cons, List.sum_cons, add_assoc]

theorem addrs_unejectLoop (config : OutlierDetectionConfig) (now : Int) (m : StateMap) :
    addrs (unejectLoop config now m) = addrs m := by
  simp [addrs, unejectLoop, unejectEntry, List.map_map, Function.comp_def]

theorem successRateLoop_single (config : OutlierDetectionConfig) (sr : SuccessRateEjection)
    (mean variance : ℚ) (dice : Nat → Nat) (t : Int) (l : List (Nat × ℚ)) (c : Nat × ℚ)
    (L : EjectLoop) (hc : c ∈ l) (hnd : (l.map Prod.fst).Nodup)
    (hbelow : belowThreshold c.2 mean variance ((sr.stdev_factor : ℚ) / 1000) = true)
    (hothers : ∀ x ∈ l, x.1 ≠ c.1 →
      belowThreshold x.2 mean variance ((sr.stdev_factor : ℚ) / 1000) = false)
    (henf : enforce config.max_ejection_percent sr.enforcement_percentage (dice L.draws)
      L.ejected_host_count L.map.length = true) :
    l.foldl (successRateStep config sr mean variance dice t) L =
      { map := ejectAt L.map c.1 t, ejected_host_count := L.ejected_host_count + 1,
        draws := L.draws + 1 } := by
  obtain ⟨l1, l2, rfl⟩ := List.append_of_mem hc
  have hnd' : (l1.map Prod.fst ++ c.1 :: l2.map Prod.fst).Nodup := by
    simpa [List.map_append] using hnd
  have hdis := List.nodup_append.mp hnd'
  have h1 : ∀ x ∈ l1, x.1 ≠ c.1 := by
    intro x hx heq
    exact hdis.2.2 (List.mem_map.mpr ⟨x, hx, heq⟩) (List.mem_cons_self _ _)
  have h2 : ∀ x ∈ l2, x.1 ≠ c.1 := by
    intro x hx heq
    exact (List.nodup_cons.mp hdis.2.1).1 (List.mem_map.mpr ⟨x, hx, heq⟩)
  rw [List.foldl_append, List.foldl_cons,
    successRateLoop_skip config sr mean variance dice t l1 L
      (fun x hx => hothers x (List.mem_append_left _ hx) (h1 x hx)),
    successRateStep_eject config sr mean variance dice t L c hbelow henf,
    successRateLoop_skip config sr mean variance dice t l2 _
      (fun x hx => hothers x (List.mem_append_right _ (List.mem_cons_of_mem _ hx)) (h2 x hx))]

/-- Claim C5: scenario S1.  With the success rate algorithm configured with
`stdev_factor = 1900`, enforcement 100, 3 minimum hosts and request volume 5, no
failure percentage algorithm and no endpoint ejected beforehand (and any
`max_ejection_percent`, 100 in the scenario), if A, B, C and D each recorded 100
successes and E recorded 100 failures in the completed window, then after the
firing E is ejected with `ejection_time = now` and multiplier 1 and the others are
not ejected.  The mean is 80, the variance is `40 ^ 2` and the threshold is
`80 - 40 * 1.9 = 4`. -/
theorem scenario_S1 (config : OutlierDetectionConfig) (dice : Nat → Nat) (now : Int)
    (m : StateMap) (eA eB eC eD eE : MapEntry)
    (hm : m.Perm [eA, eB, eC, eD, eE]) (hnd : (addrs m).Nodup)
    (hwf : ∀ e ∈ m, e.state.WellFormed)
    (hne : ∀ e ∈ m, e.state.ejection_time_ = none)
    (hA : eA.state.load eA.state.current_bucket_ = ⟨100, 0⟩)
    (hB : eB.state.load eB.state.current_bucket_ = ⟨100, 0⟩)
    (hC : eC.state.load eC.state.current_bucket_ = ⟨100, 0⟩)
    (hD : eD.state.load eD.state.current_bucket_ = ⟨100, 0⟩)
    (hE : eE.state.load eE.state.current_bucket_ = ⟨0, 100⟩)
    (hmult : eE.state.multiplier_ = 0)
    (hsr : config.success_rate_ejection = some ⟨1900, 100, 3, 5⟩)
    (hfp : config.failure_percentage_ejection = none)
    (hbase : config.base_ejection_time = 30000)
    (hmax : config.max_ejection_time = 300000)
    (hdice : ∀ i, 1 ≤ dice i ∧ dice i < 100) :
    addrs (OnTimerLockedMap config dice now m) = addrs m ∧
      (∀ e ∈ OnTimerLockedMap config dice now m,
        (e.addr = eE.addr → e.state.ejection_time_ = some now ∧ e.state.multiplier_ = 1) ∧
          (e.addr ≠ eE.addr → e.state.ejection_time_ = none)) ∧
      (gatherLoop config m Gather.init).1.success_rate_sum /
          ((gatherLoop config m Gather.init).1.success_rate_ejection_candidates.length : ℚ) = 80 ∧
      (gatherLoop config m Gather.init).1.success_rate_ejection_candidates.foldl
            (fun acc v => acc + (v.2 - 80) ^ 2) 0 /
          ((gatherLoop config m Gather.init).1.success_rate_ejection_candidates.length : ℚ) =
        40 ^ 2 ∧
      (80 : ℚ) - 40 * (1900 / 1000) = 4 := by
  -- membership
  have hmem : ∀ e, e ∈ [eA, eB, eC, eD, eE] → e ∈ m := fun e he => hm.mem_iff.mpr he
  have hEm : eE ∈ m := hmem eE (by simp)
  -- the candidates of the entries
  have hcandH : ∀ e ∈ m, e.state.load e.state.current_bucket_ = ⟨100, 0⟩ →
      srCandidate config e = some (e.addr, 100) := by
    intro e he hcur
    unfold srCandidate
    rw [hsr, rotate_rate e.state (hwf e he) 100 0 hcur (by norm_num)]
    norm_num
  have hcandE : srCandidate config eE = some (eE.addr, 0) := by
    unfold srCandidate
    rw [hsr, rotate_rate eE.state (hwf eE hEm) 0 100 hE (by norm_num)]
    norm_num
  obtain ⟨hsrperm, hsum⟩ := gather_success_rate config m hnd
  set G := (gatherLoop config m Gather.init).1 with hG
  have hfm : [eA, eB, eC, eD, eE].filterMap (srCandidate config) =
      [(eA.addr, 100), (eB.addr, 100), (eC.addr, 100), (eD.addr, 100), (eE.addr, 0)] := by
    simp only [List.filterMap_cons, List.filterMap_nil, hcandH eA (hmem eA (by simp)) hA,
      hcandH eB (hmem eB (by simp)) hB, hcandH eC (hmem eC (by simp)) hC,
      hcandH eD (hmem eD (by simp)) hD, hcandE]
  have hperm : G.success_rate_ejection_candidates.Perm
      [(eA.addr, 100), (eB.addr, 100), (eC.addr, 100), (eD.addr, 100), (eE.addr, 0)] := by
    rw [← hfm]
    exact hsrperm.trans (hm.filterMap _)
  have hlen : G.success_rate_ejection_candidates.length = 5 := by
    rw [hperm.length_eq]; rfl
  have hsum' : G.success_rate_sum = 400 := by
    rw [hsum, ((hm.filterMap (srCandidate config)).map Prod.snd).sum_eq, hfm]
    norm_num
  have hmean : G.success_rate_sum / (G.success_rate_ejection_candidates.length : ℚ) = 80 := by
    rw [hsum', hlen]; norm_num
  have hvar : G.success_rate_ejection_candidates.foldl (fun acc v => acc + (v.2 - 80) ^ 2) 0 /
      (G.success_rate_ejection_candidates.length : ℚ) = 40 ^ 2 := by
    rw [foldl_add_eq_sum (fun v : Nat × ℚ => (v.2 - 80) ^ 2),
      (hperm.map (fun v : Nat × ℚ => (v.2 - 80) ^ 2)).sum_eq, hlen]
    norm_num
  have hcnd : (G.success_rate_ejection_candidates.map Prod.fst).Nodup := by
    have h5 : (addrs [eA, eB, eC, eD, eE]).Nodup := (hm.map _).nodup_iff.mp hnd
    exact (hperm.map Prod.fst).nodup_iff.mpr h5
  have hEc : (eE.addr, (0 : ℚ)) ∈ G.success_rate_ejection_candidates :=
    hperm.mem_iff.mpr (by simp)
  have hbelow : belowThreshold (0 : ℚ) 80 (40 ^ 2) (((1900 : Nat) : ℚ) / 1000) = true := by
    simp only [belowThreshold, decide_eq_true_eq]; norm_num
  have hothers : ∀ x ∈ G.success_rate_ejection_candidates, x.1 ≠ eE.addr →
      belowThreshold x.2 80 (40 ^ 2) (((1900 : Nat) : ℚ) / 1000) = false := by
    intro x hx hxE
    have hx5 := hperm.mem_iff.mp hx
    simp only [List.mem_cons, List.mem_singleton, List.not_mem_nil, or_false] at hx5
    have h100 : x.2 = 100 := by
      rcases hx5 with h | h | h | h | h
      · rw [h]
      · rw [h]
      · rw [h]
      · rw [h]
      · exact absurd (by rw [h]) hxE
    rw [h100]
    simp only [belowThreshold, decide_eq_false_iff_not]; norm_num
  have hm1 : (gatherLoop config m Gather.init).2 = m.map rotateEntry := gatherLoop_snd config m _
  have hcount : G.ejected_host_count = 0 := by
    rw [hG, gatherLoop_count, numEjected_eq_zero m hne]; rfl
  have hlen1 : (m.map rotateEntry).length = 5 := by
    rw [List.length_map, hm.length_eq]; rfl
  -- the firing
  have hfire : OnTimerLockedMap config dice now m =
      unejectLoop config now (ejectAt (m.map rotateEntry) eE.addr now) := by
    unfold OnTimerLockedMap
    simp only
    rw [← hG, hm1, hcount]
    have hsra : successRateAlgorithm config dice now G
        { map := m.map rotateEntry, ejected_host_count := 0, draws := 0 } =
        { map := ejectAt (m.map rotateEntry) eE.addr now, ejected_host_count := 0 + 1,
          draws := 0 + 1 } := by
      unfold successRateAlgorithm
      simp only [hsr]
      rw [if_pos ⟨by rw [← List.length_pos, hlen]; norm_num, by rw [hlen]; norm_num⟩,
        hmean, hvar]
      exact successRateLoop_single config _ 80 (40 ^ 2) dice now _ (eE.addr, 0) _ hEc hcnd
        hbelow hothers
        (by
          rw [enforce_iff _ _ _ _ _ (by simp only [hlen1]; norm_num)]
          exact ⟨(hdice 0).2, Or.inl rfl⟩)
    rw [hsra]
    unfold failurePercentageAlgorithm
    simp only [hfp]
  refine ⟨?_, ?_, hmean, hvar, by norm_num⟩
  · rw [hfire, addrs_unejectLoop, addrs_ejectAt, addrs_map_rotateEntry]
  · intro e' he'
    rw [hfire] at he'
    obtain ⟨e1, he1, rfl⟩ := List.mem_map.mp he'
    obtain ⟨e0, he0, rfl⟩ := mem_ejectAt _ _ _ _ he1
    obtain ⟨e, he, rfl⟩ := List.mem_map.mp he0
    have hb : toUInt64 config.base_ejection_time < 2 ^ 63 := by
      rw [hbase]; exact toUInt64_lt _ (by norm_num) (by norm_num)
    have hmx : toUInt64 config.max_ejection_time < 2 ^ 63 := by
      rw [hmax]; exact toUInt64_lt _ (by norm_num) (by norm_num)
    have hrot := SubchannelState.RotateBucket_fields e.state
    by_cases hp : e.addr = eE.addr
    · have heq : e = eE := List.inj_on_of_nodup_map hnd he hEm hp
      have hp' : (rotateEntry e).addr = eE.addr := hp
      rw [if_pos hp']
      constructor
      · intro _
        simp only [unejectEntry]
        rw [MaybeUneject_fresh _ _ _ now rfl hb hmx]
        refine ⟨rfl, ?_⟩
        show ((rotateEntry e).state.multiplier_ + 1) % 2 ^ 32 = 1
        rw [rotateEntry, hrot.2.2.2.1, heq, hmult]
        norm_num
      · intro hc
        exact absurd hp hc
    · have hp' : ¬ (rotateEntry e).addr = eE.addr := hp
      rw [if_neg hp']
      constructor
      · intro hc
        exact absurd hc hp
      · intro _
        simp only [unejectEntry]
        refine (MaybeUneject_of_not_ejected _ _ _ now ?_).1
        rw [rotateEntry, hrot.2.2.2.2.1]
        exact hne e he

/-- Witness of `scenario_S1`: the five endpoints of the scenario, evaluated at
`now = 1000` with every dice value 7. -/
theorem scenario_S1_witness :
    addrs (OnTimerLockedMap s1Config (fun _ => 7) 1000 s1Map) = addrs s1Map ∧
      (∀ e ∈ OnTimerLockedMap s1Config (fun _ => 7) 1000 s1Map,
        (e.addr = s1Failing.addr →
            e.state.ejection_time_ = some 1000 ∧ e.state.multiplier_ = 1) ∧
          (e.addr ≠ s1Failing.addr → e.state.ejection_time_ = none)) ∧
      (gatherLoop s1Config s1Map Gather.init).1.success_rate_sum /
          ((gatherLoop s1Config s1Map Gather.init).1.success_rate_ejection_candidates.length : ℚ) =
        80 ∧
      (gatherLoop s1Config s1Map Gather.init).1.success_rate_ejection_candidates.foldl
            (fun acc v => acc + (v.2 - 80) ^ 2) 0 /
          ((gatherLoop s1Config s1Map Gather.init).1.success_rate_ejection_candidates.length : ℚ) =
        40 ^ 2 ∧
      (80 : ℚ) - 40 * (1900 / 1000) = 4 :=
  scenario_S1 s1Config (fun _ => 7) 1000 s1Map (s1Healthy "A" 50) (s1Healthy "B" 60)
    (s1Healthy "C" 40) (s1Healthy "D" 70) s1Failing (List.Perm.refl _) (by decide) (by decide)
    (by decide) rfl rfl rfl rfl rfl rfl rfl rfl rfl rfl (fun _ => by norm_num)

/-! ### The threshold test and the square root -/

/-- The test `belowThreshold` is the comparison
`candidate < mean - sqrt(variance) * factor` over the reals, for a variance and a
factor that are not negative. -/
theorem belowThreshold_iff_sqrt (success_rate mean variance factor : ℚ)
    (hv : 0 ≤ variance) (hk : 0 ≤ factor) :
    belowThreshold success_rate mean variance factor = true ↔
      (success_rate : ℝ) < (mean : ℝ) - Real.sqrt (variance : ℝ) * (factor : ℝ) := by
  have hvR : (0 : ℝ) ≤ (variance : ℝ) := by exact_mod_cast hv
  have hkR : (0 : ℝ) ≤ (factor : ℝ) := by exact_mod_cast hk
  have hsq : Real.sqrt ((variance : ℝ) * (factor : ℝ) ^ 2) =
      Real.sqrt (variance : ℝ) * (factor : ℝ) := by
    rw [Real.sqrt_mul hvR, Real.sqrt_sq hkR]
  have hcast : (0 < mean - success_rate ∧
      variance * factor ^ 2 < (mean - success_rate) ^ 2) ↔
      ((0 : ℝ) < (mean : ℝ) - (success_rate : ℝ) ∧
        (variance : ℝ) * (factor : ℝ) ^ 2 < ((mean : ℝ) - (success_rate : ℝ)) ^ 2) := by
    constructor
    · rintro ⟨h1, h2⟩
      exact ⟨by exact_mod_cast h1, by exact_mod_cast h2⟩
    · rintro ⟨h1, h2⟩
      exact ⟨by exact_mod_cast h1, by exact_mod_cast h2⟩
  simp only [belowThreshold, decide_eq_true_eq]
  rw [hcast, ← hsq]
  constructor
  · rintro ⟨h1, h2⟩
    have := (Real.sqrt_lt' h1).mpr h2
    linarith
  · intro h
    have h0 : 0 ≤ Real.sqrt ((variance : ℝ) * (factor : ℝ) ^ 2) := Real.sqrt_nonneg _
    have h1 : (0 : ℝ) < (mean : ℝ) - (success_rate : ℝ) := by linarith
    exact ⟨h1, (Real.sqrt_lt' h1).mp (by linarith)⟩

/-! ## Ejection, un-ejection and decay of one endpoint -/

namespace SubchannelState

/-- Claim C11: for a state with multiplier `m` below the 32-bit maximum, after
`Eject(now)` the ejection time is `now`, the multiplier is `m + 1`, every wrapper
bound to the state (and every watcher wrapper of it) has its ejected flag set, the
set of bound wrappers has the same addresses, and both buckets and the bucket
pointers are unchanged. -/
theorem Eject_postcondition (s : SubchannelState) (now : Int)
    (hm : s.multiplier_ + 1 < 2 ^ 32) :
    (s.Eject now).ejection_time_ = some now ∧
      (s.Eject now).multiplier_ = s.multiplier_ + 1 ∧
      (∀ p ∈ (s.Eject now).subchannels_, p.2.ejected_ = true ∧
        ∀ w ∈ p.2.watchers_, w.2.ejected_ = true) ∧
      (s.Eject now).subchannels_.map Prod.fst = s.subchannels_.map Prod.fst ∧
      (s.Eject now).bucket_first = s.bucket_first ∧
      (s.Eject now).bucket_second = s.bucket_second ∧
      (s.Eject now).current_bucket_ = s.current_bucket_ ∧
      (s.Eject now).backup_bucket_ = s.backup_bucket_ ∧
      (s.Eject now).active_bucket_ = s.active_bucket_ := by
  refine ⟨rfl, Nat.mod_eq_of_lt hm, ?_, ?_, rfl, rfl, rfl, rfl, rfl⟩
  · intro p hp
    obtain ⟨q, -, rfl⟩ := List.mem_map.mp hp
    refine ⟨rfl, ?_⟩
    intro w hw
    obtain ⟨v, -, rfl⟩ := List.mem_map.mp hw
    show v.2.Eject.ejected_ = true
    unfold WatcherWrapper.Eject
    simp only
    split <;> rfl
  · simp [Eject, List.map_map, Function.comp_def]

/-- Witness of `Eject_postcondition`: a state with two bound wrappers and
multiplier 3, ejected at time 500. -/
theorem Eject_postcondition_witness :
    (boundExample.Eject 500).ejection_time_ = some 500 ∧
      (boundExample.Eject 500).multiplier_ = boundExample.multiplier_ + 1 ∧
      (∀ p ∈ (boundExample.Eject 500).subchannels_, p.2.ejected_ = true ∧
        ∀ w ∈ p.2.watchers_, w.2.ejected_ = true) ∧
      (boundExample.Eject 500).subchannels_.map Prod.fst =
        boundExample.subchannels_.map Prod.fst ∧
      (boundExample.Eject 500).bucket_first = boundExample.bucket_first ∧
      (boundExample.Eject 500).bucket_second = boundExample.bucket_second ∧
      (boundExample.Eject 500).current_bucket_ = boundExample.current_bucket_ ∧
      (boundExample.Eject 500).backup_bucket_ = boundExample.backup_bucket_ ∧
      (boundExample.Eject 500).active_bucket_ = boundExample.active_bucket_ :=
  Eject_postcondition boundExample 500 (by decide)

theorem Uneject_effect (s : SubchannelState) :
    s.Uneject.ejection_time_ = none ∧
      (∀ p ∈ s.Uneject.subchannels_, p.2.ejected_ = false ∧
        ∀ w ∈ p.2.watchers_, w.2.ejected_ = false) ∧
      s.Uneject.subchannels_.map Prod.fst = s.subchannels_.map Prod.fst ∧
      s.Uneject.multiplier_ = s.multiplier_ ∧
      s.Uneject.bucket_first = s.bucket_first ∧
      s.Uneject.bucket_second = s.bucket_second ∧
      s.Uneject.current_bucket_ = s.current_bucket_ ∧
      s.Uneject.backup_bucket_ = s.backup_bucket_ ∧
      s.Uneject.active_bucket_ = s.active_bucket_ := by
  refine ⟨rfl, ?_, ?_, rfl, rfl, rfl, rfl, rfl, rfl⟩
  · intro p hp
    obtain ⟨q, -, rfl⟩ := List.mem_map.mp hp
    refine ⟨rfl, ?_⟩
    intro w hw
    obtain ⟨v, -, rfl⟩ := List.mem_map.mp hw
    show v.2.Uneject.ejected_ = false
    unfold WatcherWrapper.Uneject
    simp only
    split <;> rfl
  · simp [Uneject, List.map_map, Function.comp_def]

/-- Claim C12: `Uneject` clears the ejection time and the ejected flag of every
bound wrapper (and of its watcher wrappers), and leaves the multiplier, both
buckets and the bucket pointers exactly as they were; and `MaybeUneject` on an
ejected endpoint whose deadline has passed is that same `Uneject`. -/
theorem Uneject_frame (s : SubchannelState) (s1 : SubchannelState) (t : Int) (base mx : Nat)
    (now : Int) (hej : s1.ejection_time_ = some t) (hrange : base * s1.multiplier_ < 2 ^ 63)
    (hpassed : t + ((min (base * s1.multiplier_) (max base mx) : Nat) : Int) < now) :
    (s.Uneject.ejection_time_ = none ∧
      (∀ p ∈ s.Uneject.subchannels_, p.2.ejected_ = false ∧
        ∀ w ∈ p.2.watchers_, w.2.ejected_ = false) ∧
      s.Uneject.subchannels_.map Prod.fst = s.subchannels_.map Prod.fst ∧
      s.Uneject.multiplier_ = s.multiplier_ ∧
      s.Uneject.bucket_first = s.bucket_first ∧
      s.Uneject.bucket_second = s.bucket_second ∧
      s.Uneject.current_bucket_ = s.current_bucket_ ∧
      s.Uneject.backup_bucket_ = s.backup_bucket_ ∧
      s.Uneject.active_bucket_ = s.active_bucket_) ∧
      s1.MaybeUneject base mx now = s1.Uneject := by
  refine ⟨Uneject_effect s, ?_⟩
  rw [MaybeUneject_of_ejected s1 t base mx now hej hrange, if_pos hpassed]

/-- Witness of `Uneject_frame`: a state ejected at 500 with multiplier 4, base
10 s and maximum 30 s, evaluated at 40 s (the deadline is 30.5 s). -/
theorem Uneject_frame_witness :
    (ejectedExample.Uneject.ejection_time_ = none ∧
      (∀ p ∈ ejectedExample.Uneject.subchannels_, p.2.ejected_ = false ∧
        ∀ w ∈ p.2.watchers_, w.2.ejected_ = false) ∧
      ejectedExample.Uneject.subchannels_.map Prod.fst =
        ejectedExample.subchannels_.map Prod.fst ∧
      ejectedExample.Uneject.multiplier_ = ejectedExample.multiplier_ ∧
      ejectedExample.Uneject.bucket_first = ejectedExample.bucket_first ∧
      ejectedExample.Uneject.bucket_second = ejectedExample.bucket_second ∧
      ejectedExample.Uneject.current_bucket_ = ejectedExample.current_bucket_ ∧
      ejectedExample.Uneject.backup_bucket_ = ejectedExample.backup_bucket_ ∧
      ejectedExample.Uneject.active_bucket_ = ejectedExample.active_bucket_) ∧
      ejectedExample.MaybeUneject 10000 30000 40000 = ejectedExample.Uneject :=
  Uneject_frame ejectedExample ejectedExample 500 10000 30000 40000 rfl (by decide) (by decide)

/-! ### Sequences of operations -/

theorem runOps_append (s : SubchannelState) (l1 l2 : List StateOp) :
    s.runOps (l1 ++ l2) = (s.runOps l1).runOps l2 := by
  simp [runOps, List.foldl_append]

theorem runOps_cons (s : SubchannelState) (op : StateOp) (ops : List StateOp) :
    s.runOps (op :: ops) = (s.applyOp op).runOps ops := rfl

theorem AddSubchannel_fields (s : SubchannelState) (addr : Nat) (w : SubchannelWrapper) :
    (s.AddSubchannel addr w).multiplier_ = s.multiplier_ ∧
      (s.AddSubchannel addr w).ejection_time_ = s.ejection_time_ ∧
      ∀ p ∈ (s.AddSubchannel addr w).subchannels_, p ∈ s.subchannels_ ∨ p = (addr, w) := by
  unfold AddSubchannel
  split
  · exact ⟨rfl, rfl, fun p hp => Or.inl hp⟩
  · refine ⟨rfl, rfl, ?_⟩
    intro p hp
    simp only [List.mem_append, List.mem_cons, List.mem_filter] at hp
    rcases hp with h | h | h
    · exact Or.inl h.1
    · exact Or.inr h
    · exact Or.inl h.1

/-- An operation that is not `Eject` never raises the multiplier and never ejects. -/
theorem applyOp_of_not_eject (s : SubchannelState) (op : StateOp) (h : op.isEject = false) :
    (s.applyOp op).multiplier_ ≤ s.multiplier_ ∧
      (s.ejection_time_ = none → (s.applyOp op).ejection_time_ = none) := by
  cases op with
  | createWrapper addr =>
    obtain ⟨h1, h2, -⟩ := AddSubchannel_fields s addr (SubchannelWrapper.create (some s))
    exact ⟨le_of_eq h1, fun h0 => h2.trans h0⟩
  | destroyWrapper addr => exact ⟨le_rfl, fun h0 => h0⟩
  | record o =>
    obtain ⟨-, -, -, h1, h2, -⟩ := record_fields s o
    exact ⟨le_of_eq h1, fun h0 => h2.trans h0⟩
  | rotate =>
    obtain ⟨-, -, -, h1, h2, -⟩ := RotateBucket_fields s
    exact ⟨le_of_eq h1, fun h0 => h2.trans h0⟩
  | eject t => simp [StateOp.isEject] at h
  | uneject => exact ⟨le_rfl, fun _ => rfl⟩
  | maybeUneject base mx now =>
    show (s.MaybeUneject base mx now).multiplier_ ≤ s.multiplier_ ∧
      (s.ejection_time_ = none → (s.MaybeUneject base mx now).ejection_time_ = none)
    cases hej : s.ejection_time_ with
    | none =>
      obtain ⟨d1, d2⟩ := MaybeUneject_of_not_ejected s base mx now hej
      exact ⟨by omega, fun _ => d1⟩
    | some t =>
      refine ⟨?_, fun h0 => by cases h0⟩
      unfold MaybeUneject
      simp only [hej]
      split <;> exact le_rfl

theorem runOps_of_not_eject (ops : List StateOp) :
    ∀ s : SubchannelState, (∀ op ∈ ops, op.isEject = false) → s.ejection_time_ = none →
      (s.runOps ops).multiplier_ ≤ s.multiplier_ ∧ (s.runOps ops).ejection_time_ = none := by
  induction ops with
  | nil => intro s _ h0; exact ⟨le_rfl, h0⟩
  | cons op rest ih =>
    intro s hops h0
    obtain ⟨h1, h2⟩ := applyOp_of_not_eject s op (hops op (List.mem_cons_self _ _))
    obtain ⟨i1, i2⟩ := ih (s.applyOp op) (fun o ho => hops o (List.mem_cons_of_mem _ ho)) (h2 h0)
    exact ⟨le_trans i1 h1, i2⟩

theorem tickOps_decay (firings : List (Nat × Nat × Int)) :
    ∀ s : SubchannelState, s.ejection_time_ = none →
      (s.runOps (tickOps firings)).ejection_time_ = none ∧
        (s.runOps (tickOps firings)).multiplier_ = s.multiplier_ - firings.length := by
  induction firings with
  | nil => intro s h; exact ⟨h, rfl⟩
  | cons f rest ih =>
    intro s h
    have hcons : tickOps (f :: rest) =
        StateOp.rotate :: StateOp.maybeUneject f.1 f.2.1 f.2.2 :: tickOps rest := by
      simp [tickOps, List.flatMap_cons]
    obtain ⟨-, -, -, r1, r2, -⟩ := RotateBucket_fields s
    obtain ⟨d1, d2⟩ := MaybeUneject_of_not_ejected s.RotateBucket f.1 f.2.1 f.2.2 (r2.trans h)
    obtain ⟨i1, i2⟩ := ih (s.RotateBucket.MaybeUneject f.1 f.2.1 f.2.2) d1
    rw [hcons, runOps_cons, runOps_cons]
    refine ⟨i1, ?_⟩
    show ((s.RotateBucket.MaybeUneject f.1 f.2.1 f.2.2).runOps (tickOps rest)).multiplier_ = _
    rw [i2, d2, r1, List.length_cons]
    omega

/-- Claim C13: multiplier decay.  For an endpoint that is not ejected, with
multiplier `m`, a call of `MaybeUneject` leaves it un-ejected and lowers the
multiplier by exactly 1 when `m > 0` and leaves it 0 when `m = 0`; after `k`
consecutive firings without an ejection the multiplier is `max(m - k, 0)`, hence 0
as soon as `k ≥ m`; and a state on which `Eject` was never called has multiplier 0. -/
theorem multiplier_decay (s : SubchannelState) (hne : s.ejection_time_ = none)
    (base mx : Nat) (now : Int) (firings : List (Nat × Nat × Int)) (ops : List StateOp)
    (hops : ∀ op ∈ ops, op.isEject = false) :
    (s.MaybeUneject base mx now).ejection_time_ = none ∧
      (0 < s.multiplier_ → (s.MaybeUneject base mx now).multiplier_ + 1 = s.multiplier_) ∧
      (s.multiplier_ = 0 → (s.MaybeUneject base mx now).multiplier_ = 0) ∧
      (((s.runOps (tickOps firings)).multiplier_ : Int) =
        max ((s.multiplier_ : Int) - (firings.length : Int)) 0) ∧
      (s.multiplier_ ≤ firings.length → (s.runOps (tickOps firings)).multiplier_ = 0) ∧
      (create.runOps ops).multiplier_ = 0 ∧ (create.runOps ops).ejection_time_ = none := by
  obtain ⟨d1, d2⟩ := MaybeUneject_of_not_ejected s base mx now hne
  obtain ⟨-, t2⟩ := tickOps_decay firings s hne
  obtain ⟨n1, n2⟩ := runOps_of_not_eject ops create hops rfl
  refine ⟨d1, fun h => by omega, fun h => by omega, ?_, fun h => by omega, ?_, n2⟩
  · rw [t2]; omega
  · have : create.multiplier_ = 0 := rfl
    omega

/-- Witness of `multiplier_decay`: a state with multiplier 3 and five firings; and
a fresh state that gets a wrapper, records calls and is evaluated, but is never
ejected. -/
theorem multiplier_decay_witness :
    (boundExample.MaybeUneject 10000 30000 70).ejection_time_ = none ∧
      (0 < boundExample.multiplier_ →
        (boundExample.MaybeUneject 10000 30000 70).multiplier_ + 1 = boundExample.multiplier_) ∧
      (boundExample.multiplier_ = 0 →
        (boundExample.MaybeUneject 10000 30000 70).multiplier_ = 0) ∧
      (((boundExample.runOps (tickOps [(10000, 30000, 1), (10000, 30000, 2), (10000, 30000, 3),
          (10000, 30000, 4), (10000, 30000, 5)])).multiplier_ : Int) =
        max ((boundExample.multiplier_ : Int) -
          (([(10000, 30000, 1), (10000, 30000, 2), (10000, 30000, 3), (10000, 30000, 4),
            (10000, 30000, 5)] : List (Nat × Nat × Int)).length : Int)) 0) ∧
      (boundExample.multiplier_ ≤
          ([(10000, 30000, 1), (10000, 30000, 2), (10000, 30000, 3), (10000, 30000, 4),
            (10000, 30000, 5)] : List (Nat × Nat × Int)).length →
        (boundExample.runOps (tickOps [(10000, 30000, 1), (10000, 30000, 2), (10000, 30000, 3),
          (10000, 30000, 4), (10000, 30000, 5)])).multiplier_ = 0) ∧
      (create.runOps [StateOp.createWrapper 9, StateOp.record Outcome.failure, StateOp.rotate,
        StateOp.maybeUneject 10000 30000 8, StateOp.uneject]).multiplier_ = 0 ∧
      (create.runOps [StateOp.createWrapper 9, StateOp.record Outcome.failure, StateOp.rotate,
        StateOp.maybeUneject 10000 30000 8, StateOp.uneject]).ejection_time_ = none :=
  multiplier_decay boundExample rfl 10000 30000 70
    [(10000, 30000, 1), (10000, 30000, 2), (10000, 30000, 3), (10000, 30000, 4),
      (10000, 30000, 5)]
    [StateOp.createWrapper 9, StateOp.record Outcome.failure, StateOp.rotate,
      StateOp.maybeUneject 10000 30000 8, StateOp.uneject] (by decide)

/-! ### Scenario S6 -/

theorem MaybeUneject_fields_of_ejected (s : SubchannelState) (t : Int) (base mx : Nat)
    (now : Int) (hej : s.ejection_time_ = some t) (hrange : base * s.multiplier_ < 2 ^ 63) :
    (s.MaybeUneject base mx now).multiplier_ = s.multiplier_ ∧
      (s.MaybeUneject base mx now).ejection_time_ =
        if t + ((min (base * s.multiplier_) (max base mx) : Nat) : Int) < now then none
        else some t := by
  rw [MaybeUneject_of_ejected s t base mx now hej hrange]
  split
  · exact ⟨rfl, rfl⟩
  · exact ⟨rfl, hej⟩

/-- Claim C14: scenario S6.  With base 10 s and maximum 30 s, an endpoint with
multiplier 0 that is ejected in the firing at 0 s is un-ejected by the firing at
30 s (its multiplier stays 1) and, ejected again in the firing at 60 s, has
multiplier 2 and ejection time 60 s; its un-eject offset is
`min(10 * 2, max(10, 30)) = 20` seconds, so a later firing un-ejects it exactly when
its time is after 80 s.  The same values result on the map of scenario S1 when the
three firings are run with the traffic of the scenario. -/
theorem scenario_S6 (s : SubchannelState) (hm : s.multiplier_ = 0) (now : Int) :
    ((s.runOps s6Firing0).ejection_time_ = some 0 ∧ (s.runOps s6Firing0).multiplier_ = 1) ∧
      ((s.runOps (s6Firing0 ++ s6Firing30)).ejection_time_ = none ∧
        (s.runOps (s6Firing0 ++ s6Firing30)).multiplier_ = 1) ∧
      ((s.runOps s6Ops).ejection_time_ = some 60000 ∧ (s.runOps s6Ops).multiplier_ = 2) ∧
      min (10000 * (s.runOps s6Ops).multiplier_) (max 10000 30000) = 20000 ∧
      (((s.runOps s6Ops).MaybeUneject 10000 30000 now).ejection_time_ = none ↔
        60000 + 20000 < now) ∧
      ejectionSummary s6After0 =
        [("A", none, 0), ("B", none, 0), ("C", none, 0), ("D", none, 0), ("E", some 0, 1)] ∧
      ejectionSummary s6After30 =
        [("A", none, 0), ("B", none, 0), ("C", none, 0), ("D", none, 0), ("E", none, 1)] ∧
      ejectionSummary s6After60 =
        [("A", none, 0), ("B", none, 0), ("C", none, 0), ("D", none, 0), ("E", some 60000, 2)] ∧
      ejectionSummary (OnTimerLockedMap s6Config (fun _ => 7) 80000 s6After60) =
        [("A", none, 0), ("B", none, 0), ("C", none, 0), ("D", none, 0), ("E", some 60000, 2)] ∧
      ejectionSummary (OnTimerLockedMap s6Config (fun _ => 7) 80001 s6After60) =
        [("A", none, 0), ("B", none, 0), ("C", none, 0), ("D", none, 0), ("E", none, 2)] := by
  -- firing at 0 s
  obtain ⟨-, -, -, r1, r2, -⟩ := RotateBucket_fields s
  have e1 : (s.RotateBucket.Eject 0).ejection_time_ = some 0 := rfl
  have e2 : (s.RotateBucket.Eject 0).multiplier_ = 1 := by
    show (s.RotateBucket.multiplier_ + 1) % 2 ^ 32 = 1
    rw [r1, hm]; norm_num
  obtain ⟨a1, a2⟩ := MaybeUneject_fields_of_ejected (s.RotateBucket.Eject 0) 0 10000 30000 0 e1
    (by rw [e2]; norm_num)
  rw [e2] at a1 a2
  have hA : s.runOps s6Firing0 = (s.RotateBucket.Eject 0).MaybeUneject 10000 30000 0 := rfl
  have a2' : (s.runOps s6Firing0).ejection_time_ = some 0 := by
    rw [hA, a2]; norm_num
  have a1' : (s.runOps s6Firing0).multiplier_ = 1 := by rw [hA, a1]
  -- firing at 30 s
  obtain ⟨-, -, -, q1, q2, -⟩ := RotateBucket_fields (s.runOps s6Firing0)
  obtain ⟨b1, b2⟩ := MaybeUneject_fields_of_ejected (s.runOps s6Firing0).RotateBucket 0
    10000 30000 30000 (q2.trans a2') (by rw [q1, a1']; norm_num)
  rw [q1, a1'] at b1 b2
  have hB : s.runOps (s6Firing0 ++ s6Firing30) =
      (s.runOps s6Firing0).RotateBucket.MaybeUneject 10000 30000 30000 := by
    rw [runOps_append]; rfl
  have b2' : (s.runOps (s6Firing0 ++ s6Firing30)).ejection_time_ = none := by
    rw [hB, b2]; norm_num
  have b1' : (s.runOps (s6Firing0 ++ s6Firing30)).multiplier_ = 1 := by rw [hB, b1]
  -- firing at 60 s
  obtain ⟨-, -, -, p1, -, -⟩ := RotateBucket_fields (s.runOps (s6Firing0 ++ s6Firing30))
  have f1 : ((s.runOps (s6Firing0 ++ s6Firing30)).RotateBucket.Eject 60000).ejection_time_ =
      some 60000 := rfl
  have f2 : ((s.runOps (s6Firing0 ++ s6Firing30)).RotateBucket.Eject 60000).multiplier_ = 2 := by
    show ((s.runOps (s6Firing0 ++ s6Firing30)).RotateBucket.multiplier_ + 1) % 2 ^ 32 = 2
    rw [p1, b1']; norm_num
  obtain ⟨c1, c2⟩ := MaybeUneject_fields_of_ejected
    ((s.runOps (s6Firing0 ++ s6Firing30)).RotateBucket.Eject 60000) 60000 10000 30000 60000 f1
    (by rw [f2]; norm_num)
  rw [f2] at c1 c2
  have hC : s.runOps s6Ops =
      ((s.runOps (s6Firing0 ++ s6Firing30)).RotateBucket.Eject 60000).MaybeUneject
        10000 30000 60000 := by
    rw [s6Ops, runOps_append]; rfl
  have c2' : (s.runOps s6Ops).ejection_time_ = some 60000 := by
    rw [hC, c2]; norm_num
  have c1' : (s.runOps s6Ops).multiplier_ = 2 := by rw [hC, c1]
  -- the next deadline
  obtain ⟨-, d2⟩ := MaybeUneject_fields_of_ejected (s.runOps s6Ops) 60000 10000 30000 now c2'
    (by rw [c1']; norm_num)
  rw [c1'] at d2
  refine ⟨⟨a2', a1'⟩, ⟨b2', b1'⟩, ⟨c2', c1'⟩, by rw [c1']; norm_num, ?_,
    by decide!, by decide!, by decide!, by decide!, by decide!⟩
  rw [d2]
  have hmin : ((min (10000 * 2) (max 10000 30000) : Nat) : Int) = 20000 := by norm_num
  rw [hmin]
  by_cases h : (60000 : Int) + 20000 < now
  · simp [h]
  · simp [h]

/-- Witness of `scenario_S6`: a fresh endpoint state, with a later firing at 90 s. -/
theorem scenario_S6_witness :
    ((create.runOps s6Firing0).ejection_time_ = some 0 ∧
        (create.runOps s6Firing0).multiplier_ = 1) ∧
      ((create.runOps (s6Firing0 ++ s6Firing30)).ejection_time_ = none ∧
        (create.runOps (s6Firing0 ++ s6Firing30)).multiplier_ = 1) ∧
      ((create.runOps s6Ops).ejection_time_ = some 60000 ∧
        (create.runOps s6Ops).multiplier_ = 2) ∧
      min (10000 * (create.runOps s6Ops).multiplier_) (max 10000 30000) = 20000 ∧
      (((create.runOps s6Ops).MaybeUneject 10000 30000 90000).ejection_time_ = none ↔
        (60000 : Int) + 20000 < 90000) ∧
      ejectionSummary s6After0 =
        [("A", none, 0), ("B", none, 0), ("C", none, 0), ("D", none, 0), ("E", some 0, 1)] ∧
      ejectionSummary s6After30 =
        [("A", none, 0), ("B", none, 0), ("C", none, 0), ("D", none, 0), ("E", none, 1)] ∧
      ejectionSummary s6After60 =
        [("A", none, 0), ("B", none, 0), ("C", none, 0), ("D", none, 0), ("E", some 60000, 2)] ∧
      ejectionSummary (OnTimerLockedMap s6Config (fun _ => 7) 80000 s6After60) =
        [("A", none, 0), ("B", none, 0), ("C", none, 0), ("D", none, 0), ("E", some 60000, 2)] ∧
      ejectionSummary (OnTimerLockedMap s6Config (fun _ => 7) 80001 s6After60) =
        [("A", none, 0), ("B", none, 0), ("C", none, 0), ("D", none, 0), ("E", none, 2)] :=
  scenario_S6 create rfl 90000

/-! ### The ejected flag of the bound wrappers -/

theorem applyOp_flag (s : SubchannelState) (op : StateOp)
    (h : ∀ p ∈ s.subchannels_, p.2.ejected_ = s.ejection_time_.isSome) :
    ∀ p ∈ (s.applyOp op).subchannels_, p.2.ejected_ = (s.applyOp op).ejection_time_.isSome := by
  cases op with
  | createWrapper addr =>
    obtain ⟨-, h2, h3⟩ := AddSubchannel_fields s addr (SubchannelWrapper.create (some s))
    intro p hp
    show p.2.ejected_ = (s.AddSubchannel addr (SubchannelWrapper.create (some s))).ejection_time_.isSome
    rw [h2]
    rcases h3 p hp with hp1 | hp1
    · exact h p hp1
    · rw [hp1]; rfl
  | destroyWrapper addr =>
    intro p hp
    have hp1 : p ∈ s.subchannels_ := (List.mem_filter.mp hp).1
    exact h p hp1
  | record o =>
    obtain ⟨-, -, -, -, h2, h3⟩ := record_fields s o
    intro p hp
    show p.2.ejected_ = (s.record o).ejection_time_.isSome
    rw [h2]
    exact h p (h3 ▸ hp)
  | rotate =>
    obtain ⟨-, -, -, -, h2, h3⟩ := RotateBucket_fields s
    intro p hp
    show p.2.ejected_ = s.RotateBucket.ejection_time_.isSome
    rw [h2]
    exact h p (h3 ▸ hp)
  | eject t =>
    intro p hp
    obtain ⟨q, -, rfl⟩ := List.mem_map.mp hp
    rfl
  | uneject =>
    intro p hp
    exact ((Uneject_effect s).2.1 p hp).1
  | maybeUneject base mx now =>
    intro p hp
    change p ∈ (s.MaybeUneject base mx now).subchannels_ at hp
    show p.2.ejected_ = (s.MaybeUneject base mx now).ejection_time_.isSome
    unfold MaybeUneject at hp ⊢
    cases hej : s.ejection_time_ with
    | none =>
      simp only [hej] at hp ⊢
      split at hp
      · rw [if_pos (by assumption)]
        have := h p hp
        rw [hej] at this
        exact this
      · rw [if_neg (by assumption)]
        have := h p hp
        rw [hej] at this
        simpa [hej] using this
    | some t =>
      simp only [hej] at hp ⊢
      split at hp
      · rw [if_pos (by assumption)]
        exact ((Uneject_effect s).2.1 p hp).1
      · rw [if_neg (by assumption)]
        have := h p hp
        rw [hej] at this
        simpa [hej] using this

/-- Claim C15: ejection flag consistency.  In every state reached from a fresh
endpoint state by creating and destroying wrappers, recording calls, rotating,
`Eject`, `Uneject` and `MaybeUneject`, every wrapper bound to the state has its
ejected flag set exactly when the ejection time of the state is present; this
includes the wrappers created while the endpoint was already ejected. -/
theorem ejected_flag_consistent (ops : List StateOp) (p : Nat × SubchannelWrapper)
    (hp : p ∈ (create.runOps ops).subchannels_) :
    p.2.ejected_ = true ↔ (create.runOps ops).ejection_time_.isSome = true := by
  have key : ∀ (l : List StateOp) (s : SubchannelState),
      (∀ p ∈ s.subchannels_, p.2.ejected_ = s.ejection_time_.isSome) →
      ∀ p ∈ (s.runOps l).subchannels_, p.2.ejected_ = (s.runOps l).ejection_time_.isSome := by
    intro l
    induction l with
    | nil => intro s h; exact h
    | cons op rest ih => intro s h; exact ih (s.applyOp op) (applyOp_flag s op h)
  rw [key ops create (fun p hp => by cases hp) p hp]

/-- Witness of `ejected_flag_consistent`: the wrapper at address 200 is created
while the endpoint is ejected, outlives the un-ejection and the destruction of the
wrapper at address 100, and is still bound at the second ejection. -/
theorem ejected_flag_consistent_witness :
    ((200, { ejected_ := true, watchers_ := [] }) : Nat × SubchannelWrapper) ∈
        (create.runOps [StateOp.createWrapper 100, StateOp.eject 5,
          StateOp.createWrapper 200, StateOp.maybeUneject 10000 30000 20000,
          StateOp.destroyWrapper 100, StateOp.eject 30000]).subchannels_ ∧
      ((((200, { ejected_ := true, watchers_ := [] }) : Nat × SubchannelWrapper)).2.ejected_ = true ↔
        (create.runOps [StateOp.createWrapper 100, StateOp.eject 5,
          StateOp.createWrapper 200, StateOp.maybeUneject 10000 30000 20000,
          StateOp.destroyWrapper 100, StateOp.eject 30000]).ejection_time_.isSome = true) :=
  ⟨by decide,
    ejected_flag_consistent [StateOp.createWrapper 100, StateOp.eject 5,
      StateOp.createWrapper 200, StateOp.maybeUneject 10000 30000 20000,
      StateOp.destroyWrapper 100, StateOp.eject 30000] _ (by decide)⟩

end SubchannelState

/-! ### Below the minimum number of hosts -/

theorem successRateAlgorithm_of_few (config : OutlierDetectionConfig) (dice : Nat → Nat)
    (t : Int) (g : Gather) (L : EjectLoop) (sr : SuccessRateEjection)
    (hsr : config.success_rate_ejection = some sr)
    (hlt : g.success_rate_ejection_candidates.length < sr.minimum_hosts) :
    successRateAlgorithm config dice t g L = L := by
  unfold successRateAlgorithm
  simp only [hsr]
  rw [if_neg]
  rintro ⟨-, h⟩
  omega

/-- Claim C16: below minimum hosts.  In a firing in which the number of success
rate candidates is smaller than `minimum_hosts`, the success rate algorithm changes
neither the map nor the ejected count; without a failure percentage configuration
the firing is then only the bucket rotation followed by the un-eject loop, and it
leaves no more endpoints ejected than before.  With `minimum_hosts = 3` and only A
(100 successes) and E (100 failures) in the map, no endpoint is ejected. -/
theorem below_minimum_hosts (config : OutlierDetectionConfig) (dice : Nat → Nat) (now : Int)
    (m : StateMap) (L : EjectLoop) (sr : SuccessRateEjection)
    (hsr : config.success_rate_ejection = some sr)
    (hlt : (gatherLoop config m Gather.init).1.success_rate_ejection_candidates.length <
      sr.minimum_hosts) :
    successRateAlgorithm config dice now (gatherLoop config m Gather.init).1 L = L ∧
      (config.failure_percentage_ejection = none →
        OnTimerLockedMap config dice now m = unejectLoop config now (m.map rotateEntry) ∧
          numEjected (OnTimerLockedMap config dice now m) ≤ numEjected m) ∧
      ejectionSummary (OnTimerLockedMap s1Config dice now s2Map) =
        [("A", none, 0), ("E", none, 0)] := by
  have h1 := fun L => successRateAlgorithm_of_few config dice now
    (gatherLoop config m Gather.init).1 L sr hsr hlt
  refine ⟨h1 L, ?_, ?_⟩
  · intro hfp
    have hfire : OnTimerLockedMap config dice now m =
        unejectLoop config now (m.map rotateEntry) := by
      unfold OnTimerLockedMap
      simp only
      rw [h1]
      unfold failurePercentageAlgorithm
      simp only [hfp, gatherLoop_snd]
    refine ⟨hfire, ?_⟩
    rw [hfire]
    exact le_trans (numEjected_unejectLoop_le config now _)
      (le_of_eq (numEjected_map_rotateEntry m))
  · have hlt2 : (gatherLoop s1Config s2Map Gather.init).1.success_rate_ejection_candidates.length <
        (⟨1900, 100, 3, 5⟩ : SuccessRateEjection).minimum_hosts := by decide!
    have hfire : OnTimerLockedMap s1Config dice now s2Map =
        unejectLoop s1Config now (s2Map.map rotateEntry) := by
      unfold OnTimerLockedMap
      simp only
      rw [successRateAlgorithm_of_few s1Config dice now _ _ ⟨1900, 100, 3, 5⟩ rfl hlt2]
      unfold failurePercentageAlgorithm
      simp only [gatherLoop_snd]
      rfl
    rw [hfire]
    rfl

/-- Witness of `below_minimum_hosts`: scenario S2 itself. -/
theorem below_minimum_hosts_witness :
    successRateAlgorithm s1Config (fun _ => 7) 1000 (gatherLoop s1Config s2Map Gather.init).1
        { map := s2Map.map rotateEntry, ejected_host_count := 0, draws := 0 } =
        { map := s2Map.map rotateEntry, ejected_host_count := 0, draws := 0 } ∧
      (s1Config.failure_percentage_ejection = none →
        OnTimerLockedMap s1Config (fun _ => 7) 1000 s2Map =
            unejectLoop s1Config 1000 (s2Map.map rotateEntry) ∧
          numEjected (OnTimerLockedMap s1Config (fun _ => 7) 1000 s2Map) ≤ numEjected s2Map) ∧
      ejectionSummary (OnTimerLockedMap s1Config (fun _ => 7) 1000 s2Map) =
        [("A", none, 0), ("E", none, 0)] :=
  below_minimum_hosts s1Config (fun _ => 7) 1000 s2Map
    { map := s2Map.map rotateEntry, ejected_host_count := 0, draws := 0 } ⟨1900, 100, 3, 5⟩ rfl
    (by decide!)

/-! ### The enforcement probability -/

theorem card_diceValues : diceValues.card = 99 := by
  simp [diceValues]

/-- The fraction of the dice values below the enforcement percentage, when the cap
does not suppress the ejection. -/
theorem enforcementProbability_eq (pct e c n : Nat) (hn : 1 ≤ n) (he : e ≤ 100)
    (hcap : c = 0 ∨ 100 * c < pct * n) :
    enforcementProbability pct e c n = ((e - 1 : Nat) : ℚ) / 99 := by
  have hfilter : diceValues.filter (fun r => enforce pct e r c n = true) = Finset.Ico 1 e := by
    ext r
    simp only [Finset.mem_filter, diceValues, Finset.mem_Ico, enforce_iff pct e r c n hn]
    constructor
    · rintro ⟨⟨h1, -⟩, h2, -⟩
      exact ⟨h1, h2⟩
    · rintro ⟨h1, h2⟩
      exact ⟨⟨h1, by omega⟩, h2, hcap⟩
  unfold enforcementProbability
  rw [hfilter, card_diceValues, Nat.card_Ico]
  norm_num

/-- Claim C17, amended: for every enforcement percentage `e` in 0..100, when the
dice value is uniformly distributed over the integers of the half-open range from
1 to 100, which are the 99 integers from 1 to 99, the probability that an endpoint
judged ejectable and not suppressed by the cap is actually ejected, i.e. that the
dice value is below `e`, is `(e - 1) / 99` for `e ≥ 1` and 0 for `e = 0`.  It
equals `e / 100` exactly when `e` is 0 or 100; otherwise it is lower than
`e / 100` by `(100 - e) / 9900`, which is never more than `1 / 100`. -/
theorem enforcementProbability_spec (pct e c n : Nat) (hn : 1 ≤ n) (he : e ≤ 100)
    (hcap : c = 0 ∨ 100 * c < pct * n) :
    enforcementProbability pct e c n = ((e - 1 : Nat) : ℚ) / 99 ∧
      (enforcementProbability pct e c n = (e : ℚ) / 100 ↔ e = 0 ∨ e = 100) ∧
      (1 ≤ e → (e : ℚ) / 100 - enforcementProbability pct e c n = (100 - (e : ℚ)) / 9900) ∧
      (e : ℚ) / 100 - 1 / 100 ≤ enforcementProbability pct e c n ∧
      enforcementProbability pct e c n ≤ (e : ℚ) / 100 := by
  have hp := enforcementProbability_eq pct e c n hn he hcap
  have hbounds : (e : ℚ) / 100 - 1 / 100 ≤ enforcementProbability pct e c n ∧
      enforcementProbability pct e c n ≤ (e : ℚ) / 100 := by
    rw [hp]
    have he100 : (e : ℚ) ≤ 100 := by exact_mod_cast he
    rcases Nat.eq_zero_or_pos e with h0 | h0
    · subst h0; norm_num
    · have hcast : ((e - 1 : Nat) : ℚ) = (e : ℚ) - 1 := by
        rw [Nat.cast_sub h0]; simp
      have h1 : (1 : ℚ) ≤ (e : ℚ) := by exact_mod_cast h0
      rw [hcast]
      constructor
      · rw [le_div_iff₀ (by norm_num)]; linarith
      · rw [div_le_iff₀ (by norm_num)]; linarith
  refine ⟨hp, ?_, ?_, hbounds.1, hbounds.2⟩
  · rw [hp]
    rcases Nat.eq_zero_or_pos e with h0 | h0
    · subst h0; simp
    · have hcast : ((e - 1 : Nat) : ℚ) = (e : ℚ) - 1 := by
        rw [Nat.cast_sub h0]; simp
      rw [hcast]
      constructor
      · intro h
        right
        have h2 : (e : ℚ) = 100 := by
          field_simp at h
          linarith
        exact_mod_cast h2
      · rintro (h | h)
        · omega
        · subst h; norm_num
  · intro h1
    have hcast : ((e - 1 : Nat) : ℚ) = (e : ℚ) - 1 := by
      rw [Nat.cast_sub h1]; simp
    rw [hp, hcast]
    ring

/-- Witness of `enforcementProbability_spec`: an enforcement percentage of 50 in a
map of 5 endpoints, none ejected. -/
theorem enforcementProbability_spec_witness :
    1 ≤ 5 ∧ 50 ≤ 100 ∧
      enforcementProbability 100 50 0 5 = ((50 - 1 : Nat) : ℚ) / 99 ∧
      ((50 : Nat) : ℚ) / 100 - 1 / 100 ≤ enforcementProbability 100 50 0 5 ∧
      enforcementProbability 100 50 0 5 ≤ ((50 : Nat) : ℚ) / 100 :=
  ⟨by decide, by decide,
    (enforcementProbability_spec 100 50 0 5 (by decide) (by decide) (Or.inl rfl)).1,
    (enforcementProbability_spec 100 50 0 5 (by decide) (by decide) (Or.inl rfl)).2.2.2.1,
    (enforcementProbability_spec 100 50 0 5 (by decide) (by decide) (Or.inl rfl)).2.2.2.2⟩

/-- Counterexample to claim C17 as stated: with no endpoint ejected (so the cap
does not suppress the ejection), an enforcement percentage of 50 ejects for 49 of
the 99 dice values, probability `49 / 99` and not `50 / 100`; and an enforcement
percentage of 1 never ejects, probability 0 and not `1 / 100`. -/
theorem enforcement_probability_off_by_one :
    enforcementProbability 100 50 0 5 = 49 / 99 ∧
      enforcementProbability 100 50 0 5 ≠ 50 / 100 ∧
      enforcementProbability 100 1 0 5 = 0 ∧
      enforcementProbability 100 1 0 5 ≠ 1 / 100 := by
  have hp := enforcementProbability_eq 100 50 0 5 (by norm_num) (by norm_num) (Or.inl rfl)
  have h1 := enforcementProbability_eq 100 1 0 5 (by norm_num) (by norm_num) (Or.inl rfl)
  refine ⟨?_, ?_, ?_, ?_⟩
  · rw [hp]; norm_num
  · rw [hp]; norm_num
  · rw [h1]; norm_num
  · rw [h1]; norm_num

/-! ### `CountingEnabled` -/

/-- Claim C18: counting is enabled for a configuration if and only if its interval
is not the infinity sentinel and at least one of `success_rate_ejection` and
`failure_percentage_ejection` is present. -/
theorem CountingEnabled_iff (c : OutlierDetectionLbConfig) :
    c.CountingEnabled = true ↔
      c.outlier_detection_config_.interval ≠ Duration.Infinity ∧
        (c.outlier_detection_config_.success_rate_ejection.isSome = true ∨
          c.outlier_detection_config_.failure_percentage_ejection.isSome = true) := by
  simp [OutlierDetectionLbConfig.CountingEnabled]

/-! ## `UpdateLocked` -/

theorem mem_insertByKey (e : MapEntry) (m : StateMap) (x : MapEntry) :
    x ∈ insertByKey e m ↔ x = e ∨ x ∈ m := by
  induction m with
  | nil => simp [insertByKey]
  | cons h rest ih =>
    unfold insertByKey
    split
    · simp
    · simp only [List.mem_cons, ih]
      tauto

theorem mem_keys (m : StateMap) (k : String) : k ∈ keys m ↔ ∃ e ∈ m, e.key = k := by
  simp [keys]

theorem any_key_iff (m : StateMap) (k : String) :
    m.any (fun e => e.key == k) = true ↔ k ∈ keys m := by
  simp [keys, List.any_eq_true]

theorem ensureState_of_mem (alloc : List Nat → Nat) (m : StateMap) (k : String)
    (h : k ∈ keys m) : ensureState alloc m k = m := by
  unfold ensureState
  rw [if_pos ((any_key_iff m k).mpr h)]

theorem mem_ensureState (alloc : List Nat → Nat) (m : StateMap) (k : String) (x : MapEntry) :
    x ∈ ensureState alloc m k ↔
      x ∈ m ∨ (k ∉ keys m ∧ x = newEntry alloc m k) := by
  unfold ensureState
  by_cases h : m.any (fun e => e.key == k) = true
  · rw [if_pos h]
    have hk := (any_key_iff m k).mp h
    constructor
    · exact fun hx => Or.inl hx
    · rintro (hx | ⟨hn, -⟩)
      · exact hx
      · exact absurd hk hn
  · rw [if_neg h, mem_insertByKey]
    have hk : k ∉ keys m := fun hc => h ((any_key_iff m k).mpr hc)
    constructor
    · rintro (hx | hx)
      · exact Or.inr ⟨hk, hx⟩
      · exact Or.inl hx
    · rintro (hx | ⟨-, hx⟩)
      · exact Or.inr hx
      · exact Or.inl hx

theorem keys_ensureState (alloc : List Nat → Nat) (m : StateMap) (k k1 : String) :
    k1 ∈ keys (ensureState alloc m k) ↔ k1 ∈ keys m ∨ k1 = k := by
  rw [mem_keys]
  constructor
  · rintro ⟨x, hx, rfl⟩
    rcases (mem_ensureState alloc m k x).mp hx with h | ⟨-, h⟩
    · exact Or.inl ((mem_keys m _).mpr ⟨x, h, rfl⟩)
    · exact Or.inr (by rw [h]; rfl)
  · rintro (h | h)
    · obtain ⟨x, hx, rfl⟩ := (mem_keys m _).mp h
      exact ⟨x, (mem_ensureState alloc m k x).mpr (Or.inl hx), rfl⟩
    · subst h
      by_cases hk : k1 ∈ keys m
      · obtain ⟨x, hx, hxk⟩ := (mem_keys m _).mp hk
        exact ⟨x, (mem_ensureState alloc m k1 x).mpr (Or.inl hx), hxk⟩
      · exact ⟨_, (mem_ensureState alloc m k1 _).mpr (Or.inr ⟨hk, rfl⟩), rfl⟩

/-- The loop over the addresses of an update: the keys seen so far, the keys of the
map, and where the entries of the map come from. -/
theorem addressLoop_spec (ToString : ServerAddress → String) (alloc : List Nat → Nat)
    (addresses : List ServerAddress) :
    ∀ acc : StateMap × List String,
      (∀ k, k ∈ (addresses.foldl (addressStep ToString alloc) acc).2 ↔
        k ∈ acc.2 ∨ k ∈ addresses.map (MakeKeyForAddress ToString)) ∧
      (∀ k, k ∈ keys (addresses.foldl (addressStep ToString alloc) acc).1 ↔
        k ∈ keys acc.1 ∨ k ∈ addresses.map (MakeKeyForAddress ToString)) ∧
      (∀ x ∈ (addresses.foldl (addressStep ToString alloc) acc).1,
        x ∈ acc.1 ∨ (x.key ∉ keys acc.1 ∧ x.state = SubchannelState.create)) ∧
      (∀ x ∈ acc.1, x ∈ (addresses.foldl (addressStep ToString alloc) acc).1) := by
  induction addresses with
  | nil =>
    intro acc
    refine ⟨fun k => by simp, fun k => by simp, fun x hx => Or.inl hx, fun x hx => hx⟩
  | cons a rest ih =>
    intro acc
    obtain ⟨i1, i2, i3, i4⟩ := ih (addressStep ToString alloc acc a)
    simp only [List.foldl_cons, List.map_cons, List.mem_cons]
    refine ⟨?_, ?_, ?_, ?_⟩
    · intro k
      rw [i1 k]
      simp only [addressStep, List.mem_cons]
      tauto
    · intro k
      rw [i2 k]
      simp only [addressStep, keys_ensureState]
      tauto
    · intro x hx
      rcases i3 x hx with h | ⟨h1, h2⟩
      · rcases (mem_ensureState alloc acc.1 _ x).mp h with h' | ⟨hk, h'⟩
        · exact Or.inl h'
        · right
          rw [h']
          exact ⟨hk, rfl⟩
      · right
        refine ⟨fun hk => h1 ?_, h2⟩
        simp only [addressStep, keys_ensureState]
        exact Or.inl hk
    · intro x hx
      exact i4 x ((mem_ensureState alloc acc.1 _ x).mpr (Or.inl hx))

theorem mem_syncAddresses (ToString : ServerAddress → String) (alloc : List Nat → Nat)
    (m : StateMap) (addresses : List ServerAddress) (x : MapEntry) :
    x ∈ syncAddresses ToString alloc m addresses ↔
      x ∈ (addresses.foldl (addressStep ToString alloc) (m, [])).1 ∧
        x.key ∈ addresses.map (MakeKeyForAddress ToString) := by
  obtain ⟨i1, -, -, -⟩ := addressLoop_spec ToString alloc addresses (m, [])
  unfold syncAddresses
  simp only [List.mem_filter, decide_eq_true_eq, i1]
  simp

/-- The keys of the map after the address handling are the keys of the update. -/
theorem keys_syncAddresses (ToString : ServerAddress → String) (alloc : List Nat → Nat)
    (m : StateMap) (addresses : List ServerAddress) (k : String) :
    k ∈ keys (syncAddresses ToString alloc m addresses) ↔
      k ∈ addresses.map (MakeKeyForAddress ToString) := by
  obtain ⟨-, i2, -, -⟩ := addressLoop_spec ToString alloc addresses (m, [])
  rw [mem_keys]
  constructor
  · rintro ⟨x, hx, rfl⟩
    exact ((mem_syncAddresses ToString alloc m addresses x).mp hx).2
  · intro hk
    obtain ⟨x, hx, hxk⟩ := (mem_keys _ k).mp ((i2 k).mpr (Or.inr hk))
    exact ⟨x, (mem_syncAddresses ToString alloc m addresses x).mpr ⟨hx, hxk ▸ hk⟩, hxk⟩

/-- When the keys of the update are the keys of the map, the address handling
leaves the map as it is. -/
theorem syncAddresses_of_same_keys (ToString : ServerAddress → String)
    (alloc : List Nat → Nat) (m : StateMap) (addresses : List ServerAddress)
    (h : ∀ k, k ∈ keys m ↔ k ∈ addresses.map (MakeKeyForAddress ToString)) :
    syncAddresses ToString alloc m addresses = m := by
  have hloop : ∀ (l : List ServerAddress) (seen : List String),
      (∀ a ∈ l, MakeKeyForAddress ToString a ∈ keys m) →
      (l.foldl (addressStep ToString alloc) (m, seen)).1 = m := by
    intro l
    induction l with
    | nil => intro seen _; rfl
    | cons a rest ih =>
      intro seen hl
      rw [List.foldl_cons]
      have hstep : addressStep ToString alloc (m, seen) a =
          (m, MakeKeyForAddress ToString a :: seen) := by
        simp only [addressStep, ensureState_of_mem alloc m _ (hl a (List.mem_cons_self _ _))]
      rw [hstep]
      exact ih _ (fun b hb => hl b (List.mem_cons_of_mem _ hb))
  have h1 := hloop addresses []
    (fun a ha => (h _).mpr (List.mem_map.mpr ⟨a, ha, rfl⟩))
  obtain ⟨i1, -, -, -⟩ := addressLoop_spec ToString alloc addresses (m, [])
  unfold syncAddresses
  simp only
  rw [h1, List.filter_eq_self]
  intro x hx
  rw [decide_eq_true_eq, i1]
  right
  exact (h _).mp ((mem_keys m _).mpr ⟨x, hx, rfl⟩)

theorem keys_map_rotateEntry (m : StateMap) : keys (m.map rotateEntry) = keys m := by
  simp [keys, rotateEntry, List.map_map, Function.comp_def]

theorem updateTimer_fields (now : Int) (old : Option OutlierDetectionLbConfig)
    (c : OutlierDetectionLbConfig) (p : OutlierDetectionLb) :
    (updateTimer now old c p).config_ = p.config_ ∧
      (updateTimer now old c p).child_policy_ = p.child_policy_ ∧
      ((updateTimer now old c p).subchannel_state_map_ = p.subchannel_state_map_ ∨
        (updateTimer now old c p).subchannel_state_map_ =
          p.subchannel_state_map_.map rotateEntry) ∧
      (c.CountingEnabled = false → (updateTimer now old c p).ejection_timer_ = none) ∧
      (c.CountingEnabled = true → (updateTimer now old c p).ejection_timer_.isSome = true) := by
  unfold updateTimer
  cases hce : c.CountingEnabled
  · simp
  · cases ht : p.ejection_timer_ with
    | none => simp
    | some timer =>
      cases old with
      | none => simp [ht]
      | some o =>
        by_cases hi : o.outlier_detection_config_.interval ≠ c.outlier_detection_config_.interval
        · simp [hi]
        · simp [hi, ht]

/-- An update with the configuration that is already in force leaves the timer and
the map as they are. -/
theorem updateTimer_same (now : Int) (c : OutlierDetectionLbConfig) (p : OutlierDetectionLb)
    (h0 : c.CountingEnabled = false → p.ejection_timer_ = none)
    (h1 : c.CountingEnabled = true → p.ejection_timer_.isSome = true) :
    updateTimer now (some c) c p = p := by
  unfold updateTimer
  cases hce : c.CountingEnabled
  · have := h0 hce
    cases p
    simp only at this
    simp [this]
  · have := h1 hce
    cases ht : p.ejection_timer_ with
    | none => rw [ht] at this; cases this
    | some timer => simp

theorem UpdateLocked_fields (ToString : ServerAddress → String) (alloc : List Nat → Nat)
    (now : Int) (p : OutlierDetectionLb) (args : UpdateArgs) :
    (UpdateLocked ToString alloc now p args).config_ = some args.config ∧
      (UpdateLocked ToString alloc now p args).ejection_timer_ =
        (updateTimer now p.config_ args.config
          { p with config_ := some args.config }).ejection_timer_ ∧
      (UpdateLocked ToString alloc now p args).child_policy_.isSome = true ∧
      (UpdateLocked ToString alloc now p args).subchannel_state_map_ =
        match args.addresses with
        | StatusOr.ok addresses =>
          syncAddresses ToString alloc
            (updateTimer now p.config_ args.config
              { p with config_ := some args.config }).subchannel_state_map_ addresses
        | StatusOr.error _ =>
          (updateTimer now p.config_ args.config
            { p with config_ := some args.config }).subchannel_state_map_ := by
  obtain ⟨t1, -, -, -, -⟩ := updateTimer_fields now p.config_ args.config
    { p with config_ := some args.config }
  unfold UpdateLocked
  cases hc : (updateTimer now p.config_ args.config
      { p with config_ := some args.config }).child_policy_ <;>
    cases ha : args.addresses <;> simp [hc, t1]

/-- Claim C19: the endpoint map tracks the address list.  After an update whose
address list is ok, the keys of the endpoint map are exactly the keys derived from
the addresses of the update; an entry whose key was not in the map before holds a
fresh state, and an entry whose key was in the map before is the entry the map had
for that key (the same state object, its buckets rotated when the update started
the timer). -/
theorem UpdateLocked_tracks_addresses (ToString : ServerAddress → String)
    (alloc : List Nat → Nat) (now : Int) (p : OutlierDetectionLb) (args : UpdateArgs)
    (addresses : List ServerAddress) (hok : args.addresses = StatusOr.ok addresses) :
    (∀ k, k ∈ keys (UpdateLocked ToString alloc now p args).subchannel_state_map_ ↔
        k ∈ addresses.map (MakeKeyForAddress ToString)) ∧
      (∀ e ∈ (UpdateLocked ToString alloc now p args).subchannel_state_map_,
        e.key ∉ keys p.subchannel_state_map_ → e.state = SubchannelState.create) ∧
      (∀ e ∈ (UpdateLocked ToString alloc now p args).subchannel_state_map_,
        e.key ∈ keys p.subchannel_state_map_ →
          ∃ e0 ∈ p.subchannel_state_map_, e0.key = e.key ∧ e0.addr = e.addr ∧
            (e.state = e0.state ∨ e.state = e0.state.RotateBucket)) := by
  obtain ⟨-, -, -, hmap⟩ := UpdateLocked_fields ToString alloc now p args
  rw [hok] at hmap
  simp only at hmap
  obtain ⟨-, -, hrot, -, -⟩ := updateTimer_fields now p.config_ args.config
    { p with config_ := some args.config }
  set m3 := (updateTimer now p.config_ args.config
    { p with config_ := some args.config }).subchannel_state_map_ with hm3
  have hkeys3 : keys m3 = keys p.subchannel_state_map_ := by
    rcases hrot with h | h
    · rw [h]
    · rw [h, keys_map_rotateEntry]
  have hfrom : ∀ x ∈ m3, ∃ e0 ∈ p.subchannel_state_map_, e0.key = x.key ∧ e0.addr = x.addr ∧
      (x.state = e0.state ∨ x.state = e0.state.RotateBucket) := by
    intro x hx
    rcases hrot with h | h
    · rw [h] at hx
      exact ⟨x, hx, rfl, rfl, Or.inl rfl⟩
    · rw [h] at hx
      obtain ⟨e0, he0, rfl⟩ := List.mem_map.mp hx
      exact ⟨e0, he0, rfl, rfl, Or.inr rfl⟩
  obtain ⟨-, -, i3, -⟩ := addressLoop_spec ToString alloc addresses (m3, [])
  rw [hmap]
  refine ⟨fun k => keys_syncAddresses ToString alloc m3 addresses k, ?_, ?_⟩
  · intro e he hk
    rcases i3 e ((mem_syncAddresses ToString alloc m3 addresses e).mp he).1 with h | ⟨-, h⟩
    · exact absurd (hkeys3 ▸ (mem_keys m3 _).mpr ⟨e, h, rfl⟩) hk
    · exact h
  · intro e he hk
    rcases i3 e ((mem_syncAddresses ToString alloc m3 addresses e).mp he).1 with h | ⟨h, -⟩
    · exact hfrom e h
    · exact absurd (hkeys3 ▸ hk) h

/-- Witness of `UpdateLocked_tracks_addresses`: a policy with one endpoint receives
an update that lists two other addresses. -/
theorem UpdateLocked_tracks_addresses_witness :
    (∀ k, k ∈ keys (UpdateLocked exampleToString exampleAlloc 100 examplePolicy
          exampleUpdate).subchannel_state_map_ ↔
        k ∈ ([⟨"10.0.0.2:80", [], []⟩, ⟨"10.0.0.1:80", [], [("weight", "3")]⟩,
          ⟨"10.0.0.2:80", [], [("weight", "5")]⟩] : List ServerAddress).map
            (MakeKeyForAddress exampleToString)) ∧
      (∀ e ∈ (UpdateLocked exampleToString exampleAlloc 100 examplePolicy
          exampleUpdate).subchannel_state_map_,
        e.key ∉ keys examplePolicy.subchannel_state_map_ → e.state = SubchannelState.create) ∧
      (∀ e ∈ (UpdateLocked exampleToString exampleAlloc 100 examplePolicy
          exampleUpdate).subchannel_state_map_,
        e.key ∈ keys examplePolicy.subchannel_state_map_ →
          ∃ e0 ∈ examplePolicy.subchannel_state_map_, e0.key = e.key ∧ e0.addr = e.addr ∧
            (e.state = e0.state ∨ e.state = e0.state.RotateBucket)) :=
  UpdateLocked_tracks_addresses exampleToString exampleAlloc 100 examplePolicy exampleUpdate
    _ rfl

/-- An update that brings the configuration already in force and an address list
with the keys of the map leaves the map and the timer as they are, whatever was
recorded or evaluated since the configuration came into force. -/
theorem UpdateLocked_in_force (ToString : ServerAddress → String) (alloc : List Nat → Nat)
    (now : Int) (q : OutlierDetectionLb) (u : UpdateArgs) (addresses : List ServerAddress)
    (hok : u.addresses = StatusOr.ok addresses) (hc : q.config_ = some u.config)
    (h0 : u.config.CountingEnabled = false → q.ejection_timer_ = none)
    (h1 : u.config.CountingEnabled = true → q.ejection_timer_.isSome = true)
    (hk : ∀ k, k ∈ keys q.subchannel_state_map_ ↔
      k ∈ addresses.map (MakeKeyForAddress ToString)) :
    (UpdateLocked ToString alloc now q u).subchannel_state_map_ = q.subchannel_state_map_ ∧
      (UpdateLocked ToString alloc now q u).ejection_timer_ = q.ejection_timer_ := by
  obtain ⟨-, t2, -, m2⟩ := UpdateLocked_fields ToString alloc now q u
  have hcfg1 : ({ q with config_ := some u.config } : OutlierDetectionLb) = q := by
    cases hq : q
    rw [hq] at hc
    simp only at hc
    simp [hc]
  have hsame : updateTimer now q.config_ u.config { q with config_ := some u.config } = q := by
    rw [hcfg1, hc]
    exact updateTimer_same now u.config q h0 h1
  rw [hsame] at t2 m2
  rw [hok] at m2
  simp only at m2
  refine ⟨?_, t2⟩
  rw [m2]
  exact syncAddresses_of_same_keys ToString alloc _ addresses hk

/-- Claim C20: idempotent update.  For every policy state, after an update, a
second update with an equal configuration and an address list with the same set of
keys leaves the endpoint map exactly as it is, so the key set and the bucket
counters, the multiplier and the ejection time of every endpoint are unchanged, and
it leaves the timer untouched. -/
theorem UpdateLocked_idempotent (ToString : ServerAddress → String)
    (alloc alloc2 : List Nat → Nat) (now now2 : Int) (p : OutlierDetectionLb)
    (u1 u2 : UpdateArgs) (a1 a2 : List ServerAddress)
    (h1 : u1.addresses = StatusOr.ok a1) (h2 : u2.addresses = StatusOr.ok a2)
    (hcfg : u2.config = u1.config)
    (hkeys : ∀ k, k ∈ a1.map (MakeKeyForAddress ToString) ↔
      k ∈ a2.map (MakeKeyForAddress ToString)) :
    (UpdateLocked ToString alloc2 now2 (UpdateLocked ToString alloc now p u1) u2).subchannel_state_map_ =
        (UpdateLocked ToString alloc now p u1).subchannel_state_map_ ∧
      (UpdateLocked ToString alloc2 now2 (UpdateLocked ToString alloc now p u1) u2).ejection_timer_ =
        (UpdateLocked ToString alloc now p u1).ejection_timer_ ∧
      (∀ k, k ∈ keys (UpdateLocked ToString alloc2 now2
            (UpdateLocked ToString alloc now p u1) u2).subchannel_state_map_ ↔
        k ∈ keys (UpdateLocked ToString alloc now p u1).subchannel_state_map_) := by
  obtain ⟨c1, t1, -, m1⟩ := UpdateLocked_fields ToString alloc now p u1
  obtain ⟨-, -, -, f0, f1⟩ := updateTimer_fields now p.config_ u1.config
    { p with config_ := some u1.config }
  have hk1 : ∀ k, k ∈ keys (UpdateLocked ToString alloc now p u1).subchannel_state_map_ ↔
      k ∈ a2.map (MakeKeyForAddress ToString) := by
    intro k
    rw [← hkeys k, m1, h1]
    exact keys_syncAddresses ToString alloc _ a1 k
  obtain ⟨hmap, htimer⟩ := UpdateLocked_in_force ToString alloc2 now2
    (UpdateLocked ToString alloc now p u1) u2 a2 h2 (by rw [c1, hcfg])
    (fun h => by rw [t1]; exact f0 (hcfg ▸ h)) (fun h => by rw [t1]; exact f1 (hcfg ▸ h)) hk1
  exact ⟨hmap, htimer, fun k => by rw [hmap]⟩

/-- Witness of `UpdateLocked_idempotent`: the second update lists the same two
addresses in another order and with other attributes. -/
theorem UpdateLocked_idempotent_witness :
    (UpdateLocked exampleToString exampleAlloc 200
        (UpdateLocked exampleToString exampleAlloc 100 examplePolicy exampleUpdate)
        exampleUpdateAgain).subchannel_state_map_ =
        (UpdateLocked exampleToString exampleAlloc 100 examplePolicy
          exampleUpdate).subchannel_state_map_ ∧
      (UpdateLocked exampleToString exampleAlloc 200
        (UpdateLocked exampleToString exampleAlloc 100 examplePolicy exampleUpdate)
        exampleUpdateAgain).ejection_timer_ =
        (UpdateLocked exampleToString exampleAlloc 100 examplePolicy
          exampleUpdate).ejection_timer_ ∧
      (∀ k, k ∈ keys (UpdateLocked exampleToString exampleAlloc 200
            (UpdateLocked exampleToString exampleAlloc 100 examplePolicy exampleUpdate)
            exampleUpdateAgain).subchannel_state_map_ ↔
        k ∈ keys (UpdateLocked exampleToString exampleAlloc 100 examplePolicy
          exampleUpdate).subchannel_state_map_) :=
  UpdateLocked_idempotent exampleToString exampleAlloc exampleAlloc 100 200 examplePolicy
    exampleUpdate exampleUpdateAgain _ _ rfl rfl rfl
    (by
      intro k
      simp only [MakeKeyForAddress, List.map_cons, List.map_nil, List.mem_cons,
        List.mem_singleton, List.not_mem_nil, or_false]
      tauto)

/-! ## Updates with an error, and the timer management of an update -/

theorem UpdateLocked_child (ToString : ServerAddress → String) (alloc : List Nat → Nat)
    (now : Int) (p : OutlierDetectionLb) (args : UpdateArgs) :
    (UpdateLocked ToString alloc now p args).child_policy_ =
      some (p.child_policy_.getD [] ++
        [ChildCall.UpdateLocked args.addresses args.config.child_policy_ args.args]) := by
  obtain ⟨-, t2, -, -, -⟩ := updateTimer_fields now p.config_ args.config
    { p with config_ := some args.config }
  simp only at t2
  rw [← t2]
  unfold UpdateLocked
  cases hc : (updateTimer now p.config_ args.config
      { p with config_ := some args.config }).child_policy_ <;>
    cases ha : args.addresses <;> simp [hc]

theorem ejectionSummary_map_rotateEntry (m : StateMap) :
    ejectionSummary (m.map rotateEntry) = ejectionSummary m := by
  induction m with
  | nil => rfl
  | cons e rest ih =>
    obtain ⟨-, -, -, r1, r2, -⟩ := SubchannelState.RotateBucket_fields e.state
    simp only [ejectionSummary, List.map_cons] at ih ⊢
    rw [ih]
    simp only [rotateEntry, r1, r2]

/-- Claim C21: an update whose address list carries an error status leaves the
endpoint map unchanged in its keys, its state objects and the ejection time and
multiplier of every endpoint (the only possible change is the bucket rotation of
the timer management), and the update, with the error, is still forwarded to the
child policy. -/
theorem UpdateLocked_error_addresses (ToString : ServerAddress → String)
    (alloc : List Nat → Nat) (now : Int) (p : OutlierDetectionLb) (args : UpdateArgs)
    (st : Status) (herr : args.addresses = StatusOr.error st) :
    keys (UpdateLocked ToString alloc now p args).subchannel_state_map_ =
        keys p.subchannel_state_map_ ∧
      addrs (UpdateLocked ToString alloc now p args).subchannel_state_map_ =
        addrs p.subchannel_state_map_ ∧
      ejectionSummary (UpdateLocked ToString alloc now p args).subchannel_state_map_ =
        ejectionSummary p.subchannel_state_map_ ∧
      ((UpdateLocked ToString alloc now p args).subchannel_state_map_ = p.subchannel_state_map_ ∨
        (UpdateLocked ToString alloc now p args).subchannel_state_map_ =
          p.subchannel_state_map_.map rotateEntry) ∧
      (UpdateLocked ToString alloc now p args).child_policy_ =
        some (p.child_policy_.getD [] ++
          [ChildCall.UpdateLocked (StatusOr.error st) args.config.child_policy_ args.args]) := by
  obtain ⟨-, -, -, hmap⟩ := UpdateLocked_fields ToString alloc now p args
  rw [herr] at hmap
  simp only at hmap
  obtain ⟨-, -, hrot, -, -⟩ := updateTimer_fields now p.config_ args.config
    { p with config_ := some args.config }
  simp only at hrot
  have hchild := UpdateLocked_child ToString alloc now p args
  rw [herr] at hchild
  rw [hmap]
  rcases hrot with h | h
  · rw [h]
    exact ⟨rfl, rfl, rfl, Or.inl rfl, hchild⟩
  · rw [h]
    exact ⟨keys_map_rotateEntry _, addrs_map_rotateEntry _, ejectionSummary_map_rotateEntry _,
      Or.inr rfl, hchild⟩

/-- Witness of `UpdateLocked_error_addresses`: a running policy receives an update
whose address list is an error. -/
theorem UpdateLocked_error_addresses_witness :
    keys (UpdateLocked exampleToString exampleAlloc 100 runningPolicy
        errorUpdate).subchannel_state_map_ = keys runningPolicy.subchannel_state_map_ ∧
      addrs (UpdateLocked exampleToString exampleAlloc 100 runningPolicy
        errorUpdate).subchannel_state_map_ = addrs runningPolicy.subchannel_state_map_ ∧
      ejectionSummary (UpdateLocked exampleToString exampleAlloc 100 runningPolicy
        errorUpdate).subchannel_state_map_ =
        ejectionSummary runningPolicy.subchannel_state_map_ ∧
      ((UpdateLocked exampleToString exampleAlloc 100 runningPolicy
          errorUpdate).subchannel_state_map_ = runningPolicy.subchannel_state_map_ ∨
        (UpdateLocked exampleToString exampleAlloc 100 runningPolicy
          errorUpdate).subchannel_state_map_ =
          runningPolicy.subchannel_state_map_.map rotateEntry) ∧
      (UpdateLocked exampleToString exampleAlloc 100 runningPolicy errorUpdate).child_policy_ =
        some (runningPolicy.child_policy_.getD [] ++
          [ChildCall.UpdateLocked (StatusOr.error (UnavailableError "resolver failure"))
            errorUpdate.config.child_policy_ errorUpdate.args]) :=
  UpdateLocked_error_addresses exampleToString exampleAlloc 100 runningPolicy errorUpdate _ rfl

/-- The map that the timer management hands to the address handling, and the
timer it leaves, in each of its four cases. -/
theorem updateTimer_cases (now : Int) (old : Option OutlierDetectionLbConfig)
    (c : OutlierDetectionLbConfig) (p : OutlierDetectionLb) :
    (c.CountingEnabled = false →
        (updateTimer now old c p).ejection_timer_ = none ∧
          (updateTimer now old c p).subchannel_state_map_ = p.subchannel_state_map_) ∧
      (c.CountingEnabled = true → p.ejection_timer_ = none →
        (updateTimer now old c p).ejection_timer_ =
            some (EjectionTimer.create c.outlier_detection_config_.interval now) ∧
          (updateTimer now old c p).subchannel_state_map_ =
            p.subchannel_state_map_.map rotateEntry) ∧
      (∀ timer o, c.CountingEnabled = true → p.ejection_timer_ = some timer → old = some o →
        o.outlier_detection_config_.interval ≠ c.outlier_detection_config_.interval →
        (updateTimer now old c p).ejection_timer_ =
            some (EjectionTimer.create c.outlier_detection_config_.interval timer.start_time_) ∧
          (updateTimer now old c p).subchannel_state_map_ = p.subchannel_state_map_) ∧
      (∀ timer o, c.CountingEnabled = true → p.ejection_timer_ = some timer → old = some o →
        o.outlier_detection_config_.interval = c.outlier_detection_config_.interval →
        (updateTimer now old c p).ejection_timer_ = some timer ∧
          (updateTimer now old c p).subchannel_state_map_ = p.subchannel_state_map_) := by
  unfold updateTimer
  refine ⟨?_, ?_, ?_, ?_⟩
  · intro h; simp [h]
  · intro h ht; simp [h, ht]
  · intro timer o h ht ho hi; simp [h, ht, ho, hi]
  · intro timer o h ht ho hi; simp [h, ht, ho, hi]

theorem mem_addressHandling_of_key (ToString : ServerAddress → String) (alloc : List Nat → Nat)
    (addresses : StatusOr (List ServerAddress)) (m : StateMap) (e : MapEntry)
    (he : e ∈ addressHandling ToString alloc addresses m) (hk : e.key ∈ keys m) : e ∈ m := by
  cases addresses with
  | error st => exact he
  | ok value =>
    obtain ⟨-, -, i3, -⟩ := addressLoop_spec ToString alloc value (m, [])
    rcases i3 e ((mem_syncAddresses ToString alloc m value e).mp he).1 with h | ⟨h, -⟩
    · exact h
    · exact absurd hk h

theorem UpdateLocked_map (ToString : ServerAddress → String) (alloc : List Nat → Nat)
    (now : Int) (p : OutlierDetectionLb) (args : UpdateArgs) :
    (UpdateLocked ToString alloc now p args).subchannel_state_map_ =
      addressHandling ToString alloc args.addresses
        (updateTimer now p.config_ args.config
          { p with config_ := some args.config }).subchannel_state_map_ := by
  obtain ⟨-, -, -, hmap⟩ := UpdateLocked_fields ToString alloc now p args
  rw [hmap]
  unfold addressHandling
  cases args.addresses <;> rfl

/-- Claim C30: the timer management of an update.  With the new configuration in
force, the update (1) leaves no timer when the new configuration disables counting;
(2) otherwise, when no timer was running, creates a timer whose start time is `now`
and rotates the buckets of every endpoint that was in the map, so that each of them
has a zeroed active bucket, before the addresses are handled; (3) otherwise, when
the interval differs from that of the old configuration, replaces the timer by one
with the start time of the old timer and rotates no bucket; (4) otherwise leaves
the timer and all buckets as they are. -/
theorem UpdateLocked_timer_management (ToString : ServerAddress → String)
    (alloc : List Nat → Nat) (now : Int) (p : OutlierDetectionLb) (args : UpdateArgs) :
    (UpdateLocked ToString alloc now p args).config_ = some args.config ∧
      (args.config.CountingEnabled = false →
        (UpdateLocked ToString alloc now p args).ejection_timer_ = none ∧
          (UpdateLocked ToString alloc now p args).subchannel_state_map_ =
            addressHandling ToString alloc args.addresses p.subchannel_state_map_) ∧
      (args.config.CountingEnabled = true → p.ejection_timer_ = none →
        (UpdateLocked ToString alloc now p args).ejection_timer_ =
            some (EjectionTimer.create args.config.outlier_detection_config_.interval now) ∧
          (UpdateLocked ToString alloc now p args).subchannel_state_map_ =
            addressHandling ToString alloc args.addresses
              (p.subchannel_state_map_.map rotateEntry) ∧
          (∀ e ∈ p.subchannel_state_map_,
            (rotateEntry e).state.active_bucket_ = (rotateEntry e).state.current_bucket_ ∧
              (rotateEntry e).state.load (rotateEntry e).state.active_bucket_ = ⟨0, 0⟩) ∧
          (∀ e ∈ (UpdateLocked ToString alloc now p args).subchannel_state_map_,
            e.key ∈ keys p.subchannel_state_map_ →
              (∃ e0 ∈ p.subchannel_state_map_, e = rotateEntry e0) ∧
                e.state.load e.state.active_bucket_ = ⟨0, 0⟩)) ∧
      (∀ timer old, args.config.CountingEnabled = true → p.ejection_timer_ = some timer →
        p.config_ = some old →
        old.outlier_detection_config_.interval ≠ args.config.outlier_detection_config_.interval →
        (UpdateLocked ToString alloc now p args).ejection_timer_ =
            some (EjectionTimer.create args.config.outlier_detection_config_.interval
              timer.start_time_) ∧
          (UpdateLocked ToString alloc now p args).subchannel_state_map_ =
            addressHandling ToString alloc args.addresses p.subchannel_state_map_ ∧
          (∀ e ∈ (UpdateLocked ToString alloc now p args).subchannel_state_map_,
            e.key ∈ keys p.subchannel_state_map_ → e ∈ p.subchannel_state_map_)) ∧
      (∀ timer old, args.config.CountingEnabled = true → p.ejection_timer_ = some timer →
        p.config_ = some old →
        old.outlier_detection_config_.interval = args.config.outlier_detection_config_.interval →
        (UpdateLocked ToString alloc now p args).ejection_timer_ = some timer ∧
          (UpdateLocked ToString alloc now p args).subchannel_state_map_ =
            addressHandling ToString alloc args.addresses p.subchannel_state_map_ ∧
          (∀ e ∈ (UpdateLocked ToString alloc now p args).subchannel_state_map_,
            e.key ∈ keys p.subchannel_state_map_ → e ∈ p.subchannel_state_map_)) := by
  obtain ⟨hcfg, htimer, -, -⟩ := UpdateLocked_fields ToString alloc now p args
  have hmap := UpdateLocked_map ToString alloc now p args
  obtain ⟨c1, c2, c3, c4⟩ := updateTimer_cases now p.config_ args.config
    { p with config_ := some args.config }
  have hzero : ∀ e : MapEntry,
      (rotateEntry e).state.active_bucket_ = (rotateEntry e).state.current_bucket_ ∧
        (rotateEntry e).state.load (rotateEntry e).state.active_bucket_ = ⟨0, 0⟩ := by
    intro e
    obtain ⟨r1, -, r3, -⟩ := SubchannelState.RotateBucket_fields e.state
    refine ⟨?_, ?_⟩
    · show e.state.RotateBucket.active_bucket_ = e.state.RotateBucket.current_bucket_
      rw [r3, r1]
    · show e.state.RotateBucket.load e.state.RotateBucket.active_bucket_ = ⟨0, 0⟩
      rw [r3]
      exact SubchannelState.RotateBucket_load_current e.state
  refine ⟨hcfg, ?_, ?_, ?_, ?_⟩
  · intro h
    obtain ⟨t, m⟩ := c1 h
    rw [htimer, hmap, t, m]
    exact ⟨rfl, rfl⟩
  · intro h ht
    obtain ⟨t, m⟩ := c2 h ht
    have hq : (UpdateLocked ToString alloc now p args).subchannel_state_map_ =
        addressHandling ToString alloc args.addresses
          (p.subchannel_state_map_.map rotateEntry) := by
      rw [hmap, m]
    refine ⟨by rw [htimer, t], hq, fun e _ => hzero e, ?_⟩
    intro e he hk
    rw [hq] at he
    have hk2 : e.key ∈ keys (p.subchannel_state_map_.map rotateEntry) := by
      rw [keys_map_rotateEntry]; exact hk
    have hmem := mem_addressHandling_of_key ToString alloc args.addresses _ e he hk2
    obtain ⟨e0, he0, rfl⟩ := List.mem_map.mp hmem
    exact ⟨⟨e0, he0, rfl⟩, (hzero e0).2⟩
  · intro timer old h ht ho hi
    obtain ⟨t, m⟩ := c3 timer old h ht ho hi
    have hq : (UpdateLocked ToString alloc now p args).subchannel_state_map_ =
        addressHandling ToString alloc args.addresses p.subchannel_state_map_ := by
      rw [hmap, m]
    refine ⟨by rw [htimer, t], hq, ?_⟩
    intro e he hk
    rw [hq] at he
    exact mem_addressHandling_of_key ToString alloc args.addresses _ e he hk
  · intro timer old h ht ho hi
    obtain ⟨t, m⟩ := c4 timer old h ht ho hi
    have hq : (UpdateLocked ToString alloc now p args).subchannel_state_map_ =
        addressHandling ToString alloc args.addresses p.subchannel_state_map_ := by
      rw [hmap, m]
    refine ⟨by rw [htimer, t], hq, ?_⟩
    intro e he hk
    rw [hq] at he
    exact mem_addressHandling_of_key ToString alloc args.addresses _ e he hk

/-- Witness of `UpdateLocked_timer_management`: the four cases at concrete updates.
A running policy receives a configuration without algorithm; a policy without
timer receives the configuration of scenario S1 at time 100; a running policy
whose timer started at time 50 receives an interval of 5 s; and a running policy
receives the interval it already has. -/
theorem UpdateLocked_timer_management_witness :
    (UpdateLocked exampleToString exampleAlloc 100 runningPolicy disabledUpdate).ejection_timer_ =
        none ∧
      ((UpdateLocked exampleToString exampleAlloc 100 examplePolicy exampleUpdate).ejection_timer_ =
          some (EjectionTimer.create 1000 100) ∧
        ∀ e ∈ examplePolicy.subchannel_state_map_,
          (rotateEntry e).state.load (rotateEntry e).state.active_bucket_ = ⟨0, 0⟩) ∧
      (UpdateLocked exampleToString exampleAlloc 100 runningPolicy slowerUpdate).ejection_timer_ =
        some (EjectionTimer.create 5000 50) ∧
      (UpdateLocked exampleToString exampleAlloc 100 runningPolicy exampleUpdate).ejection_timer_ =
        some (EjectionTimer.create 1000 50) :=
  ⟨((UpdateLocked_timer_management exampleToString exampleAlloc 100 runningPolicy
      disabledUpdate).2.1 (by decide)).1,
    ⟨((UpdateLocked_timer_management exampleToString exampleAlloc 100 examplePolicy
        exampleUpdate).2.2.1 (by decide) rfl).1,
      fun e he => (((UpdateLocked_timer_management exampleToString exampleAlloc 100 examplePolicy
        exampleUpdate).2.2.1 (by decide) rfl).2.2.1 e he).2⟩,
    ((UpdateLocked_timer_management exampleToString exampleAlloc 100 runningPolicy
      slowerUpdate).2.2.2.1 _ _ (by decide) rfl rfl (by decide)).1,
    ((UpdateLocked_timer_management exampleToString exampleAlloc 100 runningPolicy
      exampleUpdate).2.2.2.2 _ _ (by decide) rfl rfl (by decide)).1⟩

/-! ## The bucket pointers of a state -/

namespace SubchannelState

theorem RotateBucket_eq_swap (s : SubchannelState) :
    s.RotateBucket =
      { ((s.store s.backup_bucket_ ⟨0, 0⟩).swapBuckets) with
        active_bucket_ := (s.store s.backup_bucket_ ⟨0, 0⟩).swapBuckets.current_bucket_ } := by
  cases hb : s.backup_bucket_ <;> simp [RotateBucket, swapBuckets, store, load, hb]

theorem applyOp_pointers (s : SubchannelState) (op : StateOp)
    (h : s.active_bucket_ = s.current_bucket_ ∧ s.current_bucket_ ≠ s.backup_bucket_) :
    (s.applyOp op).active_bucket_ = (s.applyOp op).current_bucket_ ∧
      (s.applyOp op).current_bucket_ ≠ (s.applyOp op).backup_bucket_ := by
  cases op with
  | createWrapper addr =>
    show (s.bindWrapper addr).active_bucket_ = (s.bindWrapper addr).current_bucket_ ∧
      (s.bindWrapper addr).current_bucket_ ≠ (s.bindWrapper addr).backup_bucket_
    unfold bindWrapper AddSubchannel
    split <;> exact h
  | destroyWrapper addr => exact h
  | record o =>
    obtain ⟨r1, r2, r3, -⟩ := record_fields s o
    show (s.record o).active_bucket_ = (s.record o).current_bucket_ ∧
      (s.record o).current_bucket_ ≠ (s.record o).backup_bucket_
    rw [r1, r2, r3]
    exact h
  | rotate =>
    obtain ⟨r1, r2, r3, -⟩ := RotateBucket_fields s
    show s.RotateBucket.active_bucket_ = s.RotateBucket.current_bucket_ ∧
      s.RotateBucket.current_bucket_ ≠ s.RotateBucket.backup_bucket_
    rw [r1, r2, r3]
    exact ⟨rfl, fun e => h.2 e.symm⟩
  | eject t => exact h
  | uneject => exact h
  | maybeUneject base mx now =>
    show (s.MaybeUneject base mx now).active_bucket_ = (s.MaybeUneject base mx now).current_bucket_ ∧
      (s.MaybeUneject base mx now).current_bucket_ ≠ (s.MaybeUneject base mx now).backup_bucket_
    unfold MaybeUneject
    split
    · split <;> exact h
    · simp only
      split <;> exact h

theorem runOps_pointers (ops : List StateOp) :
    ∀ s : SubchannelState,
      s.active_bucket_ = s.current_bucket_ ∧ s.current_bucket_ ≠ s.backup_bucket_ →
      (s.runOps ops).active_bucket_ = (s.runOps ops).current_bucket_ ∧
        (s.runOps ops).current_bucket_ ≠ (s.runOps ops).backup_bucket_ := by
  induction ops with
  | nil => intro s h; exact h
  | cons op rest ih =>
    intro s h
    rw [runOps_cons]
    exact ih _ (applyOp_pointers s op h)

/-- Claim C25: the bucket pointer invariant.  In every state reached from a fresh
one by binding and releasing wrappers, recording successes and failures, rotating
the buckets, `Eject`, `Uneject` and `MaybeUneject`, the pointers `current_bucket_`
and `backup_bucket_` designate the two different buckets of the state and
`active_bucket_` designates the current one; inside `RotateBucket`, between the
swap and the store to `active_bucket_`, it designates the backup one.  So it is
always one of the two. -/
theorem bucket_pointer_invariant (ops : List StateOp) :
    (create.runOps ops).active_bucket_ = (create.runOps ops).current_bucket_ ∧
      (create.runOps ops).current_bucket_ ≠ (create.runOps ops).backup_bucket_ ∧
      (((create.runOps ops).store (create.runOps ops).backup_bucket_ ⟨0, 0⟩).swapBuckets).active_bucket_ =
        (((create.runOps ops).store (create.runOps ops).backup_bucket_ ⟨0, 0⟩).swapBuckets).backup_bucket_ ∧
      (create.runOps ops).RotateBucket =
        { (((create.runOps ops).store (create.runOps ops).backup_bucket_ ⟨0, 0⟩).swapBuckets) with
          active_bucket_ :=
            ((create.runOps ops).store (create.runOps ops).backup_bucket_ ⟨0, 0⟩).swapBuckets.current_bucket_ } ∧
      ((create.runOps ops).active_bucket_ = (create.runOps ops).current_bucket_ ∨
        (create.runOps ops).active_bucket_ = (create.runOps ops).backup_bucket_) := by
  obtain ⟨h1, h2⟩ := runOps_pointers ops create ⟨rfl, by decide⟩
  refine ⟨h1, h2, ?_, RotateBucket_eq_swap _, Or.inl h1⟩
  generalize create.runOps ops = s at h1 h2 ⊢
  cases hb : s.backup_bucket_ <;> simp [swapBuckets, store, h1]

end SubchannelState

/-! ## The state-change rule of a watcher wrapper -/

/-- Claim C29: on a real state change `(s, st)` from the underlying subchannel the
last-seen fields of a watcher wrapper become `(s, st)` and the ejected flag is
unchanged; a notification is delivered to the user watcher if and only if no real
state had been seen before or the wrapper is not ejected, and exactly one is
delivered then: `(s, st)` when the wrapper is not ejected, and TRANSIENT_FAILURE
with the message "subchannel ejected by outlier detection" when it is. -/
theorem WatcherWrapper.state_change_rule (w : WatcherWrapper) (s : ConnectivityState)
    (st : Status) :
    (w.OnConnectivityStateChange s st).last_seen_state_ = some s ∧
      (w.OnConnectivityStateChange s st).last_seen_status_ = st ∧
      (w.OnConnectivityStateChange s st).ejected_ = w.ejected_ ∧
      (w.OnConnectivityStateChange s st).watcher_ =
        w.watcher_ ++
          (if w.last_seen_state_ = none ∨ w.ejected_ = false then
            [if w.ejected_ = true then
              (ConnectivityState.GRPC_CHANNEL_TRANSIENT_FAILURE,
                (⟨StatusCode.kUnavailable, "subchannel ejected by outlier detection"⟩ : Status))
             else (s, st)]
           else []) ∧
      (w.delivered (WatcherEvent.stateChange s st) ≠ [] ↔
        (w.last_seen_state_ = none ∨ w.ejected_ = false)) := by
  have hlog : (w.OnConnectivityStateChange s st).watcher_ =
      w.watcher_ ++
        (if w.last_seen_state_ = none ∨ w.ejected_ = false then
          [if w.ejected_ = true then
            (ConnectivityState.GRPC_CHANNEL_TRANSIENT_FAILURE,
              (⟨StatusCode.kUnavailable, "subchannel ejected by outlier detection"⟩ : Status))
           else (s, st)]
         else []) := by
    unfold WatcherWrapper.OnConnectivityStateChange
    cases hl : w.last_seen_state_ <;> cases he : w.ejected_ <;>
      simp [ejectedNotification, UnavailableError]
  refine ⟨?_, ?_, ?_, hlog, ?_⟩
  · unfold WatcherWrapper.OnConnectivityStateChange
    cases hl : w.last_seen_state_ <;> cases he : w.ejected_ <;> simp
  · unfold WatcherWrapper.OnConnectivityStateChange
    cases hl : w.last_seen_state_ <;> cases he : w.ejected_ <;> simp
  · unfold WatcherWrapper.OnConnectivityStateChange
    cases hl : w.last_seen_state_ <;> cases he : w.ejected_ <;> simp [he]
  · unfold WatcherWrapper.delivered
    show List.drop w.watcher_.length (w.OnConnectivityStateChange s st).watcher_ ≠ [] ↔ _
    rw [hlog, List.drop_left]
    by_cases h : w.last_seen_state_ = none ∨ w.ejected_ = false
    · simp [h]
    · simp only [h, if_false]
      simp

/-! ## The call tracker -/

theorem AddSuccessCount_effect (s : SubchannelState) (h : s.active_bucket_ ≠ s.backup_bucket_)
    (hb : (s.load s.active_bucket_).successes + 1 < 2 ^ 64) :
    s.AddSuccessCount.load s.AddSuccessCount.active_bucket_ =
        ⟨(s.load s.active_bucket_).successes + 1, (s.load s.active_bucket_).failures⟩ ∧
      s.AddSuccessCount.load s.AddSuccessCount.backup_bucket_ = s.load s.backup_bucket_ ∧
      s.AddSuccessCount.current_bucket_ = s.current_bucket_ ∧
      s.AddSuccessCount.backup_bucket_ = s.backup_bucket_ ∧
      s.AddSuccessCount.active_bucket_ = s.active_bucket_ ∧
      s.AddSuccessCount.multiplier_ = s.multiplier_ ∧
      s.AddSuccessCount.ejection_time_ = s.ejection_time_ ∧
      s.AddSuccessCount.subchannels_ = s.subchannels_ := by
  obtain ⟨r1, r2, r3, r4, r5, r6⟩ := SubchannelState.record_fields s SubchannelState.Outcome.success
  have ha := SubchannelState.record_load_active s SubchannelState.Outcome.success
  have ho := SubchannelState.record_load_other s SubchannelState.Outcome.success _ h
  simp only [SubchannelState.record] at r1 r2 r3 r4 r5 r6 ha ho
  refine ⟨?_, ?_, r1, r2, r3, r4, r5, r6⟩
  · rw [r3, ha, Nat.mod_eq_of_lt hb]
  · rw [r2, ho]

theorem AddFailureCount_effect (s : SubchannelState) (h : s.active_bucket_ ≠ s.backup_bucket_)
    (hb : (s.load s.active_bucket_).failures + 1 < 2 ^ 64) :
    s.AddFailureCount.load s.AddFailureCount.active_bucket_ =
        ⟨(s.load s.active_bucket_).successes, (s.load s.active_bucket_).failures + 1⟩ ∧
      s.AddFailureCount.load s.AddFailureCount.backup_bucket_ = s.load s.backup_bucket_ ∧
      s.AddFailureCount.current_bucket_ = s.current_bucket_ ∧
      s.AddFailureCount.backup_bucket_ = s.backup_bucket_ ∧
      s.AddFailureCount.active_bucket_ = s.active_bucket_ ∧
      s.AddFailureCount.multiplier_ = s.multiplier_ ∧
      s.AddFailureCount.ejection_time_ = s.ejection_time_ ∧
      s.AddFailureCount.subchannels_ = s.subchannels_ := by
  obtain ⟨r1, r2, r3, r4, r5, r6⟩ := SubchannelState.record_fields s SubchannelState.Outcome.failure
  have ha := SubchannelState.record_load_active s SubchannelState.Outcome.failure
  have ho := SubchannelState.record_load_other s SubchannelState.Outcome.failure _ h
  simp only [SubchannelState.record] at r1 r2 r3 r4 r5 r6 ha ho
  refine ⟨?_, ?_, r1, r2, r3, r4, r5, r6⟩
  · rw [r3, ha, Nat.mod_eq_of_lt hb]
  · rw [r2, ho]

/-- Claim C24: the accounting of a call tracker.  For a tracker bound to the state
at address `p`, `Finish(status)` changes the states exactly by one call on the
state at `p`: `AddSuccessCount` when the status is OK, `AddFailureCount` otherwise,
and every other state stays as it is.  On a state whose active bucket is not its
backup bucket and whose counters do not wrap, the first adds exactly 1 to the
success counter of the active bucket and leaves its failure counter, and the
second adds exactly 1 to the failure counter and leaves the success counter; both
leave the backup bucket, the pointers, the multiplier, the ejection time and the
wrappers.  `Start` changes no state, a tracker without state changes no state, and
both methods pass the call on to the tracker of the child. -/
theorem SubchannelCallTracker.accounting (t : SubchannelCallTracker) (m : StateMap) (p : Nat)
    (s : SubchannelState) (hp : t.subchannel_state_ = some p)
    (hptr : s.active_bucket_ ≠ s.backup_bucket_)
    (hs : (s.load s.active_bucket_).successes + 1 < 2 ^ 64)
    (hf : (s.load s.active_bucket_).failures + 1 < 2 ^ 64) :
    (∀ status : Status,
        (t.Finish status m).2 =
            m.map (fun e => if e.addr = p then
              { e with state := if status.code = StatusCode.kOk then e.state.AddSuccessCount
                                else e.state.AddFailureCount }
              else e) ∧
          (t.Finish status m).1.subchannel_state_ = t.subchannel_state_ ∧
          (t.Finish status m).1.original_subchannel_call_tracker_ =
            t.original_subchannel_call_tracker_.map (fun log => log ++ [TrackerCall.Finish status])) ∧
      (s.AddSuccessCount.load s.AddSuccessCount.active_bucket_ =
          ⟨(s.load s.active_bucket_).successes + 1, (s.load s.active_bucket_).failures⟩ ∧
        s.AddSuccessCount.load s.AddSuccessCount.backup_bucket_ = s.load s.backup_bucket_ ∧
        s.AddSuccessCount.current_bucket_ = s.current_bucket_ ∧
        s.AddSuccessCount.backup_bucket_ = s.backup_bucket_ ∧
        s.AddSuccessCount.active_bucket_ = s.active_bucket_ ∧
        s.AddSuccessCount.multiplier_ = s.multiplier_ ∧
        s.AddSuccessCount.ejection_time_ = s.ejection_time_ ∧
        s.AddSuccessCount.subchannels_ = s.subchannels_) ∧
      (s.AddFailureCount.load s.AddFailureCount.active_bucket_ =
          ⟨(s.load s.active_bucket_).successes, (s.load s.active_bucket_).failures + 1⟩ ∧
        s.AddFailureCount.load s.AddFailureCount.backup_bucket_ = s.load s.backup_bucket_ ∧
        s.AddFailureCount.current_bucket_ = s.current_bucket_ ∧
        s.AddFailureCount.backup_bucket_ = s.backup_bucket_ ∧
        s.AddFailureCount.active_bucket_ = s.active_bucket_ ∧
        s.AddFailureCount.multiplier_ = s.multiplier_ ∧
        s.AddFailureCount.ejection_time_ = s.ejection_time_ ∧
        s.AddFailureCount.subchannels_ = s.subchannels_) ∧
      ((SubchannelCallTracker.handle (t, m) TrackerEvent.start).2 = m ∧
        (SubchannelCallTracker.handle (t, m) TrackerEvent.start).1.subchannel_state_ =
          t.subchannel_state_ ∧
        (SubchannelCallTracker.handle (t, m) TrackerEvent.start).1.original_subchannel_call_tracker_ =
          t.original_subchannel_call_tracker_.map (fun log => log ++ [TrackerCall.Start])) ∧
      (∀ (t0 : SubchannelCallTracker) (events : List TrackerEvent),
        t0.subchannel_state_ = none →
          (events.foldl SubchannelCallTracker.handle (t0, m)).2 = m) := by
  refine ⟨?_, AddSuccessCount_effect s hptr hs, AddFailureCount_effect s hptr hf,
    ⟨rfl, rfl, rfl⟩, ?_⟩
  · intro status
    unfold SubchannelCallTracker.Finish
    rw [hp]
    by_cases hok : status.code = StatusCode.kOk
    · simp [Status.ok, hok, callAt]
    · simp [Status.ok, hok, callAt]
  · intro t0 events
    induction events generalizing t0 with
    | nil => intro _; rfl
    | cons ev rest ih =>
      intro h0
      rw [List.foldl_cons]
      cases ev with
      | start =>
        exact ih t0.Start h0
      | finish status =>
        have h1 : SubchannelCallTracker.handle (t0, m) (TrackerEvent.finish status) =
            ({ t0 with
                original_subchannel_call_tracker_ :=
                  t0.original_subchannel_call_tracker_.map
                    (fun log => log ++ [TrackerCall.Finish status]) }, m) := by
          show t0.Finish status m = _
          unfold SubchannelCallTracker.Finish
          rw [h0]
        rw [h1]
        exact ih _ h0

/-- Witness of `SubchannelCallTracker.accounting`: a tracker bound to the state of
the endpoint E of scenario S1. -/
theorem SubchannelCallTracker.accounting_witness :
    (exampleTracker.Finish Status.Ok s1Map).2 =
        s1Map.map (fun e => if e.addr = 30 then
          { e with state := if Status.Ok.code = StatusCode.kOk then e.state.AddSuccessCount
                            else e.state.AddFailureCount }
          else e) ∧
      s1Failing.state.AddFailureCount.load s1Failing.state.AddFailureCount.active_bucket_ =
        ⟨(s1Failing.state.load s1Failing.state.active_bucket_).successes,
          (s1Failing.state.load s1Failing.state.active_bucket_).failures + 1⟩ :=
  ⟨((SubchannelCallTracker.accounting exampleTracker s1Map 30 s1Failing.state rfl (by decide)
      (by decide) (by decide)).1 Status.Ok).1,
    (SubchannelCallTracker.accounting exampleTracker s1Map 30 s1Failing.state rfl (by decide)
      (by decide) (by decide)).2.2.1.1⟩

/-! ## The picker -/

/-- Claim C23: the result of `Picker::Pick`.  Without a child picker the result is
`Fail` with an Internal status of message "outlier_detection picker not given any
child picker".  Otherwise a result `Queue`, `Fail` or `Drop` of the child is
returned as it is, and a result `Complete(wrapper, tracker)` is returned as
`Complete` of the subchannel that the wrapper wraps, with a new
`SubchannelCallTracker` around the tracker of the child and bound to the state of
the wrapper when counting is enabled, and with the tracker of the child itself
when counting is disabled. -/
theorem Picker.Pick_result
    (child : Nat → PickArgs → PickResult WrapperRef (Option ChildTracker)) (p : Picker)
    (args : PickArgs) :
    (p.picker_ = none →
        p.Pick child args =
          PickResult.Fail
            ⟨StatusCode.kInternal, "outlier_detection picker not given any child picker"⟩) ∧
      (∀ picker, p.picker_ = some picker →
        (child picker args = PickResult.Queue → p.Pick child args = PickResult.Queue) ∧
          (∀ status, child picker args = PickResult.Fail status →
            p.Pick child args = PickResult.Fail status) ∧
          (∀ status, child picker args = PickResult.Drop status →
            p.Pick child args = PickResult.Drop status) ∧
          (∀ wrapper tracker, child picker args = PickResult.Complete wrapper tracker →
            (p.counting_enabled_ = true →
              p.Pick child args =
                PickResult.Complete wrapper.wrapped_subchannel_
                  (CallTracker.outlier
                    { original_subchannel_call_tracker_ := tracker,
                      subchannel_state_ := wrapper.subchannel_state_ })) ∧
            (p.counting_enabled_ = false →
              p.Pick child args =
                PickResult.Complete wrapper.wrapped_subchannel_ (CallTracker.child tracker)))) := by
  refine ⟨?_, ?_⟩
  · intro h
    unfold Picker.Pick
    rw [h]
    rfl
  · intro picker h
    unfold Picker.Pick
    rw [h]
    refine ⟨?_, ?_, ?_, ?_⟩
    · intro hc; simp only [hc]
    · intro status hc; simp only [hc]
    · intro status hc; simp only [hc]
    · intro wrapper tracker hc
      simp only [hc]
      constructor
      · intro hce; simp [hce]
      · intro hce; simp [hce]

/-- Witness of `Picker.Pick_result`: a picker without child picker, and a counting
picker whose child completes the call "a" and queues the call "b". -/
theorem Picker.Pick_result_witness :
    Picker.Pick examplePick { picker_ := none, counting_enabled_ := true } "a" =
        PickResult.Fail
          ⟨StatusCode.kInternal, "outlier_detection picker not given any child picker"⟩ ∧
      Picker.Pick examplePick { picker_ := some 5, counting_enabled_ := true } "b" =
        PickResult.Queue ∧
      Picker.Pick examplePick { picker_ := some 5, counting_enabled_ := true } "a" =
        PickResult.Complete 900
          (CallTracker.outlier
            { original_subchannel_call_tracker_ := some [], subchannel_state_ := some 30 }) ∧
      Picker.Pick examplePick { picker_ := some 5, counting_enabled_ := false } "a" =
        PickResult.Complete 900 (CallTracker.child (some [])) :=
  ⟨(Picker.Pick_result examplePick { picker_ := none, counting_enabled_ := true } "a").1 rfl,
    ((Picker.Pick_result examplePick { picker_ := some 5, counting_enabled_ := true } "b").2
      5 rfl).1 (by decide),
    (((Picker.Pick_result examplePick { picker_ := some 5, counting_enabled_ := true } "a").2
      5 rfl).2.2.2 ⟨700, 900, some 30⟩ (some []) (by decide)).1 rfl,
    (((Picker.Pick_result examplePick { picker_ := some 5, counting_enabled_ := false } "a").2
      5 rfl).2.2.2 ⟨700, 900, some 30⟩ (some []) (by decide)).2 rfl⟩

/-! ## The helper after shutdown -/

/-- Counterexample to claim C22 as stated: on a policy that has been shut down,
`GetAuthority` does not short-circuit: it makes a call on the helper of the parent
and returns what that call returns. -/
theorem GetAuthority_after_shutdown_forwards :
    shutDownPolicy.shutting_down_ = true ∧
      (Helper.GetAuthority "example.com" shutDownPolicy).parent = [ParentCall.GetAuthority] ∧
      (Helper.GetAuthority "example.com" shutDownPolicy).parent ≠ [] ∧
      (Helper.GetAuthority "example.com" shutDownPolicy).result = "example.com" := by
  decide

/-- Claim C22, amended: `ShutdownLocked` sets `shutting_down_`, and on a policy with
`shutting_down_` set the callbacks `CreateSubchannel`, `UpdateState`,
`RequestReresolution` and `AddTraceEvent` of the helper change no state of the
policy and make no call on the helper of the parent, and `CreateSubchannel` returns
a null pointer.  `GetAuthority` changes no state of the policy either, but it has
no such guard: it always makes its call on the helper of the parent and returns the
result. -/
theorem helper_after_shutdown (ToString : ServerAddress → String) (p : OutlierDetectionLb)
    (h : p.shutting_down_ = true) :
    (∀ q, (ShutdownLocked q).shutting_down_ = true) ∧
      (∀ subchannel wrapper address args,
        (Helper.CreateSubchannel ToString subchannel wrapper p address args).policy = p ∧
          (Helper.CreateSubchannel ToString subchannel wrapper p address args).parent = [] ∧
          (Helper.CreateSubchannel ToString subchannel wrapper p address args).result = none) ∧
      (∀ state status picker,
        (Helper.UpdateState p state status picker).policy = p ∧
          (Helper.UpdateState p state status picker).parent = []) ∧
      ((Helper.RequestReresolution p).policy = p ∧ (Helper.RequestReresolution p).parent = []) ∧
      (∀ severity message,
        (Helper.AddTraceEvent p severity message).policy = p ∧
          (Helper.AddTraceEvent p severity message).parent = []) ∧
      (∀ authority,
        (Helper.GetAuthority authority p).policy = p ∧
          (Helper.GetAuthority authority p).parent = [ParentCall.GetAuthority] ∧
          (Helper.GetAuthority authority p).result = authority) := by
  refine ⟨fun q => rfl, ?_, ?_, ?_, ?_, fun authority => ⟨rfl, rfl, rfl⟩⟩
  · intro subchannel wrapper address args
    unfold Helper.CreateSubchannel
    rw [if_pos h]
    exact ⟨rfl, rfl, rfl⟩
  · intro state status picker
    unfold Helper.UpdateState
    rw [if_pos h]
    exact ⟨rfl, rfl⟩
  · unfold Helper.RequestReresolution
    rw [if_pos h]
    exact ⟨rfl, rfl⟩
  · intro severity message
    unfold Helper.AddTraceEvent
    rw [if_pos h]
    exact ⟨rfl, rfl⟩

/-- Witness of `helper_after_shutdown`: a running policy that has been shut down. -/
theorem helper_after_shutdown_witness :
    shutDownPolicy.shutting_down_ = true ∧
      (∀ subchannel wrapper address args,
        (Helper.CreateSubchannel exampleToString subchannel wrapper shutDownPolicy address
            args).policy = shutDownPolicy ∧
          (Helper.CreateSubchannel exampleToString subchannel wrapper shutDownPolicy address
            args).parent = [] ∧
          (Helper.CreateSubchannel exampleToString subchannel wrapper shutDownPolicy address
            args).result = none) ∧
      (Helper.RequestReresolution shutDownPolicy).parent = [] :=
  ⟨rfl, (helper_after_shutdown exampleToString shutDownPolicy rfl).2.1,
    (helper_after_shutdown exampleToString shutDownPolicy rfl).2.2.2.1.2⟩

/-! ## The candidate sets of a firing -/

theorem filterMap_eq_filter_map {α β : Type} (f : α → Option β) (P : α → Bool) (g : α → β)
    (l : List α) (h : ∀ a ∈ l, f a = if P a = true then some (g a) else none) :
    l.filterMap f = (l.filter P).map g := by
  induction l with
  | nil => rfl
  | cons a rest ih =>
    have ha := h a (List.mem_cons_self _ _)
    have hrest := ih (fun x hx => h x (List.mem_cons_of_mem _ hx))
    by_cases hP : P a = true
    · rw [if_pos hP] at ha
      rw [List.filterMap_cons_some ha, List.filter_cons_of_pos hP, List.map_cons, hrest]
    · rw [if_neg hP] at ha
      rw [List.filterMap_cons_none ha, List.filter_cons_of_neg hP, hrest]

theorem rotate_rate_window (e : MapEntry) (hwf : e.state.WellFormed)
    (hr : windowVolume e < 2 ^ 64) :
    e.state.RotateBucket.GetSuccessRateAndVolume =
      if windowVolume e = 0 then none else some (windowRate e, windowVolume e) :=
  rotate_rate e.state hwf (e.state.load e.state.current_bucket_).successes
    (e.state.load e.state.current_bucket_).failures rfl hr

theorem srCandidate_eq (config : OutlierDetectionConfig) (sr : SuccessRateEjection)
    (hsr : config.success_rate_ejection = some sr) (e : MapEntry) (hwf : e.state.WellFormed)
    (hr : windowVolume e < 2 ^ 64) :
    srCandidate config e =
      if decide (windowVolume e ≠ 0 ∧ windowVolume e ≥ sr.request_volume) = true then
        some (e.addr, windowRate e) else none := by
  unfold srCandidate
  rw [hsr, rotate_rate_window e hwf hr]
  by_cases h0 : windowVolume e = 0
  · simp [h0]
  · by_cases hv : windowVolume e ≥ sr.request_volume
    · simp [h0, hv]
    · simp [h0, hv]

theorem fpCandidate_eq (config : OutlierDetectionConfig) (fp : FailurePercentageEjection)
    (hfp : config.failure_percentage_ejection = some fp) (e : MapEntry)
    (hwf : e.state.WellFormed) (hr : windowVolume e < 2 ^ 64) :
    fpCandidate config e =
      if decide (windowVolume e ≠ 0 ∧ windowVolume e ≥ fp.request_volume) = true then
        some (e.addr, windowRate e) else none := by
  unfold fpCandidate
  rw [hfp, rotate_rate_window e hwf hr]
  by_cases h0 : windowVolume e = 0
  · simp [h0]
  · by_cases hv : windowVolume e ≥ fp.request_volume
    · simp [h0, hv]
    · simp [h0, hv]

theorem not_mem_candidatesWithCalls (rv : Nat) (m : StateMap) (hnd : (addrs m).Nodup)
    (e : MapEntry) (he : e ∈ m) (hlt : windowVolume e < rv ∨ windowVolume e = 0) :
    e.addr ∉ (candidatesWithCalls rv m).map Prod.fst := by
  intro hmem
  unfold candidatesWithCalls at hmem
  simp only [List.map_map, List.mem_map, List.mem_filter, Function.comp, decide_eq_true_eq]
    at hmem
  obtain ⟨x, ⟨hx, h0, hge⟩, hxa⟩ := hmem
  have hxe : x = e := List.inj_on_of_nodup_map hnd hx he hxa
  subst hxe
  rcases hlt with h | h
  · omega
  · exact h0 h

/-- Counterexample to claim C26 as stated: with a request volume of 0, an endpoint
that received no call in the window has a volume that is at least the request
volume, yet the firing does not make it a success rate candidate. -/
theorem idle_endpoint_not_candidate :
    zeroVolumeConfig.success_rate_ejection = some ⟨1900, 100, 3, 0⟩ ∧
      candidatesByVolume 0 idleMap = [(50, 100), (60, windowRate ⟨"B", 60, windowState 0 0⟩)] ∧
      (gatherLoop zeroVolumeConfig idleMap Gather.init).1.success_rate_ejection_candidates =
        [(50, 100)] ∧
      ¬ ((gatherLoop zeroVolumeConfig idleMap Gather.init).1.success_rate_ejection_candidates).Perm
        (candidatesByVolume 0 idleMap) := by
  have h1 : candidatesByVolume 0 idleMap =
      [(50, 100), (60, windowRate ⟨"B", 60, windowState 0 0⟩)] := by decide!
  have h2 : (gatherLoop zeroVolumeConfig idleMap Gather.init).1.success_rate_ejection_candidates =
      [(50, 100)] := by decide!
  refine ⟨rfl, h1, h2, ?_⟩
  rw [h1, h2]
  intro hperm
  have := hperm.length_eq
  simp at this

/-- Claim C26, amended: the candidate sets of a firing.  With the success rate
configuration present, the success rate candidates are exactly the endpoints of the
map that received calls in the window just completed and whose volume in that
window is at least `success_rate.request_volume`, each with its success rate, and
`success_rate_sum` is the sum of these rates; the failure percentage candidates are
the same with `failure_percentage.request_volume`.  An endpoint whose volume is
below the request volume, or that received no call, is not a candidate: in scenario
S3 the endpoint E, with 4 calls for a request volume of 5, is excluded. -/
theorem candidate_collection (config : OutlierDetectionConfig) (m : StateMap)
    (hnd : (addrs m).Nodup)
    (hwf : ∀ e ∈ m, e.state.WellFormed ∧ windowVolume e < 2 ^ 64) :
    (∀ sr, config.success_rate_ejection = some sr →
        ((gatherLoop config m Gather.init).1.success_rate_ejection_candidates).Perm
            (candidatesWithCalls sr.request_volume m) ∧
          (gatherLoop config m Gather.init).1.success_rate_sum =
            ((candidatesWithCalls sr.request_volume m).map Prod.snd).sum ∧
          ∀ e ∈ m, (windowVolume e < sr.request_volume ∨ windowVolume e = 0) →
            e.addr ∉ ((gatherLoop config m Gather.init).1.success_rate_ejection_candidates).map
              Prod.fst) ∧
      (∀ fp, config.failure_percentage_ejection = some fp →
        ((gatherLoop config m Gather.init).1.failure_percentage_ejection_candidates).Perm
            (candidatesWithCalls fp.request_volume m) ∧
          ∀ e ∈ m, (windowVolume e < fp.request_volume ∨ windowVolume e = 0) →
            e.addr ∉
              ((gatherLoop config m Gather.init).1.failure_percentage_ejection_candidates).map
                Prod.fst) ∧
      (gatherLoop s1Config s3Map Gather.init).1.success_rate_ejection_candidates =
        [(40, 100), (50, 100), (60, 100), (70, 100)] := by
  refine ⟨?_, ?_, by decide!⟩
  · intro sr hsr
    obtain ⟨hperm, hsum⟩ := gather_success_rate config m hnd
    have heq : m.filterMap (srCandidate config) = candidatesWithCalls sr.request_volume m :=
      filterMap_eq_filter_map _ _ _ m
        (fun e he => srCandidate_eq config sr hsr e (hwf e he).1 (hwf e he).2)
    rw [heq] at hperm hsum
    refine ⟨hperm, hsum, ?_⟩
    intro e he hlt hmem
    exact not_mem_candidatesWithCalls sr.request_volume m hnd e he hlt
      ((hperm.map Prod.fst).mem_iff.mp hmem)
  · intro fp hfp
    have hperm := gather_failure_percentage config m hnd
    have heq : m.filterMap (fpCandidate config) = candidatesWithCalls fp.request_volume m :=
      filterMap_eq_filter_map _ _ _ m
        (fun e he => fpCandidate_eq config fp hfp e (hwf e he).1 (hwf e he).2)
    rw [heq] at hperm
    refine ⟨hperm, ?_⟩
    intro e he hlt hmem
    exact not_mem_candidatesWithCalls fp.request_volume m hnd e he hlt
      ((hperm.map Prod.fst).mem_iff.mp hmem)

/-- Witness of `candidate_collection`: the map of scenario S3 under the
configuration of scenario S1; E is not among the success rate candidates. -/
theorem candidate_collection_witness :
    ((gatherLoop s1Config s3Map Gather.init).1.success_rate_ejection_candidates).Perm
        (candidatesWithCalls 5 s3Map) ∧
      (gatherLoop s1Config s3Map Gather.init).1.success_rate_sum =
        ((candidatesWithCalls 5 s3Map).map Prod.snd).sum ∧
      (30 : Nat) ∉ ((gatherLoop s1Config s3Map Gather.init).1.success_rate_ejection_candidates).map
        Prod.fst :=
  ⟨((candidate_collection s1Config s3Map (by decide) (by decide)).1 ⟨1900, 100, 3, 5⟩ rfl).1,
    ((candidate_collection s1Config s3Map (by decide) (by decide)).1 ⟨1900, 100, 3, 5⟩ rfl).2.1,
    ((candidate_collection s1Config s3Map (by decide) (by decide)).1 ⟨1900, 100, 3, 5⟩ rfl).2.2
      ⟨"E", 30, windowState 0 4⟩ (by decide) (Or.inl (by decide))⟩

/-! ## The decision rules of the two algorithms -/

theorem rateVariance_nonneg (candidates : List (Nat × ℚ)) : 0 ≤ rateVariance candidates := by
  unfold rateVariance
  apply div_nonneg
  · apply List.sum_nonneg
    intro x hx
    obtain ⟨c, -, rfl⟩ := List.mem_map.mp hx
    exact sq_nonneg _
  · exact Nat.cast_nonneg _

theorem successRateAlgorithm_eq_fold (config : OutlierDetectionConfig) (dice : Nat → Nat)
    (t : Int) (g : Gather) (sr : SuccessRateEjection)
    (hsr : config.success_rate_ejection = some sr)
    (hsum : g.success_rate_sum = (g.success_rate_ejection_candidates.map Prod.snd).sum)
    (hmin : g.success_rate_ejection_candidates.length ≥ sr.minimum_hosts) (L : EjectLoop) :
    successRateAlgorithm config dice t g L =
      g.success_rate_ejection_candidates.foldl
        (successRateStep config sr (rateMean g.success_rate_ejection_candidates)
          (rateVariance g.success_rate_ejection_candidates) dice t) L := by
  unfold successRateAlgorithm
  rw [hsr]
  simp only
  by_cases hnil : g.success_rate_ejection_candidates = []
  · rw [if_neg (fun h => h.1 hnil), hnil]
    rfl
  · rw [if_pos ⟨hnil, hmin⟩]
    have hmean : g.success_rate_sum / (g.success_rate_ejection_candidates.length : ℚ) =
        rateMean g.success_rate_ejection_candidates := by
      rw [hsum]; rfl
    rw [hmean, foldl_add_eq_sum, zero_add]
    rfl

theorem mem_ejectAt_self (m : StateMap) (p : Nat) (t : Int) (e : MapEntry) (he : e ∈ m)
    (hp : e.addr = p) : { e with state := e.state.Eject t } ∈ ejectAt m p t := by
  unfold ejectAt
  exact List.mem_map.mpr ⟨e, he, by rw [if_pos hp]⟩

theorem isEjectedAt_ejectAt_self (m : StateMap) (p : Nat) (t : Int) (h : p ∈ addrs m) :
    isEjectedAt (ejectAt m p t) p = true := by
  obtain ⟨e, he, hp⟩ := List.mem_map.mp h
  have hmem := mem_ejectAt_self m p t e he hp
  unfold isEjectedAt
  rw [List.any_eq_true]
  exact ⟨_, hmem, by simp [hp, SubchannelState.Eject]⟩

theorem failurePercentageAlgorithm_eq_fold (config : OutlierDetectionConfig) (dice : Nat → Nat)
    (t : Int) (g : Gather) (fp : FailurePercentageEjection)
    (hfp : config.failure_percentage_ejection = some fp)
    (hmin : g.failure_percentage_ejection_candidates.length ≥ fp.minimum_hosts) (L : EjectLoop) :
    failurePercentageAlgorithm config dice t g L =
      g.failure_percentage_ejection_candidates.foldl
        (failurePercentageStep config fp dice t) L := by
  unfold failurePercentageAlgorithm
  rw [hfp]
  simp only
  by_cases hnil : g.failure_percentage_ejection_candidates = []
  · rw [if_neg (fun h => h.1 hnil), hnil]
    rfl
  · rw [if_pos ⟨hnil, hmin⟩]

theorem getElem?_ejectAt_of_ejected (m : StateMap) (p : Nat) (t : Int) (i : Nat) (e : MapEntry)
    (he : m[i]? = some e) (hp : e.addr ≠ p) : (ejectAt m p t)[i]? = some e := by
  unfold ejectAt
  rw [List.getElem?_map, he]
  simp [hp]

theorem failurePercentageStep_keeps_ejected (config : OutlierDetectionConfig)
    (fp : FailurePercentageEjection) (dice : Nat → Nat) (t : Int) (L : EjectLoop) (c : Nat × ℚ)
    (i : Nat) (e : MapEntry) (he : L.map[i]? = some e)
    (hej : e.state.ejection_time_.isSome = true) :
    (failurePercentageStep config fp dice t L c).map[i]? = some e := by
  have hmem : e ∈ L.map := List.getElem?_mem he
  unfold failurePercentageStep
  by_cases hc : isEjectedAt L.map c.1 = true
  · rw [if_pos hc]; exact he
  · rw [if_neg hc]
    have hne : e.addr ≠ c.1 := by
      intro heq
      apply hc
      unfold isEjectedAt
      rw [List.any_eq_true]
      exact ⟨e, hmem, by simp [heq, hej]⟩
    split
    · simp only
      split
      · exact getElem?_ejectAt_of_ejected L.map c.1 t i e he hne
      · exact he
    · exact he

theorem failurePercentageLoop_keeps_ejected (config : OutlierDetectionConfig)
    (fp : FailurePercentageEjection) (dice : Nat → Nat) (t : Int) (l : List (Nat × ℚ))
    (i : Nat) (e : MapEntry) (hej : e.state.ejection_time_.isSome = true) :
    ∀ L : EjectLoop, L.map[i]? = some e →
      (l.foldl (failurePercentageStep config fp dice t) L).map[i]? = some e := by
  induction l with
  | nil => intro L he; exact he
  | cons c rest ih =>
    intro L he
    rw [List.foldl_cons]
    exact ih _ (failurePercentageStep_keeps_ejected config fp dice t L c i e he hej)

theorem failurePercentageAlgorithm_keeps_ejected (config : OutlierDetectionConfig)
    (dice : Nat → Nat) (t : Int) (g : Gather) (L : EjectLoop) (i : Nat) (e : MapEntry)
    (he : L.map[i]? = some e) (hej : e.state.ejection_time_.isSome = true) :
    (failurePercentageAlgorithm config dice t g L).map[i]? = some e := by
  unfold failurePercentageAlgorithm
  split
  · exact he
  · simp only
    split
    · exact failurePercentageLoop_keeps_ejected config _ dice t _ i e hej L he
    · exact he

/-- Claim C28: the decision rule of the failure percentage algorithm.  In a firing
with at least `minimum_hosts` failure percentage candidates the algorithm is one
pass over the candidates.  In each step of the pass the candidate `(e, sr)` is
ejected at `now` if and only if `e` is not ejected at that moment (an ejection by
the success rate algorithm of the same firing counts), `100 - sr` is strictly above
the threshold, the dice value of the step is below `enforcement_percentage`, and
the ejected count is 0 or `100 * ejected_count / N` is below
`max_ejection_percent`.  A candidate whose failure percentage equals the threshold
is not ejected, and the entry of an endpoint that is ejected when the algorithm
starts, with its ejection time and its multiplier, is the same after it. -/
theorem failure_percentage_decision_rule (config : OutlierDetectionConfig)
    (fp : FailurePercentageEjection) (dice : Nat → Nat) (now : Int) (g : Gather)
    (hfp : config.failure_percentage_ejection = some fp)
    (hmin : g.failure_percentage_ejection_candidates.length ≥ fp.minimum_hosts) :
    (∀ L : EjectLoop,
        failurePercentageAlgorithm config dice now g L =
          g.failure_percentage_ejection_candidates.foldl
            (failurePercentageStep config fp dice now) L) ∧
      (∀ (L : EjectLoop) (c : Nat × ℚ),
        ((isEjectedAt L.map c.1 = false ∧ (100 - c.2) > (fp.threshold : ℚ) ∧
            dice L.draws < fp.enforcement_percentage ∧
            (L.ejected_host_count = 0 ∨
              100 * (L.ejected_host_count : ℚ) / (L.map.length : ℚ) <
                (config.max_ejection_percent : ℚ))) →
          failurePercentageStep config fp dice now L c =
              { map := ejectAt L.map c.1 now, ejected_host_count := L.ejected_host_count + 1,
                draws := L.draws + 1 } ∧
            ∀ e ∈ L.map, e.addr = c.1 →
              { e with state := e.state.Eject now } ∈
                (failurePercentageStep config fp dice now L c).map) ∧
        (¬ (isEjectedAt L.map c.1 = false ∧ (100 - c.2) > (fp.threshold : ℚ) ∧
            dice L.draws < fp.enforcement_percentage ∧
            (L.ejected_host_count = 0 ∨
              100 * (L.ejected_host_count : ℚ) / (L.map.length : ℚ) <
                (config.max_ejection_percent : ℚ))) →
          (failurePercentageStep config fp dice now L c).map = L.map ∧
            (failurePercentageStep config fp dice now L c).ejected_host_count =
              L.ejected_host_count) ∧
        (100 - c.2 = (fp.threshold : ℚ) → failurePercentageStep config fp dice now L c = L) ∧
        (∀ (t : Int) (count draws : Nat), c.1 ∈ addrs L.map →
          failurePercentageStep config fp dice now
              { map := ejectAt L.map c.1 t, ejected_host_count := count, draws := draws } c =
            { map := ejectAt L.map c.1 t, ejected_host_count := count, draws := draws })) ∧
      (∀ (L : EjectLoop) (i : Nat) (e : MapEntry), L.map[i]? = some e →
        e.state.ejection_time_.isSome = true →
        (failurePercentageAlgorithm config dice now g L).map[i]? = some e) := by
  refine ⟨fun L => failurePercentageAlgorithm_eq_fold config dice now g fp hfp hmin L, ?_,
    fun L i e he hej => failurePercentageAlgorithm_keeps_ejected config dice now g L i e he hej⟩
  intro L c
  have henf : enforce config.max_ejection_percent fp.enforcement_percentage (dice L.draws)
      L.ejected_host_count L.map.length = true ↔
      (dice L.draws < fp.enforcement_percentage ∧
        (L.ejected_host_count = 0 ∨
          100 * (L.ejected_host_count : ℚ) / (L.map.length : ℚ) <
            (config.max_ejection_percent : ℚ))) := by
    simp only [enforce, decide_eq_true_eq]
  refine ⟨?_, ?_, ?_, ?_⟩
  · rintro ⟨h1, h2, h3⟩
    have hstep := failurePercentageStep_eject config fp dice now L c h1 h2 (henf.mpr h3)
    refine ⟨hstep, ?_⟩
    intro e he hp
    rw [hstep]
    exact mem_ejectAt_self L.map c.1 now e he hp
  · intro hnot
    unfold failurePercentageStep
    by_cases h1 : isEjectedAt L.map c.1 = true
    · rw [if_pos h1]; exact ⟨rfl, rfl⟩
    · rw [if_neg h1]
      by_cases h2 : (100 - c.2) > (fp.threshold : ℚ)
      · rw [if_pos h2]
        have hne : ¬ enforce config.max_ejection_percent fp.enforcement_percentage
            (dice L.draws) L.ejected_host_count L.map.length = true :=
          fun h => hnot ⟨by simpa using h1, h2, henf.mp h⟩
        simp only [hne, if_false]
        exact ⟨rfl, rfl⟩
      · rw [if_neg h2]; exact ⟨rfl, rfl⟩
  · intro heq
    unfold failurePercentageStep
    by_cases h1 : isEjectedAt L.map c.1 = true
    · rw [if_pos h1]
    · rw [if_neg h1, if_neg (by rw [heq]; exact lt_irrefl _)]
  · intro t count draws hmem
    unfold failurePercentageStep
    rw [if_pos (isEjectedAt_ejectAt_self L.map c.1 t hmem)]

/-- Witness of `failure_percentage_decision_rule`: the map of scenario S1 after the
success rate algorithm ejected E; with a failure percentage threshold of 50, E is
a candidate again, and its entry stays as the success rate algorithm left it. -/
theorem failure_percentage_decision_rule_witness :
    (∀ L : EjectLoop,
        failurePercentageAlgorithm { s1Config with failure_percentage_ejection := some fpHalf }
            (fun _ => 7) 1000
            { Gather.init with failure_percentage_ejection_candidates := [(30, 0), (40, 100)] } L =
          ([(30, 0), (40, 100)] : List (Nat × ℚ)).foldl
            (failurePercentageStep { s1Config with failure_percentage_ejection := some fpHalf }
              fpHalf (fun _ => 7) 1000) L) ∧
      (∀ e : MapEntry, afterSuccessRate.map[4]? = some e →
        e.state.ejection_time_.isSome = true →
        (failurePercentageAlgorithm { s1Config with failure_percentage_ejection := some fpHalf }
            (fun _ => 7) 1000
            { Gather.init with failure_percentage_ejection_candidates := [(30, 0), (40, 100)] }
            afterSuccessRate).map[4]? = some e) :=
  ⟨(failure_percentage_decision_rule { s1Config with failure_percentage_ejection := some fpHalf }
      fpHalf (fun _ => 7) 1000
      { Gather.init with failure_percentage_ejection_candidates := [(30, 0), (40, 100)] }
      rfl (by decide)).1,
    fun e he hej =>
      (failure_percentage_decision_rule { s1Config with failure_percentage_ejection := some fpHalf }
        fpHalf (fun _ => 7) 1000
        { Gather.init with failure_percentage_ejection_candidates := [(30, 0), (40, 100)] }
        rfl (by decide)).2.2 afterSuccessRate 4 e he hej⟩

/-! ## Cancelled and live firings -/

/-- Claim C31: cancelled and live firings.  A firing of a timer that has been
cancelled (`Orphan` cleared `timer_pending_`), or a firing delivered with an error,
leaves the policy as it is: the endpoint map with every bucket, ejection time and
multiplier, and the timer of the policy (nothing is re-armed).  A firing of a
pending timer without error runs the evaluator on the map and ends by installing a
new timer that is pending, has the start time `now` and is armed at `now` plus the
interval of the configuration. -/
theorem EjectionTimer.firing_cancelled_or_live (dice : Nat → Nat) (now : Int)
    (self : EjectionTimer) (error : ErrorHandle) (p : OutlierDetectionLb) :
    (self.Orphan.timer_pending_ = false) ∧
      (∀ err, (EjectionTimer.OnTimerLocked dice now self.Orphan err p).2 = p ∧
        (EjectionTimer.OnTimerLocked dice now self.Orphan err p).1 = self.Orphan) ∧
      (self.timer_pending_ = false ∨ error ≠ none →
        (EjectionTimer.OnTimerLocked dice now self error p).2 = p ∧
          (EjectionTimer.OnTimerLocked dice now self error p).1 = self) ∧
      (∀ config, self.timer_pending_ = true → error = none → p.config_ = some config →
        (EjectionTimer.OnTimerLocked dice now self error p).2.ejection_timer_ =
            some { timer_ := now + config.outlier_detection_config_.interval,
                   timer_pending_ := true, start_time_ := now } ∧
          (EjectionTimer.OnTimerLocked dice now self error p).2.subchannel_state_map_ =
            OnTimerLockedMap config.outlier_detection_config_ dice now p.subchannel_state_map_ ∧
          (EjectionTimer.OnTimerLocked dice now self error p).2.config_ = p.config_ ∧
          (EjectionTimer.OnTimerLocked dice now self error p).2.shutting_down_ =
            p.shutting_down_ ∧
          (EjectionTimer.OnTimerLocked dice now self error p).2.child_policy_ = p.child_policy_ ∧
          (EjectionTimer.OnTimerLocked dice now self error p).1.timer_pending_ = false) := by
  have horphan : self.Orphan.timer_pending_ = false := by
    unfold EjectionTimer.Orphan
    cases h : self.timer_pending_ <;> simp [h]
  refine ⟨horphan, ?_, ?_, ?_⟩
  · intro err
    unfold EjectionTimer.OnTimerLocked
    rw [horphan]
    simp
  · intro h
    unfold EjectionTimer.OnTimerLocked
    rcases h with h | h
    · rw [h]; simp
    · cases error with
      | none => exact absurd rfl h
      | some e => simp
  · intro config hp he hc
    unfold EjectionTimer.OnTimerLocked
    rw [hp, he, hc]
    simp [EjectionTimer.create, SubchannelState.timestampAdd]

/-- Witness of `EjectionTimer.firing_cancelled_or_live`: the timer of a running
policy, started at time 50 with an interval of 1 s, fires at time 1050; cancelled
first, the same firing changes nothing. -/
theorem EjectionTimer.firing_cancelled_or_live_witness :
    (EjectionTimer.OnTimerLocked (fun _ => 7) 1050 (EjectionTimer.create 1000 50) none
        runningPolicy).2.ejection_timer_ =
        some { timer_ := 1050 + 1000, timer_pending_ := true, start_time_ := 1050 } ∧
      (EjectionTimer.OnTimerLocked (fun _ => 7) 1050 (EjectionTimer.create 1000 50).Orphan
        (some "Cancelled") runningPolicy).2 = runningPolicy ∧
      (EjectionTimer.OnTimerLocked (fun _ => 7) 1050 (EjectionTimer.create 1000 50)
        (some "Cancelled") runningPolicy).2 = runningPolicy :=
  ⟨((EjectionTimer.firing_cancelled_or_live (fun _ => 7) 1050 (EjectionTimer.create 1000 50) none
      runningPolicy).2.2.2 _ rfl rfl rfl).1,
    ((EjectionTimer.firing_cancelled_or_live (fun _ => 7) 1050 (EjectionTimer.create 1000 50) none
      runningPolicy).2.1 (some "Cancelled")).1,
    ((EjectionTimer.firing_cancelled_or_live (fun _ => 7) 1050 (EjectionTimer.create 1000 50)
      (some "Cancelled") runningPolicy).2.2.1 (Or.inr (by decide))).1⟩

/-! ## The minimum duration of an ejection -/

namespace SubchannelState

theorem applyOp_keeps_multiplier (s : SubchannelState) (op : StateOp) (h : op.isEject = false)
    (hej : (s.applyOp op).ejection_time_.isSome = true) :
    s.ejection_time_.isSome = true ∧ (s.applyOp op).multiplier_ = s.multiplier_ := by
  cases hs : s.ejection_time_ with
  | none =>
    rw [(applyOp_of_not_eject s op h).2 hs] at hej
    cases hej
  | some t =>
    refine ⟨rfl, ?_⟩
    cases op with
    | createWrapper addr =>
      exact (AddSubchannel_fields s addr (SubchannelWrapper.create (some s))).1
    | destroyWrapper addr => rfl
    | record o => exact (record_fields s o).2.2.2.1
    | rotate => exact (RotateBucket_fields s).2.2.2.1
    | eject t0 => simp [StateOp.isEject] at h
    | uneject => rfl
    | maybeUneject base mx now =>
      show (s.MaybeUneject base mx now).multiplier_ = s.multiplier_
      unfold MaybeUneject
      simp only [hs]
      split <;> rfl

theorem runOps_multiplier_pos (ops : List StateOp) :
    ∀ s : SubchannelState, s.multiplier_ + ops.countP StateOp.isEject < 2 ^ 32 →
      (s.ejection_time_.isSome = true → 1 ≤ s.multiplier_) →
      ((s.runOps ops).ejection_time_.isSome = true → 1 ≤ (s.runOps ops).multiplier_) := by
  induction ops with
  | nil => intro s _ h; exact h
  | cons op rest ih =>
    intro s hcount hs
    rw [runOps_cons]
    by_cases hop : op.isEject = true
    · rw [List.countP_cons_of_pos _ _ hop] at hcount
      cases op with
      | eject t =>
        have hm : (s.applyOp (StateOp.eject t)).multiplier_ = s.multiplier_ + 1 := by
          show (s.multiplier_ + 1) % 2 ^ 32 = s.multiplier_ + 1
          exact Nat.mod_eq_of_lt (by omega)
        apply ih
        · rw [hm]; omega
        · intro _; rw [hm]; omega
      | createWrapper addr => simp [StateOp.isEject] at hop
      | destroyWrapper addr => simp [StateOp.isEject] at hop
      | record o => simp [StateOp.isEject] at hop
      | rotate => simp [StateOp.isEject] at hop
      | uneject => simp [StateOp.isEject] at hop
      | maybeUneject base mx now => simp [StateOp.isEject] at hop
    · have hop2 : op.isEject = false := by simpa using hop
      rw [List.countP_cons_of_neg _ _ hop] at hcount
      have hle := (applyOp_of_not_eject s op hop2).1
      apply ih
      · omega
      · intro hej
        obtain ⟨h1, h2⟩ := applyOp_keeps_multiplier s op hop2 hej
        rw [h2]
        exact hs h1

theorem MaybeUneject_before_base (s : SubchannelState) (t : Int) (base mx : Nat) (now : Int)
    (hej : s.ejection_time_ = some t) (hpos : 1 ≤ s.multiplier_) (hb : base < 2 ^ 63)
    (hm : mx < 2 ^ 63) (hrange : base * s.multiplier_ < 2 ^ 64) (hnow : now ≤ t + (base : Int)) :
    s.MaybeUneject base mx now = s := by
  have h1 : base * s.multiplier_ % 2 ^ 64 = base * s.multiplier_ := Nat.mod_eq_of_lt hrange
  have h2 : min (base * s.multiplier_ % 2 ^ 64) (max base mx) < 2 ^ 63 :=
    lt_of_le_of_lt (Nat.min_le_right _ _) (max_lt hb hm)
  have h3 : base ≤ min (base * s.multiplier_ % 2 ^ 64) (max base mx) := by
    rw [h1]
    exact le_min (Nat.le_mul_of_pos_right _ hpos) (le_max_left _ _)
  unfold MaybeUneject
  simp only [hej, toInt64_of_lt _ h2, timestampAdd]
  rw [if_neg]
  have : (base : Int) ≤ ((min (base * s.multiplier_ % 2 ^ 64) (max base mx) : Nat) : Int) := by
    exact_mod_cast h3
  omega

/-- Claim C36: the minimum duration of an ejection.  In every state reached from a
fresh one by a sequence of operations (binding and releasing wrappers, recording,
rotating, `Eject`, `Uneject`, `MaybeUneject`) with fewer than `2 ^ 32` ejections,
so that the multiplier does not wrap, a present ejection time implies a multiplier
of at least 1.  Consequently `MaybeUneject(base, max)` evaluated at any time `now`
that is at most the ejection time plus `base` leaves the state as it is, still
ejected, for durations in the signed 64-bit range whose product with the
multiplier fits 64 bits. -/
theorem minimum_ejection_duration (ops : List StateOp)
    (hcount : ops.countP StateOp.isEject < 2 ^ 32) :
    ((create.runOps ops).ejection_time_.isSome = true → 1 ≤ (create.runOps ops).multiplier_) ∧
      (∀ (t : Int) (base mx : Nat) (now : Int),
        (create.runOps ops).ejection_time_ = some t → base < 2 ^ 63 → mx < 2 ^ 63 →
        base * (create.runOps ops).multiplier_ < 2 ^ 64 → now ≤ t + (base : Int) →
        (create.runOps ops).MaybeUneject base mx now = create.runOps ops ∧
          ((create.runOps ops).MaybeUneject base mx now).ejection_time_ = some t) := by
  have hpos := runOps_multiplier_pos ops create
    (by show 0 + ops.countP StateOp.isEject < 2 ^ 32; omega) (fun h => by cases h)
  refine ⟨hpos, ?_⟩
  intro t base mx now hej hb hm hrange hnow
  have hsame := MaybeUneject_before_base (create.runOps ops) t base mx now hej
    (hpos (by rw [hej]; rfl)) hb hm hrange hnow
  exact ⟨hsame, by rw [hsame]; exact hej⟩

/-- Witness of `minimum_ejection_duration`: a state ejected at time 500 after a
decay; with a base of 10 s it is still ejected at time 10500. -/
theorem minimum_ejection_duration_witness :
    (create.runOps [StateOp.rotate, StateOp.maybeUneject 10000 30000 0,
        StateOp.eject 500]).ejection_time_ = some 500 ∧
      1 ≤ (create.runOps [StateOp.rotate, StateOp.maybeUneject 10000 30000 0,
        StateOp.eject 500]).multiplier_ ∧
      ((create.runOps [StateOp.rotate, StateOp.maybeUneject 10000 30000 0,
        StateOp.eject 500]).MaybeUneject 10000 30000 10500).ejection_time_ = some 500 :=
  ⟨by decide,
    (minimum_ejection_duration [StateOp.rotate, StateOp.maybeUneject 10000 30000 0,
      StateOp.eject 500] (by decide)).1 (by decide),
    ((minimum_ejection_duration [StateOp.rotate, StateOp.maybeUneject 10000 30000 0,
      StateOp.eject 500] (by decide)).2 500 10000 30000 10500 (by decide) (by decide) (by decide)
      (by decide) (by decide)).2⟩

end SubchannelState

/-! ## The stages of a firing -/

theorem OnTimerLockedMap_eq (config : OutlierDetectionConfig) (dice : Nat → Nat) (now : Int)
    (m : StateMap) :
    OnTimerLockedMap config dice now m =
      unejectLoop config now (loopAfterFailurePercentage config dice now m).map := rfl

theorem loopStart_map (config : OutlierDetectionConfig) (m : StateMap) :
    (loopStart config m).map = m.map rotateEntry := gatherLoop_snd config m _

theorem loopStart_count (config : OutlierDetectionConfig) (m : StateMap) :
    (loopStart config m).ejected_host_count = numEjected m := by
  show (gatherLoop config m Gather.init).1.ejected_host_count = numEjected m
  rw [gatherLoop_count]
  exact Nat.zero_add _

theorem getElem?_ejectAt (m : StateMap) (p : Nat) (t : Int) (i : Nat) :
    (ejectAt m p t)[i]? = (m[i]?).map (fun e => if e.addr = p then ejectEntry t e else e) := by
  unfold ejectAt
  rw [List.getElem?_map]
  rfl

theorem successRateStep_map (config : OutlierDetectionConfig) (sr : SuccessRateEjection)
    (mean variance : ℚ) (dice : Nat → Nat) (t : Int) (L : EjectLoop) (c : Nat × ℚ) :
    (successRateStep config sr mean variance dice t L c = L ∨
        successRateStep config sr mean variance dice t L c = { L with draws := L.draws + 1 }) ∨
      successRateStep config sr mean variance dice t L c =
        { map := ejectAt L.map c.1 t, ejected_host_count := L.ejected_host_count + 1,
          draws := L.draws + 1 } := by
  unfold successRateStep
  simp only
  split
  · split
    · exact Or.inr rfl
    · exact Or.inl (Or.inr rfl)
  · exact Or.inl (Or.inl rfl)

theorem failurePercentageStep_map (config : OutlierDetectionConfig)
    (fp : FailurePercentageEjection) (dice : Nat → Nat) (t : Int) (L : EjectLoop) (c : Nat × ℚ) :
    (failurePercentageStep config fp dice t L c = L ∨
        failurePercentageStep config fp dice t L c = { L with draws := L.draws + 1 }) ∨
      (isEjectedAt L.map c.1 = false ∧
        failurePercentageStep config fp dice t L c =
          { map := ejectAt L.map c.1 t, ejected_host_count := L.ejected_host_count + 1,
            draws := L.draws + 1 }) := by
  unfold failurePercentageStep
  by_cases h1 : isEjectedAt L.map c.1 = true
  · rw [if_pos h1]; exact Or.inl (Or.inl rfl)
  · rw [if_neg h1]
    simp only
    split
    · split
      · exact Or.inr ⟨by simpa using h1, rfl⟩
      · exact Or.inl (Or.inr rfl)
    · exact Or.inl (Or.inl rfl)

theorem candidates_nodup (cand : MapEntry → Option (Nat × ℚ))
    (hcand : ∀ e x, cand e = some x → x.1 = e.addr) (m : StateMap) (hnd : (addrs m).Nodup) :
    ((m.filterMap cand).map Prod.fst).Nodup := by
  induction m with
  | nil => exact List.nodup_nil
  | cons e rest ih =>
    have hnd2 : e.addr ∉ addrs rest ∧ (addrs rest).Nodup := by
      simpa [addrs] using hnd
    cases hc : cand e with
    | none =>
      rw [List.filterMap_cons_none hc]
      exact ih hnd2.2
    | some x =>
      rw [List.filterMap_cons_some hc, List.map_cons, List.nodup_cons]
      refine ⟨?_, ih hnd2.2⟩
      intro hmem
      obtain ⟨y, hy, hyx⟩ := List.mem_map.mp hmem
      obtain ⟨e2, he2, hy2⟩ := List.mem_filterMap.mp hy
      apply hnd2.1
      rw [← hcand e x hc, ← hyx, hcand e2 y hy2]
      exact List.mem_map.mpr ⟨e2, he2, rfl⟩

theorem candidates_mem_addrs (cand : MapEntry → Option (Nat × ℚ))
    (hcand : ∀ e x, cand e = some x → x.1 = e.addr) (m : StateMap) (c : Nat × ℚ)
    (hc : c ∈ m.filterMap cand) : c.1 ∈ addrs m := by
  obtain ⟨e, he, hx⟩ := List.mem_filterMap.mp hc
  rw [hcand e c hx]
  exact List.mem_map.mpr ⟨e, he, rfl⟩

theorem sr_candidates_facts (config : OutlierDetectionConfig) (m : StateMap)
    (hnd : (addrs m).Nodup) :
    (((gatherLoop config m Gather.init).1.success_rate_ejection_candidates).map Prod.fst).Nodup ∧
      ∀ c ∈ (gatherLoop config m Gather.init).1.success_rate_ejection_candidates,
        c.1 ∈ addrs m := by
  obtain ⟨hperm, -⟩ := gather_success_rate config m hnd
  refine ⟨?_, ?_⟩
  · exact (hperm.map Prod.fst).nodup_iff.mpr
      (candidates_nodup _ (srCandidate_addr config) m hnd)
  · intro c hc
    exact candidates_mem_addrs _ (srCandidate_addr config) m c (hperm.mem_iff.mp hc)

theorem fp_candidates_facts (config : OutlierDetectionConfig) (m : StateMap)
    (hnd : (addrs m).Nodup) :
    (((gatherLoop config m Gather.init).1.failure_percentage_ejection_candidates).map
        Prod.fst).Nodup ∧
      ∀ c ∈ (gatherLoop config m Gather.init).1.failure_percentage_ejection_candidates,
        c.1 ∈ addrs m := by
  have hperm := gather_failure_percentage config m hnd
  refine ⟨?_, ?_⟩
  · exact (hperm.map Prod.fst).nodup_iff.mpr
      (candidates_nodup _ (fpCandidate_addr config) m hnd)
  · intro c hc
    exact candidates_mem_addrs _ (fpCandidate_addr config) m c (hperm.mem_iff.mp hc)

/-! ### Every endpoint is ejected at most once in a firing -/

theorem successRateLoop_once (config : OutlierDetectionConfig) (sr : SuccessRateEjection)
    (mean variance : ℚ) (dice : Nat → Nat) (t : Int) (R : StateMap) (l : List (Nat × ℚ)) :
    (l.map Prod.fst).Nodup → ∀ L : EjectLoop,
      (∀ (i : Nat) (r : MapEntry), R[i]? = some r →
        L.map[i]? = some r ∨ (L.map[i]? = some (ejectEntry t r) ∧ r.addr ∉ l.map Prod.fst)) →
      ∀ (i : Nat) (r : MapEntry), R[i]? = some r →
        (l.foldl (successRateStep config sr mean variance dice t) L).map[i]? = some r ∨
          (l.foldl (successRateStep config sr mean variance dice t) L).map[i]? =
            some (ejectEntry t r) := by
  induction l with
  | nil =>
    intro _ L hL i r hr
    rcases hL i r hr with h | ⟨h, -⟩
    · exact Or.inl h
    · exact Or.inr h
  | cons c rest ih =>
    intro hnd L hL
    rw [List.map_cons, List.nodup_cons] at hnd
    rw [List.foldl_cons]
    apply ih hnd.2
    intro i r hr
    have hcase := hL i r hr
    rcases successRateStep_map config sr mean variance dice t L c with (hs | hs) | hs
    · rw [hs]
      rcases hcase with h | ⟨h, hn⟩
      · exact Or.inl h
      · exact Or.inr ⟨h, fun hc => hn (List.mem_cons_of_mem _ hc)⟩
    · rw [hs]
      rcases hcase with h | ⟨h, hn⟩
      · exact Or.inl h
      · exact Or.inr ⟨h, fun hc => hn (List.mem_cons_of_mem _ hc)⟩
    · rw [hs]
      simp only [getElem?_ejectAt]
      rcases hcase with h | ⟨h, hn⟩
      · rw [h]
        by_cases hp : r.addr = c.1
        · right
          refine ⟨by simp [hp], ?_⟩
          rw [hp]; exact hnd.1
        · left
          simp [hp]
      · rw [h]
        right
        have hp : ¬ (ejectEntry t r).addr = c.1 := by
          intro hc
          apply hn
          rw [List.map_cons]
          exact List.mem_cons.mpr (Or.inl hc)
        refine ⟨by simp [hp], fun hc => hn (List.mem_cons_of_mem _ hc)⟩

theorem failurePercentageLoop_once (config : OutlierDetectionConfig)
    (fp : FailurePercentageEjection) (dice : Nat → Nat) (t : Int) (R : StateMap)
    (l : List (Nat × ℚ)) :
    ∀ L : EjectLoop,
      (∀ (i : Nat) (r : MapEntry), R[i]? = some r → L.map[i]? = some r ∨ L.map[i]? = some (ejectEntry t r)) →
      ∀ (i : Nat) (r : MapEntry), R[i]? = some r →
        (l.foldl (failurePercentageStep config fp dice t) L).map[i]? = some r ∨
          (l.foldl (failurePercentageStep config fp dice t) L).map[i]? =
            some (ejectEntry t r) := by
  induction l with
  | nil => intro L hL; exact hL
  | cons c rest ih =>
    intro L hL
    rw [List.foldl_cons]
    apply ih
    intro i r hr
    have hcase := hL i r hr
    rcases failurePercentageStep_map config fp dice t L c with (hs | hs) | ⟨hne, hs⟩
    · rw [hs]; exact hcase
    · rw [hs]; exact hcase
    · rw [hs]
      simp only [getElem?_ejectAt]
      rcases hcase with h | h
      · rw [h]
        by_cases hp : r.addr = c.1
        · right; simp [hp]
        · left; simp [hp]
      · rw [h]
        right
        have hp : ¬ (ejectEntry t r).addr = c.1 := by
          intro hc
          have hmem : ejectEntry t r ∈ L.map := List.getElem?_mem h
          have : isEjectedAt L.map c.1 = true := by
            unfold isEjectedAt
            rw [List.any_eq_true]
            exact ⟨_, hmem, by rw [Bool.and_eq_true]; exact ⟨decide_eq_true hc, rfl⟩⟩
          rw [hne] at this
          cases this
        simp [hp]

theorem loops_once (config : OutlierDetectionConfig) (dice : Nat → Nat) (now : Int)
    (m : StateMap) (hnd : (addrs m).Nodup) (i : Nat) (r : MapEntry)
    (hr : (m.map rotateEntry)[i]? = some r) :
    (loopAfterFailurePercentage config dice now m).map[i]? = some r ∨
      (loopAfterFailurePercentage config dice now m).map[i]? = some (ejectEntry now r) := by
  have h1 : ∀ (i : Nat) (r : MapEntry), (m.map rotateEntry)[i]? = some r →
      (loopAfterSuccessRate config dice now m).map[i]? = some r ∨
        (loopAfterSuccessRate config dice now m).map[i]? = some (ejectEntry now r) := by
    intro i r hr
    have h0 : (loopStart config m).map[i]? = some r := by rw [loopStart_map]; exact hr
    unfold loopAfterSuccessRate successRateAlgorithm
    split
    · exact Or.inl h0
    · simp only
      split
      · exact successRateLoop_once config _ _ _ dice now (m.map rotateEntry) _
          (sr_candidates_facts config m hnd).1 (loopStart config m)
          (fun j q hq => Or.inl (by rw [loopStart_map]; exact hq)) i r hr
      · exact Or.inl h0
  unfold loopAfterFailurePercentage failurePercentageAlgorithm
  split
  · exact h1 i r hr
  · simp only
    split
    · exact failurePercentageLoop_once config _ dice now (m.map rotateEntry) _ _ h1 i r hr
    · exact h1 i r hr

theorem unejectEntry_fresh (config : OutlierDetectionConfig) (now : Int) (r : MapEntry)
    (hb0 : 0 ≤ config.base_ejection_time) (hb1 : config.base_ejection_time < 2 ^ 63)
    (hm0 : 0 ≤ config.max_ejection_time) (hm1 : config.max_ejection_time < 2 ^ 63) :
    unejectEntry config now (ejectEntry now r) = ejectEntry now r := by
  unfold unejectEntry
  rw [MaybeUneject_fresh (ejectEntry now r).state _ _ now rfl
    (toUInt64_lt _ hb0 hb1) (toUInt64_lt _ hm0 hm1)]

/-- Claim C32: decay does not race with a fresh ejection.  In a firing evaluated
at the time `now`, every endpoint is, when the two algorithms are done, either as
the rotation of the first loop left it or ejected once at `now`; and an endpoint
that the success rate or the failure percentage algorithm ejected, with prior
multiplier `k`, is after the last loop of the same firing still ejected with
ejection time `now` and multiplier `k + 1`.  This holds for every base and maximum
ejection time that is not negative, 0 included. -/
theorem fresh_ejection_survives_decay (config : OutlierDetectionConfig) (dice : Nat → Nat)
    (now : Int) (m : StateMap) (hnd : (addrs m).Nodup)
    (hb0 : 0 ≤ config.base_ejection_time) (hb1 : config.base_ejection_time < 2 ^ 63)
    (hm0 : 0 ≤ config.max_ejection_time) (hm1 : config.max_ejection_time < 2 ^ 63)
    (i : Nat) (e : MapEntry) (he : m[i]? = some e) (k : Nat) (hk : e.state.multiplier_ = k)
    (hwrap : k + 1 < 2 ^ 32) :
    ((loopAfterFailurePercentage config dice now m).map[i]? = some (rotateEntry e) ∨
        (loopAfterFailurePercentage config dice now m).map[i]? =
          some (ejectEntry now (rotateEntry e))) ∧
      ((loopAfterFailurePercentage config dice now m).map[i]? =
          some (ejectEntry now (rotateEntry e)) →
        (OnTimerLockedMap config dice now m)[i]? = some (ejectEntry now (rotateEntry e)) ∧
          (ejectEntry now (rotateEntry e)).state.ejection_time_ = some now ∧
          (ejectEntry now (rotateEntry e)).state.multiplier_ = k + 1 ∧
          (ejectEntry now (rotateEntry e)).key = e.key ∧
          (ejectEntry now (rotateEntry e)).addr = e.addr) := by
  have hr : (m.map rotateEntry)[i]? = some (rotateEntry e) := by
    rw [List.getElem?_map, he]; rfl
  refine ⟨loops_once config dice now m hnd i _ hr, ?_⟩
  intro hej
  refine ⟨?_, rfl, ?_, rfl, rfl⟩
  · rw [OnTimerLockedMap_eq]
    unfold unejectLoop
    rw [List.getElem?_map, hej]
    show some (unejectEntry config now (ejectEntry now (rotateEntry e))) = _
    rw [unejectEntry_fresh config now _ hb0 hb1 hm0 hm1]
  · show (e.state.RotateBucket.multiplier_ + 1) % 2 ^ 32 = k + 1
    rw [(SubchannelState.RotateBucket_fields e.state).2.2.2.1, hk]
    exact Nat.mod_eq_of_lt hwrap

/-- Witness of `fresh_ejection_survives_decay`: the firing of scenario S1 at time
1000 with a base and a maximum ejection time of 0; E, ejected by the success rate
algorithm, is still ejected when the firing ends. -/
theorem fresh_ejection_survives_decay_witness :
    (loopAfterFailurePercentage zeroTimeConfig (fun _ => 7) 1000 s1Map).map[4]? =
        some (ejectEntry 1000 (rotateEntry s1Failing)) ∧
      (OnTimerLockedMap zeroTimeConfig (fun _ => 7) 1000 s1Map)[4]? =
        some (ejectEntry 1000 (rotateEntry s1Failing)) ∧
      (ejectEntry 1000 (rotateEntry s1Failing)).state.ejection_time_ = some 1000 ∧
      (ejectEntry 1000 (rotateEntry s1Failing)).state.multiplier_ = 0 + 1 :=
  ⟨by decide!,
    ((fresh_ejection_survives_decay zeroTimeConfig (fun _ => 7) 1000 s1Map (by decide)
      (by decide) (by decide) (by decide) (by decide) 4 s1Failing rfl 0 rfl (by decide)).2
      (by decide!)).1,
    ((fresh_ejection_survives_decay zeroTimeConfig (fun _ => 7) 1000 s1Map (by decide)
      (by decide) (by decide) (by decide) (by decide) 4 s1Failing rfl 0 rfl (by decide)).2
      (by decide!)).2.1,
    ((fresh_ejection_survives_decay zeroTimeConfig (fun _ => 7) 1000 s1Map (by decide)
      (by decide) (by decide) (by decide) (by decide) 4 s1Failing rfl 0 rfl (by decide)).2
      (by decide!)).2.2.1⟩

/-! ## A firing that starts at or above the cap -/

theorem enforce_blocked (pct e r c n : Nat) (hn : 1 ≤ n) (h0 : c ≠ 0)
    (hcap : ¬ 100 * c < pct * n) : enforce pct e r c n = false := by
  rw [Bool.eq_false_iff]
  intro hc
  rcases ((enforce_iff _ _ _ _ _ hn).mp hc).2 with h | h
  · exact h0 h
  · exact hcap h

theorem successRateLoop_blocked (config : OutlierDetectionConfig) (sr : SuccessRateEjection)
    (mean variance : ℚ) (dice : Nat → Nat) (t : Int) (l : List (Nat × ℚ)) :
    ∀ L : EjectLoop, 1 ≤ L.map.length → L.ejected_host_count ≠ 0 →
      ¬ 100 * L.ejected_host_count < config.max_ejection_percent * L.map.length →
      (l.foldl (successRateStep config sr mean variance dice t) L).map = L.map ∧
        (l.foldl (successRateStep config sr mean variance dice t) L).ejected_host_count =
          L.ejected_host_count := by
  induction l with
  | nil => intro L _ _ _; exact ⟨rfl, rfl⟩
  | cons c rest ih =>
    intro L hn h0 hcap
    have hstep : (successRateStep config sr mean variance dice t L c).map = L.map ∧
        (successRateStep config sr mean variance dice t L c).ejected_host_count =
          L.ejected_host_count := by
      unfold successRateStep
      simp only [enforce_blocked _ _ _ _ _ hn h0 hcap, Bool.false_eq_true, if_false]
      split <;> exact ⟨rfl, rfl⟩
    rw [List.foldl_cons]
    obtain ⟨i1, i2⟩ := ih (successRateStep config sr mean variance dice t L c)
      (by rw [hstep.1]; exact hn) (by rw [hstep.2]; exact h0)
      (by rw [hstep.1, hstep.2]; exact hcap)
    exact ⟨i1.trans hstep.1, i2.trans hstep.2⟩

theorem successRateAlgorithm_blocked (config : OutlierDetectionConfig) (dice : Nat → Nat)
    (t : Int) (g : Gather) (L : EjectLoop) (hn : 1 ≤ L.map.length)
    (h0 : L.ejected_host_count ≠ 0)
    (hcap : ¬ 100 * L.ejected_host_count < config.max_ejection_percent * L.map.length) :
    (successRateAlgorithm config dice t g L).map = L.map ∧
      (successRateAlgorithm config dice t g L).ejected_host_count = L.ejected_host_count := by
  unfold successRateAlgorithm
  split
  · exact ⟨rfl, rfl⟩
  · simp only
    split
    · exact successRateLoop_blocked config _ _ _ dice t _ L hn h0 hcap
    · exact ⟨rfl, rfl⟩

theorem failurePercentageAlgorithm_blocked (config : OutlierDetectionConfig)
    (dice : Nat → Nat) (t : Int) (g : Gather) (L : EjectLoop) (hn : 1 ≤ L.map.length)
    (h0 : L.ejected_host_count ≠ 0)
    (hcap : ¬ 100 * L.ejected_host_count < config.max_ejection_percent * L.map.length) :
    (failurePercentageAlgorithm config dice t g L).map = L.map ∧
      (failurePercentageAlgorithm config dice t g L).ejected_host_count =
        L.ejected_host_count := by
  unfold failurePercentageAlgorithm
  split
  · exact ⟨rfl, rfl⟩
  · simp only
    split
    · exact failurePercentageLoop_blocked config _ dice t _ L hn h0 hcap
    · exact ⟨rfl, rfl⟩

/-- Claim C33: a firing never pushes the ejected count past the cap.  For a map of
`N` distinct states of which `c0` are ejected when a firing starts, every
configuration and every sequence of dice values, at most
`max(c0, 1, ceil(max_ejection_percent * N / 100))` endpoints are ejected when the
firing ends.  A firing that starts with `c0 ≥ 1` and
`100 * c0 / N ≥ max_ejection_percent` ejects nobody: the two algorithms leave the
rotated map and the count as they are, so the firing is the bucket rotation
followed by the last loop. -/
theorem firing_respects_cap (config : OutlierDetectionConfig) (dice : Nat → Nat) (now : Int)
    (m : StateMap) (hnd : (addrs m).Nodup) :
    numEjected (OnTimerLockedMap config dice now m) ≤
        max (numEjected m)
          (max 1 ⌈((config.max_ejection_percent * m.length : Nat) : ℚ) / 100⌉₊) ∧
      (1 ≤ numEjected m →
        (config.max_ejection_percent : ℚ) ≤ 100 * (numEjected m : ℚ) / (m.length : ℚ) →
        (loopAfterFailurePercentage config dice now m).map = m.map rotateEntry ∧
          (loopAfterFailurePercentage config dice now m).ejected_host_count = numEjected m ∧
          OnTimerLockedMap config dice now m = unejectLoop config now (m.map rotateEntry) ∧
          numEjected (OnTimerLockedMap config dice now m) ≤ numEjected m) := by
  refine ⟨?_, ?_⟩
  · rw [← capBound_eq_ceil]
    exact numEjected_OnTimerLockedMap_le config dice now m hnd
  · intro hc0 hpct
    have hlen : 1 ≤ m.length := le_trans hc0 (numEjected_le_length m)
    have hlenQ : (0 : ℚ) < (m.length : ℚ) := by exact_mod_cast hlen
    have hcapN : ¬ 100 * numEjected m < config.max_ejection_percent * m.length := by
      intro hlt
      have h1 : (config.max_ejection_percent : ℚ) * (m.length : ℚ) ≤ 100 * (numEjected m : ℚ) :=
        (le_div_iff₀ hlenQ).mp hpct
      have h2 : (100 * (numEjected m : ℚ)) < (config.max_ejection_percent : ℚ) * (m.length : ℚ) := by
        exact_mod_cast hlt
      exact absurd h1 (not_le.mpr h2)
    have hL0n : 1 ≤ (loopStart config m).map.length := by
      rw [loopStart_map, List.length_map]; exact hlen
    have hL0c : (loopStart config m).ejected_host_count ≠ 0 := by
      rw [loopStart_count]; omega
    have hL0cap : ¬ 100 * (loopStart config m).ejected_host_count <
        config.max_ejection_percent * (loopStart config m).map.length := by
      rw [loopStart_count, loopStart_map, List.length_map]; exact hcapN
    obtain ⟨a1, a2⟩ := successRateAlgorithm_blocked config dice now
      (gatherLoop config m Gather.init).1 (loopStart config m) hL0n hL0c hL0cap
    obtain ⟨b1, b2⟩ := failurePercentageAlgorithm_blocked config dice now
      (gatherLoop config m Gather.init).1 (loopAfterSuccessRate config dice now m)
      (by show 1 ≤ (successRateAlgorithm config dice now _ (loopStart config m)).map.length
          rw [a1]; exact hL0n)
      (by show (successRateAlgorithm config dice now _ (loopStart config m)).ejected_host_count ≠ 0
          rw [a2]; exact hL0c)
      (by show ¬ 100 * (successRateAlgorithm config dice now _
              (loopStart config m)).ejected_host_count <
            config.max_ejection_percent *
              (successRateAlgorithm config dice now _ (loopStart config m)).map.length
          rw [a1, a2]; exact hL0cap)
    have hmap : (loopAfterFailurePercentage config dice now m).map = m.map rotateEntry := by
      show (failurePercentageAlgorithm config dice now _
        (loopAfterSuccessRate config dice now m)).map = _
      rw [b1]
      show (successRateAlgorithm config dice now _ (loopStart config m)).map = _
      rw [a1, loopStart_map]
    have hcount : (loopAfterFailurePercentage config dice now m).ejected_host_count =
        numEjected m := by
      show (failurePercentageAlgorithm config dice now _
        (loopAfterSuccessRate config dice now m)).ejected_host_count = _
      rw [b2]
      show (successRateAlgorithm config dice now _ (loopStart config m)).ejected_host_count = _
      rw [a2, loopStart_count]
    have hfire : OnTimerLockedMap config dice now m =
        unejectLoop config now (m.map rotateEntry) := by
      rw [OnTimerLockedMap_eq, hmap]
    refine ⟨hmap, hcount, hfire, ?_⟩
    rw [hfire]
    exact le_trans (numEjected_unejectLoop_le config now _)
      (le_of_eq (numEjected_map_rotateEntry m))

/-- Witness of `firing_respects_cap`: two endpoints ejected earlier, under a cap of
10 percent; the firing ejects nobody. -/
theorem firing_respects_cap_witness :
    numEjected (OnTimerLockedMap tenPercentConfig (fun _ => 1) 1000 twoEjected) ≤
        max (numEjected twoEjected)
          (max 1 ⌈((tenPercentConfig.max_ejection_percent * twoEjected.length : Nat) : ℚ) /
            100⌉₊) ∧
      (loopAfterFailurePercentage tenPercentConfig (fun _ => 1) 1000 twoEjected).map =
        twoEjected.map rotateEntry :=
  ⟨(firing_respects_cap tenPercentConfig (fun _ => 1) 1000 twoEjected (by decide)).1,
    ((firing_respects_cap tenPercentConfig (fun _ => 1) 1000 twoEjected (by decide)).2
      (by decide) (by norm_num [tenPercentConfig, halfCapConfig, numEjected, twoEjected])).1⟩

/-! ## The running count of ejected endpoints -/

theorem successRateLoop_exact (config : OutlierDetectionConfig) (sr : SuccessRateEjection)
    (mean variance : ℚ) (dice : Nat → Nat) (t : Int) (R : StateMap) (l : List (Nat × ℚ)) :
    (l.map Prod.fst).Nodup → ∀ L : EjectLoop,
      (addrs L.map).Nodup → numEjected L.map = L.ejected_host_count →
      (∀ c ∈ l, c.1 ∈ addrs L.map ∧ isEjectedAt L.map c.1 = false) →
      (∀ (i : Nat) (e : MapEntry), R[i]? = some e → e.state.ejection_time_.isSome = true →
        L.map[i]? = some e) →
      addrs (l.foldl (successRateStep config sr mean variance dice t) L).map = addrs L.map ∧
        numEjected (l.foldl (successRateStep config sr mean variance dice t) L).map =
          (l.foldl (successRateStep config sr mean variance dice t) L).ejected_host_count ∧
        ∀ (i : Nat) (e : MapEntry), R[i]? = some e → e.state.ejection_time_.isSome = true →
          (l.foldl (successRateStep config sr mean variance dice t) L).map[i]? = some e := by
  induction l with
  | nil => intro _ L _ hc _ hk; exact ⟨rfl, hc, hk⟩
  | cons c rest ih =>
    intro hnd L hL hc hcand hk
    rw [List.map_cons, List.nodup_cons] at hnd
    rw [List.foldl_cons]
    have hcfacts := hcand c (List.mem_cons_self _ _)
    rcases successRateStep_map config sr mean variance dice t L c with (hs | hs) | hs
    · rw [hs]
      exact ih hnd.2 L hL hc (fun x hx => hcand x (List.mem_cons_of_mem _ hx)) hk
    · rw [hs]
      exact ih hnd.2 _ hL hc (fun x hx => hcand x (List.mem_cons_of_mem _ hx)) hk
    · rw [hs]
      have haddr : addrs (ejectAt L.map c.1 t) = addrs L.map := addrs_ejectAt _ _ _
      obtain ⟨i1, i2, i3⟩ := ih hnd.2
        { map := ejectAt L.map c.1 t, ejected_host_count := L.ejected_host_count + 1,
          draws := L.draws + 1 }
        (by rw [haddr]; exact hL)
        (by show numEjected (ejectAt L.map c.1 t) = L.ejected_host_count + 1
            rw [numEjected_ejectAt_eq L.map c.1 t hL hcfacts.1 hcfacts.2, hc])
        (by
          intro x hx
          have hxf := hcand x (List.mem_cons_of_mem _ hx)
          have hne : x.1 ≠ c.1 := by
            intro heq
            apply hnd.1
            rw [← heq]
            exact List.mem_map.mpr ⟨x, hx, rfl⟩
          refine ⟨by show x.1 ∈ addrs (ejectAt L.map c.1 t); rw [haddr]; exact hxf.1, ?_⟩
          show isEjectedAt (ejectAt L.map c.1 t) x.1 = false
          rw [isEjectedAt_ejectAt_of_ne L.map c.1 x.1 t hne]
          exact hxf.2)
        (by
          intro i e hr hej
          have hi := hk i e hr hej
          have hp : e.addr ≠ c.1 := by
            intro heq
            have : isEjectedAt L.map c.1 = true := by
              unfold isEjectedAt
              rw [List.any_eq_true]
              exact ⟨e, List.getElem?_mem hi, by
                rw [Bool.and_eq_true]; exact ⟨decide_eq_true heq, hej⟩⟩
            rw [hcfacts.2] at this
            cases this
          exact getElem?_ejectAt_of_ejected L.map c.1 t i e hi hp)
      exact ⟨i1.trans haddr, i2, i3⟩

theorem failurePercentageLoop_exact (config : OutlierDetectionConfig)
    (fp : FailurePercentageEjection) (dice : Nat → Nat) (t : Int) (l : List (Nat × ℚ)) :
    ∀ L : EjectLoop, (addrs L.map).Nodup → numEjected L.map = L.ejected_host_count →
      (∀ c ∈ l, c.1 ∈ addrs L.map) →
      numEjected (l.foldl (failurePercentageStep config fp dice t) L).map =
        (l.foldl (failurePercentageStep config fp dice t) L).ejected_host_count := by
  induction l with
  | nil => intro L _ hc _; exact hc
  | cons c rest ih =>
    intro L hL hc hcand
    rw [List.foldl_cons]
    rcases failurePercentageStep_map config fp dice t L c with (hs | hs) | ⟨hne, hs⟩
    · rw [hs]
      exact ih L hL hc (fun x hx => hcand x (List.mem_cons_of_mem _ hx))
    · rw [hs]
      exact ih _ hL hc (fun x hx => hcand x (List.mem_cons_of_mem _ hx))
    · rw [hs]
      have haddr : addrs (ejectAt L.map c.1 t) = addrs L.map := addrs_ejectAt _ _ _
      apply ih
      · show (addrs (ejectAt L.map c.1 t)).Nodup
        rw [haddr]; exact hL
      · show numEjected (ejectAt L.map c.1 t) = L.ejected_host_count + 1
        rw [numEjected_ejectAt_eq L.map c.1 t hL (hcand c (List.mem_cons_self _ _)) hne, hc]
      · intro x hx
        show x.1 ∈ addrs (ejectAt L.map c.1 t)
        rw [haddr]
        exact hcand x (List.mem_cons_of_mem _ hx)

theorem loopAfterSuccessRate_addrs (config : OutlierDetectionConfig) (dice : Nat → Nat)
    (now : Int) (m : StateMap) :
    addrs (loopAfterSuccessRate config dice now m).map = addrs m ∧
      (loopAfterSuccessRate config dice now m).map.length = m.length := by
  have hP : ∀ L : EjectLoop, (addrs L.map = addrs m ∧ L.map.length = m.length) →
      ∀ sr mean variance (c : Nat × ℚ),
        addrs (successRateStep config sr mean variance dice now L c).map = addrs m ∧
          (successRateStep config sr mean variance dice now L c).map.length = m.length := by
    intro L hL sr mean variance c
    rcases successRateStep_map config sr mean variance dice now L c with (hs | hs) | hs
    · rw [hs]; exact hL
    · rw [hs]; exact hL
    · rw [hs]
      exact ⟨(addrs_ejectAt _ _ _).trans hL.1, (length_ejectAt _ _ _).trans hL.2⟩
  have h0 : addrs (loopStart config m).map = addrs m ∧
      (loopStart config m).map.length = m.length := by
    rw [loopStart_map]
    exact ⟨addrs_map_rotateEntry m, List.length_map _ _⟩
  unfold loopAfterSuccessRate successRateAlgorithm
  split
  · exact h0
  · simp only
    split
    · exact foldl_invariant (fun L => addrs L.map = addrs m ∧ L.map.length = m.length) _
        (fun L c hL => hP L hL _ _ _ c) _ _ h0
    · exact h0

/-- Counterexample to claim C34 as stated: in the map of scenario S1 with E already
ejected at time 0 (multiplier 1) and 100 failed calls in its window, the success
rate algorithm ejects E again: its ejection time becomes 1000 and its multiplier 2,
and the local count is 2 while one endpoint is ejected. -/
theorem success_rate_re_ejects :
    ejectionSummary reEjectMap =
        [("A", none, 0), ("B", none, 0), ("C", none, 0), ("D", none, 0), ("E", some 0, 1)] ∧
      ejectionSummary (loopAfterFailurePercentage s1Config (fun _ => 7) 1000 reEjectMap).map =
        [("A", none, 0), ("B", none, 0), ("C", none, 0), ("D", none, 0), ("E", some 1000, 2)] ∧
      (loopAfterFailurePercentage s1Config (fun _ => 7) 1000 reEjectMap).ejected_host_count = 2 ∧
      numEjected (loopAfterFailurePercentage s1Config (fun _ => 7) 1000 reEjectMap).map = 1 := by
  decide!

/-- Claim C34, amended: the running count of ejected endpoints.  For a map of
distinct states, when the two algorithms of a firing are done the local
`ejected_host_count` is at least the number of endpoints of the map that are
ejected.  When no success rate candidate was ejected as the firing started, the
count equals that number and every endpoint that was ejected as the firing started
is as the rotation left it, with its ejection time and multiplier.  The failure
percentage algorithm never touches an endpoint that is ejected when it starts; the
success rate algorithm has no such test and can eject an ejected candidate again. -/
theorem ejected_count_bounds (config : OutlierDetectionConfig) (dice : Nat → Nat) (now : Int)
    (m : StateMap) (hnd : (addrs m).Nodup) :
    numEjected (loopAfterFailurePercentage config dice now m).map ≤
        (loopAfterFailurePercentage config dice now m).ejected_host_count ∧
      ((∀ e ∈ m, e.state.ejection_time_.isSome = true →
          e.addr ∉ ((gatherLoop config m Gather.init).1.success_rate_ejection_candidates).map
            Prod.fst) →
        numEjected (loopAfterFailurePercentage config dice now m).map =
            (loopAfterFailurePercentage config dice now m).ejected_host_count ∧
          ∀ (i : Nat) (e : MapEntry), (m.map rotateEntry)[i]? = some e →
            e.state.ejection_time_.isSome = true →
            (loopAfterFailurePercentage config dice now m).map[i]? = some e) ∧
      (∀ (i : Nat) (e : MapEntry), (loopAfterSuccessRate config dice now m).map[i]? = some e →
        e.state.ejection_time_.isSome = true →
        (loopAfterFailurePercentage config dice now m).map[i]? = some e) := by
  have hkeepFP : ∀ (i : Nat) (e : MapEntry),
      (loopAfterSuccessRate config dice now m).map[i]? = some e →
      e.state.ejection_time_.isSome = true →
      (loopAfterFailurePercentage config dice now m).map[i]? = some e :=
    fun i e he hej => failurePercentageAlgorithm_keeps_ejected config dice now _ _ i e he hej
  refine ⟨?_, ?_, hkeepFP⟩
  · cases m with
    | nil =>
      have : (loopAfterFailurePercentage config dice now []).map = [] := by
        unfold loopAfterFailurePercentage loopAfterSuccessRate
        rw [successRateAlgorithm_of_nil _ _ _ _ _ rfl,
          failurePercentageAlgorithm_of_nil _ _ _ _ _ rfl]
        rfl
      rw [this]
      exact Nat.zero_le _
    | cons e rest =>
      set m := e :: rest with hm
      have hsize : 1 ≤ m.length := by simp [hm]
      have hL0 : CapInv m.length
          (max (numEjected m) (capBound config.max_ejection_percent m.length))
          (loopStart config m) := by
        refine ⟨?_, ?_, ?_, ?_⟩
        · rw [loopStart_map, addrs_map_rotateEntry]; exact hnd
        · rw [loopStart_map, List.length_map]
        · rw [loopStart_map, loopStart_count, numEjected_map_rotateEntry]
        · rw [loopStart_count]; exact le_max_left _ _
      have h1 := successRateAlgorithm_CapInv config dice now (gatherLoop config m Gather.init).1
        m.length _ hsize (le_max_right _ _) _ hL0
      have h2 := failurePercentageAlgorithm_CapInv config dice now
        (gatherLoop config m Gather.init).1 m.length _ hsize (le_max_right _ _) _ h1
      exact h2.2.2.1
  · intro hfresh
    obtain ⟨hsrnd, hsrmem⟩ := sr_candidates_facts config m hnd
    obtain ⟨-, hfpmem⟩ := fp_candidates_facts config m hnd
    have hstart : (addrs (loopStart config m).map).Nodup := by
      rw [loopStart_map, addrs_map_rotateEntry]; exact hnd
    have hstartc : numEjected (loopStart config m).map = (loopStart config m).ejected_host_count := by
      rw [loopStart_map, loopStart_count, numEjected_map_rotateEntry]
    have hcand : ∀ c ∈ (gatherLoop config m Gather.init).1.success_rate_ejection_candidates,
        c.1 ∈ addrs (loopStart config m).map ∧ isEjectedAt (loopStart config m).map c.1 = false := by
      intro c hc
      rw [loopStart_map, addrs_map_rotateEntry]
      refine ⟨hsrmem c hc, ?_⟩
      rw [Bool.eq_false_iff]
      intro htrue
      unfold isEjectedAt at htrue
      rw [List.any_eq_true] at htrue
      obtain ⟨x, hx, hxp⟩ := htrue
      obtain ⟨e, he, rfl⟩ := List.mem_map.mp hx
      rw [Bool.and_eq_true] at hxp
      have haddr : e.addr = c.1 := of_decide_eq_true hxp.1
      have hej : e.state.ejection_time_.isSome = true := by
        have := hxp.2
        rw [rotateEntry, (SubchannelState.RotateBucket_fields e.state).2.2.2.2.1] at this
        exact this
      apply hfresh e he hej
      rw [haddr]
      exact List.mem_map.mpr ⟨c, hc, rfl⟩
    have hk0 : ∀ (i : Nat) (e : MapEntry), (m.map rotateEntry)[i]? = some e →
        e.state.ejection_time_.isSome = true → (loopStart config m).map[i]? = some e := by
      intro i e he _
      rw [loopStart_map]; exact he
    have hSR : numEjected (loopAfterSuccessRate config dice now m).map =
          (loopAfterSuccessRate config dice now m).ejected_host_count ∧
        ∀ (i : Nat) (e : MapEntry), (m.map rotateEntry)[i]? = some e →
          e.state.ejection_time_.isSome = true →
          (loopAfterSuccessRate config dice now m).map[i]? = some e := by
      unfold loopAfterSuccessRate successRateAlgorithm
      split
      · exact ⟨hstartc, hk0⟩
      · simp only
        split
        · exact (successRateLoop_exact config _ _ _ dice now (m.map rotateEntry) _ hsrnd
            (loopStart config m) hstart hstartc hcand hk0).2
        · exact ⟨hstartc, hk0⟩
    obtain ⟨haddr1, -⟩ := loopAfterSuccessRate_addrs config dice now m
    have hFP : numEjected (loopAfterFailurePercentage config dice now m).map =
        (loopAfterFailurePercentage config dice now m).ejected_host_count := by
      unfold loopAfterFailurePercentage failurePercentageAlgorithm
      split
      · exact hSR.1
      · simp only
        split
        · exact failurePercentageLoop_exact config _ dice now _
            (loopAfterSuccessRate config dice now m) (by rw [haddr1]; exact hnd) hSR.1
            (fun c hc => by rw [haddr1]; exact hfpmem c hc)
        · exact hSR.1
    exact ⟨hFP, fun i e he hej => hkeepFP i e (hSR.2 i e he hej) hej⟩

/-- Witness of `ejected_count_bounds`: the firing of scenario S1, in which no
endpoint is ejected beforehand; the count and the number of ejected endpoints are
both 1 after the two algorithms. -/
theorem ejected_count_bounds_witness :
    numEjected (loopAfterFailurePercentage s1Config (fun _ => 7) 1000 s1Map).map ≤
        (loopAfterFailurePercentage s1Config (fun _ => 7) 1000 s1Map).ejected_host_count ∧
      numEjected (loopAfterFailurePercentage s1Config (fun _ => 7) 1000 s1Map).map =
        (loopAfterFailurePercentage s1Config (fun _ => 7) 1000 s1Map).ejected_host_count :=
  ⟨(ejected_count_bounds s1Config (fun _ => 7) 1000 s1Map (by decide)).1,
    ((ejected_count_bounds s1Config (fun _ => 7) 1000 s1Map (by decide)).2.1
      (by decide)).1⟩

/-! ## The maximal success rate and the mean -/

theorem exists_max_rate (l : List (Nat × ℚ)) (h : l ≠ []) :
    ∃ c ∈ l, ∀ x ∈ l, x.2 ≤ c.2 := by
  induction l with
  | nil => exact absurd rfl h
  | cons a rest ih =>
    by_cases hr : rest = []
    · subst hr
      exact ⟨a, List.mem_cons_self _ _, fun x hx => by
        rw [List.mem_singleton.mp hx]⟩
    · obtain ⟨c, hc, hmax⟩ := ih hr
      by_cases hle : a.2 ≤ c.2
      · refine ⟨c, List.mem_cons_of_mem _ hc, ?_⟩
        intro x hx
        rcases List.mem_cons.mp hx with rfl | hx
        · exact hle
        · exact hmax x hx
      · refine ⟨a, List.mem_cons_self _ _, ?_⟩
        intro x hx
        rcases List.mem_cons.mp hx with rfl | hx
        · exact le_rfl
        · exact le_trans (hmax x hx) (le_of_lt (not_le.mp hle))

theorem sum_le_length_mul (l : List ℚ) (b : ℚ) (h : ∀ x ∈ l, x ≤ b) :
    l.sum ≤ (l.length : ℚ) * b := by
  induction l with
  | nil => simp
  | cons a rest ih =>
    have h1 := h a (List.mem_cons_self _ _)
    have h2 := ih (fun x hx => h x (List.mem_cons_of_mem _ hx))
    rw [List.sum_cons, List.length_cons]
    push_cast
    linarith

theorem rateMean_le_max (l : List (Nat × ℚ)) (c : Nat × ℚ) (hc : c ∈ l)
    (hmax : ∀ x ∈ l, x.2 ≤ c.2) : rateMean l ≤ c.2 := by
  have hpos : (0 : ℚ) < (l.length : ℚ) := by
    exact_mod_cast List.length_pos_of_mem hc
  unfold rateMean
  rw [div_le_iff₀ hpos, mul_comm]
  have := sum_le_length_mul (l.map Prod.snd) c.2 (by
    intro x hx
    obtain ⟨y, hy, rfl⟩ := List.mem_map.mp hx
    exact hmax y hy)
  rwa [List.length_map] at this

/-! ## The divisions of the evaluator -/

theorem checkedDiv_of_ne (a b : ℚ) (h : b ≠ 0) : checkedDiv a b = some (a / b) := by
  unfold checkedDiv
  rw [if_neg h]

theorem checked_GetSuccessRateAndVolume_eq (s : SubchannelState) :
    Checked.GetSuccessRateAndVolume s = some s.GetSuccessRateAndVolume := by
  unfold Checked.GetSuccessRateAndVolume SubchannelState.GetSuccessRateAndVolume
  simp only
  split
  · rfl
  · rename_i h
    rw [checkedDiv_of_ne _ _ (by exact_mod_cast h)]

theorem checked_gatherStep_eq (config : OutlierDetectionConfig) (g : Gather) (e : MapEntry) :
    Checked.gatherStep config g e = some (gatherStep config g e) := by
  unfold Checked.gatherStep gatherStep
  simp only [checked_GetSuccessRateAndVolume_eq]
  cases e.state.RotateBucket.GetSuccessRateAndVolume with
  | none => rfl
  | some v => rfl

theorem checked_gatherLoop_eq (config : OutlierDetectionConfig) (m : StateMap) :
    ∀ g, Checked.gatherLoop config m g = some (gatherLoop config m g) := by
  induction m with
  | nil => intro g; rfl
  | cons e rest ih =>
    intro g
    show (match Checked.gatherStep config g e with
      | none => none
      | some r =>
        match Checked.gatherLoop config rest r.1 with
        | none => none
        | some r2 => some (r2.1, r.2 :: r2.2)) = _
    rw [checked_gatherStep_eq]
    simp only [ih]
    rfl

theorem checked_successRateStep_eq (config : OutlierDetectionConfig) (sr : SuccessRateEjection)
    (mean variance : ℚ) (dice : Nat → Nat) (t : Int) (L : EjectLoop) (c : Nat × ℚ)
    (hn : L.map.length ≠ 0) :
    Checked.successRateStep config sr mean variance dice t L c =
      some (successRateStep config sr mean variance dice t L c) := by
  unfold Checked.successRateStep successRateStep enforce
  simp only
  rw [checkedDiv_of_ne _ _ (by exact_mod_cast hn)]
  split
  · simp only
    split <;> rfl
  · rfl

theorem checked_failurePercentageStep_eq (config : OutlierDetectionConfig)
    (fp : FailurePercentageEjection) (dice : Nat → Nat) (t : Int) (L : EjectLoop) (c : Nat × ℚ)
    (hn : L.map.length ≠ 0) :
    Checked.failurePercentageStep config fp dice t L c =
      some (failurePercentageStep config fp dice t L c) := by
  unfold Checked.failurePercentageStep failurePercentageStep enforce
  simp only
  rw [checkedDiv_of_ne _ _ (by exact_mod_cast hn)]
  split
  · rfl
  · split
    · simp only
      split <;> rfl
    · rfl

theorem successRateStep_length (config : OutlierDetectionConfig) (sr : SuccessRateEjection)
    (mean variance : ℚ) (dice : Nat → Nat) (t : Int) (L : EjectLoop) (c : Nat × ℚ) :
    (successRateStep config sr mean variance dice t L c).map.length = L.map.length := by
  rcases successRateStep_map config sr mean variance dice t L c with (hs | hs) | hs
  · rw [hs]
  · rw [hs]
  · rw [hs]; exact length_ejectAt _ _ _

theorem failurePercentageStep_length (config : OutlierDetectionConfig)
    (fp : FailurePercentageEjection) (dice : Nat → Nat) (t : Int) (L : EjectLoop) (c : Nat × ℚ) :
    (failurePercentageStep config fp dice t L c).map.length = L.map.length := by
  rcases failurePercentageStep_map config fp dice t L c with (hs | hs) | ⟨-, hs⟩
  · rw [hs]
  · rw [hs]
  · rw [hs]; exact length_ejectAt _ _ _

theorem checked_successRateLoop_eq (config : OutlierDetectionConfig) (sr : SuccessRateEjection)
    (mean variance : ℚ) (dice : Nat → Nat) (t : Int) (l : List (Nat × ℚ)) :
    ∀ L : EjectLoop, L.map.length ≠ 0 →
      l.foldlM (Checked.successRateStep config sr mean variance dice t) L =
        some (l.foldl (successRateStep config sr mean variance dice t) L) := by
  induction l with
  | nil => intro L _; rfl
  | cons c rest ih =>
    intro L hn
    rw [List.foldlM_cons, checked_successRateStep_eq config sr mean variance dice t L c hn,
      List.foldl_cons]
    exact ih _ (by rw [successRateStep_length]; exact hn)

theorem checked_failurePercentageLoop_eq (config : OutlierDetectionConfig)
    (fp : FailurePercentageEjection) (dice : Nat → Nat) (t : Int) (l : List (Nat × ℚ)) :
    ∀ L : EjectLoop, L.map.length ≠ 0 →
      l.foldlM (Checked.failurePercentageStep config fp dice t) L =
        some (l.foldl (failurePercentageStep config fp dice t) L) := by
  induction l with
  | nil => intro L _; rfl
  | cons c rest ih =>
    intro L hn
    rw [List.foldlM_cons, checked_failurePercentageStep_eq config fp dice t L c hn,
      List.foldl_cons]
    exact ih _ (by rw [failurePercentageStep_length]; exact hn)

theorem checked_successRateAlgorithm_eq (config : OutlierDetectionConfig) (dice : Nat → Nat)
    (t : Int) (g : Gather) (L : EjectLoop)
    (hn : g.success_rate_ejection_candidates ≠ [] → L.map.length ≠ 0) :
    Checked.successRateAlgorithm config dice t g L =
      some (successRateAlgorithm config dice t g L) := by
  unfold Checked.successRateAlgorithm successRateAlgorithm
  cases config.success_rate_ejection with
  | none => rfl
  | some sr =>
    simp only
    by_cases hg : g.success_rate_ejection_candidates ≠ [] ∧
        g.success_rate_ejection_candidates.length ≥ sr.minimum_hosts
    · rw [if_pos hg, if_pos hg]
      have hlen : ((g.success_rate_ejection_candidates.length : Nat) : ℚ) ≠ 0 := by
        have : g.success_rate_ejection_candidates.length ≠ 0 :=
          fun h => hg.1 (List.length_eq_zero.mp h)
        exact_mod_cast this
      rw [checkedDiv_of_ne _ _ hlen]
      simp only
      rw [checkedDiv_of_ne _ _ hlen]
      exact checked_successRateLoop_eq config sr _ _ dice t _ L (hn hg.1)
    · rw [if_neg hg, if_neg hg]

theorem checked_failurePercentageAlgorithm_eq (config : OutlierDetectionConfig)
    (dice : Nat → Nat) (t : Int) (g : Gather) (L : EjectLoop)
    (hn : g.failure_percentage_ejection_candidates ≠ [] → L.map.length ≠ 0) :
    Checked.failurePercentageAlgorithm config dice t g L =
      some (failurePercentageAlgorithm config dice t g L) := by
  unfold Checked.failurePercentageAlgorithm failurePercentageAlgorithm
  cases config.failure_percentage_ejection with
  | none => rfl
  | some fp =>
    simp only
    by_cases hg : g.failure_percentage_ejection_candidates ≠ [] ∧
        g.failure_percentage_ejection_candidates.length ≥ fp.minimum_hosts
    · rw [if_pos hg, if_pos hg]
      exact checked_failurePercentageLoop_eq config fp dice t _ L (hn hg.1)
    · rw [if_neg hg, if_neg hg]

theorem candidates_of_nil (config : OutlierDetectionConfig) :
    (gatherLoop config [] Gather.init).1.success_rate_ejection_candidates = [] ∧
      (gatherLoop config [] Gather.init).1.failure_percentage_ejection_candidates = [] :=
  ⟨rfl, rfl⟩

/-- Claim C37: the divisions of the evaluator are guarded.  The evaluator with
every division checked never reports a division by zero: for every map (the empty
one included), every configuration (with `minimum_hosts = 0` or
`request_volume = 0` too), every bucket contents and all dice values, a firing with
checked divisions returns the result of the firing.  The success rate is computed
only for a non-zero volume, the mean and the variance only for a non-empty
candidate set, and `100 * ejected_host_count / N` only inside the loop over
candidates of a map that is not empty. -/
theorem divisions_guarded (config : OutlierDetectionConfig) (dice : Nat → Nat) (now : Int)
    (m : StateMap) :
    Checked.OnTimerLockedMap config dice now m = some (OnTimerLockedMap config dice now m) ∧
      (∀ s : SubchannelState,
        Checked.GetSuccessRateAndVolume s = some s.GetSuccessRateAndVolume ∧
          (∀ v, s.GetSuccessRateAndVolume = some v → v.2 ≠ 0)) ∧
      Checked.successRateAlgorithm config dice now (gatherLoop config m Gather.init).1
          (loopStart config m) =
        some (loopAfterSuccessRate config dice now m) ∧
      Checked.failurePercentageAlgorithm config dice now (gatherLoop config m Gather.init).1
          (loopAfterSuccessRate config dice now m) =
        some (loopAfterFailurePercentage config dice now m) ∧
      ((gatherLoop config m Gather.init).1.success_rate_ejection_candidates ≠ [] →
        m.length ≠ 0) ∧
      ((gatherLoop config m Gather.init).1.failure_percentage_ejection_candidates ≠ [] →
        m.length ≠ 0) ∧
      (∀ a : ℚ, checkedDiv a 0 = none) := by
  have hsrne : (gatherLoop config m Gather.init).1.success_rate_ejection_candidates ≠ [] →
      m.length ≠ 0 := by
    intro h hm
    rw [List.length_eq_zero.mp hm] at h
    exact h (candidates_of_nil config).1
  have hfpne : (gatherLoop config m Gather.init).1.failure_percentage_ejection_candidates ≠ [] →
      m.length ≠ 0 := by
    intro h hm
    rw [List.length_eq_zero.mp hm] at h
    exact h (candidates_of_nil config).2
  have h1 : Checked.successRateAlgorithm config dice now (gatherLoop config m Gather.init).1
      (loopStart config m) = some (loopAfterSuccessRate config dice now m) :=
    checked_successRateAlgorithm_eq config dice now _ _
      (fun h => by rw [loopStart_map, List.length_map]; exact hsrne h)
  have h2 : Checked.failurePercentageAlgorithm config dice now
      (gatherLoop config m Gather.init).1 (loopAfterSuccessRate config dice now m) =
      some (loopAfterFailurePercentage config dice now m) :=
    checked_failurePercentageAlgorithm_eq config dice now _ _
      (fun h => by rw [(loopAfterSuccessRate_addrs config dice now m).2]; exact hfpne h)
  refine ⟨?_, ?_, h1, h2, hsrne, hfpne, fun a => by simp [checkedDiv]⟩
  · have h1b : Checked.successRateAlgorithm config dice now (gatherLoop config m Gather.init).1
        { map := (gatherLoop config m Gather.init).2,
          ejected_host_count := (gatherLoop config m Gather.init).1.ejected_host_count,
          draws := 0 } = some (loopAfterSuccessRate config dice now m) := h1
    unfold Checked.OnTimerLockedMap
    rw [checked_gatherLoop_eq]
    simp only
    rw [h1b]
    simp only
    rw [h2]
    rfl
  · intro s
    refine ⟨checked_GetSuccessRateAndVolume_eq s, ?_⟩
    intro v hv
    unfold SubchannelState.GetSuccessRateAndVolume at hv
    simp only at hv
    split at hv
    · cases hv
    · rename_i h
      cases hv
      exact h

/-! ## Rounding to the nearest double -/
/-! ## Rounding to the nearest double -/

theorem binary64_log2Aux_spec (fuel : Nat) :
    ∀ n : Nat, n ≤ fuel → n ≠ 0 →
      2 ^ Binary64.log2Aux fuel n ≤ n ∧ n < 2 ^ (Binary64.log2Aux fuel n + 1) := by
  induction fuel with
  | zero => intro n h h0; omega
  | succ k ih =>
    intro n h h0
    unfold Binary64.log2Aux
    by_cases h2 : n < 2
    · rw [if_pos h2]
      have : n = 1 := by omega
      subst this
      decide
    · rw [if_neg h2]
      obtain ⟨i1, i2⟩ := ih (n / 2) (by omega) (by omega)
      rw [pow_succ, pow_succ]
      constructor
      · omega
      · omega

theorem binary64_log2_spec (n : Nat) (h0 : n ≠ 0) :
    2 ^ Binary64.log2 n ≤ n ∧ n < 2 ^ (Binary64.log2 n + 1) :=
  binary64_log2Aux_spec n n le_rfl h0

theorem binary64_roundHalfEven_cases (x : ℚ) :
    (Binary64.roundHalfEven x = ⌊x⌋ ∧ x - ⌊x⌋ ≤ 1 / 2) ∨
      (Binary64.roundHalfEven x = ⌊x⌋ + 1 ∧ 1 / 2 ≤ x - ⌊x⌋) := by
  unfold Binary64.roundHalfEven
  split_ifs with h1 h2 h3
  · exact Or.inl ⟨rfl, le_of_lt h1⟩
  · exact Or.inr ⟨rfl, le_of_lt h2⟩
  · exact Or.inl ⟨rfl, not_lt.mp h2⟩
  · exact Or.inr ⟨rfl, not_lt.mp h1⟩

theorem binary64_roundHalfEven_intCast (k : ℤ) : Binary64.roundHalfEven (k : ℚ) = k := by
  unfold Binary64.roundHalfEven
  simp

theorem binary64_roundHalfEven_mono (x y : ℚ) (h : x ≤ y) :
    Binary64.roundHalfEven x ≤ Binary64.roundHalfEven y := by
  have hf : ⌊x⌋ ≤ ⌊y⌋ := Int.floor_mono h
  rcases lt_or_eq_of_le hf with hlt | heq
  · rcases binary64_roundHalfEven_cases x with ⟨hx, -⟩ | ⟨hx, -⟩ <;>
      rcases binary64_roundHalfEven_cases y with ⟨hy, -⟩ | ⟨hy, -⟩ <;> omega
  · unfold Binary64.roundHalfEven
    rw [heq]
    have hxy : x - ⌊y⌋ ≤ y - ⌊y⌋ := by linarith
    split_ifs <;> first | omega | (exfalso; linarith)

theorem binary64_roundHalfEven_neg (x : ℚ) :
    Binary64.roundHalfEven (-x) = -Binary64.roundHalfEven x := by
  by_cases hint : (⌊x⌋ : ℚ) = x
  · rw [← hint, ← Int.cast_neg, binary64_roundHalfEven_intCast, binary64_roundHalfEven_intCast]
  · have hlt : (⌊x⌋ : ℚ) < x := lt_of_le_of_ne (Int.floor_le x) hint
    have hfl : ⌊-x⌋ = -⌊x⌋ - 1 := by
      rw [Int.floor_eq_iff]
      have h1 := Int.lt_floor_add_one x
      push_cast
      constructor <;> linarith
    unfold Binary64.roundHalfEven
    rw [hfl]
    push_cast
    split_ifs <;> first | omega | (exfalso; linarith)

theorem binary64_cast_pow52 : (((2 : ℤ) ^ 52 : ℤ) : ℚ) = (2 : ℚ) ^ (52 : ℤ) := by norm_num

theorem binary64_cast_pow53 : (((2 : ℤ) ^ 53 : ℤ) : ℚ) = (2 : ℚ) ^ (53 : ℤ) := by norm_num

/-- The function `Binary64.exponent` gives the binary exponent: `q` lies in the binade
that starts at `2 ^ exponent q`. -/
theorem binary64_exponent_spec (q : ℚ) (hq : q ≠ 0) :
    (2 : ℚ) ^ Binary64.exponent q ≤ |q| ∧ |q| < (2 : ℚ) ^ (Binary64.exponent q + 1) := by
  have hn0 : q.num.natAbs ≠ 0 := by
    intro h
    exact hq (Rat.zero_of_num_zero (Int.natAbs_eq_zero.mp h))
  have hd0 : q.den ≠ 0 := q.den_nz
  obtain ⟨n1, n2⟩ := binary64_log2_spec q.num.natAbs hn0
  obtain ⟨d1, d2⟩ := binary64_log2_spec q.den hd0
  have habs : |q| = (q.num.natAbs : ℚ) / (q.den : ℚ) := by
    calc |q| = |(q.num : ℚ) / (q.den : ℚ)| := by rw [Rat.num_div_den]
      _ = (q.num.natAbs : ℚ) / (q.den : ℚ) := by
        rw [abs_div, Nat.abs_cast, ← Int.cast_abs, Int.abs_eq_natAbs, Int.cast_natCast]
  have hdpos : (0 : ℚ) < (q.den : ℚ) := by exact_mod_cast Nat.pos_of_ne_zero hd0
  have hn1 : (2 : ℚ) ^ (Binary64.log2 q.num.natAbs : ℤ) ≤ (q.num.natAbs : ℚ) := by
    rw [zpow_natCast]; exact_mod_cast n1
  have hn2 : (q.num.natAbs : ℚ) < (2 : ℚ) ^ ((Binary64.log2 q.num.natAbs : ℤ) + 1) := by
    rw [show ((Binary64.log2 q.num.natAbs : ℤ) + 1) = ((Binary64.log2 q.num.natAbs + 1 : ℕ) : ℤ) by
      push_cast; rfl, zpow_natCast]
    exact_mod_cast n2
  have hd1 : (2 : ℚ) ^ (Binary64.log2 q.den : ℤ) ≤ (q.den : ℚ) := by
    rw [zpow_natCast]; exact_mod_cast d1
  have hd2 : (q.den : ℚ) < (2 : ℚ) ^ ((Binary64.log2 q.den : ℤ) + 1) := by
    rw [show ((Binary64.log2 q.den : ℤ) + 1) = ((Binary64.log2 q.den + 1 : ℕ) : ℤ) by
      push_cast; rfl, zpow_natCast]
    exact_mod_cast d2
  have h2 : (0 : ℚ) < 2 := by norm_num
  have h2ne : (2 : ℚ) ≠ 0 := by norm_num
  set a : ℤ := (Binary64.log2 q.num.natAbs : ℤ) with ha
  set b : ℤ := (Binary64.log2 q.den : ℤ) with hb
  have hlow : (2 : ℚ) ^ (a - b - 1) ≤ |q| := by
    rw [habs, le_div_iff₀ hdpos]
    calc (2 : ℚ) ^ (a - b - 1) * (q.den : ℚ)
        ≤ (2 : ℚ) ^ (a - b - 1) * (2 : ℚ) ^ (b + 1) :=
          mul_le_mul_of_nonneg_left (le_of_lt hd2) (le_of_lt (zpow_pos h2 _))
      _ = (2 : ℚ) ^ a := by rw [← zpow_add₀ h2ne]; congr 1; ring
      _ ≤ (q.num.natAbs : ℚ) := hn1
  have hhigh : |q| < (2 : ℚ) ^ (a - b + 1) := by
    rw [habs, div_lt_iff₀ hdpos]
    calc (q.num.natAbs : ℚ) < (2 : ℚ) ^ (a + 1) := hn2
      _ = (2 : ℚ) ^ (a - b + 1) * (2 : ℚ) ^ b := by rw [← zpow_add₀ h2ne]; congr 1; ring
      _ ≤ (2 : ℚ) ^ (a - b + 1) * (q.den : ℚ) :=
          mul_le_mul_of_nonneg_left hd1 (le_of_lt (zpow_pos h2 _))
  unfold Binary64.exponent
  rw [← ha, ← hb]
  by_cases hc : |q| < (2 : ℚ) ^ (a - b)
  · rw [if_pos hc]
    refine ⟨hlow, ?_⟩
    rw [show a - b - 1 + 1 = a - b by ring]
    exact hc
  · rw [if_neg hc]
    exact ⟨not_lt.mp hc, hhigh⟩

theorem binary64_exponent_unique (q : ℚ) (e : ℤ) (h1 : (2 : ℚ) ^ e ≤ |q|)
    (h2 : |q| < (2 : ℚ) ^ (e + 1)) : Binary64.exponent q = e := by
  have hq : q ≠ 0 := by
    intro h
    rw [h, abs_zero] at h1
    exact absurd h1 (not_le.mpr (zpow_pos (by norm_num) _))
  obtain ⟨s1, s2⟩ := binary64_exponent_spec q hq
  have one_lt : (1 : ℚ) < 2 := by norm_num
  have a1 : Binary64.exponent q < e + 1 :=
    (zpow_lt_zpow_iff_right₀ one_lt).mp (lt_of_le_of_lt s1 h2)
  have a2 : e < Binary64.exponent q + 1 :=
    (zpow_lt_zpow_iff_right₀ one_lt).mp (lt_of_le_of_lt h1 s2)
  omega

theorem binary64_exponent_neg (q : ℚ) (hq : q ≠ 0) :
    Binary64.exponent (-q) = Binary64.exponent q := by
  obtain ⟨s1, s2⟩ := binary64_exponent_spec q hq
  exact binary64_exponent_unique (-q) _ (by rw [abs_neg]; exact s1) (by rw [abs_neg]; exact s2)

theorem binary64_nearest_neg (q : ℚ) : Binary64.nearest (-q) = -Binary64.nearest q := by
  unfold Binary64.nearest
  by_cases hq : q = 0
  · simp [hq]
  · rw [if_neg hq, if_neg (neg_ne_zero.mpr hq), binary64_exponent_neg q hq, neg_div,
      binary64_roundHalfEven_neg]
    push_cast
    ring

/-- The significand of the double nearest to a positive rational lies between
`2 ^ 52` and `2 ^ 53`. -/
theorem binary64_significand (q : ℚ) (hq : 0 < q) :
    Binary64.nearest q =
        (Binary64.roundHalfEven (q / (2 : ℚ) ^ (Binary64.exponent q - 52)) : ℚ) *
          (2 : ℚ) ^ (Binary64.exponent q - 52) ∧
      (2 : ℤ) ^ 52 ≤ Binary64.roundHalfEven (q / (2 : ℚ) ^ (Binary64.exponent q - 52)) ∧
      Binary64.roundHalfEven (q / (2 : ℚ) ^ (Binary64.exponent q - 52)) ≤ (2 : ℤ) ^ 53 := by
  have hne : q ≠ 0 := ne_of_gt hq
  obtain ⟨s1, s2⟩ := binary64_exponent_spec q hne
  rw [abs_of_pos hq] at s1 s2
  have h2ne : (2 : ℚ) ≠ 0 := by norm_num
  have hu : (0 : ℚ) < (2 : ℚ) ^ (Binary64.exponent q - 52) := zpow_pos (by norm_num) _
  have hx1 : (((2 : ℤ) ^ 52 : ℤ) : ℚ) ≤ q / (2 : ℚ) ^ (Binary64.exponent q - 52) := by
    rw [le_div_iff₀ hu, binary64_cast_pow52, ← zpow_add₀ h2ne,
      show (52 : ℤ) + (Binary64.exponent q - 52) = Binary64.exponent q by ring]
    exact s1
  have hx2 : q / (2 : ℚ) ^ (Binary64.exponent q - 52) ≤ (((2 : ℤ) ^ 53 : ℤ) : ℚ) := by
    rw [div_le_iff₀ hu, binary64_cast_pow53, ← zpow_add₀ h2ne,
      show (53 : ℤ) + (Binary64.exponent q - 52) = Binary64.exponent q + 1 by ring]
    exact le_of_lt s2
  refine ⟨?_, ?_, ?_⟩
  · unfold Binary64.nearest
    rw [if_neg hne]
  · have := binary64_roundHalfEven_mono _ _ hx1
    rwa [binary64_roundHalfEven_intCast] at this
  · have := binary64_roundHalfEven_mono _ _ hx2
    rwa [binary64_roundHalfEven_intCast] at this

theorem binary64_nearest_bounds (q : ℚ) (hq : 0 < q) :
    (2 : ℚ) ^ Binary64.exponent q ≤ Binary64.nearest q ∧
      Binary64.nearest q ≤ (2 : ℚ) ^ (Binary64.exponent q + 1) := by
  obtain ⟨hval, m1, m2⟩ := binary64_significand q hq
  have h2ne : (2 : ℚ) ≠ 0 := by norm_num
  have hu : (0 : ℚ) < (2 : ℚ) ^ (Binary64.exponent q - 52) := zpow_pos (by norm_num) _
  have e1 : (2 : ℚ) ^ Binary64.exponent q =
      (((2 : ℤ) ^ 52 : ℤ) : ℚ) * (2 : ℚ) ^ (Binary64.exponent q - 52) := by
    rw [binary64_cast_pow52, ← zpow_add₀ h2ne]
    congr 1; ring
  have e2 : (2 : ℚ) ^ (Binary64.exponent q + 1) =
      (((2 : ℤ) ^ 53 : ℤ) : ℚ) * (2 : ℚ) ^ (Binary64.exponent q - 52) := by
    rw [binary64_cast_pow53, ← zpow_add₀ h2ne]
    congr 1; ring
  rw [hval, e1, e2]
  constructor
  · exact mul_le_mul_of_nonneg_right (by exact_mod_cast m1) (le_of_lt hu)
  · exact mul_le_mul_of_nonneg_right (by exact_mod_cast m2) (le_of_lt hu)

theorem binary64_nearest_nonneg (q : ℚ) (hq : 0 ≤ q) : 0 ≤ Binary64.nearest q := by
  rcases eq_or_lt_of_le hq with h | h
  · rw [← h]; simp [Binary64.nearest]
  · exact le_trans (le_of_lt (zpow_pos (by norm_num) _)) (binary64_nearest_bounds q h).1

theorem binary64_nearest_nonpos (q : ℚ) (hq : q ≤ 0) : Binary64.nearest q ≤ 0 := by
  have := binary64_nearest_nonneg (-q) (by linarith)
  rw [binary64_nearest_neg] at this
  linarith

theorem binary64_nearest_mono_pos (a b : ℚ) (ha : 0 < a) (hab : a ≤ b) :
    Binary64.nearest a ≤ Binary64.nearest b := by
  have hb : 0 < b := lt_of_lt_of_le ha hab
  obtain ⟨a1, a2⟩ := binary64_exponent_spec a (ne_of_gt ha)
  obtain ⟨b1, b2⟩ := binary64_exponent_spec b (ne_of_gt hb)
  rw [abs_of_pos ha] at a1 a2
  rw [abs_of_pos hb] at b1 b2
  have one_lt : (1 : ℚ) < 2 := by norm_num
  have hle : Binary64.exponent a < Binary64.exponent b + 1 :=
    (zpow_lt_zpow_iff_right₀ one_lt).mp (lt_of_le_of_lt a1 (lt_of_le_of_lt hab b2))
  rcases lt_or_eq_of_le (Int.lt_add_one_iff.mp hle) with hlt | heq
  · calc Binary64.nearest a ≤ (2 : ℚ) ^ (Binary64.exponent a + 1) :=
          (binary64_nearest_bounds a ha).2
      _ ≤ (2 : ℚ) ^ Binary64.exponent b :=
          (zpow_le_zpow_iff_right₀ one_lt).mpr (by omega)
      _ ≤ Binary64.nearest b := (binary64_nearest_bounds b hb).1
  · rw [(binary64_significand a ha).1, (binary64_significand b hb).1, heq]
    have hu : (0 : ℚ) < (2 : ℚ) ^ (Binary64.exponent b - 52) := zpow_pos (by norm_num) _
    apply mul_le_mul_of_nonneg_right _ (le_of_lt hu)
    exact_mod_cast binary64_roundHalfEven_mono _ _ ((div_le_div_iff_of_pos_right hu).mpr hab)

/-- Rounding to the nearest double is monotone. -/
theorem binary64_nearest_mono (a b : ℚ) (hab : a ≤ b) :
    Binary64.nearest a ≤ Binary64.nearest b := by
  rcases lt_or_le 0 a with ha | ha
  · exact binary64_nearest_mono_pos a b ha hab
  · rcases le_or_lt 0 b with hb | hb
    · exact le_trans (binary64_nearest_nonpos a ha) (binary64_nearest_nonneg b hb)
    · have := binary64_nearest_mono_pos (-b) (-a) (by linarith) (by linarith)
      rw [binary64_nearest_neg, binary64_nearest_neg] at this
      linarith

/-- An integer of 53 bits times a power of two is a double. -/
theorem binary64_nearest_of_significand (k j : ℤ) (h1 : (2 : ℤ) ^ 52 ≤ k) (h2 : k < (2 : ℤ) ^ 53) :
    Binary64.nearest ((k : ℚ) * (2 : ℚ) ^ j) = (k : ℚ) * (2 : ℚ) ^ j := by
  have h2ne : (2 : ℚ) ≠ 0 := by norm_num
  have hu : (0 : ℚ) < (2 : ℚ) ^ j := zpow_pos (by norm_num) _
  have hk : (0 : ℚ) < (k : ℚ) := by
    have : (0 : ℤ) < k := lt_of_lt_of_le (by norm_num) h1
    exact_mod_cast this
  have hpos : 0 < (k : ℚ) * (2 : ℚ) ^ j := mul_pos hk hu
  have hexp : Binary64.exponent ((k : ℚ) * (2 : ℚ) ^ j) = j + 52 := by
    apply binary64_exponent_unique
    · rw [abs_of_pos hpos, show j + 52 = (52 : ℤ) + j by ring, zpow_add₀ h2ne,
        ← binary64_cast_pow52]
      exact mul_le_mul_of_nonneg_right (Int.cast_le.mpr h1) (le_of_lt hu)
    · rw [abs_of_pos hpos, show j + 52 + 1 = (53 : ℤ) + j by ring, zpow_add₀ h2ne,
        ← binary64_cast_pow53]
      exact mul_lt_mul_of_pos_right (Int.cast_lt.mpr h2) hu
  unfold Binary64.nearest
  rw [if_neg (ne_of_gt hpos), hexp, show j + 52 - 52 = j by ring,
    mul_div_assoc, div_self (ne_of_gt hu), mul_one, binary64_roundHalfEven_intCast]

/-- Rounding a double gives the double itself. -/
theorem binary64_nearest_idem (q : ℚ) :
    Binary64.nearest (Binary64.nearest q) = Binary64.nearest q := by
  have hpos : ∀ p : ℚ, 0 < p → Binary64.nearest (Binary64.nearest p) = Binary64.nearest p := by
    intro p hp
    obtain ⟨hval, m1, m2⟩ := binary64_significand p hp
    rw [hval]
    rcases lt_or_eq_of_le m2 with hlt | heq
    · exact binary64_nearest_of_significand _ _ m1 hlt
    · rw [heq]
      have h2ne : (2 : ℚ) ≠ 0 := by norm_num
      have : (((2 : ℤ) ^ 53 : ℤ) : ℚ) * (2 : ℚ) ^ (Binary64.exponent p - 52) =
          (((2 : ℤ) ^ 52 : ℤ) : ℚ) * (2 : ℚ) ^ (Binary64.exponent p - 52 + 1) := by
        rw [zpow_add₀ h2ne, binary64_cast_pow52, binary64_cast_pow53]
        norm_num
        ring
      rw [this]
      exact binary64_nearest_of_significand _ _ le_rfl (by norm_num)
  rcases lt_trichotomy q 0 with h | h | h
  · have := hpos (-q) (by linarith)
    rw [binary64_nearest_neg, binary64_nearest_neg] at this
    linarith
  · rw [h]; simp [Binary64.nearest]
  · exact hpos q h

theorem binary64_sqrt_nonneg (x : ℚ) : 0 ≤ Binary64.sqrt x := by
  unfold Binary64.sqrt
  split
  · exact le_rfl
  · simp only
    apply mul_nonneg _ (le_of_lt (zpow_pos (by norm_num) _))
    have h0 : (0 : ℤ) ≤ (Binary64.isqrt ⌊x / (2 : ℚ) ^ (2 * (Binary64.exponent x / 2 - 52))⌋.toNat : ℤ) :=
      Int.natCast_nonneg _
    split_ifs <;> (norm_cast; omega)

/-- The value of `Binary64.nearest` differs from `q` by at most half a unit in the
last place. -/
theorem binary64_nearest_error (q : ℚ) (hq : q ≠ 0) :
    |Binary64.nearest q - q| ≤ (2 : ℚ) ^ (Binary64.exponent q - 53) := by
  have hu : (0 : ℚ) < (2 : ℚ) ^ (Binary64.exponent q - 52) := zpow_pos (by norm_num) _
  have hhalf : (2 : ℚ) ^ (Binary64.exponent q - 53) =
      (1 / 2) * (2 : ℚ) ^ (Binary64.exponent q - 52) := by
    have : Binary64.exponent q - 52 = (Binary64.exponent q - 53) + 1 := by ring
    rw [this, zpow_add₀ (by norm_num : (2 : ℚ) ≠ 0), zpow_one]
    ring
  have hq2 : q = q / (2 : ℚ) ^ (Binary64.exponent q - 52) *
      (2 : ℚ) ^ (Binary64.exponent q - 52) := by
    field_simp
  unfold Binary64.nearest
  rw [if_neg hq, hhalf]
  set u := (2 : ℚ) ^ (Binary64.exponent q - 52) with hu_def
  set x := q / u with hx_def
  have hfl : (⌊x⌋ : ℚ) ≤ x := Int.floor_le x
  have hfl2 : x < (⌊x⌋ : ℚ) + 1 := Int.lt_floor_add_one x
  have key : |(Binary64.roundHalfEven x : ℚ) - x| ≤ 1 / 2 := by
    rcases binary64_roundHalfEven_cases x with ⟨h1, h2⟩ | ⟨h1, h2⟩
    · rw [h1, abs_le]; constructor <;> linarith
    · rw [h1, abs_le]; push_cast; constructor <;> linarith
  calc |(Binary64.roundHalfEven x : ℚ) * u - q|
      = |((Binary64.roundHalfEven x : ℚ) - x) * u| := by
        congr 1
        rw [sub_mul]
        congr 1
    _ = |(Binary64.roundHalfEven x : ℚ) - x| * u := by rw [abs_mul, abs_of_pos hu]
    _ ≤ 1 / 2 * u := mul_le_mul_of_nonneg_right key (le_of_lt hu)

theorem binary64_isqrtAux_spec (n : Nat) :
    ∀ (bits r : Nat), r * r ≤ n → n < (r + 2 ^ bits) * (r + 2 ^ bits) →
      Binary64.isqrtAux bits r n * Binary64.isqrtAux bits r n ≤ n ∧
        n < (Binary64.isqrtAux bits r n + 1) * (Binary64.isqrtAux bits r n + 1) := by
  intro bits
  induction bits with
  | zero =>
    intro r h1 h2
    simp only [Binary64.isqrtAux]
    exact ⟨h1, by simpa using h2⟩
  | succ b ih =>
    intro r h1 h2
    simp only [Binary64.isqrtAux]
    split
    · next h =>
      apply ih _ h
      have : r + 2 ^ b + 2 ^ b = r + 2 ^ (b + 1) := by rw [pow_succ]; ring
      rw [this]; exact h2
    · next h => exact ih r h1 (not_le.mp h)

/-- The function `Binary64.isqrt` gives the square root rounded down. -/
theorem binary64_isqrt_spec (n : Nat) :
    Binary64.isqrt n * Binary64.isqrt n ≤ n ∧
      n < (Binary64.isqrt n + 1) * (Binary64.isqrt n + 1) := by
  unfold Binary64.isqrt
  apply binary64_isqrtAux_spec n _ 0 (Nat.zero_le _)
  rw [Nat.zero_add, ← pow_add]
  rcases Nat.eq_zero_or_pos n with h0 | hpos
  · rw [h0]; exact Nat.pow_pos (by norm_num)
  · have h := (binary64_log2_spec n (Nat.pos_iff_ne_zero.mp hpos)).2
    apply lt_of_lt_of_le h
    apply Nat.pow_le_pow_right (by norm_num)
    omega

/-- The function `Binary64.sqrt` gives the correctly rounded square root: the result
is a significand `m` between `2 ^ 52` and `2 ^ 53` at the scale `2 ^ (e - 52)`, and
the argument lies between the squares of the two neighbouring midpoints
`(m - 1/2) * 2 ^ (e - 52)` and `(m + 1/2) * 2 ^ (e - 52)`, so that the result
differs from the square root by at most half a unit in the last place. -/
theorem binary64_sqrt_spec (x : ℚ) (hx : 0 < x) :
    ∃ m : ℤ, (2 : ℤ) ^ 52 ≤ m ∧ m ≤ (2 : ℤ) ^ 53 ∧
      Binary64.sqrt x = (m : ℚ) * (2 : ℚ) ^ (Binary64.exponent x / 2 - 52) ∧
      (((m : ℚ) - 1 / 2) * (2 : ℚ) ^ (Binary64.exponent x / 2 - 52)) ^ 2 ≤ x ∧
      x ≤ (((m : ℚ) + 1 / 2) * (2 : ℚ) ^ (Binary64.exponent x / 2 - 52)) ^ 2 := by
  have h2ne : (2 : ℚ) ≠ 0 := by norm_num
  obtain ⟨s1, s2⟩ := binary64_exponent_spec x (ne_of_gt hx)
  rw [abs_of_pos hx] at s1 s2
  set E := Binary64.exponent x with hE
  set e := E / 2 with he
  have hE1 : 2 * e ≤ E := by omega
  have hE2 : E ≤ 2 * e + 1 := by omega
  have hu : (0 : ℚ) < (2 : ℚ) ^ (e - 52) := zpow_pos (by norm_num) _
  have hw : (0 : ℚ) < (2 : ℚ) ^ (2 * (e - 52)) := zpow_pos (by norm_num) _
  have hsq : ((2 : ℚ) ^ (e - 52)) ^ 2 = (2 : ℚ) ^ (2 * (e - 52)) := by
    rw [← zpow_natCast, ← zpow_mul]
    congr 1
    push_cast
    ring
  set y := x / (2 : ℚ) ^ (2 * (e - 52)) with hy
  have hxy : x = y * (2 : ℚ) ^ (2 * (e - 52)) := by
    rw [hy]; field_simp
  -- the range of y
  have hy1 : (2 : ℚ) ^ (104 : ℤ) ≤ y := by
    rw [hy, le_div_iff₀ hw, ← zpow_add₀ h2ne]
    apply le_trans _ s1
    apply (zpow_le_zpow_iff_right₀ (by norm_num : (1 : ℚ) < 2)).mpr
    omega
  have hy2 : y < (2 : ℚ) ^ (106 : ℤ) := by
    rw [hy, div_lt_iff₀ hw, ← zpow_add₀ h2ne]
    apply lt_of_lt_of_le s2
    apply (zpow_le_zpow_iff_right₀ (by norm_num : (1 : ℚ) < 2)).mpr
    omega
  have hy0 : (0 : ℚ) ≤ y := le_trans (le_of_lt (zpow_pos (by norm_num) _)) hy1
  have hfl0 : 0 ≤ ⌊y⌋ := Int.floor_nonneg.mpr hy0
  obtain ⟨i1, i2⟩ := binary64_isqrt_spec ⌊y⌋.toNat
  set m0n := Binary64.isqrt ⌊y⌋.toNat with hm0n
  have htn : ((⌊y⌋.toNat : ℤ)) = ⌊y⌋ := Int.toNat_of_nonneg hfl0
  -- bounds on m0 in terms of y
  have j1 : ((m0n : ℤ) : ℚ) ^ 2 ≤ y := by
    have : ((m0n * m0n : Nat) : ℤ) ≤ ⌊y⌋ := by rw [← htn]; exact_mod_cast i1
    have h2 : (((m0n * m0n : Nat) : ℤ) : ℚ) ≤ y := le_trans (by exact_mod_cast this) (Int.floor_le y)
    have h3 : (((m0n * m0n : Nat) : ℤ) : ℚ) = ((m0n : ℤ) : ℚ) ^ 2 := by push_cast; ring
    rw [← h3]; exact h2
  have j2 : y < (((m0n : ℤ) : ℚ) + 1) ^ 2 := by
    have : ⌊y⌋ < (((m0n + 1) * (m0n + 1) : Nat) : ℤ) := by rw [← htn]; exact_mod_cast i2
    have h2 : y < ((((m0n + 1) * (m0n + 1) : Nat) : ℤ) : ℚ) := by
      have := Int.floor_lt.mp this
      exact this
    have h3 : ((((m0n + 1) * (m0n + 1) : Nat) : ℤ) : ℚ) = (((m0n : ℤ) : ℚ) + 1) ^ 2 := by
      push_cast; ring
    rw [← h3]; exact h2
  have hm0nn : (0 : ℚ) ≤ ((m0n : ℤ) : ℚ) := by exact_mod_cast Nat.zero_le m0n
  -- 2^52 ≤ m0 < 2^53
  have k1 : (2 : ℤ) ^ 52 ≤ (m0n : ℤ) := by
    by_contra hcon
    have hlt : (m0n : ℤ) + 1 ≤ (2 : ℤ) ^ 52 := by omega
    have hq : (((m0n : ℤ) : ℚ) + 1) ≤ (2 : ℚ) ^ (52 : ℤ) := by
      rw [← binary64_cast_pow52]; exact_mod_cast hlt
    have : (((m0n : ℤ) : ℚ) + 1) ^ 2 ≤ ((2 : ℚ) ^ (52 : ℤ)) ^ 2 :=
      pow_le_pow_left₀ (by linarith) hq 2
    have h104 : ((2 : ℚ) ^ (52 : ℤ)) ^ 2 = (2 : ℚ) ^ (104 : ℤ) := by norm_num
    rw [h104] at this
    linarith
  have k2 : (m0n : ℤ) < (2 : ℤ) ^ 53 := by
    by_contra hcon
    have hge : (2 : ℤ) ^ 53 ≤ (m0n : ℤ) := by omega
    have hq : (2 : ℚ) ^ (53 : ℤ) ≤ ((m0n : ℤ) : ℚ) := by
      rw [← binary64_cast_pow53]; exact_mod_cast hge
    have : ((2 : ℚ) ^ (53 : ℤ)) ^ 2 ≤ ((m0n : ℤ) : ℚ) ^ 2 :=
      pow_le_pow_left₀ (le_of_lt (zpow_pos (by norm_num) _)) hq 2
    have h106 : ((2 : ℚ) ^ (53 : ℤ)) ^ 2 = (2 : ℚ) ^ (106 : ℤ) := by norm_num
    rw [h106] at this
    linarith
  have hval : Binary64.sqrt x =
      ((if y < (((m0n : ℤ) : ℚ) + 1 / 2) ^ 2 then (m0n : ℤ)
        else if (((m0n : ℤ) : ℚ) + 1 / 2) ^ 2 < y then (m0n : ℤ) + 1
        else if (m0n : ℤ) % 2 = 0 then (m0n : ℤ) else (m0n : ℤ) + 1 : ℤ) : ℚ) *
        (2 : ℚ) ^ (e - 52) := by
    unfold Binary64.sqrt
    rw [if_neg (not_le.mpr hx)]
  have scale : ∀ a : ℚ, (a * (2 : ℚ) ^ (e - 52)) ^ 2 = a ^ 2 * (2 : ℚ) ^ (2 * (e - 52)) := by
    intro a; rw [mul_pow, hsq]
  have lo : ∀ a : ℚ, a ^ 2 ≤ y → (a * (2 : ℚ) ^ (e - 52)) ^ 2 ≤ x := by
    intro a ha
    rw [scale, hxy]
    exact mul_le_mul_of_nonneg_right ha (le_of_lt hw)
  have hi : ∀ a : ℚ, y ≤ a ^ 2 → x ≤ (a * (2 : ℚ) ^ (e - 52)) ^ 2 := by
    intro a ha
    rw [scale]
    calc x = y * (2 : ℚ) ^ (2 * (e - 52)) := hxy
      _ ≤ a ^ 2 * (2 : ℚ) ^ (2 * (e - 52)) := mul_le_mul_of_nonneg_right ha (le_of_lt hw)
  have low0 : (((m0n : ℤ) : ℚ) - 1 / 2) ^ 2 ≤ y := by
    have h52 : (1 : ℚ) ≤ ((m0n : ℤ) : ℚ) := by
      have : (1 : ℤ) ≤ (m0n : ℤ) := le_trans (by norm_num) k1
      exact_mod_cast this
    nlinarith
  have up1 : y ≤ (((m0n : ℤ) : ℚ) + 1 + 1 / 2) ^ 2 := by nlinarith
  rw [hval]
  split_ifs with c1 c2 c3
  · exact ⟨_, k1, le_of_lt k2, rfl, lo _ low0, hi _ (le_of_lt c1)⟩
  · refine ⟨(m0n : ℤ) + 1, by omega, by omega, rfl, ?_, ?_⟩
    · apply lo
      have : (((m0n : ℤ) + 1 : ℤ) : ℚ) - 1 / 2 = ((m0n : ℤ) : ℚ) + 1 / 2 := by push_cast; ring
      rw [this]; exact le_of_lt c2
    · apply hi; push_cast; exact up1
  · exact ⟨_, k1, le_of_lt k2, rfl, lo _ low0, hi _ (not_lt.mp c2)⟩
  · refine ⟨(m0n : ℤ) + 1, by omega, by omega, rfl, ?_, ?_⟩
    · apply lo
      have : (((m0n : ℤ) + 1 : ℤ) : ℚ) - 1 / 2 = ((m0n : ℤ) : ℚ) + 1 / 2 := by push_cast; ring
      rw [this]; exact not_lt.mp c1
    · apply hi; push_cast; exact up1

theorem binary64_roundHalfEven_optimal (x : ℚ) (D : ℤ) :
    |(Binary64.roundHalfEven x : ℚ) - x| ≤ |(D : ℚ) - x| := by
  have hfl : (⌊x⌋ : ℚ) ≤ x := Int.floor_le x
  have hfl2 : x < (⌊x⌋ : ℚ) + 1 := Int.lt_floor_add_one x
  rcases le_or_lt D ⌊x⌋ with hD | hD
  · have hDq : (D : ℚ) ≤ (⌊x⌋ : ℚ) := by exact_mod_cast hD
    rw [abs_of_nonpos (by linarith : (D : ℚ) - x ≤ 0)]
    rcases binary64_roundHalfEven_cases x with ⟨h1, h2⟩ | ⟨h1, h2⟩
    · rw [h1, abs_of_nonpos (by linarith)]; linarith
    · rw [h1]; push_cast; rw [abs_of_nonneg (by linarith)]; linarith
  · have hDq : (⌊x⌋ : ℚ) + 1 ≤ (D : ℚ) := by exact_mod_cast hD
    rw [abs_of_nonneg (by linarith : 0 ≤ (D : ℚ) - x)]
    rcases binary64_roundHalfEven_cases x with ⟨h1, h2⟩ | ⟨h1, h2⟩
    · rw [h1, abs_of_nonpos (by linarith)]; linarith
    · rw [h1]; push_cast; rw [abs_of_nonneg (by linarith)]; linarith

/-- In a tie the rounding goes to the even integer. -/
theorem binary64_roundHalfEven_tie (x : ℚ) (h : x - ⌊x⌋ = 1 / 2) :
    Binary64.roundHalfEven x % 2 = 0 := by
  unfold Binary64.roundHalfEven
  rw [h]
  simp only [lt_self_iff_false, if_false]
  split_ifs with h1
  · exact h1
  · omega

theorem binary64_nearest_optimal_pos (q : ℚ) (hq : 0 < q) (k j : ℤ)
    (hk : |k| ≤ (2 : ℤ) ^ 53) :
    |Binary64.nearest q - q| ≤ |(k : ℚ) * (2 : ℚ) ^ j - q| := by
  have h2ne : (2 : ℚ) ≠ 0 := by norm_num
  have hne : q ≠ 0 := ne_of_gt hq
  obtain ⟨s1, s2⟩ := binary64_exponent_spec q hne
  rw [abs_of_pos hq] at s1 s2
  set e := Binary64.exponent q with he
  have hu : (0 : ℚ) < (2 : ℚ) ^ (e - 52) := zpow_pos (by norm_num) _
  have hval : Binary64.nearest q =
      (Binary64.roundHalfEven (q / (2 : ℚ) ^ (e - 52)) : ℚ) * (2 : ℚ) ^ (e - 52) := by
    unfold Binary64.nearest
    rw [if_neg hne]
  have hq2 : q = q / (2 : ℚ) ^ (e - 52) * (2 : ℚ) ^ (e - 52) := by field_simp
  set x := q / (2 : ℚ) ^ (e - 52) with hx
  have hsub : ∀ a : ℚ, a * (2 : ℚ) ^ (e - 52) - q = (a - x) * (2 : ℚ) ^ (e - 52) := by
    intro a
    rw [sub_mul, ← hq2]
  have herr : |Binary64.nearest q - q| =
      |(Binary64.roundHalfEven x : ℚ) - x| * (2 : ℚ) ^ (e - 52) := by
    rw [hval, hsub, abs_mul, abs_of_pos hu]
  rw [herr]
  rcases le_or_lt (e - 52) j with hj | hj
  · -- the other double is a multiple of the unit in the last place
    obtain ⟨i, hi⟩ : ∃ i : Nat, j = (e - 52) + (i : ℤ) := ⟨(j - (e - 52)).toNat, by omega⟩
    have hd : (k : ℚ) * (2 : ℚ) ^ j = ((k * 2 ^ i : ℤ) : ℚ) * (2 : ℚ) ^ (e - 52) := by
      rw [hi, zpow_add₀ h2ne, zpow_natCast]
      push_cast
      ring
    rw [hd, hsub, abs_mul, abs_of_pos hu]
    exact mul_le_mul_of_nonneg_right (binary64_roundHalfEven_optimal x _) (le_of_lt hu)
  · -- the other double is at most the power of two below q
    have hk2 : (k : ℚ) ≤ (2 : ℚ) ^ (53 : ℤ) := by
      have : k ≤ (2 : ℤ) ^ 53 := le_trans (le_abs_self k) hk
      rw [← binary64_cast_pow53]
      exact_mod_cast this
    have hjle : (2 : ℚ) ^ j ≤ (2 : ℚ) ^ (e - 53) :=
      (zpow_le_zpow_iff_right₀ (by norm_num : (1 : ℚ) < 2)).mpr (by omega)
    have hjpos : (0 : ℚ) < (2 : ℚ) ^ j := zpow_pos (by norm_num) _
    have hd : (k : ℚ) * (2 : ℚ) ^ j ≤ (2 : ℚ) ^ e := by
      rcases le_or_lt (k : ℚ) 0 with hk0 | hk0
      · exact le_trans (mul_nonpos_of_nonpos_of_nonneg hk0 (le_of_lt hjpos))
          (le_of_lt (zpow_pos (by norm_num) _))
      · calc (k : ℚ) * (2 : ℚ) ^ j ≤ (2 : ℚ) ^ (53 : ℤ) * (2 : ℚ) ^ (e - 53) :=
              mul_le_mul hk2 hjle (le_of_lt hjpos) (le_of_lt (zpow_pos (by norm_num) _))
          _ = (2 : ℚ) ^ e := by rw [← zpow_add₀ h2ne]; congr 1; ring
    have he52 : (2 : ℚ) ^ e = (((2 : ℤ) ^ 52 : ℤ) : ℚ) * (2 : ℚ) ^ (e - 52) := by
      rw [binary64_cast_pow52, ← zpow_add₀ h2ne]; congr 1; ring
    have hx52 : (((2 : ℤ) ^ 52 : ℤ) : ℚ) ≤ x := by
      rw [hx, le_div_iff₀ hu, ← he52]; exact s1
    calc |(Binary64.roundHalfEven x : ℚ) - x| * (2 : ℚ) ^ (e - 52)
        ≤ |(((2 : ℤ) ^ 52 : ℤ) : ℚ) - x| * (2 : ℚ) ^ (e - 52) :=
          mul_le_mul_of_nonneg_right (binary64_roundHalfEven_optimal x _) (le_of_lt hu)
      _ = (x - (((2 : ℤ) ^ 52 : ℤ) : ℚ)) * (2 : ℚ) ^ (e - 52) := by
          rw [abs_of_nonpos (by linarith)]; ring
      _ = q - (2 : ℚ) ^ e := by rw [sub_mul, ← hq2, ← he52]
      _ ≤ q - (k : ℚ) * (2 : ℚ) ^ j := by linarith
      _ ≤ |(k : ℚ) * (2 : ℚ) ^ j - q| := by rw [abs_sub_comm]; exact le_abs_self _

/-- The function `Binary64.nearest` rounds to nearest: no double, that is no number
`k * 2 ^ j` with a significand `k` of at most 53 bits, is nearer to `q` than
`Binary64.nearest q`. -/
theorem binary64_nearest_optimal (q : ℚ) (k j : ℤ) (hk : |k| ≤ (2 : ℤ) ^ 53) :
    |Binary64.nearest q - q| ≤ |(k : ℚ) * (2 : ℚ) ^ j - q| := by
  rcases lt_trichotomy q 0 with hq | hq | hq
  · have h := binary64_nearest_optimal_pos (-q) (by linarith) (-k) j (by rwa [abs_neg])
    rw [binary64_nearest_neg] at h
    have e1 : |-Binary64.nearest q - -q| = |Binary64.nearest q - q| := by
      rw [← abs_neg]; congr 1; ring
    have e2 : |((-k : ℤ) : ℚ) * (2 : ℚ) ^ j - -q| = |(k : ℚ) * (2 : ℚ) ^ j - q| := by
      rw [← abs_neg]; congr 1; push_cast; ring
    rw [e1, e2] at h
    exact h
  · subst hq
    simp [Binary64.nearest]
  · exact binary64_nearest_optimal_pos q hq k j hk

/-! ## The success rate algorithm in double arithmetic -/

theorem rounded_gatherStep_snd (config : OutlierDetectionConfig) (g : Gather) (e : MapEntry) :
    (Rounded.gatherStep config g e).2 = rotateEntry e := by
  unfold Rounded.gatherStep rotateEntry
  simp only
  split <;> rfl

theorem rounded_gatherLoop_snd (config : OutlierDetectionConfig) (m : StateMap) :
    ∀ g, (Rounded.gatherLoop config m g).2 = m.map rotateEntry := by
  induction m with
  | nil => intro g; rfl
  | cons e rest ih =>
    intro g
    simp only [Rounded.gatherLoop, List.map_cons, rounded_gatherStep_snd, ih]

theorem rounded_gatherStep_candidates (config : OutlierDetectionConfig) (g : Gather)
    (e : MapEntry) :
    (Rounded.gatherStep config g e).1.success_rate_ejection_candidates =
        insertCandidate (Rounded.srCandidate config e) g.success_rate_ejection_candidates ∧
      (Rounded.gatherStep config g e).1.success_rate_sum =
        (Rounded.srCandidate config e).toList.foldl (fun acc x => Binary64.add acc x.2)
          g.success_rate_sum := by
  unfold Rounded.gatherStep Rounded.srCandidate
  by_cases hej : e.state.RotateBucket.ejection_time_.isSome = true <;>
    cases hv : Rounded.GetSuccessRateAndVolume e.state.RotateBucket <;>
    cases hsr : config.success_rate_ejection <;>
    cases hfp : config.failure_percentage_ejection <;>
    simp only [insertCandidate, hej, hv, hsr, hfp, if_true, if_false, Option.toList,
      List.foldl_nil, List.foldl_cons,
      Bool.false_eq_true] <;>
    (try split_ifs) <;>
    (try simp only [and_self, insertCandidate, Option.toList, List.foldl_nil, List.foldl_cons])

theorem rounded_srCandidate_addr (config : OutlierDetectionConfig) (e : MapEntry) (x : Nat × ℚ)
    (h : Rounded.srCandidate config e = some x) : x.1 = e.addr := by
  unfold Rounded.srCandidate at h
  split at h
  · split at h
    · cases h; rfl
    · cases h
  · cases h

theorem rounded_gatherLoop_perm (config : OutlierDetectionConfig) (m : StateMap) :
    ∀ g, (addrs m).Nodup → (∀ c ∈ g.success_rate_ejection_candidates, c.1 ∉ addrs m) →
      ((Rounded.gatherLoop config m g).1.success_rate_ejection_candidates).Perm
        (g.success_rate_ejection_candidates ++ m.filterMap (Rounded.srCandidate config)) := by
  induction m with
  | nil => intro g _ _; simp [Rounded.gatherLoop]
  | cons e rest ih =>
    intro g hnd hg
    simp only [addrs, List.map_cons, List.nodup_cons] at hnd
    have hins : ((Rounded.gatherStep config g e).1.success_rate_ejection_candidates).Perm
        ((Rounded.srCandidate config e).toList ++ g.success_rate_ejection_candidates) := by
      rw [(rounded_gatherStep_candidates config g e).1]
      apply insertCandidate_perm
      intro x hx hmem
      obtain ⟨c, hc, hc1⟩ := List.mem_map.mp hmem
      apply hg c hc
      rw [hc1, rounded_srCandidate_addr config e x hx]
      simp [addrs]
    have hg1 : ∀ c ∈ (Rounded.gatherStep config g e).1.success_rate_ejection_candidates,
        c.1 ∉ addrs rest := by
      intro c hc
      rcases List.mem_append.mp (hins.mem_iff.mp hc) with h1 | h1
      · have hx : Rounded.srCandidate config e = some c := by
          cases hce : Rounded.srCandidate config e with
          | none => simp [hce] at h1
          | some x => simp only [hce, Option.toList, List.mem_singleton] at h1; rw [h1]
        rw [rounded_srCandidate_addr config e c hx]
        exact hnd.1
      · intro hmem
        exact hg c h1 (by simp only [addrs, List.map_cons]; exact List.mem_cons_of_mem _ hmem)
    have := ih (Rounded.gatherStep config g e).1 hnd.2 hg1
    show ((Rounded.gatherLoop config rest
      (Rounded.gatherStep config g e).1).1.success_rate_ejection_candidates).Perm _
    refine this.trans ?_
    refine (List.Perm.append_right _ hins).trans ?_
    cases hce : Rounded.srCandidate config e with
    | none => simp [List.filterMap_cons, hce]
    | some x =>
      simp only [List.filterMap_cons, hce, Option.toList, List.singleton_append, List.cons_append]
      exact List.perm_middle.symm

theorem rounded_gatherLoop_sum (config : OutlierDetectionConfig) (m : StateMap) :
    ∀ g, (Rounded.gatherLoop config m g).1.success_rate_sum =
      ((m.filterMap (Rounded.srCandidate config)).map Prod.snd).foldl Binary64.add
        g.success_rate_sum := by
  induction m with
  | nil => intro g; simp [Rounded.gatherLoop]
  | cons e rest ih =>
    intro g
    show (Rounded.gatherLoop config rest (Rounded.gatherStep config g e).1).1.success_rate_sum = _
    rw [ih, (rounded_gatherStep_candidates config g e).2]
    cases hce : Rounded.srCandidate config e with
    | none => simp [List.filterMap_cons, hce]
    | some x => simp [List.filterMap_cons, hce]

/-- The success rate candidates of a firing in double arithmetic: up to order, the
candidates of the entries of the map, with distinct addresses; `success_rate_sum`
is the rounded sum of their rates in the order of the map. -/
theorem rounded_gather_success_rate (config : OutlierDetectionConfig) (m : StateMap)
    (hnd : (addrs m).Nodup) :
    ((Rounded.gatherLoop config m Gather.init).1.success_rate_ejection_candidates).Perm
        (m.filterMap (Rounded.srCandidate config)) ∧
      (Rounded.gatherLoop config m Gather.init).1.success_rate_sum =
        Rounded.sum ((m.filterMap (Rounded.srCandidate config)).map Prod.snd) ∧
      (((Rounded.gatherLoop config m Gather.init).1.success_rate_ejection_candidates).map
        Prod.fst).Nodup := by
  have hperm : ((Rounded.gatherLoop config m Gather.init).1.success_rate_ejection_candidates).Perm
      (m.filterMap (Rounded.srCandidate config)) := by
    have := rounded_gatherLoop_perm config m Gather.init hnd (by simp [Gather.init])
    simpa [Gather.init] using this
  refine ⟨hperm, ?_, ?_⟩
  · rw [rounded_gatherLoop_sum]; rfl
  · exact (hperm.map Prod.fst).nodup_iff.mpr
      (candidates_nodup _ (rounded_srCandidate_addr config) m hnd)

theorem rounded_variance_fold (l : List (Nat × ℚ)) (mean : ℚ) :
    ∀ acc : ℚ,
      l.foldl (fun acc v => Binary64.add acc (Binary64.square (Binary64.sub v.2 mean))) acc =
        (l.map (fun v => Binary64.square (Binary64.sub v.2 mean))).foldl Binary64.add acc := by
  induction l with
  | nil => intro acc; rfl
  | cons a rest ih => intro acc; exact ih _

theorem rounded_successRateAlgorithm_eq_fold (config : OutlierDetectionConfig)
    (dice : Nat → Nat) (t : Int) (g : Gather) (sr : SuccessRateEjection)
    (hsr : config.success_rate_ejection = some sr)
    (hmin : g.success_rate_ejection_candidates.length ≥ sr.minimum_hosts) (L : EjectLoop) :
    Rounded.successRateAlgorithm config dice t g L =
      g.success_rate_ejection_candidates.foldl
        (Rounded.successRateStep config sr (Rounded.ejectionThreshold sr g) dice t) L := by
  unfold Rounded.successRateAlgorithm
  rw [hsr]
  simp only
  by_cases hnil : g.success_rate_ejection_candidates = []
  · rw [if_neg (fun h => h.1 hnil), hnil]
    rfl
  · rw [if_pos ⟨hnil, hmin⟩, rounded_variance_fold]
    rfl

theorem rounded_successRateAlgorithm_cases (config : OutlierDetectionConfig)
    (dice : Nat → Nat) (t : Int) (g : Gather) (sr : SuccessRateEjection)
    (hsr : config.success_rate_ejection = some sr) (L : EjectLoop) :
    Rounded.successRateAlgorithm config dice t g L = L ∨
      Rounded.successRateAlgorithm config dice t g L =
        g.success_rate_ejection_candidates.foldl
          (Rounded.successRateStep config sr (Rounded.ejectionThreshold sr g) dice t) L := by
  by_cases hmin : g.success_rate_ejection_candidates.length ≥ sr.minimum_hosts
  · exact Or.inr (rounded_successRateAlgorithm_eq_fold config dice t g sr hsr hmin L)
  · left
    unfold Rounded.successRateAlgorithm
    rw [hsr]
    simp only
    rw [if_neg (fun h => hmin h.2)]

theorem rounded_successRateStep_skip (config : OutlierDetectionConfig)
    (sr : SuccessRateEjection) (threshold : ℚ) (dice : Nat → Nat) (t : Int) (L : EjectLoop)
    (c : Nat × ℚ) (h : ¬ c.2 < threshold) :
    Rounded.successRateStep config sr threshold dice t L c = L := by
  unfold Rounded.successRateStep
  rw [if_neg h]

theorem rounded_successRateStep_map (config : OutlierDetectionConfig)
    (sr : SuccessRateEjection) (threshold : ℚ) (dice : Nat → Nat) (t : Int) (L : EjectLoop)
    (c : Nat × ℚ) :
    (Rounded.successRateStep config sr threshold dice t L c = L ∨
        Rounded.successRateStep config sr threshold dice t L c =
          { L with draws := L.draws + 1 }) ∨
      Rounded.successRateStep config sr threshold dice t L c =
        { map := ejectAt L.map c.1 t, ejected_host_count := L.ejected_host_count + 1,
          draws := L.draws + 1 } := by
  unfold Rounded.successRateStep
  simp only
  split
  · split
    · exact Or.inr rfl
    · exact Or.inl (Or.inr rfl)
  · exact Or.inl (Or.inl rfl)

theorem rounded_successRateLoop_skip (config : OutlierDetectionConfig)
    (sr : SuccessRateEjection) (threshold : ℚ) (dice : Nat → Nat) (t : Int)
    (l : List (Nat × ℚ)) (hl : ∀ x ∈ l, ¬ x.2 < threshold) :
    ∀ L : EjectLoop, l.foldl (Rounded.successRateStep config sr threshold dice t) L = L := by
  induction l with
  | nil => intro L; rfl
  | cons c rest ih =>
    intro L
    rw [List.foldl_cons,
      rounded_successRateStep_skip config sr threshold dice t L c (hl c (List.mem_cons_self _ _))]
    exact ih (fun x hx => hl x (List.mem_cons_of_mem _ hx)) L

theorem rounded_successRateLoop_spares (config : OutlierDetectionConfig)
    (sr : SuccessRateEjection) (threshold : ℚ) (dice : Nat → Nat) (t : Int) (a : Nat)
    (l : List (Nat × ℚ)) (hl : ∀ x ∈ l, x.1 = a → ¬ x.2 < threshold) :
    ∀ (L : EjectLoop) (i : Nat) (e : MapEntry), L.map[i]? = some e → e.addr = a →
      (l.foldl (Rounded.successRateStep config sr threshold dice t) L).map[i]? = some e := by
  induction l with
  | nil => intro L i e he _; exact he
  | cons c rest ih =>
    intro L i e he ha
    rw [List.foldl_cons]
    apply ih (fun x hx => hl x (List.mem_cons_of_mem _ hx)) _ i e _ ha
    by_cases hca : c.1 = a
    · rw [rounded_successRateStep_skip config sr threshold dice t L c
        (hl c (List.mem_cons_self _ _) hca)]
      exact he
    · rcases rounded_successRateStep_map config sr threshold dice t L c with (hs | hs) | hs
      · rw [hs]; exact he
      · rw [hs]; exact he
      · rw [hs]
        exact getElem?_ejectAt_of_ejected L.map c.1 t i e he (fun h => hca (ha ▸ h).symm)

/-- The threshold that the code computes is at most the mean that it computes:
the product of the standard deviation and the factor is not negative, the mean is
a double, and rounding is monotone. -/
theorem rounded_threshold_le_mean (sr : SuccessRateEjection) (g : Gather) :
    Rounded.ejectionThreshold sr g ≤ Rounded.mean g := by
  have hfac : 0 ≤ Binary64.div (Binary64.ofNat sr.stdev_factor) 1000 :=
    binary64_nearest_nonneg _
      (div_nonneg (binary64_nearest_nonneg _ (Nat.cast_nonneg _)) (by norm_num))
  have hprod : 0 ≤ Binary64.mul (Binary64.sqrt (Rounded.variance g))
      (Binary64.div (Binary64.ofNat sr.stdev_factor) 1000) :=
    binary64_nearest_nonneg _ (mul_nonneg (binary64_sqrt_nonneg _) hfac)
  have hmean : Binary64.nearest (Rounded.mean g) = Rounded.mean g :=
    binary64_nearest_idem _
  unfold Rounded.ejectionThreshold Binary64.sub
  calc Binary64.nearest (Rounded.mean g - Binary64.mul (Binary64.sqrt (Rounded.variance g))
          (Binary64.div (Binary64.ofNat sr.stdev_factor) 1000))
      ≤ Binary64.nearest (Rounded.mean g) := binary64_nearest_mono _ _ (by linarith)
    _ = Rounded.mean g := hmean


/-- A natural number below `2 ^ 53` is a double: its conversion is exact. -/
theorem binary64_ofNat_exact (n : Nat) (h : n < 2 ^ 53) : Binary64.ofNat n = (n : ℚ) := by
  unfold Binary64.ofNat
  rcases Nat.eq_zero_or_pos n with h0 | hpos
  · subst h0; simp [Binary64.nearest]
  · obtain ⟨l1, l2⟩ := binary64_log2_spec n (Nat.pos_iff_ne_zero.mp hpos)
    have hk : Binary64.log2 n ≤ 52 := by
      by_contra hcon
      have h53 : 53 ≤ Binary64.log2 n := by omega
      have : 2 ^ 53 ≤ 2 ^ Binary64.log2 n := Nat.pow_le_pow_right (by norm_num) h53
      omega
    obtain ⟨j, hj⟩ : ∃ j : Nat, Binary64.log2 n + j = 52 := ⟨52 - Binary64.log2 n, by omega⟩
    have hlo : 2 ^ 52 ≤ n * 2 ^ j := by
      calc 2 ^ 52 = 2 ^ Binary64.log2 n * 2 ^ j := by rw [← pow_add, hj]
        _ ≤ n * 2 ^ j := Nat.mul_le_mul_right _ l1
    have hhi : n * 2 ^ j < 2 ^ 53 := by
      calc n * 2 ^ j < 2 ^ (Binary64.log2 n + 1) * 2 ^ j :=
            Nat.mul_lt_mul_of_pos_right l2 (Nat.pow_pos (by norm_num))
        _ = 2 ^ 53 := by rw [← pow_add]; congr 1; omega
    have hval : (n : ℚ) = (((n * 2 ^ j : Nat) : ℤ) : ℚ) * (2 : ℚ) ^ (-(j : ℤ)) := by
      rw [zpow_neg, zpow_natCast]
      push_cast
      field_simp
    have key := binary64_nearest_of_significand ((n * 2 ^ j : Nat) : ℤ) (-(j : ℤ))
      (by exact_mod_cast hlo) (by exact_mod_cast hhi)
    rw [← hval] at key
    exact key

/-- The success rate that `GetSuccessRateAndVolume` returns in double arithmetic is
a double. -/
theorem rounded_srCandidate_double (config : OutlierDetectionConfig) (e : MapEntry)
    (x : Nat × ℚ) (h : Rounded.srCandidate config e = some x) :
    Binary64.nearest x.2 = x.2 := by
  unfold Rounded.srCandidate at h
  split at h
  · next sr success_rate request_volume hsr hv =>
    split at h
    · cases h
      unfold Rounded.GetSuccessRateAndVolume at hv
      simp only at hv
      split at hv
      · cases hv
      · cases hv
        exact binary64_nearest_idem _
    · cases h
  · cases h

/-- The computed mean is at most the rate of a candidate whenever the computed sum
is at most the number of candidates times that rate. -/
theorem rounded_mean_le_of_sum_le (g : Gather) (rate : ℚ)
    (hd : Binary64.nearest rate = rate)
    (hlen : g.success_rate_ejection_candidates.length < 2 ^ 53)
    (hpos : 0 < g.success_rate_ejection_candidates.length)
    (hsum : g.success_rate_sum ≤ (g.success_rate_ejection_candidates.length : ℚ) * rate) :
    Rounded.mean g ≤ rate := by
  unfold Rounded.mean Binary64.div
  rw [binary64_ofNat_exact _ hlen, ← hd]
  apply binary64_nearest_mono
  have hn : (0 : ℚ) < (g.success_rate_ejection_candidates.length : ℚ) := by exact_mod_cast hpos
  rw [div_le_iff₀ hn]
  linarith

/-- Counterexample to claim C35 as stated: five endpoints with 7 successes and 4
failures each, so that all candidates have the same success rate
63.63636363636363, and a `stdev_factor` of 500.  The sum of the five rates is
rounded, the mean that the code computes is 63.63636363636364, one unit in the last
place above every rate; the threshold that it computes equals that mean, every
candidate is below it, and the firing ejects all five endpoints. -/
theorem equal_rates_all_ejected :
    (Rounded.gatherLoop halfFactorConfig fiveAlike Gather.init).1.success_rate_ejection_candidates =
        [(1, 8956021986248145 / 140737488355328), (2, 8956021986248145 / 140737488355328),
          (3, 8956021986248145 / 140737488355328), (4, 8956021986248145 / 140737488355328),
          (5, 8956021986248145 / 140737488355328)] ∧
      Rounded.mean (Rounded.gatherLoop halfFactorConfig fiveAlike Gather.init).1 =
        4478010993124073 / 70368744177664 ∧
      Rounded.ejectionThreshold ⟨500, 100, 3, 5⟩
          (Rounded.gatherLoop halfFactorConfig fiveAlike Gather.init).1 =
        4478010993124073 / 70368744177664 ∧
      (8956021986248145 / 140737488355328 : ℚ) < 4478010993124073 / 70368744177664 ∧
      (Rounded.successRateAlgorithm halfFactorConfig (fun _ => 7) 1000
          (Rounded.gatherLoop halfFactorConfig fiveAlike Gather.init).1
          { map := (Rounded.gatherLoop halfFactorConfig fiveAlike Gather.init).2,
            ejected_host_count := 0, draws := 0 }).ejected_host_count = 5 ∧
      ejectionSummary (Rounded.OnTimerLockedMap halfFactorConfig (fun _ => 7) 1000 fiveAlike) =
        [("10.0.0.1:80", some 1000, 1), ("10.0.0.2:80", some 1000, 1),
          ("10.0.0.3:80", some 1000, 1), ("10.0.0.4:80", some 1000, 1),
          ("10.0.0.5:80", some 1000, 1)] := by
  decide!

/-- Claim C35, amended: the candidates that the success rate algorithm spares.  In
a firing the threshold that the code computes is at most the mean that it
computes, so a candidate whose success rate is not below the computed mean is not
ejected by step 3: its step of the pass leaves the loop state as it is and its
entry in the map is the same after the whole algorithm; when no candidate is below
the computed mean the algorithm changes nothing.  The computed mean is at most the
rate of a candidate when the computed sum of the rates is at most the number of
candidates times that rate; this is so for a candidate of maximal rate when the
additions of the sum are exact.  With the success rates taken as exact numbers a
candidate of maximal rate is at least the mean, and the mean is at least the
threshold; the sum that the code computes in double arithmetic is rounded, the
computed mean can lie above every rate, and step 3 can then eject every candidate,
also when all candidates have the same success rate. -/
theorem spared_at_or_above_mean (config : OutlierDetectionConfig) (sr : SuccessRateEjection)
    (dice : Nat → Nat) (now : Int) (m : StateMap)
    (hnd : (addrs m).Nodup) (hsr : config.success_rate_ejection = some sr)
    (c : Nat × ℚ)
    (hc : c ∈ (Rounded.gatherLoop config m Gather.init).1.success_rate_ejection_candidates) :
    Rounded.ejectionThreshold sr (Rounded.gatherLoop config m Gather.init).1 ≤
        Rounded.mean (Rounded.gatherLoop config m Gather.init).1 ∧
      (Rounded.mean (Rounded.gatherLoop config m Gather.init).1 ≤ c.2 →
        ¬ c.2 < Rounded.ejectionThreshold sr (Rounded.gatherLoop config m Gather.init).1 ∧
          (∀ L : EjectLoop,
            Rounded.successRateStep config sr
              (Rounded.ejectionThreshold sr (Rounded.gatherLoop config m Gather.init).1)
              dice now L c = L) ∧
          (∀ (L : EjectLoop) (i : Nat) (e : MapEntry), L.map[i]? = some e → e.addr = c.1 →
            (Rounded.successRateAlgorithm config dice now
              (Rounded.gatherLoop config m Gather.init).1 L).map[i]? = some e)) ∧
      ((∀ x ∈ (Rounded.gatherLoop config m Gather.init).1.success_rate_ejection_candidates,
          Rounded.mean (Rounded.gatherLoop config m Gather.init).1 ≤ x.2) →
        ∀ L : EjectLoop,
          Rounded.successRateAlgorithm config dice now
            (Rounded.gatherLoop config m Gather.init).1 L = L) ∧
      ((Rounded.gatherLoop config m Gather.init).1.success_rate_ejection_candidates.length <
          2 ^ 53 →
        (Rounded.gatherLoop config m Gather.init).1.success_rate_sum ≤
          ((Rounded.gatherLoop config m
            Gather.init).1.success_rate_ejection_candidates.length : ℚ) * c.2 →
        Rounded.mean (Rounded.gatherLoop config m Gather.init).1 ≤ c.2) ∧
      ((Rounded.gatherLoop config m Gather.init).1.success_rate_ejection_candidates.length <
          2 ^ 53 →
        (Rounded.gatherLoop config m Gather.init).1.success_rate_sum =
          (((Rounded.gatherLoop config m Gather.init).1.success_rate_ejection_candidates).map
            Prod.snd).sum →
        (∀ x ∈ (Rounded.gatherLoop config m Gather.init).1.success_rate_ejection_candidates,
          x.2 ≤ c.2) →
        Rounded.mean (Rounded.gatherLoop config m Gather.init).1 ≤ c.2) ∧
      (∃ top ∈ (Rounded.gatherLoop config m Gather.init).1.success_rate_ejection_candidates,
        (∀ x ∈ (Rounded.gatherLoop config m Gather.init).1.success_rate_ejection_candidates,
          x.2 ≤ top.2) ∧
          rateMean (Rounded.gatherLoop config m Gather.init).1.success_rate_ejection_candidates ≤
            top.2 ∧
          (rateMean
              (Rounded.gatherLoop config m Gather.init).1.success_rate_ejection_candidates : ℝ) -
              Real.sqrt
                (rateVariance
                  (Rounded.gatherLoop config m
                    Gather.init).1.success_rate_ejection_candidates : ℝ) *
                ((sr.stdev_factor : ℝ) / 1000) ≤
            (rateMean
              (Rounded.gatherLoop config m Gather.init).1.success_rate_ejection_candidates : ℝ)) := by
  obtain ⟨hperm, -, hcnd⟩ := rounded_gather_success_rate config m hnd
  have hdouble : Binary64.nearest c.2 = c.2 := by
    obtain ⟨e, -, he⟩ := List.mem_filterMap.mp (hperm.mem_iff.mp hc)
    exact rounded_srCandidate_double config e c he
  set g := (Rounded.gatherLoop config m Gather.init).1 with hg
  have hthr := rounded_threshold_le_mean sr g
  have hskip : ∀ x : Nat × ℚ, Rounded.mean g ≤ x.2 → ¬ x.2 < Rounded.ejectionThreshold sr g :=
    fun x hx hlt => absurd (lt_of_lt_of_le hlt hthr) (not_lt.mpr hx)
  have hpos : 0 < g.success_rate_ejection_candidates.length := List.length_pos_of_mem hc
  refine ⟨hthr, ?_, ?_, ?_, ?_, ?_⟩
  · intro hmean
    refine ⟨hskip c hmean, ?_, ?_⟩
    · intro L
      exact rounded_successRateStep_skip config sr _ dice now L c (hskip c hmean)
    · intro L i e he ha
      rcases rounded_successRateAlgorithm_cases config dice now g sr hsr L with h | h
      · rw [h]; exact he
      · rw [h]
        apply rounded_successRateLoop_spares config sr _ dice now c.1 _ _ L i e he ha
        intro x hx hxa
        have hxc : x = c := List.inj_on_of_nodup_map hcnd hx hc hxa
        rw [hxc]
        exact hskip c hmean
  · intro hall L
    rcases rounded_successRateAlgorithm_cases config dice now g sr hsr L with h | h
    · exact h
    · rw [h]
      exact rounded_successRateLoop_skip config sr _ dice now _
        (fun x hx => hskip x (hall x hx)) L
  · intro hlen hsum
    exact rounded_mean_le_of_sum_le g c.2 hdouble hlen hpos hsum
  · intro hlen hsum hmax
    apply rounded_mean_le_of_sum_le g c.2 hdouble hlen hpos
    rw [hsum]
    have := sum_le_length_mul (g.success_rate_ejection_candidates.map Prod.snd) c.2 (by
      intro x hx
      obtain ⟨y, hy, rfl⟩ := List.mem_map.mp hx
      exact hmax y hy)
    rwa [List.length_map] at this
  · obtain ⟨top, htop, hmax⟩ := exists_max_rate g.success_rate_ejection_candidates
      (List.ne_nil_of_mem hc)
    refine ⟨top, htop, hmax, rateMean_le_max _ top htop hmax, ?_⟩
    have hk : (0 : ℝ) ≤ (sr.stdev_factor : ℝ) / 1000 :=
      div_nonneg (Nat.cast_nonneg _) (by norm_num)
    have := mul_nonneg
      (Real.sqrt_nonneg (rateVariance g.success_rate_ejection_candidates : ℝ)) hk
    linarith

/-- Witness of `spared_at_or_above_mean`: the firing of scenario S1 in double
arithmetic.  The computed sum is 400 and the computed mean 80, the endpoint A has
rate 100, and its entry is the same after the success rate algorithm. -/
theorem spared_at_or_above_mean_witness :
    (50, (100 : ℚ)) ∈
        (Rounded.gatherLoop s1Config s1Map Gather.init).1.success_rate_ejection_candidates ∧
      Rounded.mean (Rounded.gatherLoop s1Config s1Map Gather.init).1 = 80 ∧
      Rounded.ejectionThreshold ⟨1900, 100, 3, 5⟩
          (Rounded.gatherLoop s1Config s1Map Gather.init).1 ≤
        Rounded.mean (Rounded.gatherLoop s1Config s1Map Gather.init).1 ∧
      (∀ (L : EjectLoop) (i : Nat) (e : MapEntry), L.map[i]? = some e → e.addr = 50 →
        (Rounded.successRateAlgorithm s1Config (fun _ => 7) 1000
          (Rounded.gatherLoop s1Config s1Map Gather.init).1 L).map[i]? = some e) ∧
      ejectionSummary (Rounded.OnTimerLockedMap s1Config (fun _ => 7) 1000 s1Map) =
        [("A", none, 0), ("B", none, 0), ("C", none, 0), ("D", none, 0), ("E", some 1000, 1)] :=
  ⟨by decide!, by decide!,
    (spared_at_or_above_mean s1Config ⟨1900, 100, 3, 5⟩ (fun _ => 7) 1000 s1Map (by decide) rfl
      (50, 100) (by decide!)).1,
    ((spared_at_or_above_mean s1Config ⟨1900, 100, 3, 5⟩ (fun _ => 7) 1000 s1Map (by decide) rfl
      (50, 100) (by decide!)).2.1 (by decide!)).2.2,
    by decide!⟩

end OutlierDetection
